import Mathlib

/-!
# arm64 kernel page-table construction (`arch/arm64/mm/mmu.c`)

A shallow embedding of the level descent engine of `mmu.c`
(`init_pgd`, `alloc_init_pud`, `alloc_init_pmd`, `alloc_init_pte`, the block
splitters and the policy wrappers around them) over a flat physical memory of
64-bit table entries, followed by theorems about it.

Conventions of the embedding:

* `unsigned long`, `phys_addr_t`, `pgprot_t` and the entry types are `Nat`
  with explicit reduction modulo `2^64` where the C arithmetic can wrap;
* a pointer to a table entry (`pgd_t *`, `pud_t *`, `pmd_t *`, `pte_t *`) is the
  physical address of that entry; the fixmap slots that the code uses to reach
  a table frame (`p??_set_fixmap`, `p??_clear_fixmap`) are therefore identity
  operations on pointers, and the descent is given twice: first without these
  calls, for what it does to the tables, then (`alloc_init_pte_fixmap` and its
  companions) with the stores into `bm_pte` and the invalidations that they
  make, for what it adds to the trace;
* `BUG_ON` yields `Res.bug`; the `do ... while` loops take a fuel argument and
  yield `Res.timeout` when it runs out;
* the configuration is 4 KiB pages, four translation levels, 48-bit virtual
  addresses.
-/

namespace Arm64Mmu

/-! ## Machine words and the constants of the page-table geometry -/

def U64 : Nat := 2 ^ 64

/-- Bitwise complement of a 64-bit word (the C operator `~`). -/
def not64 (x : Nat) : Nat := (U64 - 1) ^^^ x

/-- Modelled from the spec: `PAGE_SHIFT` of `asm/page.h` (absent from the
sources at hand) for the 4 KiB granule the spec's scenarios use. -/
def PAGE_SHIFT : Nat := 12
def PAGE_SIZE : Nat := 1 <<< PAGE_SHIFT
def PAGE_MASK : Nat := not64 (PAGE_SIZE - 1)

/-- Modelled from the spec: `PMD_SHIFT` of `asm/pgtable-hwdef.h`, the level of
the 2 MiB granule. -/
def PMD_SHIFT : Nat := 21
def PMD_SIZE : Nat := 1 <<< PMD_SHIFT
def PMD_MASK : Nat := not64 (PMD_SIZE - 1)
def SECTION_SIZE : Nat := PMD_SIZE
def SECTION_MASK : Nat := PMD_MASK

/-- Modelled from the spec: `PUD_SHIFT` of `asm/pgtable-hwdef.h`, the level of
the 1 GiB granule. -/
def PUD_SHIFT : Nat := 30
def PUD_SIZE : Nat := 1 <<< PUD_SHIFT
def PUD_MASK : Nat := not64 (PUD_SIZE - 1)

/-- Modelled from the spec: `PGDIR_SHIFT` of `asm/pgtable-hwdef.h` with four
levels. -/
def PGDIR_SHIFT : Nat := 39
def PGDIR_SIZE : Nat := 1 <<< PGDIR_SHIFT
def PGDIR_MASK : Nat := not64 (PGDIR_SIZE - 1)

def PTRS_PER_PTE : Nat := 1 <<< (PAGE_SHIFT - 3)
def PTRS_PER_PMD : Nat := PTRS_PER_PTE
def PTRS_PER_PUD : Nat := PTRS_PER_PTE
/-- Modelled from the spec: `VA_BITS` (a Kconfig value absent from the sources
at hand); 48 is the width under which the spec's scenario address
`0xffff000040000000` is a kernel address. -/
def VA_BITS : Nat := 48
def PTRS_PER_PGD : Nat := 1 <<< (VA_BITS - PGDIR_SHIFT)

/-- Modelled from the spec: `PHYS_MASK` of `asm/pgtable-hwdef.h`, 48 bits of
physical address. -/
def PHYS_MASK : Nat := (1 <<< 48) - 1

/-- The address field of a table entry: `PHYS_MASK & (s32)PAGE_MASK`. -/
def PTE_ADDR_MASK : Nat := PHYS_MASK &&& PAGE_MASK

/-! ## Entry type bits and protection values (`asm/pgtable-hwdef.h`,
`asm/pgtable.h`; none of them is in the sources at hand) -/

/-- Modelled from the spec: the descriptor type field and its values. -/
def PMD_TYPE_MASK : Nat := 3
def PMD_TYPE_TABLE : Nat := 3
def PMD_TYPE_SECT : Nat := 1
def PUD_TYPE_TABLE : Nat := 3
def PUD_TYPE_SECT : Nat := 1
def PTE_TABLE_BIT : Nat := 2
def PMD_TABLE_BIT : Nat := 2
def PTE_VALID : Nat := 1
def PTE_TYPE_PAGE : Nat := 3

def PTE_RDONLY : Nat := 1 <<< 7
def PTE_SHARED : Nat := 3 <<< 8
def PTE_AF : Nat := 1 <<< 10
def PTE_PXN : Nat := 1 <<< 53
def PTE_UXN : Nat := 1 <<< 54
def PTE_DIRTY : Nat := 1 <<< 55
def PTE_WRITE : Nat := 1 <<< 57
def MT_NORMAL : Nat := 4
def PTE_ATTRINDX (t : Nat) : Nat := t <<< 2

def PROT_DEFAULT : Nat := PTE_TYPE_PAGE ||| PTE_AF ||| PTE_SHARED
def PAGE_DEFAULT : Nat := PROT_DEFAULT ||| PTE_ATTRINDX MT_NORMAL

/-- Modelled from the spec: the kernel protections of `asm/pgtable.h`:
read-write/no-execute, read-only, read-only-executable, read-write-executable. -/
def PAGE_KERNEL : Nat := PAGE_DEFAULT ||| PTE_PXN ||| PTE_UXN ||| PTE_DIRTY ||| PTE_WRITE
def PAGE_KERNEL_RO : Nat := PAGE_DEFAULT ||| PTE_PXN ||| PTE_UXN ||| PTE_DIRTY ||| PTE_RDONLY
def PAGE_KERNEL_ROX : Nat := PAGE_DEFAULT ||| PTE_UXN ||| PTE_DIRTY ||| PTE_RDONLY
def PAGE_KERNEL_EXEC : Nat := PAGE_DEFAULT ||| PTE_UXN ||| PTE_DIRTY ||| PTE_WRITE

/-! ## Entry accessors (`asm/pgtable.h`) -/

def pgd_none (e : Nat) : Bool := e == 0
def pud_none (e : Nat) : Bool := e == 0
def pmd_none (e : Nat) : Bool := e == 0
def pte_none (e : Nat) : Bool := e == 0

def pgd_bad (e : Nat) : Bool := e &&& 2 == 0
def pud_bad (e : Nat) : Bool := e &&& PMD_TABLE_BIT == 0
def pmd_bad (e : Nat) : Bool := e &&& PMD_TABLE_BIT == 0

def pmd_sect (e : Nat) : Bool := e &&& PMD_TYPE_MASK == PMD_TYPE_SECT
def pud_sect (e : Nat) : Bool := e &&& PMD_TYPE_MASK == PUD_TYPE_SECT
def pmd_table (e : Nat) : Bool := e &&& PMD_TYPE_MASK == PMD_TYPE_TABLE
def pud_table (e : Nat) : Bool := e &&& PMD_TYPE_MASK == PUD_TYPE_TABLE

def pte_pfn (e : Nat) : Nat := (e &&& PHYS_MASK) >>> PAGE_SHIFT
def pmd_pfn (e : Nat) : Nat := ((e &&& PMD_MASK) &&& PHYS_MASK) >>> PAGE_SHIFT
def pud_pfn (e : Nat) : Nat := ((e &&& PUD_MASK) &&& PHYS_MASK) >>> PAGE_SHIFT

def pfn_pte (pfn prot : Nat) : Nat := ((pfn <<< PAGE_SHIFT) % U64) ||| prot

def pgd_page_paddr (e : Nat) : Nat := e &&& PTE_ADDR_MASK
def pud_page_paddr (e : Nat) : Nat := e &&& PTE_ADDR_MASK
def pmd_page_paddr (e : Nat) : Nat := e &&& PTE_ADDR_MASK

def phys_to_pfn (phys : Nat) : Nat := phys >>> PAGE_SHIFT

def mk_sect_prot (prot : Nat) : Nat := prot &&& not64 PTE_TABLE_BIT

def pgd_index (addr : Nat) : Nat := (addr >>> PGDIR_SHIFT) &&& (PTRS_PER_PGD - 1)
def pud_index (addr : Nat) : Nat := (addr >>> PUD_SHIFT) &&& (PTRS_PER_PUD - 1)
def pmd_index (addr : Nat) : Nat := (addr >>> PMD_SHIFT) &&& (PTRS_PER_PMD - 1)
def pte_index (addr : Nat) : Nat := (addr >>> PAGE_SHIFT) &&& (PTRS_PER_PTE - 1)

/-- The macro `p??_addr_end(addr, end)` of `asm-generic/pgtable.h` for a level
of the given size and mask: the next boundary of the level, or `end` when that
comes first (both compared after subtracting one, in 64-bit arithmetic). -/
def addr_end (size mask addr e : Nat) : Nat :=
  let boundary := ((addr + size) % U64) &&& mask
  if (boundary + U64 - 1) % U64 < (e + U64 - 1) % U64 then boundary else e

def pgd_addr_end (addr e : Nat) : Nat := addr_end PGDIR_SIZE PGDIR_MASK addr e
def pud_addr_end (addr e : Nat) : Nat := addr_end PUD_SIZE PUD_MASK addr e
def pmd_addr_end (addr e : Nat) : Nat := addr_end PMD_SIZE PMD_MASK addr e

def PAGE_ALIGN (x : Nat) : Nat := ((x + (PAGE_SIZE - 1)) % U64) &&& PAGE_MASK

/-! ## State, results and the primitives that touch memory -/

/-- Outcome of a piece of kernel code: a value, a fatal assertion (`BUG_ON`), or
a loop that used up its fuel. -/
inductive Res (α : Type) where
  | ok : α → Res α
  | bug : Res α
  | timeout : Res α

/-- The three frame allocators that `mmu.c` passes as `pgtable_alloc`. -/
inductive PgAlloc where
  | early_pgtable_alloc
  | late_pgtable_alloc
  | rkp_ro_alloc_phys
  deriving DecidableEq

/-- Observable steps, most recent first in `State.trace`. -/
inductive Event where
  | write (p v : Nat)
  | flush_tlb_all
  | alloc (a : PgAlloc) (frame : Nat)
  | free (frame : Nat)
  | warn
  | flush_tlb_kernel_range (start stop : Nat)
  | vm_area_add_early (addr phys_addr size flags : Nat)
  deriving DecidableEq

/-- What the code takes from its environment: Kconfig switches, run-time flags,
the external frame sources (`memblock_alloc`, `__get_free_page`, the
`uh_call` read-only buffer), each as the sequence of frames that successive
calls return, `0` standing for failure, and the constants of the address
space layout: `VMALLOC_START`, the physical address of `init_mm.pgd`,
`__fix_to_virt(FIX_FDT)`, `kimage_voffset` and the linker symbols `_text`,
`_stext`, `_etext`, `__start_rodata`, `__init_begin`, `__init_end`, `_data`,
`_end`; `memstart_addr` (`PHYS_OFFSET`); the fixmap: `FIXADDR_TOP`,
`FIXADDR_START`, the enumerators `__end_of_fixed_addresses` and `FIX_PTE` of
`enum fixed_addresses`, and the physical address of the table `bm_pte`. -/
structure Config where
  uh_rkp : Bool
  knox_kap : Bool
  boot_mode_security : Bool
  debug_pagealloc : Bool
  slab_available : Bool
  frames : PgAlloc → Nat → Nat
  pgprot_iotable_init : Nat → Nat
  VMALLOC_START : Nat
  init_mm_pgd : Nat
  pfn_valid : Nat → Bool
  dt_virt_base : Nat
  kimage_voffset : Nat
  text : Nat
  stext : Nat
  etext : Nat
  start_rodata : Nat
  init_begin : Nat
  init_end : Nat
  data : Nat
  kernel_end : Nat
  memstart_addr : Nat
  FIXADDR_TOP : Nat
  FIXADDR_START : Nat
  end_of_fixed_addresses : Nat
  FIX_PTE : Nat
  bm_pte : Nat

/-- Physical memory as 64-bit entries by physical address, the number of calls
made to each frame source, and the trace. -/
structure State where
  mem : Nat → Nat
  count : PgAlloc → Nat
  trace : List Event

/-- Store of one table entry: `set_pte`, `set_pmd`, `set_pud`, `set_pgd`. -/
def set_entry (s : State) (p v : Nat) : State :=
  { s with mem := fun q => if q = p then v else s.mem q,
           trace := Event.write p v :: s.trace }

def set_pte := set_entry
def set_pmd := set_entry
def set_pud := set_entry
def set_pgd := set_entry

def flush_tlb_all (s : State) : State :=
  { s with trace := Event.flush_tlb_all :: s.trace }

def memblock_free (s : State) (table : Nat) : State :=
  { s with trace := Event.free table :: s.trace }

def warn (s : State) : State :=
  { s with trace := Event.warn :: s.trace }

/-- The effect of `memset(ptr, 0, PAGE_SIZE)` on the frame at `phys`. -/
def zero_page (mem : Nat → Nat) (phys : Nat) : Nat → Nat :=
  fun q => if phys ≤ q ∧ q < phys + PAGE_SIZE then 0 else mem q

/-- One call of an external frame source: the next frame of its sequence. -/
def take_frame (cfg : Config) (a : PgAlloc) (s : State) : Nat × State :=
  let phys := cfg.frames a (s.count a)
  (phys, { s with count := fun b => if b = a then s.count a + 1 else s.count b,
                  trace := Event.alloc a phys :: s.trace })

def early_pgtable_alloc (cfg : Config) (s : State) : Res (Nat × State) :=
  let (phys, s1) := take_frame cfg PgAlloc.early_pgtable_alloc s
  if phys == 0 then Res.bug
  else Res.ok (phys, { s1 with mem := zero_page s1.mem phys })

/-- The page comes from `__get_free_page(PGALLOC_GFP)`, whose flags include
`__GFP_ZERO`: the frame is zero when it is returned. -/
def late_pgtable_alloc (cfg : Config) (s : State) : Res (Nat × State) :=
  let (ptr, s1) := take_frame cfg PgAlloc.late_pgtable_alloc s
  if ptr == 0 then Res.bug
  else Res.ok (ptr, { s1 with mem := zero_page s1.mem ptr })

def rkp_ro_alloc_phys (cfg : Config) (s : State) : Res (Nat × State) :=
  Res.ok (take_frame cfg PgAlloc.rkp_ro_alloc_phys s)

/-- Call through the function pointer `pgtable_alloc`. -/
def call_alloc (cfg : Config) (a : PgAlloc) (s : State) : Res (Nat × State) :=
  match a with
  | PgAlloc.early_pgtable_alloc => early_pgtable_alloc cfg s
  | PgAlloc.late_pgtable_alloc => late_pgtable_alloc cfg s
  | PgAlloc.rkp_ro_alloc_phys => rkp_ro_alloc_phys cfg s

/-- The file-static `iotable_on`: zero-initialised and never assigned. -/
def iotable_on : Nat := 0

/-! ## Block splitters -/

/-- Loop of `split_pmd`: `i` counts up to `PTRS_PER_PTE`. -/
def split_pmd_loop : Nat → State → Nat → Nat → Nat → State
  | 0, s, _, _, _ => s
  | fuel + 1, s, pte, pfn, i =>
    let s1 := set_pte s pte (pfn_pte pfn PAGE_KERNEL_EXEC)
    if i + 1 < PTRS_PER_PTE then split_pmd_loop fuel s1 (pte + 8) ((pfn + 1) % U64) (i + 1)
    else s1

def split_pmd (s : State) (pmd pte : Nat) : State :=
  split_pmd_loop PTRS_PER_PTE s pte (pmd_pfn (s.mem pmd)) 0

/-- Loop of `split_pud`: `i` counts up to `PTRS_PER_PMD`. -/
def split_pud_loop (prot : Nat) : Nat → State → Nat → Nat → Nat → State
  | 0, s, _, _, _ => s
  | fuel + 1, s, pmd, addr, i =>
    let s1 := set_pmd s pmd (addr ||| prot)
    if i + 1 < PTRS_PER_PMD then
      split_pud_loop prot fuel s1 (pmd + 8) ((addr + PMD_SIZE) % U64) (i + 1)
    else s1

def split_pud (s : State) (old_pud pmd : Nat) : State :=
  let addr := (pud_pfn (s.mem old_pud) <<< PAGE_SHIFT) % U64
  let prot := s.mem old_pud ^^^ addr
  split_pud_loop prot PTRS_PER_PMD s pmd addr 0

def block_mappings_allowed (cfg : Config) (pgtable_alloc : Option PgAlloc) : Bool :=
  pgtable_alloc.isNone || !cfg.debug_pagealloc

/-! ## The level descent engine -/

/-- The `do ... while` loop of `alloc_init_pte`. -/
def alloc_init_pte_loop (cfg : Config) (prot e : Nat) :
    Nat → State → Nat → Nat → Nat → Res State
  | 0, _, _, _, _ => Res.timeout
  | fuel + 1, s, pte, addr, pfn =>
    let s1 :=
      if iotable_on == 1 then
        set_pte s pte (pfn_pte pfn (cfg.pgprot_iotable_init PAGE_KERNEL_EXEC))
      else set_pte s pte (pfn_pte pfn prot)
    let addr1 := (addr + PAGE_SIZE) % U64
    if addr1 != e then alloc_init_pte_loop cfg prot e fuel s1 (pte + 8) addr1 ((pfn + 1) % U64)
    else Res.ok s1

/-- The first half of `alloc_init_pte`: make `*pmd` a table reference,
allocating (and filling from the old block, if any) a page table. -/
def alloc_init_pte_prepare (cfg : Config) (s : State) (pmd : Nat)
    (pgtable_alloc : Option PgAlloc) : Res State :=
  if pmd_none (s.mem pmd) || pmd_sect (s.mem pmd) then
    match pgtable_alloc with
    | none => Res.bug
    | some a =>
      match call_alloc cfg a s with
      | Res.ok (pte_phys, s1) =>
        let s2 := if pmd_sect (s1.mem pmd) then split_pmd s1 pmd pte_phys else s1
        let s3 := set_pmd s2 pmd (pte_phys ||| PMD_TYPE_TABLE)
        Res.ok (flush_tlb_all s3)
      | Res.bug => Res.bug
      | Res.timeout => Res.timeout
  else Res.ok s

def alloc_init_pte (cfg : Config) (fuel : Nat) (s : State) (pmd addr e pfn prot : Nat)
    (pgtable_alloc : Option PgAlloc) : Res State :=
  match alloc_init_pte_prepare cfg s pmd pgtable_alloc with
  | Res.ok s1 =>
    if pmd_bad (s1.mem pmd) then Res.bug
    else
      let pte := pmd_page_paddr (s1.mem pmd) + pte_index addr * 8
      alloc_init_pte_loop cfg prot e fuel s1 pte addr pfn
  | Res.bug => Res.bug
  | Res.timeout => Res.timeout

/-- Modelled from the spec: `pmd_set_huge` (defined outside the sources at
hand): it installs the block entry `phys | PMD_TYPE_SECT | mk_sect_prot(prot)`
after asserting that `phys` is section aligned. -/
def pmd_set_huge (s : State) (pmd phys prot : Nat) : Res State :=
  if phys &&& not64 PMD_MASK != 0 then Res.bug
  else Res.ok (set_pmd s pmd (phys ||| PMD_TYPE_SECT ||| mk_sect_prot prot))

/-- Modelled from the spec: `pud_set_huge`, the 1 GiB counterpart of
`pmd_set_huge`. -/
def pud_set_huge (s : State) (pud phys prot : Nat) : Res State :=
  if phys &&& not64 PUD_MASK != 0 then Res.bug
  else Res.ok (set_pud s pud (phys ||| PUD_TYPE_SECT ||| mk_sect_prot prot))

/-- The tail of the block branch of `alloc_init_pmd` and `alloc_init_pud`:
flush if there was an old entry and hand back the table it referred to. -/
def release_old (cfg : Config) (s : State) (old : Nat) : State :=
  if !pmd_none old then
    let s1 := flush_tlb_all s
    if pmd_table old then
      if cfg.slab_available then warn s1 else memblock_free s1 (pmd_page_paddr old)
    else s1
  else s

/-- One pass through the body of the loop of `alloc_init_pmd`, for the step
`[addr, next)`: a section entry if alignment and policy allow, page entries
otherwise. -/
def alloc_init_pmd_step (cfg : Config) (F : Nat) (s : State) (pmd addr next phys prot : Nat)
    (pgtable_alloc : Option PgAlloc) : Res State :=
  if ((addr ||| next ||| phys) &&& not64 SECTION_MASK == 0)
      && block_mappings_allowed cfg pgtable_alloc then
    let old_pmd := s.mem pmd
    match pmd_set_huge s pmd phys prot with
    | Res.ok s1 => Res.ok (release_old cfg s1 old_pmd)
    | Res.bug => Res.bug
    | Res.timeout => Res.timeout
  else alloc_init_pte cfg F s pmd addr next (phys_to_pfn phys) prot pgtable_alloc

/-- The `do ... while` loop of `alloc_init_pmd`. -/
def alloc_init_pmd_loop (cfg : Config) (F : Nat) (prot e : Nat) (pgtable_alloc : Option PgAlloc) :
    Nat → State → Nat → Nat → Nat → Res State
  | 0, _, _, _, _ => Res.timeout
  | fuel + 1, s, pmd, addr, phys =>
    let next := pmd_addr_end addr e
    match alloc_init_pmd_step cfg F s pmd addr next phys prot pgtable_alloc with
    | Res.ok s1 =>
      let phys1 := (phys + (next + U64 - addr)) % U64
      if next != e then alloc_init_pmd_loop cfg F prot e pgtable_alloc fuel s1 (pmd + 8) next phys1
      else Res.ok s1
    | Res.bug => Res.bug
    | Res.timeout => Res.timeout

/-- The value of `rkp_do` in `alloc_init_pmd`. -/
def rkp_do (cfg : Config) : Bool :=
  cfg.uh_rkp && (!cfg.knox_kap || cfg.boot_mode_security)

/-- The frame for a new pmd table: the secure allocator first when the trust
extension is active, `pgtable_alloc` otherwise or when that returns 0. -/
def alloc_pmd_frame (cfg : Config) (a : PgAlloc) (s : State) : Res (Nat × State) :=
  if rkp_do cfg then
    match rkp_ro_alloc_phys cfg s with
    | Res.ok (pmd_phys, s1) => if pmd_phys == 0 then call_alloc cfg a s1 else Res.ok (pmd_phys, s1)
    | Res.bug => Res.bug
    | Res.timeout => Res.timeout
  else call_alloc cfg a s

/-- The first half of `alloc_init_pmd`: make `*pud` a table reference. -/
def alloc_init_pmd_prepare (cfg : Config) (s : State) (pud : Nat)
    (pgtable_alloc : Option PgAlloc) : Res State :=
  if pud_none (s.mem pud) || pud_sect (s.mem pud) then
    match pgtable_alloc with
    | none => Res.bug
    | some a =>
      match alloc_pmd_frame cfg a s with
      | Res.ok (pmd_phys, s1) =>
        let s2 := if pud_sect (s1.mem pud) then split_pud s1 pud pmd_phys else s1
        let s3 := set_pud s2 pud (pmd_phys ||| PUD_TYPE_TABLE)
        Res.ok (flush_tlb_all s3)
      | Res.bug => Res.bug
      | Res.timeout => Res.timeout
  else Res.ok s

def alloc_init_pmd (cfg : Config) (F : Nat) (s : State) (pud addr e phys prot : Nat)
    (pgtable_alloc : Option PgAlloc) : Res State :=
  match alloc_init_pmd_prepare cfg s pud pgtable_alloc with
  | Res.ok s1 =>
    if pud_bad (s1.mem pud) then Res.bug
    else
      let pmd := pud_page_paddr (s1.mem pud) + pmd_index addr * 8
      alloc_init_pmd_loop cfg F prot e pgtable_alloc F s1 pmd addr phys
  | Res.bug => Res.bug
  | Res.timeout => Res.timeout

def use_1G_block (cfg : Config) (addr next phys : Nat) : Bool :=
  if PAGE_SHIFT != 12 then false
  else if (addr ||| next ||| phys) &&& not64 PUD_MASK != 0 then false
  else if cfg.uh_rkp then false
  else true

/-- One pass through the body of the loop of `alloc_init_pud`, for the step
`[addr, next)`: a 1 GiB block if `use_1G_block` and policy allow, the pmd level
otherwise. -/
def alloc_init_pud_step (cfg : Config) (F : Nat) (s : State) (pud addr next phys prot : Nat)
    (pgtable_alloc : Option PgAlloc) : Res State :=
  if use_1G_block cfg addr next phys && block_mappings_allowed cfg pgtable_alloc then
    let old_pud := s.mem pud
    match pud_set_huge s pud phys prot with
    | Res.ok s1 => Res.ok (release_old cfg s1 old_pud)
    | Res.bug => Res.bug
    | Res.timeout => Res.timeout
  else alloc_init_pmd cfg F s pud addr next phys prot pgtable_alloc

/-- The `do ... while` loop of `alloc_init_pud`. -/
def alloc_init_pud_loop (cfg : Config) (F : Nat) (prot e : Nat) (pgtable_alloc : Option PgAlloc) :
    Nat → State → Nat → Nat → Nat → Res State
  | 0, _, _, _, _ => Res.timeout
  | fuel + 1, s, pud, addr, phys =>
    let next := pud_addr_end addr e
    match alloc_init_pud_step cfg F s pud addr next phys prot pgtable_alloc with
    | Res.ok s1 =>
      let phys1 := (phys + (next + U64 - addr)) % U64
      if next != e then alloc_init_pud_loop cfg F prot e pgtable_alloc fuel s1 (pud + 8) next phys1
      else Res.ok s1
    | Res.bug => Res.bug
    | Res.timeout => Res.timeout

/-- The first half of `alloc_init_pud`: populate an empty pgd entry. -/
def alloc_init_pud_prepare (cfg : Config) (s : State) (pgd : Nat)
    (pgtable_alloc : Option PgAlloc) : Res State :=
  if pgd_none (s.mem pgd) then
    match pgtable_alloc with
    | none => Res.bug
    | some a =>
      match call_alloc cfg a s with
      | Res.ok (pud_phys, s1) => Res.ok (set_pgd s1 pgd (pud_phys ||| PUD_TYPE_TABLE))
      | Res.bug => Res.bug
      | Res.timeout => Res.timeout
  else Res.ok s

def alloc_init_pud (cfg : Config) (F : Nat) (s : State) (pgd addr e phys prot : Nat)
    (pgtable_alloc : Option PgAlloc) : Res State :=
  match alloc_init_pud_prepare cfg s pgd pgtable_alloc with
  | Res.ok s1 =>
    if pgd_bad (s1.mem pgd) then Res.bug
    else
      let pud := pgd_page_paddr (s1.mem pgd) + pud_index addr * 8
      alloc_init_pud_loop cfg F prot e pgtable_alloc F s1 pud addr phys
  | Res.bug => Res.bug
  | Res.timeout => Res.timeout

/-- The `do ... while` loop of `init_pgd`. -/
def init_pgd_loop (cfg : Config) (F : Nat) (prot e : Nat) (pgtable_alloc : Option PgAlloc) :
    Nat → State → Nat → Nat → Nat → Res State
  | 0, _, _, _, _ => Res.timeout
  | fuel + 1, s, pgd, addr, phys =>
    let next := pgd_addr_end addr e
    match alloc_init_pud cfg F s pgd addr next phys prot pgtable_alloc with
    | Res.ok s1 =>
      let phys1 := (phys + (next + U64 - addr)) % U64
      if next != e then init_pgd_loop cfg F prot e pgtable_alloc fuel s1 (pgd + 8) next phys1
      else Res.ok s1
    | Res.bug => Res.bug
    | Res.timeout => Res.timeout

/-- The function `init_pgd`; `F` is the fuel given to each of the nested loops. -/
def init_pgd (cfg : Config) (F : Nat) (s : State) (pgd phys virt size prot : Nat)
    (pgtable_alloc : Option PgAlloc) : Res State :=
  if (phys ^^^ virt) &&& not64 PAGE_MASK != 0 then Res.ok (warn s)
  else
    let phys1 := phys &&& PAGE_MASK
    let addr := virt &&& PAGE_MASK
    let length := PAGE_ALIGN ((size + (virt &&& not64 PAGE_MASK)) % U64)
    let e := (addr + length) % U64
    init_pgd_loop cfg F prot e pgtable_alloc F s pgd addr phys1

def pgd_offset_raw (pgdir addr : Nat) : Nat := pgdir + pgd_index addr * 8

def __create_pgd_mapping (cfg : Config) (F : Nat) (s : State)
    (pgdir phys virt size prot : Nat) (alloc : Option PgAlloc) : Res State :=
  init_pgd cfg F s (pgd_offset_raw pgdir virt) phys virt size prot alloc

/-- With a virtual address below `VMALLOC_START` only a warning is logged. -/
def create_mapping_noalloc (cfg : Config) (F : Nat) (s : State) (phys virt size prot : Nat) :
    Res State :=
  if virt < cfg.VMALLOC_START then Res.ok (warn s)
  else __create_pgd_mapping cfg F s cfg.init_mm_pgd phys virt size prot none

def create_pgd_mapping (cfg : Config) (F : Nat) (s : State) (mm_pgd phys virt size prot : Nat) :
    Res State :=
  __create_pgd_mapping cfg F s mm_pgd phys virt size prot (some PgAlloc.late_pgtable_alloc)

def create_mapping_late (cfg : Config) (F : Nat) (s : State) (phys virt size prot : Nat) :
    Res State :=
  if virt < cfg.VMALLOC_START then Res.ok (warn s)
  else __create_pgd_mapping cfg F s cfg.init_mm_pgd phys virt size prot
    (some PgAlloc.late_pgtable_alloc)

/-! ## Walking the tables -/

/-- Software walk of `kern_addr_valid` over the kernel directory. -/
def kern_addr_valid (cfg : Config) (mem : Nat → Nat) (addr : Nat) : Bool :=
  if addr >>> VA_BITS != U64 >>> VA_BITS - 1 then false
  else
    let pgd := mem (cfg.init_mm_pgd + pgd_index addr * 8)
    if pgd_none pgd then false
    else
      let pud := mem (pgd_page_paddr pgd + pud_index addr * 8)
      if pud_none pud then false
      else if pud_sect pud then cfg.pfn_valid (pud_pfn pud)
      else
        let pmd := mem (pud_page_paddr pud + pmd_index addr * 8)
        if pmd_none pmd then false
        else if pmd_sect pmd then cfg.pfn_valid (pmd_pfn pmd)
        else
          let pte := mem (pmd_page_paddr pmd + pte_index addr * 8)
          if pte_none pte then false
          else cfg.pfn_valid (pte_pfn pte)

/-- Attribute bits of an entry: everything but the output address and the two
descriptor type bits. -/
def entry_prot (e : Nat) : Nat := e &&& not64 (PTE_ADDR_MASK ||| 3)

/-- Translation of `va` by a level-3 table at `table`: physical address and
attribute bits of the page entry, if it is valid. -/
def walk_pte (mem : Nat → Nat) (table va : Nat) : Option (Nat × Nat) :=
  let e := mem (table + pte_index va * 8)
  if e &&& 3 == PTE_TYPE_PAGE then
    some ((e &&& PTE_ADDR_MASK) + va % PAGE_SIZE, entry_prot e)
  else none

/-- Translation of `va` by a level-2 table: a 2 MiB block or a page table. -/
def walk_pmd (mem : Nat → Nat) (table va : Nat) : Option (Nat × Nat) :=
  let e := mem (table + pmd_index va * 8)
  if pmd_sect e then
    some ((e &&& PMD_MASK &&& PHYS_MASK) + va % PMD_SIZE, entry_prot e)
  else if pmd_table e then walk_pte mem (pmd_page_paddr e) va
  else none

/-- Translation of `va` by a level-1 table: a 1 GiB block or a pmd table. -/
def walk_pud (mem : Nat → Nat) (table va : Nat) : Option (Nat × Nat) :=
  let e := mem (table + pud_index va * 8)
  if pud_sect e then
    some ((e &&& PUD_MASK &&& PHYS_MASK) + va % PUD_SIZE, entry_prot e)
  else if pud_table e then walk_pmd mem (pud_page_paddr e) va
  else none

/-- Translation of `va` through the directory at `pgdir`, the way the table
walker resolves it: level 0 holds table references only. -/
def resolve (mem : Nat → Nat) (pgdir va : Nat) : Option (Nat × Nat) :=
  let e := mem (pgdir + pgd_index va * 8)
  if e &&& 3 == PUD_TYPE_TABLE then walk_pud mem (pgd_page_paddr e) va
  else none

/-- The table frames that the walk of `va` passes: the pud table that the pgd
entry refers to, and the pmd table that the pud entry refers to. -/
def pud_frame (mem : Nat → Nat) (pgdir va : Nat) : Nat :=
  pgd_page_paddr (mem (pgdir + pgd_index va * 8))

def pmd_frame (mem : Nat → Nat) (pgdir va : Nat) : Nat :=
  pud_page_paddr (mem (pud_frame mem pgdir va + pud_index va * 8))

/-! ## Sequencing -/

/-- Sequencing of results: a fatal assertion or a timeout ends the run. -/
def Res.bind {α β : Type} (r : Res α) (f : α → Res β) : Res β :=
  match r with
  | Res.ok a => f a
  | Res.bug => Res.bug
  | Res.timeout => Res.timeout

/-! ## The kernel image and the linear map -/

/-- Modelled from the spec: `__pa_symbol` of `asm/memory.h`, the physical
address of a kernel image symbol: its address minus `kimage_voffset`. -/
def __pa_symbol (cfg : Config) (x : Nat) : Nat := (x + U64 - cfg.kimage_voffset) % U64

/-- Modelled from the spec: `PAGE_OFFSET` of `asm/memory.h`, the start of the
linear map: `0xffffffffffffffff << (VA_BITS - 1)`. -/
def PAGE_OFFSET : Nat := ((U64 - 1) <<< (VA_BITS - 1)) % U64

/-- Modelled from the spec: `__phys_to_virt` of `asm/memory.h`, the linear
alias of a physical address: `(x - PHYS_OFFSET) | PAGE_OFFSET`. -/
def __phys_to_virt (cfg : Config) (x : Nat) : Nat :=
  ((x + U64 - cfg.memstart_addr) % U64) ||| PAGE_OFFSET

/-- The function `__map_memblock` for the bank `[start, e)`. -/
def __map_memblock (cfg : Config) (F : Nat) (s : State) (pgd start e : Nat) : Res State :=
  let kernel_start := __pa_symbol cfg cfg.stext
  let kernel_end := __pa_symbol cfg cfg.init_begin
  if e < kernel_start ∨ start ≥ kernel_end then
    __create_pgd_mapping cfg F s pgd start (__phys_to_virt cfg start) ((e + U64 - start) % U64)
      PAGE_KERNEL (some PgAlloc.early_pgtable_alloc)
  else
    (if start < kernel_start then
      __create_pgd_mapping cfg F s pgd start (__phys_to_virt cfg start)
        ((kernel_start + U64 - start) % U64) PAGE_KERNEL (some PgAlloc.early_pgtable_alloc)
    else Res.ok s).bind fun s1 =>
    (if kernel_end < e then
      __create_pgd_mapping cfg F s1 pgd kernel_end (__phys_to_virt cfg kernel_end)
        ((e + U64 - kernel_end) % U64) PAGE_KERNEL (some PgAlloc.early_pgtable_alloc)
    else Res.ok s1).bind fun s2 =>
    __create_pgd_mapping cfg F s2 pgd kernel_start (__phys_to_virt cfg kernel_start)
      ((kernel_end + U64 - kernel_start) % U64) PAGE_KERNEL_RO
      (some PgAlloc.early_pgtable_alloc)

/-- The function `mark_rodata_ro`. -/
def mark_rodata_ro (cfg : Config) (F : Nat) (s : State) : Res State :=
  let section_size := (cfg.etext + U64 - cfg.stext) % U64
  (create_mapping_late cfg F s (__pa_symbol cfg cfg.stext) cfg.stext section_size
    PAGE_KERNEL_ROX).bind fun s1 =>
  let section_size1 := (cfg.init_begin + U64 - cfg.start_rodata) % U64
  create_mapping_late cfg F s1 (__pa_symbol cfg cfg.start_rodata) cfg.start_rodata
    section_size1 PAGE_KERNEL_RO

def PAGE_ALIGNED (x : Nat) : Bool := x &&& (PAGE_SIZE - 1) == 0

/-- Modelled from the spec: `VM_MAP` of `linux/vmalloc.h`. -/
def VM_MAP : Nat := 4

/-- The call `vm_area_add_early(vma)` with the fields of the descriptor. -/
def vm_area_add_early (s : State) (addr phys_addr size flags : Nat) : State :=
  { s with trace := Event.vm_area_add_early addr phys_addr size flags :: s.trace }

/-- The function `map_kernel_chunk` for the region `[va_start, va_end)`. -/
def map_kernel_chunk (cfg : Config) (F : Nat) (s : State) (pgd va_start va_end prot : Nat) :
    Res State :=
  let pa_start := __pa_symbol cfg va_start
  let size := (va_end + U64 - va_start) % U64
  if !PAGE_ALIGNED pa_start then Res.bug
  else if !PAGE_ALIGNED size then Res.bug
  else
    (__create_pgd_mapping cfg F s pgd pa_start va_start size prot
      (some PgAlloc.early_pgtable_alloc)).bind fun s1 =>
    Res.ok (vm_area_add_early s1 va_start pa_start size VM_MAP)

/-- The function `map_kernel_text_chunk` (`CONFIG_UH_RKP`): tables come from
the secure allocator and the descriptor is widened down to a section
boundary. -/
def map_kernel_text_chunk (cfg : Config) (F : Nat) (s : State)
    (pgd va_start va_end prot : Nat) : Res State :=
  let pa_start := __pa_symbol cfg va_start
  let size := (va_end + U64 - va_start) % U64
  if !PAGE_ALIGNED pa_start then Res.bug
  else if !PAGE_ALIGNED size then Res.bug
  else
    (__create_pgd_mapping cfg F s pgd pa_start va_start size prot
      (some PgAlloc.rkp_ro_alloc_phys)).bind fun s1 =>
    let addr := va_start &&& PMD_MASK
    Res.ok (vm_area_add_early s1 addr (pa_start &&& PMD_MASK)
      ((size + va_start + U64 - addr) % U64) VM_MAP)

/-- The function `map_kernel`. With four levels and 4 KiB pages the fixmap
must have a pgd entry of its own, which is copied from the kernel directory;
`kasan_copy_shadow` does nothing without `CONFIG_KASAN`. -/
def map_kernel (cfg : Config) (F : Nat) (s : State) (pgd : Nat) : Res State :=
  (if rkp_do cfg then map_kernel_text_chunk cfg F s pgd cfg.text cfg.etext PAGE_KERNEL_EXEC
    else map_kernel_chunk cfg F s pgd cfg.stext cfg.etext PAGE_KERNEL_EXEC).bind fun s1 =>
  (map_kernel_chunk cfg F s1 pgd cfg.start_rodata cfg.init_begin PAGE_KERNEL).bind fun s2 =>
  (map_kernel_chunk cfg F s2 pgd cfg.init_begin cfg.init_end PAGE_KERNEL_EXEC).bind fun s3 =>
  (map_kernel_chunk cfg F s3 pgd cfg.data cfg.kernel_end PAGE_KERNEL).bind fun s4 =>
  if s4.mem (pgd_offset_raw pgd cfg.FIXADDR_START) == 0 then
    Res.ok (set_pgd s4 (pgd_offset_raw pgd cfg.FIXADDR_START)
      (s4.mem (pgd_offset_raw cfg.init_mm_pgd cfg.FIXADDR_START)))
  else Res.bug

/-! ## The fixmap -/

/-- Modelled from the spec: the first enumerator of `enum fixed_addresses`. -/
def FIX_HOLE : Nat := 0

/-- Modelled from the spec: `__fix_to_virt` of `asm-generic/fixmap.h`:
`FIXADDR_TOP - (x << PAGE_SHIFT)`. -/
def __fix_to_virt (cfg : Config) (x : Nat) : Nat :=
  (cfg.FIXADDR_TOP + U64 - (x <<< PAGE_SHIFT) % U64) % U64

/-- The entry of `bm_pte` for a fixmap address: `&bm_pte[pte_index(addr)]`. -/
def fixmap_pte (cfg : Config) (addr : Nat) : Nat := cfg.bm_pte + pte_index addr * 8

def flush_tlb_kernel_range (s : State) (start e : Nat) : State :=
  { s with trace := Event.flush_tlb_kernel_range start e :: s.trace }

def pte_clear (s : State) (pte : Nat) : State := set_pte s pte 0

/-- The function `__set_fixmap`. -/
def __set_fixmap (cfg : Config) (s : State) (idx phys flags : Nat) : Res State :=
  let addr := __fix_to_virt cfg idx
  if idx ≤ FIX_HOLE ∨ idx ≥ cfg.end_of_fixed_addresses then Res.bug
  else
    let pte := fixmap_pte cfg addr
    if flags != 0 then Res.ok (set_pte s pte (pfn_pte (phys >>> PAGE_SHIFT) flags))
    else Res.ok (flush_tlb_kernel_range (pte_clear s pte) addr ((addr + PAGE_SIZE) % U64))

/-- Modelled from the spec: `FIXMAP_PAGE_NORMAL` of `asm/fixmap.h`. -/
def FIXMAP_PAGE_NORMAL : Nat := PAGE_KERNEL

/-- Modelled from the spec: `pte_set_fixmap(phys)`, which is
`set_fixmap_offset(FIX_PTE, phys)`: the slot is pointed at the frame and the
virtual address of `phys` in the slot is returned. -/
def pte_set_fixmap (cfg : Config) (s : State) (phys : Nat) : Res (Nat × State) :=
  (__set_fixmap cfg s cfg.FIX_PTE phys FIXMAP_PAGE_NORMAL).bind fun s1 =>
  Res.ok ((__fix_to_virt cfg cfg.FIX_PTE + (phys &&& (PAGE_SIZE - 1))) % U64, s1)

/-- Modelled from the spec: `pte_clear_fixmap()`, which is
`clear_fixmap(FIX_PTE)`. -/
def pte_clear_fixmap (cfg : Config) (s : State) : Res State :=
  __set_fixmap cfg s cfg.FIX_PTE 0 0

/-- The effect of `memset(ptr, 0, PAGE_SIZE)` for a pointer into a fixmap slot:
the store goes to the frame that the entry of the slot in `bm_pte` names. -/
def memset_fixmap (cfg : Config) (s : State) (ptr : Nat) : State :=
  let pte := s.mem (fixmap_pte cfg ptr)
  let target := ((pte_pfn pte <<< PAGE_SHIFT) % U64) + (ptr &&& (PAGE_SIZE - 1))
  { s with mem := zero_page s.mem target }

/-- The function `early_pgtable_alloc` with its use of the `FIX_PTE` slot made
explicit; `early_pgtable_alloc` above is what remains of it when pointers are
physical addresses. -/
def early_pgtable_alloc_fixmap (cfg : Config) (s : State) : Res (Nat × State) :=
  let (phys, s1) := take_frame cfg PgAlloc.early_pgtable_alloc s
  if phys == 0 then Res.bug
  else
    (pte_set_fixmap cfg s1 phys).bind fun r =>
    (pte_clear_fixmap cfg (memset_fixmap cfg r.2 r.1)).bind fun s3 =>
    Res.ok (phys, s3)

/-! ## The device tree blob -/

/-- Modelled from the spec: `MIN_FDT_ALIGN` and `MAX_FDT_SIZE` (`SZ_2M`, an
`int` constant) of `asm/boot.h`, `SWAPPER_BLOCK_SIZE` of
`asm/kernel-pgtable.h` (the section size, an `unsigned long`) and `FDT_MAGIC`
of `libfdt`. -/
def MIN_FDT_ALIGN : Nat := 8
def MAX_FDT_SIZE : Int := 0x200000
def SWAPPER_BLOCK_SIZE : Nat := SECTION_SIZE
def FDT_MAGIC : Nat := 0xd00dfeed

/-- Byte swap of a 32-bit value; `fdt32_to_cpu` on a little-endian CPU. -/
def swab32 (x : Nat) : Nat :=
  ((x &&& 0xff) <<< 24) ||| (((x >>> 8) &&& 0xff) <<< 16) |||
    (((x >>> 16) &&& 0xff) <<< 8) ||| ((x >>> 24) &&& 0xff)

def fdt32_to_cpu (x : Nat) : Nat := swab32 x

/-- A 32-bit load from a kernel virtual address, translated by the kernel
directory; `none` when the address is not mapped. -/
def read32 (cfg : Config) (mem : Nat → Nat) (va : Nat) : Option Nat :=
  match resolve mem cfg.init_mm_pgd va with
  | some (pa, _) => some ((mem (pa / 8 * 8) >>> (8 * (pa % 8))) % 2 ^ 32)
  | none => none

/-- The value of an `int` with the given 32-bit pattern. -/
def sint32 (p : Nat) : Int := if p < 2 ^ 31 then (p : Int) else (p : Int) - 2 ^ 32

/-- Conversion of an `int`, given by its 32-bit pattern, to a 64-bit unsigned
type: sign extension. -/
def sext32 (p : Nat) : Nat := if p < 2 ^ 31 then p else p + (U64 - 2 ^ 32)

/-- The macro `round_up(x, y)` on an `int` given by its 32-bit pattern:
`(((x - 1) | (y - 1)) + 1` in 32-bit arithmetic. -/
def round_up32 (x y : Nat) : Nat :=
  ((((x + 2 ^ 32 - 1) % 2 ^ 32) ||| ((y - 1) % 2 ^ 32)) + 1) % 2 ^ 32

/-- The macro `round_down(x, y)` on a 64-bit value: `x & ~(y - 1)`. -/
def round_down (x y : Nat) : Nat := x &&& not64 (y - 1)

/-- The function `__fixmap_remap_fdt`. The result is the returned pointer
(0 for `NULL`), the 32-bit pattern of `*size` afterwards, and the state; a
load from an unmapped address is a fatal fault. -/
def __fixmap_remap_fdt (cfg : Config) (F : Nat) (s : State) (dt_phys size prot : Nat) :
    Res (Nat × Nat × State) :=
  let dt_virt_base := cfg.dt_virt_base
  if dt_phys == 0 || dt_phys % MIN_FDT_ALIGN != 0 then Res.ok (0, size, s)
  else
    let offset := (dt_phys % SWAPPER_BLOCK_SIZE) % 2 ^ 32
    let dt_virt := (dt_virt_base + sext32 offset) % U64
    (create_mapping_noalloc cfg F s (round_down dt_phys SWAPPER_BLOCK_SIZE) dt_virt_base
      SWAPPER_BLOCK_SIZE prot).bind fun s1 =>
    match read32 cfg s1.mem dt_virt with
    | none => Res.bug
    | some magic =>
      if fdt32_to_cpu magic != FDT_MAGIC then Res.ok (0, size, s1)
      else
        match read32 cfg s1.mem ((dt_virt + 4) % U64) with
        | none => Res.bug
        | some totalsize =>
          let size1 := fdt32_to_cpu totalsize
          if sint32 size1 > MAX_FDT_SIZE then Res.ok (0, size1, s1)
          else if sext32 ((offset + size1) % 2 ^ 32) > SWAPPER_BLOCK_SIZE then
            (create_mapping_noalloc cfg F s1 (round_down dt_phys SWAPPER_BLOCK_SIZE)
              dt_virt_base (sext32 (round_up32 ((offset + size1) % 2 ^ 32) SWAPPER_BLOCK_SIZE))
              prot).bind fun s2 =>
            Res.ok (dt_virt, size1, s2)
          else Res.ok (dt_virt, size1, s1)

/-! ## A sample machine, used to instantiate the theorems -/

/-- The position of each allocator in the interleaved frame pool of `cfg0`. -/
def frameNo : PgAlloc → Nat
  | PgAlloc.early_pgtable_alloc => 0
  | PgAlloc.late_pgtable_alloc => 1
  | PgAlloc.rkp_ro_alloc_phys => 2

/-- A sample configuration: no RKP, no debug_pagealloc, early boot, frames
handed out from physical `0x100000000` upwards, the kernel directory at
`0x80000000`, RAM at `[0x40000000, 0x80000000)`. -/
def cfg0 : Config :=
  { uh_rkp := false,
    knox_kap := false,
    boot_mode_security := false,
    debug_pagealloc := false,
    slab_available := false,
    frames := fun a n => 0x100000000 + 0x1000 * (3 * n + frameNo a),
    pgprot_iotable_init := id,
    VMALLOC_START := 0xffff000008000000,
    init_mm_pgd := 0x80000000,
    pfn_valid := fun pfn => decide (0x40000 ≤ pfn ∧ pfn < 0x80000),
    dt_virt_base := 0xffff7dfffe600000,
    kimage_voffset := 0xffff000008000000 - 0x40080000,
    text := 0xffff000008080000,
    stext := 0xffff000008081000,
    etext := 0xffff000008a00000,
    start_rodata := 0xffff000008a00000,
    init_begin := 0xffff000008e00000,
    init_end := 0xffff000009000000,
    data := 0xffff000009000000,
    kernel_end := 0xffff000009400000,
    memstart_addr := 0x40000000,
    FIXADDR_TOP := 0xffff7dfffea00000,
    FIXADDR_START := 0xffff7dfffe5f9000,
    end_of_fixed_addresses := 1288,
    FIX_PTE := 1284,
    bm_pte := 0x41500000 }

/-- The empty machine: zero memory, no allocation made, empty trace. -/
def s0 : State := { mem := fun _ => 0, count := fun _ => 0, trace := [] }

/-! ## The end-to-end scenario of the specification on the sample machine -/

/-- The state of a result, or `d` when there is none. -/
def Res.val (r : Res State) (d : State) : State :=
  match r with
  | Res.ok s => s
  | _ => d

/-- The entry of the pmd level that the walk of `va` reaches (`pmd_offset`),
through whatever the pgd and pud entries refer to. -/
def pmd_slot (mem : Nat → Nat) (pgdir va : Nat) : Nat :=
  pud_page_paddr (mem (pgd_page_paddr (mem (pgdir + pgd_index va * 8)) + pud_index va * 8))
    + pmd_index va * 8

/-- First step of the scenario: physical `[0x40000000, 0x40200000)` mapped at
`0xffff000040000000` with `PAGE_KERNEL` into the empty kernel directory. -/
def scenario_map : Res State :=
  init_pgd cfg0 512 s0 (pgd_offset_raw cfg0.init_mm_pgd 0xffff000040000000) 0x40000000
    0xffff000040000000 0x200000 PAGE_KERNEL (some PgAlloc.early_pgtable_alloc)

/-- Second step of the scenario: the first 4 KiB of the range mapped again,
read-only. -/
def scenario_remap : Res State :=
  init_pgd cfg0 512 (scenario_map.val s0) (pgd_offset_raw cfg0.init_mm_pgd 0xffff000040000000)
    0x40000000 0xffff000040000000 0x1000 PAGE_KERNEL_RO (some PgAlloc.early_pgtable_alloc)

/-- Executable form of what the scenario's first step is to establish: one
section entry in the pmd table and nothing else there, two frames allocated
(the pud and the pmd table), `kern_addr_valid` on every page of the range and
not on the pages just outside. -/
def scenario_map_check (r : Res State) : Bool :=
  match r with
  | Res.ok s1 =>
    (s1.mem (pmd_slot s1.mem cfg0.init_mm_pgd 0xffff000040000000)
      == (0x40000000 ||| PMD_TYPE_SECT ||| mk_sect_prot PAGE_KERNEL)) &&
    pmd_sect (s1.mem (pmd_slot s1.mem cfg0.init_mm_pgd 0xffff000040000000)) &&
    (List.range 512).all (fun j =>
      j == 0 || s1.mem (pmd_slot s1.mem cfg0.init_mm_pgd 0xffff000040000000 + j * 8) == 0) &&
    (s1.count PgAlloc.early_pgtable_alloc == 2) &&
    (s1.count PgAlloc.late_pgtable_alloc == 0) &&
    (s1.count PgAlloc.rkp_ro_alloc_phys == 0) &&
    (List.range 512).all (fun k =>
      kern_addr_valid cfg0 s1.mem (0xffff000040000000 + k * 4096)) &&
    !kern_addr_valid cfg0 s1.mem (0xffff000040000000 - 4096) &&
    !kern_addr_valid cfg0 s1.mem (0xffff000040000000 + 0x200000)
  | _ => false

/-- Executable form of what the second step of the scenario does: before it
the pmd entry is the `PAGE_KERNEL` section and the second page resolves with
the attributes of `PAGE_KERNEL`; after it the pmd entry refers to a table, the
first page resolves read-only and the second page resolves to the same
physical address with the attributes of `PAGE_KERNEL_EXEC`. -/
def scenario_remap_check (s : State) (r : Res State) : Bool :=
  match r with
  | Res.ok s2 =>
    (s.mem (pmd_slot s.mem cfg0.init_mm_pgd 0xffff000040000000)
      == (0x40000000 ||| PMD_TYPE_SECT ||| mk_sect_prot PAGE_KERNEL)) &&
    (resolve s.mem cfg0.init_mm_pgd 0xffff000040001000
      == some (0x40001000, entry_prot PAGE_KERNEL)) &&
    pmd_table (s2.mem (pmd_slot s2.mem cfg0.init_mm_pgd 0xffff000040000000)) &&
    (resolve s2.mem cfg0.init_mm_pgd 0xffff000040000000
      == some (0x40000000, entry_prot PAGE_KERNEL_RO)) &&
    (resolve s2.mem cfg0.init_mm_pgd 0xffff000040001000
      == some (0x40001000, entry_prot PAGE_KERNEL_EXEC)) &&
    (entry_prot PAGE_KERNEL_EXEC != entry_prot PAGE_KERNEL)
  | _ => false

/-! ## Auxiliary definitions used in the statements and proofs -/

/-- The block descriptor bits `PMD_TYPE_SECT | mk_sect_prot(prot)`. -/
def sect_bits (prot : Nat) : Nat := PMD_TYPE_SECT ||| mk_sect_prot prot

/-- A mapping request as `init_pgd` sees it after rounding: the virtual range
`[A0, E)` (`E` is the true end, at most `2^64`), the physical address `P0` of
`A0`, the protection and the allocator. -/
structure Req where
  A0 : Nat
  E : Nat
  P0 : Nat
  prot : Nat
  alloc : Option PgAlloc

/-- Size of the range translated by one entry of a table of level `L`
(0 = pgd, 1 = pud, 2 = pmd, 3 = pte). -/
def esz : Nat → Nat
  | 0 => 549755813888
  | 1 => 1073741824
  | 2 => 2097152
  | _ => 4096

/-- The address of the entry for `a` in the level-`L` table at `T`. -/
def slot (L T a : Nat) : Nat := T + a / esz L % 512 * 8

/-- Ownership of table frames: `own T = some (L, b)` says that the frame at `T`
is a table of level `L` translating the virtual range that starts at `b`. -/
abbrev Own := Nat → Option (Nat × Nat)

/-- An entry of a table of level `L < 3` with base `b`, at index `j`: empty, a
block (not in the pgd), or a reference to the owned table of the next level
for exactly that part of the range. -/
def EntryOk (own : Own) (L b j e : Nat) : Prop :=
  e = 0 ∨ (L ≠ 0 ∧ e &&& 3 = 1) ∨
    (e &&& 3 = 3 ∧ own (e &&& PTE_ADDR_MASK) = some (L + 1, b + j * esz L))

/-- The directory is a tree of well-typed tables: every owned frame is an
aligned frame below `2^48` whose entries (above the page level) are well
formed. -/
def WF (mem : Nat → Nat) (own : Own) : Prop :=
  ∀ T L b, own T = some (L, b) →
    L ≤ 3 ∧ T % 4096 = 0 ∧ T < 281474976710656 ∧ b % (512 * esz L) = 0 ∧
    (L < 3 → ∀ j, j < 512 → EntryOk own L b j (mem (T + j * 8)))

/-- The frames that the allocators will still hand out, up to call number
`lim a` of allocator `a`, are usable (non-zero, aligned, below `2^48`),
pairwise distinct, not part of the directory, and those of the secure
allocator, which the code does not clear, are zero. -/
def Fresh (cfg : Config) (lim : PgAlloc → Nat) (s : State) (own : Own) : Prop :=
  ∀ a n, s.count a ≤ n → n < lim a →
    cfg.frames a n ≠ 0 ∧ cfg.frames a n % 4096 = 0 ∧ cfg.frames a n < 281474976710656 ∧
    own (cfg.frames a n) = none ∧
    (∀ a1 n1, s.count a1 ≤ n1 → n1 < lim a1 → cfg.frames a1 n1 = cfg.frames a n →
      a1 = a ∧ n1 = n) ∧
    (a = PgAlloc.rkp_ro_alloc_phys →
      ∀ q, cfg.frames a n ≤ q → q < cfg.frames a n + 4096 → s.mem q = 0)

/-- The section-sized chunk of `a` lies in the request and is mapped by a
block: the condition under which `alloc_init_pmd` installs a section entry. -/
def big2M (cfg : Config) (R : Req) (a : Nat) : Prop :=
  block_mappings_allowed cfg R.alloc = true ∧ R.A0 ≤ a / 2097152 * 2097152 ∧
    a / 2097152 * 2097152 + 2097152 ≤ R.E ∧
    (R.P0 + (a / 2097152 * 2097152 - R.A0)) % 2097152 = 0

/-- The 1 GiB chunk of `a` lies in the request and is mapped by a block: the
condition under which `alloc_init_pud` installs a 1 GiB entry. -/
def big1G (cfg : Config) (R : Req) (a : Nat) : Prop :=
  cfg.uh_rkp = false ∧ block_mappings_allowed cfg R.alloc = true ∧
    R.A0 ≤ a / 1073741824 * 1073741824 ∧
    a / 1073741824 * 1073741824 + 1073741824 ≤ R.E ∧
    (R.P0 + (a / 1073741824 * 1073741824 - R.A0)) % 1073741824 = 0

instance (cfg : Config) (R : Req) (a : Nat) : Decidable (big2M cfg R a) := by
  unfold big2M; infer_instance

instance (cfg : Config) (R : Req) (a : Nat) : Decidable (big1G cfg R a) := by
  unfold big1G; infer_instance

/-- The page of `a` is mapped as the request asks, seen from the page table
at `T`. -/
def Mapped3 (R : Req) (mem : Nat → Nat) (T a : Nat) : Prop :=
  mem (T + pte_index a * 8) = pfn_pte ((R.P0 + (a - R.A0)) / 4096) R.prot

/-- The page of `a` is mapped as the request asks, seen from the pmd table at
`T`: by the section entry if `big2M`, through a page table otherwise. -/
def Mapped2 (cfg : Config) (R : Req) (mem : Nat → Nat) (T a : Nat) : Prop :=
  if big2M cfg R a then
    mem (T + pmd_index a * 8)
      = (R.P0 + (a / 2097152 * 2097152 - R.A0)) ||| PMD_TYPE_SECT ||| mk_sect_prot R.prot
  else
    mem (T + pmd_index a * 8) &&& 3 = 3 ∧
    Mapped3 R mem (mem (T + pmd_index a * 8) &&& PTE_ADDR_MASK) a

/-- The page of `a` is mapped as the request asks, seen from the pud table at
`T`: by the 1 GiB entry if `big1G`, through a pmd table otherwise. -/
def Mapped1 (cfg : Config) (R : Req) (mem : Nat → Nat) (T a : Nat) : Prop :=
  if big1G cfg R a then
    mem (T + pud_index a * 8)
      = (R.P0 + (a / 1073741824 * 1073741824 - R.A0)) ||| PUD_TYPE_SECT ||| mk_sect_prot R.prot
  else
    mem (T + pud_index a * 8) &&& 3 = 3 ∧
    Mapped2 cfg R mem (mem (T + pud_index a * 8) &&& PTE_ADDR_MASK) a

/-- The page of `a` is mapped as the request asks, seen from the directory. -/
def Mapped0 (cfg : Config) (R : Req) (mem : Nat → Nat) (pgdir a : Nat) : Prop :=
  mem (pgdir + pgd_index a * 8) &&& 3 = 3 ∧
  Mapped1 cfg R mem (mem (pgdir + pgd_index a * 8) &&& PTE_ADDR_MASK) a

/-- Footprint of a run over `[lo, hi)`: an address whose content changed lies
in a frame that the run took into the directory, or is the entry of some
address of `[lo, hi)` in an owned table covering it; an entry that referred to
a table changes only when the whole range of the entry lies in `[lo, hi)`. -/
def Foot (own own1 : Own) (mem mem1 : Nat → Nat) (lo hi : Nat) : Prop :=
  ∀ q, mem1 q ≠ mem q →
    (own (q / 4096 * 4096) = none ∧ own1 (q / 4096 * 4096) ≠ none) ∨
    ∃ L b a, own (q / 4096 * 4096) = some (L, b) ∧ lo ≤ a ∧ a < hi ∧
      b ≤ a ∧ a < b + 512 * esz L ∧ q = slot L (q / 4096 * 4096) a ∧
      (L < 3 → mem q &&& 3 = 3 → lo ≤ a / esz L * esz L ∧ a / esz L * esz L + esz L ≤ hi)

/-- The ownership map only grows. -/
def Own.le (own own1 : Own) : Prop := ∀ T x, own T = some x → own1 T = some x

/-- A valid request inside the 48-bit window that starts at `WB`: page-aligned
non-empty range, page-aligned physical start with the range below `2^48`, and
a protection value that is a valid page descriptor without address bits. -/
structure Req.Valid (R : Req) (WB : Nat) : Prop where
  a0_al : R.A0 % 4096 = 0
  e_al : R.E % 4096 = 0
  lt : R.A0 < R.E
  wb_le : WB ≤ R.A0
  e_le : R.E ≤ WB + 281474976710656
  wb_al : WB % 281474976710656 = 0
  wb_top : WB + 281474976710656 ≤ 18446744073709551616
  p0_al : R.P0 % 4096 = 0
  p_le : R.P0 + (R.E - R.A0) ≤ 281474976710656
  prot_addr : R.prot &&& PTE_ADDR_MASK = 0
  prot_type : R.prot &&& 3 = 3

/-- Translation of `va` from a table of level `L`: the directory walk
`resolve` at level 0, `walk_pud`, `walk_pmd` and `walk_pte` below. -/
def walkL : Nat → (Nat → Nat) → Nat → Nat → Option (Nat × Nat)
  | 0, mem, T, va => resolve mem T va
  | 1, mem, T, va => walk_pud mem T va
  | 2, mem, T, va => walk_pmd mem T va
  | _, mem, T, va => walk_pte mem T va

/-- The 1 GiB block entries of the directory are well-formed descriptors: the
bits between the section and the 1 GiB granule, which `split_pud` would carry
into the entries of the new table, are zero. -/
def Blocks1 (mem : Nat → Nat) (own : Own) : Prop :=
  ∀ T b j, own T = some (1, b) → j < 512 → mem (T + j * 8) &&& 3 = 1 →
    mem (T + j * 8) &&& (PUD_SIZE - PMD_SIZE) = 0

/-- What a run of the descent at table level `k` over `[lo, hi)` from state `s`
with ownership `own` guarantees about the state `s1` and ownership `own1` it
ends in; tables of a level above `k` are left as they were, every allocator
was called at most `n` times, and an address outside `[lo, hi)` translates to
the same physical address as before, or not at all if it did not before. -/
structure Run (cfg : Config) (lim : PgAlloc → Nat) (k n : Nat) (s : State) (own : Own)
    (lo hi : Nat) (s1 : State) (own1 : Own) : Prop where
  wf : WF s1.mem own1
  fresh : Fresh cfg lim s1 own1
  le : Own.le own own1
  foot : Foot own own1 s.mem s1.mem lo hi
  cnt : ∀ a, s.count a ≤ s1.count a
  new : ∀ T, own T = none → own1 T ≠ none →
    ∃ a n, s.count a ≤ n ∧ n < s1.count a ∧ T = cfg.frames a n
  above : ∀ q L b, own (q / 4096 * 4096) = some (L, b) → L < k → s1.mem q = s.mem q
  used : ∀ a, s1.count a ≤ s.count a + n
  out : Blocks1 s.mem own → Blocks1 s1.mem own1 ∧
    ∀ T L b va, own T = some (L, b) → b ≤ va → va < b + 512 * esz L → (va < lo ∨ hi ≤ va) →
      (walkL L s1.mem T va).map Prod.fst = (walkL L s.mem T va).map Prod.fst

/-- The page `a` of request `R` is out of reach of a run over `[lo, hi)`: it
lies outside, and so does the whole block that maps it, if one does. -/
def Sep (cfg : Config) (R : Req) (a lo hi : Nat) : Prop :=
  (a < lo ∨ hi ≤ a) ∧
  (big2M cfg R a → a / 2097152 * 2097152 + 2097152 ≤ lo ∨ hi ≤ a / 2097152 * 2097152) ∧
  (big1G cfg R a →
    a / 1073741824 * 1073741824 + 1073741824 ≤ lo ∨ hi ≤ a / 1073741824 * 1073741824)

/-- The request that `init_pgd` works on after rounding `virt` down and the
length up to whole pages. -/
def mkReq (phys virt size prot : Nat) (alloc : Option PgAlloc) : Req :=
  { A0 := virt / 4096 * 4096,
    E := virt / 4096 * 4096 + (size + virt % 4096 + 4095) / 4096 * 4096,
    P0 := phys / 4096 * 4096,
    prot := prot,
    alloc := alloc }

/-- Ownership of a directory that has no table yet: only the root at `pgdir`,
for the window at `WB`. -/
def own0 (pgdir WB : Nat) : Own := fun T => if T = pgdir then some (0, WB) else none

/-- The number of frames of each allocator that `cfg0` is taken to supply. -/
def lim0 : PgAlloc → Nat := fun _ => 134480384

/-! ## Concrete states used to instantiate the theorems -/

/-- A machine on which the fixmap region of the device tree has its pud and
pmd tables (at `0x80001000` and `0x80002000`) and a blob at physical
`0x48000008` begins with the eight bytes `header` (little-endian: magic in the
low half, total size in the high half). -/
def fdt_state (header : Nat) : State :=
  { mem := fun q =>
      if q = cfg0.init_mm_pgd + pgd_index cfg0.dt_virt_base * 8 then 0x80001000 ||| 3
      else if q = 0x80001000 + pud_index cfg0.dt_virt_base * 8 then 0x80002000 ||| 3
      else if q = 0x48000008 then header
      else 0,
    count := fun _ => 0,
    trace := [] }

/-- Executable comparison of the pointer and size that `__fixmap_remap_fdt`
returns. -/
def fdt_result_is (r : Res (Nat × Nat × State)) (ptr size : Nat) : Bool :=
  match r with
  | Res.ok (p, sz, _) => p == ptr && sz == size
  | _ => false

/-- The trace of a result, empty when there is none. -/
def Res.trace (r : Res State) : List Event :=
  match r with
  | Res.ok s => s.trace
  | _ => []

/-- Whether a run ended in a fatal assertion. -/
def Res.isBug {α : Type} (r : Res α) : Bool :=
  match r with
  | Res.bug => true
  | _ => false

/-- A machine whose pmd entry at `0x80002000` refers to a page table at
`0x80003000`. -/
def table_state : State :=
  { mem := fun q => if q = 0x80002000 then 0x80003000 ||| 3 else 0,
    count := fun _ => 0,
    trace := [] }

/-- A machine on which the `FIX_PTE` slot of the fixmap holds a mapping of
frame `0x12345`. -/
def fix_state : State :=
  { mem := fun q =>
      if q = fixmap_pte cfg0 (__fix_to_virt cfg0 cfg0.FIX_PTE) then pfn_pte 0x12345 PAGE_KERNEL
      else 0,
    count := fun _ => 0,
    trace := [] }

/-- The number of table writes in a trace (most recent event first) that no
TLB invalidation has followed. -/
def unflushed_writes : List Event → Nat
  | [] => 0
  | Event.flush_tlb_all :: _ => 0
  | Event.flush_tlb_kernel_range _ _ :: _ => 0
  | Event.write _ _ :: t => unflushed_writes t + 1
  | _ :: t => unflushed_writes t

/-- What `mark_rodata_ro` takes for granted about the kernel image: text
before rodata, both non-empty, inside the kernel window that starts at `WB`
and above `VMALLOC_START`, text ending on a page boundary, and
`kimage_voffset` a page multiple below the image, with the physical image
below `2^48`. -/
structure RodataLayout (cfg : Config) (WB : Nat) : Prop where
  wb_al : WB % 281474976710656 = 0
  wb_top : WB + 281474976710656 ≤ 18446744073709551616
  wb_le : WB ≤ cfg.stext
  vmalloc : cfg.VMALLOC_START ≤ cfg.stext
  text : cfg.stext < cfg.etext
  gap : cfg.etext ≤ cfg.start_rodata
  rodata : cfg.start_rodata < cfg.init_begin
  top : cfg.init_begin ≤ WB + 281474976710656
  etext_al : cfg.etext % 4096 = 0
  voff_al : cfg.kimage_voffset % 4096 = 0
  voff_le : cfg.kimage_voffset ≤ cfg.stext
  pa_top : cfg.init_begin - cfg.kimage_voffset ≤ 281474976710656

/-- The two requests of `mark_rodata_ro`. -/
def text_req (cfg : Config) : Req :=
  mkReq (cfg.stext - cfg.kimage_voffset) cfg.stext (cfg.etext - cfg.stext) PAGE_KERNEL_ROX
    (some PgAlloc.late_pgtable_alloc)

def rodata_req (cfg : Config) : Req :=
  mkReq (cfg.start_rodata - cfg.kimage_voffset) cfg.start_rodata
    (cfg.init_begin - cfg.start_rodata) PAGE_KERNEL_RO (some PgAlloc.late_pgtable_alloc)

/-- A larger supply of frames of `cfg0`, enough for eight requests. -/
def lim1 : PgAlloc → Nat := fun _ => 1075843072

/-- A call of `__create_pgd_mapping`: physical start, virtual start, size and
protection. -/
structure MapReq where
  phys : Nat
  virt : Nat
  size : Nat
  prot : Nat

/-- The calls of `__create_pgd_mapping` that `__map_memblock` makes for the
bank `[start, e)`, in order. -/
def map_memblock_requests (cfg : Config) (start e : Nat) : List MapReq :=
  if e < __pa_symbol cfg cfg.stext ∨ start ≥ __pa_symbol cfg cfg.init_begin then
    [⟨start, __phys_to_virt cfg start, (e + U64 - start) % U64, PAGE_KERNEL⟩]
  else
    (if start < __pa_symbol cfg cfg.stext then
      [⟨start, __phys_to_virt cfg start, (__pa_symbol cfg cfg.stext + U64 - start) % U64,
        PAGE_KERNEL⟩]
    else []) ++
    (if __pa_symbol cfg cfg.init_begin < e then
      [⟨__pa_symbol cfg cfg.init_begin, __phys_to_virt cfg (__pa_symbol cfg cfg.init_begin),
        (e + U64 - __pa_symbol cfg cfg.init_begin) % U64, PAGE_KERNEL⟩]
    else []) ++
    [⟨__pa_symbol cfg cfg.stext, __phys_to_virt cfg (__pa_symbol cfg cfg.stext),
      (__pa_symbol cfg cfg.init_begin + U64 - __pa_symbol cfg cfg.stext) % U64,
      PAGE_KERNEL_RO⟩]

/-- A list of calls of `__create_pgd_mapping` with `early_pgtable_alloc`, one
after the other. -/
def run_requests (cfg : Config) (F : Nat) (pgd : Nat) : List MapReq → State → Res State
  | [], s => Res.ok s
  | r :: rs, s =>
    (__create_pgd_mapping cfg F s pgd r.phys r.virt r.size r.prot
      (some PgAlloc.early_pgtable_alloc)).bind (run_requests cfg F pgd rs)

/-- What `__map_memblock` takes for granted about the bank `[start, e)` and
the kernel image: the physical text+rodata range is a non-empty range of
whole pages, bank and image lie at or above `memstart_addr` (a page multiple)
and within the 2^47 bytes of the linear map and the 2^48 of physical
addresses. -/
structure LinearLayout (cfg : Config) (start e : Nat) : Prop where
  ks_al : __pa_symbol cfg cfg.stext % 4096 = 0
  ke_al : __pa_symbol cfg cfg.init_begin % 4096 = 0
  k_lt : __pa_symbol cfg cfg.stext < __pa_symbol cfg cfg.init_begin
  ms_al : cfg.memstart_addr % 4096 = 0
  ms_start : cfg.memstart_addr ≤ start
  ms_ks : cfg.memstart_addr ≤ __pa_symbol cfg cfg.stext
  bank : start < e
  e_lin : e ≤ cfg.memstart_addr + 140737488355328
  ke_lin : __pa_symbol cfg cfg.init_begin ≤ cfg.memstart_addr + 140737488355328
  e_phys : e ≤ 281474976710656
  ke_phys : __pa_symbol cfg cfg.init_begin ≤ 281474976710656

/-- The physical pages that a call covers after rounding, as `init_pgd` does,
to whole pages: from `pstart` up to `pend`. -/
def MapReq.pstart (r : MapReq) : Nat := r.phys / 4096 * 4096

def MapReq.pend (r : MapReq) : Nat :=
  r.phys / 4096 * 4096 + (r.size + r.virt % 4096 + 4095) / 4096 * 4096

/-- The request that `init_pgd` works on for a call made with
`early_pgtable_alloc`. -/
def MapReq.req (r : MapReq) : Req :=
  mkReq r.phys r.virt r.size r.prot (some PgAlloc.early_pgtable_alloc)

/-- A call that `init_pgd` can serve in the window at `WB`: same page offset
of the two addresses, non-empty, inside the window and below `2^48`
physically, with a protection that is a page descriptor. -/
structure GoodReq (WB : Nat) (r : MapReq) : Prop where
  offs : r.phys % 4096 = r.virt % 4096
  pos : 0 < r.size
  lo : WB ≤ r.virt
  hi : r.virt + r.size ≤ WB + 281474976710656
  phys : r.phys + r.size ≤ 281474976710656
  prot_addr : r.prot &&& PTE_ADDR_MASK = 0
  prot_type : r.prot &&& 3 = 3

/-- The page ranges of two calls do not meet. -/
def MapReq.disjoint (r r1 : MapReq) : Prop :=
  r.req.E ≤ r1.req.A0 ∨ r1.req.E ≤ r.req.A0

/-! ## The kernel image -/

/-- The descriptors handed to `vm_area_add_early` in a trace, latest first:
`(addr, phys_addr, size, flags)`. -/
def vm_areas : List Event → List (Nat × Nat × Nat × Nat)
  | [] => []
  | Event.vm_area_add_early a p sz f :: t => (a, p, sz, f) :: vm_areas t
  | _ :: t => vm_areas t

/-- The start of the text region that `map_kernel` maps: `_text` when the
text goes through `map_kernel_text_chunk`, `_stext` otherwise. -/
def text_start (cfg : Config) : Nat := if rkp_do cfg then cfg.text else cfg.stext

/-- The allocator `map_kernel` uses for the tables of the text region. -/
def text_alloc (cfg : Config) : PgAlloc :=
  if rkp_do cfg then PgAlloc.rkp_ro_alloc_phys else PgAlloc.early_pgtable_alloc

/-- The descriptor `map_kernel` registers for the text region: widened down
to a section boundary by `map_kernel_text_chunk`, exact otherwise. -/
def text_area (cfg : Config) : Nat × Nat × Nat × Nat :=
  if rkp_do cfg then
    (cfg.text &&& PMD_MASK, __pa_symbol cfg cfg.text &&& PMD_MASK,
      ((cfg.etext + U64 - cfg.text) % U64 + cfg.text + U64 - (cfg.text &&& PMD_MASK)) % U64,
      VM_MAP)
  else (cfg.stext, __pa_symbol cfg cfg.stext, (cfg.etext + U64 - cfg.stext) % U64, VM_MAP)

/-- The request that `map_kernel_chunk` hands to `init_pgd` for the region
`[va_start, va_end)`. -/
def chunk_req (cfg : Config) (va_start va_end prot : Nat) (al : PgAlloc) : Req :=
  mkReq (va_start - cfg.kimage_voffset) va_start (va_end - va_start) prot (some al)

/-- What `map_kernel` takes for granted about the kernel image: the four
regions are non-empty ranges of whole pages, in the order text, rodata, init,
data, inside the kernel window that starts at `WB`; `kimage_voffset` is a page
multiple below the image and the physical image lies below `2^48`; and the
fixmap lies above the image under another entry of the directory. -/
structure KernelLayout (cfg : Config) (WB : Nat) : Prop where
  wb_al : WB % 281474976710656 = 0
  wb_top : WB + 281474976710656 ≤ 18446744073709551616
  wb_le : WB ≤ text_start cfg
  text : text_start cfg < cfg.etext
  gap1 : cfg.etext ≤ cfg.start_rodata
  rodata : cfg.start_rodata < cfg.init_begin
  init : cfg.init_begin < cfg.init_end
  gap2 : cfg.init_end ≤ cfg.data
  data : cfg.data < cfg.kernel_end
  top : cfg.kernel_end ≤ cfg.FIXADDR_START / 549755813888 * 549755813888
  fix_top : cfg.FIXADDR_START < WB + 281474976710656
  text_al : text_start cfg % 4096 = 0
  etext_al : cfg.etext % 4096 = 0
  rodata_al : cfg.start_rodata % 4096 = 0
  init_al : cfg.init_begin % 4096 = 0
  init_end_al : cfg.init_end % 4096 = 0
  data_al : cfg.data % 4096 = 0
  end_al : cfg.kernel_end % 4096 = 0
  voff_al : cfg.kimage_voffset % 4096 = 0
  voff_le : cfg.kimage_voffset ≤ text_start cfg
  pa_top : cfg.kernel_end - cfg.kimage_voffset ≤ 281474976710656

/-- The events of the code that builds tables: stores, `flush_tlb_all`,
allocations, releases and warnings. -/
def table_event : Event → Bool
  | Event.flush_tlb_kernel_range _ _ => false
  | Event.vm_area_add_early _ _ _ _ => false
  | _ => true

def is_write : Event → Bool
  | Event.write _ _ => true
  | _ => false

/-- The trace of `s1` is that of `s` with table-building events added. -/
def Grow (s s1 : State) : Prop :=
  ∃ evs, s1.trace = evs ++ s.trace ∧ ∀ e ∈ evs, table_event e = true

/-- The trace of `s1` is that of `s` with table-building events added, at
least one of them a store. -/
def Wrote (s s1 : State) : Prop :=
  ∃ evs, s1.trace = evs ++ s.trace ∧ (∀ e ∈ evs, table_event e = true) ∧
    ∃ e ∈ evs, is_write e = true

/-- Whether a run returned. -/
def Res.isOk {α : Type} (r : Res α) : Bool :=
  match r with
  | Res.ok _ => true
  | _ => false

/-- A request of size 0 on the sample machine: physical `0x40000000` at
`0xffff000040000000` with `PAGE_KERNEL`, into the empty kernel directory. -/
def zero_size_run : Res State :=
  init_pgd cfg0 512 s0 (pgd_offset_raw cfg0.init_mm_pgd 0xffff000040000000) 0x40000000
    0xffff000040000000 0 PAGE_KERNEL (some PgAlloc.early_pgtable_alloc)

/-- What the zero-size request leaves: a frame was allocated, the pgd entry of
the address is no longer empty, the address one page above `virt`, unmapped
before, resolves to the physical address one page above `phys`, and so does
the last page of the GiB. -/
def zero_size_check (r : Res State) : Bool :=
  match r with
  | Res.ok s1 =>
    (s1.count PgAlloc.early_pgtable_alloc == 1) &&
    (s0.mem (pgd_offset_raw cfg0.init_mm_pgd 0xffff000040000000) == 0) &&
    (s1.mem (pgd_offset_raw cfg0.init_mm_pgd 0xffff000040000000) != 0) &&
    (resolve s0.mem cfg0.init_mm_pgd 0xffff000040001000 == none) &&
    (resolve s1.mem cfg0.init_mm_pgd 0xffff000040001000
      == some (0x40001000, entry_prot PAGE_KERNEL)) &&
    (resolve s1.mem cfg0.init_mm_pgd 0xffff00007ffff000
      == some (0x7ffff000, entry_prot PAGE_KERNEL))
  | _ => false

/-! ## The trust extension -/

/-- The sample machine with the trust extension configured and active
(`CONFIG_UH_RKP` without `CONFIG_KNOX_KAP`). -/
def cfg_rkp : Config := { cfg0 with uh_rkp := true }

/-- The same machine with a secure allocator that has no frame to give: every
call of it returns 0. -/
def cfg_rkp_empty : Config :=
  { cfg0 with
    uh_rkp := true,
    frames := fun a n => if a = PgAlloc.rkp_ro_alloc_phys then 0 else cfg0.frames a n }

/-! ## The memory banks -/

/-- One entry of `memblock.memory`: base, size and whether the flag
`MEMBLOCK_NOMAP` is set. -/
structure memblock_region where
  base : Nat
  size : Nat
  nomap : Bool

def memblock_is_nomap (reg : memblock_region) : Bool := reg.nomap

/-- The function `map_mem` over the entries of `memblock.memory`, in order:
an empty entry ends the loop, an entry marked nomap is skipped. -/
def map_mem (cfg : Config) (F : Nat) (pgd : Nat) : List memblock_region → State → Res State
  | [], s => Res.ok s
  | reg :: rest, s =>
    let start := reg.base
    let e := (start + reg.size) % U64
    if start ≥ e then Res.ok s
    else if memblock_is_nomap reg then map_mem cfg F pgd rest s
    else (__map_memblock cfg F s pgd start e).bind (map_mem cfg F pgd rest)

/-- The calls of `__create_pgd_mapping` that `map_mem` makes, in order. -/
def map_mem_requests (cfg : Config) : List memblock_region → List MapReq
  | [] => []
  | reg :: rest =>
    if reg.base ≥ (reg.base + reg.size) % U64 then []
    else if reg.nomap then map_mem_requests cfg rest
    else map_memblock_requests cfg reg.base ((reg.base + reg.size) % U64)
      ++ map_mem_requests cfg rest

/-- The call that maps the kernel text and rodata read-only in the linear
map. -/
def ro_req (cfg : Config) : MapReq :=
  ⟨__pa_symbol cfg cfg.stext, __phys_to_virt cfg (__pa_symbol cfg cfg.stext),
    (__pa_symbol cfg cfg.init_begin + U64 - __pa_symbol cfg cfg.stext) % U64, PAGE_KERNEL_RO⟩

/-- What `map_mem` takes for granted about the banks: each is a non-empty
range of whole pages laid out as `LinearLayout` says, and no two banks
meet. -/
structure BankLayout (cfg : Config) (regs : List memblock_region) : Prop where
  each : ∀ reg ∈ regs, LinearLayout cfg reg.base (reg.base + reg.size)
  aligned : ∀ reg ∈ regs, reg.base % 4096 = 0 ∧ reg.size % 4096 = 0
  apart : regs.Pairwise
    (fun r1 r2 => r1.base + r1.size ≤ r2.base ∨ r2.base + r2.size ≤ r1.base)

/-- Two banks of the sample machine: the RAM that holds the kernel image, and
a bank marked nomap. -/
def regs0 : List memblock_region :=
  [⟨0x40000000, 0x40000000, false⟩, ⟨0x90000000, 0x10000000, true⟩]

/-! ## The MIDR field macros of `asm/cputype.h`

The constants of the macros have no suffix, so they are of type `int`, and so
is every macro applied to `int` arguments (as in `MIDR_CORTEX_A55`). The
operators `&`, `|`, `<<` then work on the 32 bits of the two's complement
representation; a left shift whose result does not fit (`0xff << 24`) keeps
the low 32 bits, as the kernel's compiler does, and `>>` on a negative `int` is
an arithmetic shift. -/

/-- The `int` whose 32 bits are the low 32 bits of `x`. -/
def int32 (x : Int) : Int := (x + 2147483648) % 4294967296 - 2147483648

/-- The 32 bits of an `int`, as a number below `2^32`. -/
def bits32 (x : Int) : Nat := (x % 4294967296).toNat

/-- The C operator `&` on two `int`s. -/
def int_and (a b : Int) : Int := int32 (Int.ofNat (bits32 a &&& bits32 b))

/-- The C operator `|` on two `int`s. -/
def int_or (a b : Int) : Int := int32 (Int.ofNat (bits32 a ||| bits32 b))

/-- The C operator `<<` on an `int`, by a constant below 32. -/
def int_shl (a : Int) (k : Nat) : Int := int32 (a * 2 ^ k)

/-- The C operator `>>` on an `int`: the sign is kept. -/
def int_shr (a : Int) (k : Nat) : Int := a >>> k

def MIDR_REVISION_MASK : Int := 0xf
def MIDR_REVISION (midr : Int) : Int := int_and midr MIDR_REVISION_MASK
def MIDR_PARTNUM_SHIFT : Nat := 4
def MIDR_PARTNUM_MASK : Int := int_shl 0xfff MIDR_PARTNUM_SHIFT
def MIDR_PARTNUM (midr : Int) : Int :=
  int_shr (int_and midr MIDR_PARTNUM_MASK) MIDR_PARTNUM_SHIFT
def MIDR_ARCHITECTURE_SHIFT : Nat := 16
def MIDR_ARCHITECTURE_MASK : Int := int_shl 0xf MIDR_ARCHITECTURE_SHIFT
def MIDR_ARCHITECTURE (midr : Int) : Int :=
  int_shr (int_and midr MIDR_ARCHITECTURE_MASK) MIDR_ARCHITECTURE_SHIFT
def MIDR_VARIANT_SHIFT : Nat := 20
def MIDR_VARIANT_MASK : Int := int_shl 0xf MIDR_VARIANT_SHIFT
def MIDR_VARIANT (midr : Int) : Int :=
  int_shr (int_and midr MIDR_VARIANT_MASK) MIDR_VARIANT_SHIFT
def MIDR_IMPLEMENTOR_SHIFT : Nat := 24
def MIDR_IMPLEMENTOR_MASK : Int := int_shl 0xff MIDR_IMPLEMENTOR_SHIFT
def MIDR_IMPLEMENTOR (midr : Int) : Int :=
  int_shr (int_and midr MIDR_IMPLEMENTOR_MASK) MIDR_IMPLEMENTOR_SHIFT

def MIDR_CPU_PART (imp partnum : Int) : Int :=
  int_or (int_or (int_shl imp MIDR_IMPLEMENTOR_SHIFT) (int_shl 0xf MIDR_ARCHITECTURE_SHIFT))
    (int_shl partnum MIDR_PARTNUM_SHIFT)

def ARM_CPU_IMP_ARM : Int := 0x41
def ARM_CPU_PART_CORTEX_A55 : Int := 0xD05
def MIDR_CORTEX_A55 : Int := MIDR_CPU_PART ARM_CPU_IMP_ARM ARM_CPU_PART_CORTEX_A55

/-! ## The descent with its fixmap slots

The functions `alloc_init_pte`, `alloc_init_pmd`, `alloc_init_pud` and
`init_pgd` once more, with the calls `p??_set_fixmap`,
`p??_set_fixmap_offset` and `p??_clear_fixmap` that the definitions above
leave out: the stores into `bm_pte` and the invalidation that ends
`__set_fixmap(idx, 0, 0)` are part of the state and of the trace, and
`early_pgtable_alloc` is taken with its use of the `FIX_PTE` slot. The pointer
that `p??_set_fixmap` returns still stands for the physical address of the
entry it points to. -/

/-- Modelled from the spec: the enumerators `FIX_PMD` and `FIX_PUD` of
`enum fixed_addresses` (`asm/fixmap.h`), which follow `FIX_PTE`. -/
def FIX_PMD (cfg : Config) : Nat := cfg.FIX_PTE + 1
def FIX_PUD (cfg : Config) : Nat := cfg.FIX_PTE + 2

/-- Modelled from the spec: `set_fixmap_offset(idx, phys)` of
`asm-generic/fixmap.h`, which is `__set_fixmap(idx, phys, FIXMAP_PAGE_NORMAL)`
followed by the computation of the pointer; `pte_set_fixmap(phys)`,
`pmd_set_fixmap(phys)`, `pud_set_fixmap(phys)` are this for `FIX_PTE`,
`FIX_PMD`, `FIX_PUD`. -/
def set_fixmap_offset (cfg : Config) (s : State) (idx phys : Nat) : Res State :=
  __set_fixmap cfg s idx phys FIXMAP_PAGE_NORMAL

/-- Modelled from the spec: `clear_fixmap(idx)`, which is
`__set_fixmap(idx, 0, FIXMAP_PAGE_CLEAR)`; `pte_clear_fixmap()`,
`pmd_clear_fixmap()`, `pud_clear_fixmap()` are this for the three slots. -/
def clear_fixmap (cfg : Config) (s : State) (idx : Nat) : Res State :=
  __set_fixmap cfg s idx 0 0

/-- Call through the function pointer `pgtable_alloc`, `early_pgtable_alloc`
with its fixmap slot. -/
def call_alloc_fixmap (cfg : Config) (a : PgAlloc) (s : State) : Res (Nat × State) :=
  match a with
  | PgAlloc.early_pgtable_alloc => early_pgtable_alloc_fixmap cfg s
  | PgAlloc.late_pgtable_alloc => late_pgtable_alloc cfg s
  | PgAlloc.rkp_ro_alloc_phys => rkp_ro_alloc_phys cfg s

def alloc_pmd_frame_fixmap (cfg : Config) (a : PgAlloc) (s : State) : Res (Nat × State) :=
  if rkp_do cfg then
    match rkp_ro_alloc_phys cfg s with
    | Res.ok (pmd_phys, s1) =>
      if pmd_phys == 0 then call_alloc_fixmap cfg a s1 else Res.ok (pmd_phys, s1)
    | Res.bug => Res.bug
    | Res.timeout => Res.timeout
  else call_alloc_fixmap cfg a s

/-- The first half of `alloc_init_pte`, from `pmd_none(*pmd) || pmd_sect(*pmd)`
to the `pte_clear_fixmap()` that ends the branch. -/
def alloc_init_pte_prepare_fixmap (cfg : Config) (s : State) (pmd : Nat)
    (pgtable_alloc : Option PgAlloc) : Res State :=
  if pmd_none (s.mem pmd) || pmd_sect (s.mem pmd) then
    match pgtable_alloc with
    | none => Res.bug
    | some a =>
      (call_alloc_fixmap cfg a s).bind fun r =>
      (set_fixmap_offset cfg r.2 cfg.FIX_PTE r.1).bind fun s1 =>
      let s2 := if pmd_sect (s1.mem pmd) then split_pmd s1 pmd r.1 else s1
      let s3 := set_pmd s2 pmd (r.1 ||| PMD_TYPE_TABLE)
      clear_fixmap cfg (flush_tlb_all s3) cfg.FIX_PTE
  else Res.ok s

/-- The function `alloc_init_pte`: `pte_set_fixmap_offset(pmd, addr)` points
the `FIX_PTE` slot at the frame of the page table before the loop, and
`pte_clear_fixmap()` clears it after. -/
def alloc_init_pte_fixmap (cfg : Config) (fuel : Nat) (s : State) (pmd addr e pfn prot : Nat)
    (pgtable_alloc : Option PgAlloc) : Res State :=
  (alloc_init_pte_prepare_fixmap cfg s pmd pgtable_alloc).bind fun s1 =>
  if pmd_bad (s1.mem pmd) then Res.bug
  else
    let pte := pmd_page_paddr (s1.mem pmd) + pte_index addr * 8
    (set_fixmap_offset cfg s1 cfg.FIX_PTE pte).bind fun s2 =>
    (alloc_init_pte_loop cfg prot e fuel s2 pte addr pfn).bind fun s3 =>
    clear_fixmap cfg s3 cfg.FIX_PTE

def alloc_init_pmd_step_fixmap (cfg : Config) (F : Nat) (s : State)
    (pmd addr next phys prot : Nat) (pgtable_alloc : Option PgAlloc) : Res State :=
  if ((addr ||| next ||| phys) &&& not64 SECTION_MASK == 0)
      && block_mappings_allowed cfg pgtable_alloc then
    let old_pmd := s.mem pmd
    (pmd_set_huge s pmd phys prot).bind fun s1 => Res.ok (release_old cfg s1 old_pmd)
  else alloc_init_pte_fixmap cfg F s pmd addr next (phys_to_pfn phys) prot pgtable_alloc

def alloc_init_pmd_loop_fixmap (cfg : Config) (F : Nat) (prot e : Nat)
    (pgtable_alloc : Option PgAlloc) : Nat → State → Nat → Nat → Nat → Res State
  | 0, _, _, _, _ => Res.timeout
  | fuel + 1, s, pmd, addr, phys =>
    let next := pmd_addr_end addr e
    (alloc_init_pmd_step_fixmap cfg F s pmd addr next phys prot pgtable_alloc).bind fun s1 =>
    let phys1 := (phys + (next + U64 - addr)) % U64
    if next != e then
      alloc_init_pmd_loop_fixmap cfg F prot e pgtable_alloc fuel s1 (pmd + 8) next phys1
    else Res.ok s1

/-- The first half of `alloc_init_pmd`, from `pud_none(*pud) || pud_sect(*pud)`
to the `pmd_clear_fixmap()` that ends the branch. -/
def alloc_init_pmd_prepare_fixmap (cfg : Config) (s : State) (pud : Nat)
    (pgtable_alloc : Option PgAlloc) : Res State :=
  if pud_none (s.mem pud) || pud_sect (s.mem pud) then
    match pgtable_alloc with
    | none => Res.bug
    | some a =>
      (alloc_pmd_frame_fixmap cfg a s).bind fun r =>
      (set_fixmap_offset cfg r.2 (FIX_PMD cfg) r.1).bind fun s1 =>
      let s2 := if pud_sect (s1.mem pud) then split_pud s1 pud r.1 else s1
      let s3 := set_pud s2 pud (r.1 ||| PUD_TYPE_TABLE)
      clear_fixmap cfg (flush_tlb_all s3) (FIX_PMD cfg)
  else Res.ok s

def alloc_init_pmd_fixmap (cfg : Config) (F : Nat) (s : State) (pud addr e phys prot : Nat)
    (pgtable_alloc : Option PgAlloc) : Res State :=
  (alloc_init_pmd_prepare_fixmap cfg s pud pgtable_alloc).bind fun s1 =>
  if pud_bad (s1.mem pud) then Res.bug
  else
    let pmd := pud_page_paddr (s1.mem pud) + pmd_index addr * 8
    (set_fixmap_offset cfg s1 (FIX_PMD cfg) pmd).bind fun s2 =>
    (alloc_init_pmd_loop_fixmap cfg F prot e pgtable_alloc F s2 pmd addr phys).bind fun s3 =>
    clear_fixmap cfg s3 (FIX_PMD cfg)

def alloc_init_pud_step_fixmap (cfg : Config) (F : Nat) (s : State)
    (pud addr next phys prot : Nat) (pgtable_alloc : Option PgAlloc) : Res State :=
  if use_1G_block cfg addr next phys && block_mappings_allowed cfg pgtable_alloc then
    let old_pud := s.mem pud
    (pud_set_huge s pud phys prot).bind fun s1 => Res.ok (release_old cfg s1 old_pud)
  else alloc_init_pmd_fixmap cfg F s pud addr next phys prot pgtable_alloc

def alloc_init_pud_loop_fixmap (cfg : Config) (F : Nat) (prot e : Nat)
    (pgtable_alloc : Option PgAlloc) : Nat → State → Nat → Nat → Nat → Res State
  | 0, _, _, _, _ => Res.timeout
  | fuel + 1, s, pud, addr, phys =>
    let next := pud_addr_end addr e
    (alloc_init_pud_step_fixmap cfg F s pud addr next phys prot pgtable_alloc).bind fun s1 =>
    let phys1 := (phys + (next + U64 - addr)) % U64
    if next != e then
      alloc_init_pud_loop_fixmap cfg F prot e pgtable_alloc fuel s1 (pud + 8) next phys1
    else Res.ok s1

/-- The first half of `alloc_init_pud`; it uses no fixmap slot of its own. -/
def alloc_init_pud_prepare_fixmap (cfg : Config) (s : State) (pgd : Nat)
    (pgtable_alloc : Option PgAlloc) : Res State :=
  if pgd_none (s.mem pgd) then
    match pgtable_alloc with
    | none => Res.bug
    | some a =>
      (call_alloc_fixmap cfg a s).bind fun r =>
      Res.ok (set_pgd r.2 pgd (r.1 ||| PUD_TYPE_TABLE))
  else Res.ok s

/-- The function `alloc_init_pud`: `pud_set_fixmap_offset(pgd, addr)` before
the loop and `pud_clear_fixmap()`, its last statement, after. -/
def alloc_init_pud_fixmap (cfg : Config) (F : Nat) (s : State) (pgd addr e phys prot : Nat)
    (pgtable_alloc : Option PgAlloc) : Res State :=
  (alloc_init_pud_prepare_fixmap cfg s pgd pgtable_alloc).bind fun s1 =>
  if pgd_bad (s1.mem pgd) then Res.bug
  else
    let pud := pgd_page_paddr (s1.mem pgd) + pud_index addr * 8
    (set_fixmap_offset cfg s1 (FIX_PUD cfg) pud).bind fun s2 =>
    (alloc_init_pud_loop_fixmap cfg F prot e pgtable_alloc F s2 pud addr phys).bind fun s3 =>
    clear_fixmap cfg s3 (FIX_PUD cfg)

def init_pgd_loop_fixmap (cfg : Config) (F : Nat) (prot e : Nat)
    (pgtable_alloc : Option PgAlloc) : Nat → State → Nat → Nat → Nat → Res State
  | 0, _, _, _, _ => Res.timeout
  | fuel + 1, s, pgd, addr, phys =>
    let next := pgd_addr_end addr e
    (alloc_init_pud_fixmap cfg F s pgd addr next phys prot pgtable_alloc).bind fun s1 =>
    let phys1 := (phys + (next + U64 - addr)) % U64
    if next != e then
      init_pgd_loop_fixmap cfg F prot e pgtable_alloc fuel s1 (pgd + 8) next phys1
    else Res.ok s1

/-- The function `init_pgd` over the levels with their fixmap slots. -/
def init_pgd_fixmap (cfg : Config) (F : Nat) (s : State) (pgd phys virt size prot : Nat)
    (pgtable_alloc : Option PgAlloc) : Res State :=
  if (phys ^^^ virt) &&& not64 PAGE_MASK != 0 then Res.ok (warn s)
  else
    let phys1 := phys &&& PAGE_MASK
    let addr := virt &&& PAGE_MASK
    let length := PAGE_ALIGN ((size + (virt &&& not64 PAGE_MASK)) % U64)
    let e := (addr + length) % U64
    init_pgd_loop_fixmap cfg F prot e pgtable_alloc F s pgd addr phys1

def create_mapping_noalloc_fixmap (cfg : Config) (F : Nat) (s : State)
    (phys virt size prot : Nat) : Res State :=
  if virt < cfg.VMALLOC_START then Res.ok (warn s)
  else init_pgd_fixmap cfg F s (pgd_offset_raw cfg.init_mm_pgd virt) phys virt size prot none

/-! ## Traces -/

/-- A TLB invalidation: `flush_tlb_all` or `flush_tlb_kernel_range`. -/
def is_invalidation : Event → Bool
  | Event.flush_tlb_all => true
  | Event.flush_tlb_kernel_range _ _ => true
  | _ => false

/-- The trace of `s1` is that of `s` with events added, each of which
satisfies `P`. -/
def Ext (P : Event → Prop) (s s1 : State) : Prop :=
  ∃ evs, s1.trace = evs ++ s.trace ∧ ∀ e ∈ evs, P e

/-- The entry of `bm_pte` for the fixmap slot `idx`. -/
def fixmap_slot (cfg : Config) (idx : Nat) : Nat := fixmap_pte cfg (__fix_to_virt cfg idx)

/-- An event of a run that creates no table in a directory whose tables are
those of `own`: not an allocation, and a store only into one of the three
fixmap slots that the descent uses, of a block entry into an entry of a pud or
pmd table of `own`, or of a page entry with the protection `prot` into an
entry of a page table of `own`. -/
def noalloc_event (cfg : Config) (own : Own) (prot : Nat) : Event → Prop
  | Event.alloc _ _ => False
  | Event.write p v =>
    (p = fixmap_slot cfg cfg.FIX_PTE ∨ p = fixmap_slot cfg (FIX_PMD cfg)
      ∨ p = fixmap_slot cfg (FIX_PUD cfg)) ∨
    ∃ T L b j, own T = some (L, b) ∧ j < 512 ∧ p = T + j * 8 ∧
      (((L = 1 ∨ L = 2) ∧ ∃ phys, v = phys ||| PMD_TYPE_SECT ||| mk_sect_prot prot) ∨
        (L = 3 ∧ ∃ pfn, v = pfn_pte pfn prot))
  | _ => True

/-- What is taken for granted about `bm_pte`, the table of the fixmap slots:
it is a page-aligned frame, and in the directory it is a page table or not a
table at all. -/
def SlotsOk (cfg : Config) (own : Own) : Prop :=
  cfg.bm_pte % 4096 = 0 ∧ (own cfg.bm_pte = none ∨ ∃ b, own cfg.bm_pte = some (3, b))

/-- The state `s1` comes from `s` by a run that creates no table: no frame
source was called, the tables of `own` are still the tables of a well-formed
directory, and the trace grew only by events of `noalloc_event`. -/
def NoTable (cfg : Config) (own : Own) (prot : Nat) (s s1 : State) : Prop :=
  s1.count = s.count ∧ WF s1.mem own ∧ Ext (noalloc_event cfg own prot) s s1

/-- The first step of the scenario, with the fixmap slots. -/
def scenario_map_fixmap : Res State :=
  init_pgd_fixmap cfg0 512 s0 (pgd_offset_raw cfg0.init_mm_pgd 0xffff000040000000) 0x40000000
    0xffff000040000000 0x200000 PAGE_KERNEL (some PgAlloc.early_pgtable_alloc)

/-- The tables of `fdt_state`: the kernel directory, and the pud and the pmd
table of the fixmap region. -/
def own_fdt : Own := fun T =>
  if T = cfg0.init_mm_pgd then some (0, 0xffff000000000000)
  else if T = 0x80001000 then some (1, cfg0.dt_virt_base / 549755813888 * 549755813888)
  else if T = 0x80002000 then some (2, cfg0.dt_virt_base / 1073741824 * 1073741824)
  else none

/-! ## Bit-level lemmas: masks as intervals of bit positions -/

/-- Bits of the mask with `w` ones starting at position `lo`. -/
theorem testBit_field_mask (lo w j : Nat) :
    ((2 ^ w - 1) <<< lo).testBit j = decide (lo ≤ j ∧ j < lo + w) := by
  rw [Nat.testBit_shiftLeft, Nat.testBit_two_pow_sub_one]
  by_cases h1 : lo ≤ j
  · by_cases h2 : j < lo + w
    · have : j - lo < w := by omega
      simp [h1, h2, this]
    · have : ¬ j - lo < w := by omega
      simp [h1, h2, this]
  · simp [h1]

/-- Masking with a field mask extracts the field. -/
theorem and_field_mask (e lo w : Nat) :
    e &&& ((2 ^ w - 1) <<< lo) = (e / 2 ^ lo % 2 ^ w) * 2 ^ lo := by
  apply Nat.eq_of_testBit_eq
  intro j
  rw [Nat.testBit_and, testBit_field_mask, ← Nat.shiftLeft_eq, Nat.testBit_shiftLeft,
    Nat.testBit_mod_two_pow, ← Nat.shiftRight_eq_div_pow, Nat.testBit_shiftRight]
  by_cases h1 : lo ≤ j
  · by_cases h2 : j < lo + w
    · have h3 : j - lo < w := by omega
      have h4 : lo + (j - lo) = j := by omega
      simp [h1, h2, h3, h4]
    · have h3 : ¬ j - lo < w := by omega
      simp [h1, h2, h3]
  · simp [h1]

theorem PAGE_MASK_eq : PAGE_MASK = (2 ^ 52 - 1) <<< 12 := by decide
theorem PMD_MASK_eq : PMD_MASK = (2 ^ 43 - 1) <<< 21 := by decide
theorem PUD_MASK_eq : PUD_MASK = (2 ^ 34 - 1) <<< 30 := by decide
theorem PGDIR_MASK_eq : PGDIR_MASK = (2 ^ 25 - 1) <<< 39 := by decide
theorem PTE_ADDR_MASK_eq : PTE_ADDR_MASK = (2 ^ 36 - 1) <<< 12 := by decide

theorem and_PAGE_MASK (e : Nat) : e &&& PAGE_MASK = e / 4096 % 4503599627370496 * 4096 := by
  rw [PAGE_MASK_eq, and_field_mask]; norm_num

theorem and_PMD_MASK (e : Nat) : e &&& PMD_MASK = e / 2097152 % 8796093022208 * 2097152 := by
  rw [PMD_MASK_eq, and_field_mask]; norm_num

theorem and_PUD_MASK (e : Nat) : e &&& PUD_MASK = e / 1073741824 % 17179869184 * 1073741824 := by
  rw [PUD_MASK_eq, and_field_mask]; norm_num

theorem and_PGDIR_MASK (e : Nat) :
    e &&& PGDIR_MASK = e / 549755813888 % 33554432 * 549755813888 := by
  rw [PGDIR_MASK_eq, and_field_mask]; norm_num

theorem and_PTE_ADDR_MASK (e : Nat) : e &&& PTE_ADDR_MASK = e / 4096 % 68719476736 * 4096 := by
  rw [PTE_ADDR_MASK_eq, and_field_mask]; norm_num

theorem and_PHYS_MASK (e : Nat) : e &&& PHYS_MASK = e % 281474976710656 := by
  show e &&& (2 ^ 48 - 1) = _
  rw [Nat.and_pow_two_sub_one_eq_mod]

theorem not64_PAGE_MASK : not64 PAGE_MASK = 2 ^ 12 - 1 := by decide
theorem not64_PMD_MASK : not64 PMD_MASK = 2 ^ 21 - 1 := by decide
theorem not64_PUD_MASK : not64 PUD_MASK = 2 ^ 30 - 1 := by decide

theorem and_not_PAGE_MASK (e : Nat) : e &&& not64 PAGE_MASK = e % 4096 := by
  rw [not64_PAGE_MASK]; exact Nat.and_pow_two_sub_one_eq_mod e 12

theorem and_not_PMD_MASK (e : Nat) : e &&& not64 PMD_MASK = e % 2097152 := by
  rw [not64_PMD_MASK]; exact Nat.and_pow_two_sub_one_eq_mod e 21

theorem and_not_SECTION_MASK (e : Nat) : e &&& not64 SECTION_MASK = e % 2097152 :=
  and_not_PMD_MASK e

theorem and_not_PUD_MASK (e : Nat) : e &&& not64 PUD_MASK = e % 1073741824 := by
  rw [not64_PUD_MASK]; exact Nat.and_pow_two_sub_one_eq_mod e 30

theorem pte_index_eq (a : Nat) : pte_index a = a / 4096 % 512 := by
  show (a >>> 12) &&& (2 ^ 9 - 1) = _
  rw [Nat.and_pow_two_sub_one_eq_mod, Nat.shiftRight_eq_div_pow]

theorem pmd_index_eq (a : Nat) : pmd_index a = a / 2097152 % 512 := by
  show (a >>> 21) &&& (2 ^ 9 - 1) = _
  rw [Nat.and_pow_two_sub_one_eq_mod, Nat.shiftRight_eq_div_pow]

theorem pud_index_eq (a : Nat) : pud_index a = a / 1073741824 % 512 := by
  show (a >>> 30) &&& (2 ^ 9 - 1) = _
  rw [Nat.and_pow_two_sub_one_eq_mod, Nat.shiftRight_eq_div_pow]

theorem pgd_index_eq (a : Nat) : pgd_index a = a / 549755813888 % 512 := by
  show (a >>> 39) &&& (2 ^ 9 - 1) = _
  rw [Nat.and_pow_two_sub_one_eq_mod, Nat.shiftRight_eq_div_pow]

/-! ## Shapes of the entries the code writes -/

theorem and_or_right (a b c : Nat) : (a ||| b) &&& c = (a &&& c) ||| (b &&& c) := by
  rw [Nat.and_comm, Nat.and_or_distrib_left, Nat.and_comm c a, Nat.and_comm c b]

/-- The attribute mask of `entry_prot`: bits 2..11 and 48..63. -/
theorem entry_prot_mask : not64 (PTE_ADDR_MASK ||| 3) = ((2 ^ 16 - 1) <<< 48) ||| ((2 ^ 10 - 1) <<< 2) := by
  decide

theorem and_three (e : Nat) : e &&& 3 = e % 4 := by
  show e &&& (2 ^ 2 - 1) = _
  rw [Nat.and_pow_two_sub_one_eq_mod]

/-- A page-aligned physical address below `2^48` has address bits only. -/
theorem aligned_and_addr (a : Nat) (h1 : a % 4096 = 0) (h2 : a < 281474976710656) :
    a &&& PTE_ADDR_MASK = a := by
  rw [and_PTE_ADDR_MASK]; omega

theorem aligned_entry_prot (a : Nat) (h1 : a % 4096 = 0) (h2 : a < 281474976710656) :
    entry_prot a = 0 := by
  unfold entry_prot
  rw [entry_prot_mask, Nat.and_or_distrib_left, and_field_mask, and_field_mask]
  have e1 : a / 2 ^ 48 % 2 ^ 16 * 2 ^ 48 = 0 := by norm_num; omega
  have e2 : a / 2 ^ 2 % 2 ^ 10 * 2 ^ 2 = 0 := by norm_num; omega
  rw [e1, e2]; rfl

theorem aligned_and_three (a : Nat) (h1 : a % 4096 = 0) : a &&& 3 = 0 := by
  rw [and_three]; omega

/-- An aligned address or-ed with attribute bits: the address field. -/
theorem or_addr (a p : Nat) (h1 : a % 4096 = 0) (h2 : a < 281474976710656)
    (hp : p &&& PTE_ADDR_MASK = 0) : (a ||| p) &&& PTE_ADDR_MASK = a := by
  rw [and_or_right, hp, aligned_and_addr a h1 h2, Nat.or_zero]

/-- An aligned address or-ed with attribute bits: the type bits. -/
theorem or_type (a p : Nat) (h1 : a % 4096 = 0) : (a ||| p) &&& 3 = p &&& 3 := by
  rw [and_or_right, aligned_and_three a h1, Nat.zero_or]

/-- An aligned address or-ed with attribute bits: the attribute bits. -/
theorem or_prot (a p : Nat) (h1 : a % 4096 = 0) (h2 : a < 281474976710656) :
    entry_prot (a ||| p) = entry_prot p := by
  have := aligned_entry_prot a h1 h2
  unfold entry_prot at *
  rw [and_or_right, this, Nat.zero_or]

theorem sect_bits_type (prot : Nat) : sect_bits prot &&& 3 = 1 := by
  unfold sect_bits mk_sect_prot
  rw [and_or_right, Nat.and_assoc]
  have e1 : not64 PTE_TABLE_BIT &&& 3 = 2 ^ 1 - 1 := by decide
  rw [e1, Nat.and_pow_two_sub_one_eq_mod]
  have e2 : PMD_TYPE_SECT &&& 3 = 1 := by decide
  rw [e2]
  have h : prot % 2 ^ 1 = 0 ∨ prot % 2 ^ 1 = 1 := by omega
  rcases h with h | h <;> rw [h] <;> decide

theorem sect_bits_addr (prot : Nat) (hp : prot &&& PTE_ADDR_MASK = 0) :
    sect_bits prot &&& PTE_ADDR_MASK = 0 := by
  unfold sect_bits mk_sect_prot
  rw [and_or_right, Nat.and_assoc, Nat.and_comm (not64 PTE_TABLE_BIT), ← Nat.and_assoc, hp]
  decide

theorem sect_bits_prot (prot : Nat) : entry_prot (sect_bits prot) = entry_prot prot := by
  unfold sect_bits mk_sect_prot entry_prot
  rw [and_or_right, Nat.and_assoc]
  have e1 : not64 PTE_TABLE_BIT &&& not64 (PTE_ADDR_MASK ||| 3) = not64 (PTE_ADDR_MASK ||| 3) := by
    decide
  have e2 : PMD_TYPE_SECT &&& not64 (PTE_ADDR_MASK ||| 3) = 0 := by decide
  rw [e1, e2, Nat.zero_or]

theorem or_eq_zero (x y : Nat) : x ||| y = 0 ↔ x = 0 ∧ y = 0 := by
  constructor
  · intro h
    have h1 : x ≤ x ||| y := Nat.le_of_testBit (by intro i hi; simp [hi])
    have h2 : y ≤ x ||| y := Nat.le_of_testBit (by intro i hi; simp [hi])
    omega
  · rintro ⟨rfl, rfl⟩; rfl

/-- The alignment test `((a | b | c) & ~MASK) == 0` of the block branches. -/
theorem or3_and_low (a b c n : Nat) :
    (a ||| b ||| c) &&& (2 ^ n - 1) = 0 ↔ a % 2 ^ n = 0 ∧ b % 2 ^ n = 0 ∧ c % 2 ^ n = 0 := by
  rw [and_or_right, and_or_right, or_eq_zero, or_eq_zero, Nat.and_pow_two_sub_one_eq_mod,
    Nat.and_pow_two_sub_one_eq_mod, Nat.and_pow_two_sub_one_eq_mod]
  tauto

theorem section_aligned_iff (a b c : Nat) :
    (a ||| b ||| c) &&& not64 SECTION_MASK = 0 ↔
      a % 2097152 = 0 ∧ b % 2097152 = 0 ∧ c % 2097152 = 0 := by
  have h : not64 SECTION_MASK = 2 ^ 21 - 1 := by decide
  rw [h, or3_and_low]; norm_num

theorem pud_aligned_iff (a b c : Nat) :
    (a ||| b ||| c) &&& not64 PUD_MASK = 0 ↔
      a % 1073741824 = 0 ∧ b % 1073741824 = 0 ∧ c % 1073741824 = 0 := by
  rw [not64_PUD_MASK, or3_and_low]; norm_num

/-! ## The block splitters -/

theorem set_entry_mem (s : State) (p v q : Nat) :
    (set_entry s p v).mem q = if q = p then v else s.mem q := rfl

theorem split_pmd_loop_spec : ∀ (fuel : Nat) (s : State) (pte pfn i : Nat),
    1 ≤ fuel → i + fuel = 512 → pfn + fuel ≤ U64 →
    (∀ k, k < fuel → (split_pmd_loop fuel s pte pfn i).mem (pte + k * 8)
        = pfn_pte (pfn + k) PAGE_KERNEL_EXEC) ∧
    (∀ q, (∀ k, k < fuel → q ≠ pte + k * 8) → (split_pmd_loop fuel s pte pfn i).mem q = s.mem q) ∧
    (split_pmd_loop fuel s pte pfn i).trace.length = s.trace.length + fuel ∧
    (split_pmd_loop fuel s pte pfn i).count = s.count := by
  intro fuel
  induction fuel with
  | zero => intro s pte pfn i h; omega
  | succ n ih =>
    intro s pte pfn i _ hi hpfn
    unfold split_pmd_loop
    by_cases hlt : i + 1 < PTRS_PER_PTE
    · have hlt2 : i + 1 < 512 := hlt
      simp only [hlt, if_true]
      have hmod : (pfn + 1) % U64 = pfn + 1 := Nat.mod_eq_of_lt (by omega)
      rw [hmod]
      obtain ⟨h1, h2, h3, h4⟩ := ih (set_pte s pte (pfn_pte pfn PAGE_KERNEL_EXEC)) (pte + 8)
        (pfn + 1) (i + 1) (by omega) (by omega) (by omega)
      refine ⟨?_, ?_, ?_, ?_⟩
      · intro k hk
        rcases Nat.eq_zero_or_pos k with hk0 | hk0
        · subst hk0
          rw [h2 _ (by intro k _; omega)]
          simp [set_pte, set_entry_mem]
        · have := h1 (k - 1) (by omega)
          have e1 : pte + 8 + (k - 1) * 8 = pte + k * 8 := by omega
          have e2 : pfn + 1 + (k - 1) = pfn + k := by omega
          rw [e1, e2] at this
          exact this
      · intro q hq
        rw [h2 q (by intro k hk; have := hq (k + 1) (by omega); omega)]
        have := hq 0 (by omega)
        simp only [set_pte, set_entry_mem]
        rw [if_neg (by omega)]
      · rw [h3]; simp [set_pte, set_entry]; omega
      · rw [h4]; rfl
    · have hlt2 : ¬ i + 1 < 512 := hlt
      have hn : n = 0 := by omega
      subst hn
      simp only [hlt, if_false]
      refine ⟨?_, ?_, ?_, ?_⟩
      · intro k hk
        have : k = 0 := by omega
        subst this
        simp [set_pte, set_entry_mem]
      · intro q hq
        have := hq 0 (by omega)
        simp only [set_pte, set_entry_mem]
        rw [if_neg (by omega)]
      · simp [set_pte, set_entry]
      · rfl

theorem split_pud_loop_spec (prot : Nat) : ∀ (fuel : Nat) (s : State) (pmd addr i : Nat),
    1 ≤ fuel → i + fuel = 512 → addr + fuel * 2097152 ≤ U64 →
    (∀ k, k < fuel → (split_pud_loop prot fuel s pmd addr i).mem (pmd + k * 8)
        = (addr + k * 2097152) ||| prot) ∧
    (∀ q, (∀ k, k < fuel → q ≠ pmd + k * 8) →
        (split_pud_loop prot fuel s pmd addr i).mem q = s.mem q) ∧
    (split_pud_loop prot fuel s pmd addr i).trace.length = s.trace.length + fuel ∧
    (split_pud_loop prot fuel s pmd addr i).count = s.count := by
  intro fuel
  induction fuel with
  | zero => intro s pmd addr i h; omega
  | succ n ih =>
    intro s pmd addr i _ hi haddr
    unfold split_pud_loop
    have hsz : PMD_SIZE = 2097152 := by decide
    by_cases hlt : i + 1 < PTRS_PER_PMD
    · have hlt2 : i + 1 < 512 := hlt
      simp only [hlt, if_true]
      have hmod : (addr + PMD_SIZE) % U64 = addr + 2097152 := by
        rw [hsz]; exact Nat.mod_eq_of_lt (by omega)
      rw [hmod]
      obtain ⟨h1, h2, h3, h4⟩ := ih (set_pmd s pmd (addr ||| prot)) (pmd + 8)
        (addr + 2097152) (i + 1) (by omega) (by omega) (by omega)
      refine ⟨?_, ?_, ?_, ?_⟩
      · intro k hk
        rcases Nat.eq_zero_or_pos k with hk0 | hk0
        · subst hk0
          rw [h2 _ (by intro k _; omega)]
          simp [set_pmd, set_entry_mem]
        · have := h1 (k - 1) (by omega)
          have e1 : pmd + 8 + (k - 1) * 8 = pmd + k * 8 := by omega
          have e2 : addr + 2097152 + (k - 1) * 2097152 = addr + k * 2097152 := by omega
          rw [e1, e2] at this
          exact this
      · intro q hq
        rw [h2 q (by intro k hk; have := hq (k + 1) (by omega); omega)]
        have := hq 0 (by omega)
        simp only [set_pmd, set_entry_mem]
        rw [if_neg (by omega)]
      · rw [h3]; simp [set_pmd, set_entry]; omega
      · rw [h4]; rfl
    · have hlt2 : ¬ i + 1 < 512 := hlt
      have hn : n = 0 := by omega
      subst hn
      simp only [hlt, if_false]
      refine ⟨?_, ?_, ?_, ?_⟩
      · intro k hk
        have : k = 0 := by omega
        subst this
        simp [set_pmd, set_entry_mem]
      · intro q hq
        have := hq 0 (by omega)
        simp only [set_pmd, set_entry_mem]
        rw [if_neg (by omega)]
      · simp [set_pmd, set_entry]
      · rfl

/-! ### Fields of the entries involved in a split -/

theorem pmd_pfn_eq (e : Nat) : pmd_pfn e = e / 2097152 % 134217728 * 512 := by
  unfold pmd_pfn
  rw [and_PMD_MASK, and_PHYS_MASK]
  show _ >>> 12 = _
  rw [Nat.shiftRight_eq_div_pow]
  norm_num
  omega

theorem pud_pfn_eq (e : Nat) : pud_pfn e = e / 1073741824 % 262144 * 262144 := by
  unfold pud_pfn
  rw [and_PUD_MASK, and_PHYS_MASK]
  show _ >>> 12 = _
  rw [Nat.shiftRight_eq_div_pow]
  norm_num
  omega

theorem pmd_out_eq (e : Nat) : e &&& PMD_MASK &&& PHYS_MASK = e / 2097152 % 134217728 * 2097152 := by
  rw [and_PMD_MASK, and_PHYS_MASK]; omega

theorem pud_out_eq (e : Nat) : e &&& PUD_MASK &&& PHYS_MASK = e / 1073741824 % 262144 * 1073741824 := by
  rw [and_PUD_MASK, and_PHYS_MASK]; omega

theorem pfn_pte_eq (pfn prot : Nat) (h : pfn < 68719476736) :
    pfn_pte pfn prot = (pfn * 4096) ||| prot := by
  unfold pfn_pte
  show ((pfn <<< 12) % U64) ||| prot = _
  rw [Nat.shiftLeft_eq, Nat.mod_eq_of_lt (by unfold U64; omega)]

theorem pte_pfn_pfn_pte (x prot : Nat) (hx : x < 68719476736)
    (hp : prot &&& PTE_ADDR_MASK = 0) : pte_pfn (pfn_pte x prot) = x := by
  have h1 := or_addr (x * 4096) prot (by omega) (by omega) hp
  rw [pfn_pte_eq x prot hx]
  rw [and_PTE_ADDR_MASK] at h1
  unfold pte_pfn
  rw [and_PHYS_MASK]
  show _ >>> 12 = _
  rw [Nat.shiftRight_eq_div_pow]
  norm_num
  omega

theorem PAGE_KERNEL_EXEC_addr : PAGE_KERNEL_EXEC &&& PTE_ADDR_MASK = 0 := by decide
theorem PAGE_KERNEL_EXEC_type : PAGE_KERNEL_EXEC &&& 3 = 3 := by decide

/-- State after `split_pmd`: entry `k` of the new table is the page entry for
frame `pmd_pfn + k` with `PAGE_KERNEL_EXEC`. -/
theorem split_pmd_spec (s : State) (pmd pte : Nat) :
    (∀ k, k < 512 → (split_pmd s pmd pte).mem (pte + k * 8)
        = pfn_pte (pmd_pfn (s.mem pmd) + k) PAGE_KERNEL_EXEC) ∧
    (∀ q, (∀ k, k < 512 → q ≠ pte + k * 8) → (split_pmd s pmd pte).mem q = s.mem q) ∧
    (split_pmd s pmd pte).trace.length = s.trace.length + 512 ∧
    (split_pmd s pmd pte).count = s.count := by
  have hb : pmd_pfn (s.mem pmd) + 512 ≤ U64 := by
    rw [pmd_pfn_eq]; unfold U64; omega
  have hn : PTRS_PER_PTE = 512 := by decide
  unfold split_pmd
  rw [hn]
  exact split_pmd_loop_spec 512 s pte (pmd_pfn (s.mem pmd)) 0 (by omega) (by omega) hb

/-- State after `split_pud`: entry `k` of the new table is the block address
advanced by `k` sections, or-ed with the non-address bits of the old entry. -/
theorem split_pud_spec (s : State) (old_pud pmd : Nat) :
    (∀ k, k < 512 → (split_pud s old_pud pmd).mem (pmd + k * 8)
        = (s.mem old_pud / 1073741824 % 262144 * 1073741824 + k * 2097152) |||
          (s.mem old_pud ^^^ (s.mem old_pud / 1073741824 % 262144 * 1073741824))) ∧
    (∀ q, (∀ k, k < 512 → q ≠ pmd + k * 8) → (split_pud s old_pud pmd).mem q = s.mem q) ∧
    (split_pud s old_pud pmd).trace.length = s.trace.length + 512 ∧
    (split_pud s old_pud pmd).count = s.count := by
  have ha : (pud_pfn (s.mem old_pud) <<< PAGE_SHIFT) % U64
      = s.mem old_pud / 1073741824 % 262144 * 1073741824 := by
    rw [pud_pfn_eq]
    show (_ <<< 12) % U64 = _
    rw [Nat.shiftLeft_eq]
    unfold U64
    omega
  have hn : PTRS_PER_PMD = 512 := by decide
  unfold split_pud
  simp only [ha]
  rw [hn]
  exact split_pud_loop_spec _ 512 s pmd _ 0 (by omega) (by omega) (by unfold U64; omega)

theorem pmd_out_mask : PMD_MASK &&& PHYS_MASK = (2 ^ 27 - 1) <<< 21 := by decide
theorem pud_res_mask : PUD_SIZE - PMD_SIZE = (2 ^ 9 - 1) <<< 21 := by decide

/-- Output address of entry `k` written by `split_pud`, when the bits of the
old entry between the section and the 1 GiB granule are zero. -/
theorem split_pud_entry_out (e k : Nat) (hk : k < 512)
    (hres : e &&& (PUD_SIZE - PMD_SIZE) = 0) :
    ((e / 1073741824 % 262144 * 1073741824 + k * 2097152) |||
      (e ^^^ (e / 1073741824 % 262144 * 1073741824))) &&& PMD_MASK &&& PHYS_MASK
    = e / 1073741824 % 262144 * 1073741824 + k * 2097152 := by
  rw [pud_res_mask, and_field_mask] at hres
  rw [Nat.and_assoc, pmd_out_mask, and_or_right, Nat.and_xor_distrib_right,
    and_field_mask, and_field_mask, and_field_mask]
  norm_num at hres ⊢
  have e1 : e / 2097152 % 134217728 * 2097152 = e / 1073741824 % 262144 * 1073741824 := by omega
  have e2 : e / 1073741824 % 262144 * 1073741824 / 2097152 % 134217728 * 2097152
      = e / 1073741824 % 262144 * 1073741824 := by omega
  have e3 : (e / 1073741824 % 262144 * 1073741824 + k * 2097152) / 2097152 % 134217728 * 2097152
      = e / 1073741824 % 262144 * 1073741824 + k * 2097152 := by omega
  rw [e1, e2, e3, Nat.xor_self, Nat.or_zero]

theorem split_pud_entry_type (e k : Nat) :
    ((e / 1073741824 % 262144 * 1073741824 + k * 2097152) |||
      (e ^^^ (e / 1073741824 % 262144 * 1073741824))) &&& 3 = e &&& 3 := by
  rw [or_type _ _ (by omega), Nat.and_xor_distrib_right,
    aligned_and_three (e / 1073741824 % 262144 * 1073741824) (by omega), Nat.xor_zero]

theorem split_pud_entry_prot (e k : Nat) (hk : k < 512) :
    entry_prot ((e / 1073741824 % 262144 * 1073741824 + k * 2097152) |||
      (e ^^^ (e / 1073741824 % 262144 * 1073741824))) = entry_prot e := by
  rw [or_prot _ _ (by omega) (by omega)]
  have := aligned_entry_prot (e / 1073741824 % 262144 * 1073741824) (by omega) (by omega)
  unfold entry_prot at *
  rw [Nat.and_xor_distrib_right, this, Nat.xor_zero]

theorem split_pmd_entry_type (x : Nat) (hx : x < 68719476736) :
    pfn_pte x PAGE_KERNEL_EXEC &&& 3 = 3 := by
  rw [pfn_pte_eq x _ hx, or_type _ _ (by omega)]; decide

theorem split_pmd_entry_addr (x : Nat) (hx : x < 68719476736) :
    pfn_pte x PAGE_KERNEL_EXEC &&& PTE_ADDR_MASK = x * 4096 := by
  rw [pfn_pte_eq x _ hx, or_addr _ _ (by omega) (by omega) PAGE_KERNEL_EXEC_addr]

theorem split_pmd_entry_prot (x : Nat) (hx : x < 68719476736) :
    entry_prot (pfn_pte x PAGE_KERNEL_EXEC) = entry_prot PAGE_KERNEL_EXEC := by
  rw [pfn_pte_eq x _ hx, or_prot _ _ (by omega) (by omega)]

/-! ## From the structure of the tables to the translation -/

theorem block_entry_eq (P prot : Nat) :
    P ||| PMD_TYPE_SECT ||| mk_sect_prot prot = P ||| sect_bits prot := by
  unfold sect_bits; rw [Nat.or_assoc]

theorem block_entry_type (P prot : Nat) (h1 : P % 4096 = 0) :
    (P ||| PMD_TYPE_SECT ||| mk_sect_prot prot) &&& 3 = 1 := by
  rw [block_entry_eq, or_type _ _ h1, sect_bits_type]

theorem block_entry_addr (P prot : Nat) (h1 : P % 4096 = 0) (h2 : P < 281474976710656)
    (hp : prot &&& PTE_ADDR_MASK = 0) :
    (P ||| PMD_TYPE_SECT ||| mk_sect_prot prot) &&& PTE_ADDR_MASK = P := by
  rw [block_entry_eq, or_addr _ _ h1 h2 (sect_bits_addr prot hp)]

theorem block_entry_prot (P prot : Nat) (h1 : P % 4096 = 0) (h2 : P < 281474976710656) :
    entry_prot (P ||| PMD_TYPE_SECT ||| mk_sect_prot prot) = entry_prot prot := by
  rw [block_entry_eq, or_prot _ _ h1 h2, sect_bits_prot]

theorem block_entry_pmd_out (P prot : Nat) (h1 : P % 2097152 = 0) (h2 : P < 281474976710656)
    (hp : prot &&& PTE_ADDR_MASK = 0) :
    (P ||| PMD_TYPE_SECT ||| mk_sect_prot prot) &&& PMD_MASK &&& PHYS_MASK = P := by
  have h := block_entry_addr P prot (by omega) h2 hp
  rw [and_PTE_ADDR_MASK] at h
  rw [pmd_out_eq]
  omega

theorem block_entry_pud_out (P prot : Nat) (h1 : P % 1073741824 = 0) (h2 : P < 281474976710656)
    (hp : prot &&& PTE_ADDR_MASK = 0) :
    (P ||| PUD_TYPE_SECT ||| mk_sect_prot prot) &&& PUD_MASK &&& PHYS_MASK = P := by
  have h := block_entry_addr P prot (by omega) h2 hp
  rw [and_PTE_ADDR_MASK] at h
  rw [pud_out_eq]
  show (P ||| PMD_TYPE_SECT ||| mk_sect_prot prot) / 1073741824 % 262144 * 1073741824 = P
  omega

theorem page_entry_type (x prot : Nat) (hx : x < 68719476736) :
    pfn_pte x prot &&& 3 = prot &&& 3 := by
  rw [pfn_pte_eq x _ hx, or_type _ _ (by omega)]

theorem page_entry_addr (x prot : Nat) (hx : x < 68719476736)
    (hp : prot &&& PTE_ADDR_MASK = 0) : pfn_pte x prot &&& PTE_ADDR_MASK = x * 4096 := by
  rw [pfn_pte_eq x _ hx, or_addr _ _ (by omega) (by omega) hp]

theorem page_entry_prot (x prot : Nat) (hx : x < 68719476736) :
    entry_prot (pfn_pte x prot) = entry_prot prot := by
  rw [pfn_pte_eq x _ hx, or_prot _ _ (by omega) (by omega)]

theorem walk_pte_of_Mapped3 (R : Req) (WB : Nat) (mem : Nat → Nat) (T a va : Nat)
    (hv : R.Valid WB) (ha1 : R.A0 ≤ a) (ha2 : a < R.E) (ha3 : a % 4096 = 0)
    (hva1 : a ≤ va) (hva2 : va < a + 4096) (h : Mapped3 R mem T a) :
    walk_pte mem T va = some (R.P0 + (va - R.A0), entry_prot R.prot) := by
  obtain ⟨h1, h2, h3, h4, h5, h6, h7, h8, h9, h10, h11⟩ := hv
  have hx : (R.P0 + (a - R.A0)) / 4096 < 68719476736 := by omega
  have hi : pte_index va = pte_index a := by rw [pte_index_eq, pte_index_eq]; omega
  unfold Mapped3 at h
  unfold walk_pte
  simp only [hi, h, page_entry_type _ _ hx, h11, page_entry_addr _ _ hx h10,
    page_entry_prot _ _ hx, PTE_TYPE_PAGE, beq_self_eq_true, if_true]
  have hps : PAGE_SIZE = 4096 := by decide
  have e : (R.P0 + (a - R.A0)) / 4096 * 4096 + va % 4096 = R.P0 + (va - R.A0) := by omega
  rw [hps, e]

theorem walk_pmd_of_Mapped2 (cfg : Config) (R : Req) (WB : Nat) (mem : Nat → Nat) (T a va : Nat)
    (hv : R.Valid WB) (ha1 : R.A0 ≤ a) (ha2 : a < R.E) (ha3 : a % 4096 = 0)
    (hva1 : a ≤ va) (hva2 : va < a + 4096) (h : Mapped2 cfg R mem T a) :
    walk_pmd mem T va = some (R.P0 + (va - R.A0), entry_prot R.prot) := by
  have hi : pmd_index va = pmd_index a := by rw [pmd_index_eq, pmd_index_eq]; omega
  unfold Mapped2 at h
  unfold walk_pmd
  rw [hi]
  by_cases hb : big2M cfg R a
  · rw [if_pos hb] at h
    obtain ⟨_, b2, b3, b4⟩ := hb
    have hlt : R.P0 + (a / 2097152 * 2097152 - R.A0) < 281474976710656 := by
      have := hv.p_le; omega
    have ht := block_entry_type (R.P0 + (a / 2097152 * 2097152 - R.A0)) R.prot (by omega)
    have ho := block_entry_pmd_out _ R.prot b4 hlt hv.prot_addr
    have hp := block_entry_prot (R.P0 + (a / 2097152 * 2097152 - R.A0)) R.prot (by omega) hlt
    have hsc : pmd_sect ((R.P0 + (a / 2097152 * 2097152 - R.A0)) ||| PMD_TYPE_SECT |||
        mk_sect_prot R.prot) = true := by
      simp only [pmd_sect, PMD_TYPE_MASK]; rw [ht]; rfl
    have hps : PMD_SIZE = 2097152 := by decide
    have e : R.P0 + (a / 2097152 * 2097152 - R.A0) + va % 2097152 = R.P0 + (va - R.A0) := by
      omega
    simp only [h, hsc, if_true, ho, hp, hps, e]
  · rw [if_neg hb] at h
    obtain ⟨h1, h2⟩ := h
    have hns : pmd_sect (mem (T + pmd_index a * 8)) = false := by
      simp [pmd_sect, PMD_TYPE_MASK, PMD_TYPE_SECT, h1]
    have hts : pmd_table (mem (T + pmd_index a * 8)) = true := by
      simp [pmd_table, PMD_TYPE_MASK, PMD_TYPE_TABLE, h1]
    simp only [hns, hts, if_true, Bool.false_eq_true, if_false, pmd_page_paddr]
    exact walk_pte_of_Mapped3 R WB mem _ a va hv ha1 ha2 ha3 hva1 hva2 h2

theorem walk_pud_of_Mapped1 (cfg : Config) (R : Req) (WB : Nat) (mem : Nat → Nat) (T a va : Nat)
    (hv : R.Valid WB) (ha1 : R.A0 ≤ a) (ha2 : a < R.E) (ha3 : a % 4096 = 0)
    (hva1 : a ≤ va) (hva2 : va < a + 4096) (h : Mapped1 cfg R mem T a) :
    walk_pud mem T va = some (R.P0 + (va - R.A0), entry_prot R.prot) := by
  have hi : pud_index va = pud_index a := by rw [pud_index_eq, pud_index_eq]; omega
  unfold Mapped1 at h
  unfold walk_pud
  rw [hi]
  by_cases hb : big1G cfg R a
  · rw [if_pos hb] at h
    obtain ⟨_, _, b2, b3, b4⟩ := hb
    have hlt : R.P0 + (a / 1073741824 * 1073741824 - R.A0) < 281474976710656 := by
      have := hv.p_le; omega
    have ht : ((R.P0 + (a / 1073741824 * 1073741824 - R.A0)) ||| PUD_TYPE_SECT |||
        mk_sect_prot R.prot) &&& 3 = 1 :=
      block_entry_type (R.P0 + (a / 1073741824 * 1073741824 - R.A0)) R.prot (by omega)
    have ho := block_entry_pud_out _ R.prot b4 hlt hv.prot_addr
    have hp := block_entry_prot (R.P0 + (a / 1073741824 * 1073741824 - R.A0)) R.prot
      (by omega) hlt
    have hsc : pud_sect ((R.P0 + (a / 1073741824 * 1073741824 - R.A0)) ||| PUD_TYPE_SECT |||
        mk_sect_prot R.prot) = true := by
      simp only [pud_sect, PMD_TYPE_MASK]; rw [ht]; rfl
    have hps : PUD_SIZE = 1073741824 := by decide
    have e : R.P0 + (a / 1073741824 * 1073741824 - R.A0) + va % 1073741824
        = R.P0 + (va - R.A0) := by
      omega
    have hp2 : entry_prot ((R.P0 + (a / 1073741824 * 1073741824 - R.A0)) ||| PUD_TYPE_SECT |||
        mk_sect_prot R.prot) = entry_prot R.prot := hp
    simp only [h, hsc, if_true, ho, hp2, hps, e]
  · rw [if_neg hb] at h
    obtain ⟨h1, h2⟩ := h
    have hns : pud_sect (mem (T + pud_index a * 8)) = false := by
      simp [pud_sect, PMD_TYPE_MASK, PUD_TYPE_SECT, h1]
    have hts : pud_table (mem (T + pud_index a * 8)) = true := by
      simp [pud_table, PMD_TYPE_MASK, PUD_TYPE_TABLE, h1]
    simp only [hns, hts, if_true, Bool.false_eq_true, if_false, pud_page_paddr]
    exact walk_pmd_of_Mapped2 cfg R WB mem _ a va hv ha1 ha2 ha3 hva1 hva2 h2

/-- A page mapped as the request asks translates as the request asks. -/
theorem resolve_of_Mapped0 (cfg : Config) (R : Req) (WB : Nat) (mem : Nat → Nat)
    (pgdir a va : Nat)
    (hv : R.Valid WB) (ha1 : R.A0 ≤ a) (ha2 : a < R.E) (ha3 : a % 4096 = 0)
    (hva1 : a ≤ va) (hva2 : va < a + 4096) (h : Mapped0 cfg R mem pgdir a) :
    resolve mem pgdir va = some (R.P0 + (va - R.A0), entry_prot R.prot) := by
  have hi : pgd_index va = pgd_index a := by rw [pgd_index_eq, pgd_index_eq]; omega
  obtain ⟨h1, h2⟩ := h
  unfold resolve
  simp only [hi, h1, PUD_TYPE_TABLE, beq_self_eq_true, if_true, pgd_page_paddr]
  exact walk_pud_of_Mapped1 cfg R WB mem _ a va hv ha1 ha2 ha3 hva1 hva2 h2

/-! ## Address stepping -/

theorem U64_eq : U64 = 18446744073709551616 := by decide

/-- The step of the pmd loop: the next section boundary or the end, whichever
comes first; `E` is the true end, of which the code holds `E % 2^64`. -/
theorem pmd_addr_end_eq (addr E : Nat) (h1 : addr < E) (h2 : E ≤ 18446744073709551616) :
    pmd_addr_end addr (E % U64) = (min ((addr / 2097152 + 1) * 2097152) E) % U64 := by
  unfold pmd_addr_end addr_end
  have hs : PMD_SIZE = 2097152 := by decide
  simp only [hs, and_PMD_MASK, U64_eq]
  split <;> omega

theorem pud_addr_end_eq (addr E : Nat) (h1 : addr < E) (h2 : E ≤ 18446744073709551616) :
    pud_addr_end addr (E % U64) = (min ((addr / 1073741824 + 1) * 1073741824) E) % U64 := by
  unfold pud_addr_end addr_end
  have hs : PUD_SIZE = 1073741824 := by decide
  simp only [hs, and_PUD_MASK, U64_eq]
  split <;> omega

theorem pgd_addr_end_eq (addr E : Nat) (h1 : addr < E) (h2 : E ≤ 18446744073709551616) :
    pgd_addr_end addr (E % U64) = (min ((addr / 549755813888 + 1) * 549755813888) E) % U64 := by
  unfold pgd_addr_end addr_end
  have hs : PGDIR_SIZE = 549755813888 := by decide
  simp only [hs, and_PGDIR_MASK, U64_eq]
  split <;> omega

/-! ## The page-table level -/

/-- The loop of `alloc_init_pte` over `[lo, hi)` inside the section chunk at
`c`, on the page table at `T`: it ends, having written the entry of every page
of the range and nothing else. -/
theorem alloc_init_pte_loop_spec (cfg : Config) (prot T c hi : Nat)
    (hhi : hi % 4096 = 0) (hc : c % 2097152 = 0) (hhc : hi ≤ c + 2097152)
    (hU : hi ≤ 18446744073709551616) :
    ∀ (fuel : Nat) (s : State) (lo pfn : Nat),
      lo % 4096 = 0 → lo < hi → c ≤ lo → (hi - lo) / 4096 ≤ fuel →
      pfn + (hi - lo) / 4096 ≤ 18446744073709551616 →
      ∃ s1, alloc_init_pte_loop cfg prot (hi % U64) fuel s (T + pte_index lo * 8) lo pfn
          = Res.ok s1 ∧
        (∀ a, lo ≤ a → a < hi → a % 4096 = 0 →
          s1.mem (T + pte_index a * 8) = pfn_pte (pfn + (a - lo) / 4096) prot) ∧
        (∀ q, (∀ a, lo ≤ a → a < hi → a % 4096 = 0 → q ≠ T + pte_index a * 8) →
          s1.mem q = s.mem q) ∧
        s1.count = s.count := by
  intro fuel
  induction fuel with
  | zero => intro s lo pfn h1 h2 h3 h4; omega
  | succ n ih =>
    intro s lo pfn h1 h2 h3 h4 h5
    rw [alloc_init_pte_loop]
    have hps : PAGE_SIZE = 4096 := by decide
    have hio : (iotable_on == 1) = false := by decide
    simp only [hio, Bool.false_eq_true, if_false, hps, U64_eq]
    by_cases hnext : lo + 4096 = hi
    · have hcond : ((lo + 4096) % 18446744073709551616 != hi % 18446744073709551616) = false := by
        rw [hnext]; simp
      rw [hcond]
      refine ⟨_, rfl, ?_, ?_, rfl⟩
      · intro a ha1 ha2 ha3
        have : a = lo := by omega
        subst this
        simp [set_pte, set_entry_mem]
      · intro q hq
        have := hq lo (by omega) h2 h1
        simp only [set_pte, set_entry_mem]
        rw [if_neg this]
    · have hne : (lo + 4096) % 18446744073709551616 ≠ hi % 18446744073709551616 := by omega
      have hcond : ((lo + 4096) % 18446744073709551616 != hi % 18446744073709551616) = true := by
        simpa using hne
      rw [hcond]
      simp only [if_true]
      have hm1 : (lo + 4096) % 18446744073709551616 = lo + 4096 := by omega
      have hm2 : (pfn + 1) % 18446744073709551616 = pfn + 1 := by omega
      have hidx : T + pte_index lo * 8 + 8 = T + pte_index (lo + 4096) * 8 := by
        rw [pte_index_eq, pte_index_eq]; omega
      rw [hm1, hm2, hidx]
      obtain ⟨s1, e1, e2, e3, e4⟩ := ih (set_pte s (T + pte_index lo * 8) (pfn_pte pfn prot))
        (lo + 4096) (pfn + 1) (by omega) (by omega) (by omega) (by omega) (by omega)
      rw [U64_eq] at e1
      refine ⟨s1, e1, ?_, ?_, ?_⟩
      · intro a ha1 ha2 ha3
        by_cases hal : a = lo
        · subst hal
          rw [e3 _ (by
            intro a2 hb1 hb2 hb3
            rw [pte_index_eq, pte_index_eq]; omega)]
          simp [set_pte, set_entry_mem]
        · have := e2 a (by omega) ha2 ha3
          rw [this]
          have e : pfn + 1 + (a - (lo + 4096)) / 4096 = pfn + (a - lo) / 4096 := by omega
          rw [e]
      · intro q hq
        rw [e3 q (by intro a ha1 ha2 ha3; exact hq a (by omega) ha2 ha3)]
        have := hq lo (by omega) h2 h1
        simp only [set_pte, set_entry_mem]
        rw [if_neg this]
      · rw [e4]; rfl

/-! ## Invariant lemmas -/

theorem frame_of_slot (T j : Nat) (hT : T % 4096 = 0) (hj : j < 512) :
    (T + j * 8) / 4096 * 4096 = T := by omega

theorem slot_inj (T T1 j j1 : Nat) (hT : T % 4096 = 0) (hT1 : T1 % 4096 = 0)
    (hj : j < 512) (hj1 : j1 < 512) (h : T + j * 8 = T1 + j1 * 8) : T = T1 ∧ j = j1 := by
  omega

theorem EntryOk.mono {own own1 : Own} (hle : Own.le own own1) {L b j e : Nat}
    (h : EntryOk own L b j e) : EntryOk own1 L b j e := by
  rcases h with h | h | ⟨h1, h2⟩
  · exact Or.inl h
  · exact Or.inr (Or.inl h)
  · exact Or.inr (Or.inr ⟨h1, hle _ _ h2⟩)

/-- Memory that agrees with a well-formed one on the entries of the owned
tables above the page level is well formed. -/
theorem WF.of_agree {mem mem1 : Nat → Nat} {own : Own} (h : WF mem own)
    (hag : ∀ T L b j, own T = some (L, b) → L < 3 → j < 512 →
      EntryOk own L b j (mem (T + j * 8)) → EntryOk own L b j (mem1 (T + j * 8))) :
    WF mem1 own := by
  intro T L b hT
  obtain ⟨h1, h2, h3, h4, h5⟩ := h T L b hT
  exact ⟨h1, h2, h3, h4, fun hL j hj => hag T L b j hT hL hj (h5 hL j hj)⟩

/-- Writing a well-formed entry into an owned table keeps the directory well
formed. -/
theorem WF.set {mem : Nat → Nat} {own : Own} (h : WF mem own) (T L b j v : Nat)
    (hT : own T = some (L, b)) (hj : j < 512) (hv : L < 3 → EntryOk own L b j v) :
    WF (fun q => if q = T + j * 8 then v else mem q) own := by
  apply h.of_agree
  intro T1 L1 b1 j1 hT1 hL1 hj1 hok
  by_cases heq : T1 + j1 * 8 = T + j * 8
  · have hTa := (h T L b hT).2.1
    have hT1a := (h T1 L1 b1 hT1).2.1
    obtain ⟨e1, e2⟩ := slot_inj T1 T j1 j hT1a hTa hj1 hj heq
    subst e1; subst e2
    rw [hT] at hT1
    cases hT1
    simp only [if_true]
    exact hv hL1
  · simp only [heq, if_false]
    exact hok

/-- Writing anywhere in a frame that is not owned keeps the directory well
formed. -/
theorem WF.set_unowned {mem mem1 : Nat → Nat} {own : Own} (h : WF mem own)
    (hag : ∀ q, own (q / 4096 * 4096) ≠ none → mem1 q = mem q) : WF mem1 own := by
  apply h.of_agree
  intro T L b j hT hL hj hok
  have hTa := (h T L b hT).2.1
  have : mem1 (T + j * 8) = mem (T + j * 8) := by
    apply hag
    rw [frame_of_slot T j hTa hj, hT]
    simp
  rw [this]; exact hok

theorem esz_succ (L : Nat) (hL : L < 3) : esz L = 512 * esz (L + 1) := by
  have : L = 0 ∨ L = 1 ∨ L = 2 := by omega
  rcases this with h | h | h <;> subst h <;> rfl

theorem esz_pos (L : Nat) : 0 < esz L := by
  unfold esz; split <;> omega

/-- Linking a new frame `f` as the table of the next level for entry `j` of
the owned table `T`: if memory changed only inside `f` and at that entry, the
entry now refers to `f`, and the entries of `f` are well formed, the directory
with `f` owned is well formed. -/
theorem WF.link {mem mem1 : Nat → Nat} {own : Own} (h : WF mem own)
    (T L b j f : Nat) (hT : own T = some (L, b)) (hL : L < 3) (hj : j < 512)
    (hf : own f = none) (hfa : f % 4096 = 0) (hfl : f < 281474976710656)
    (hp1 : mem1 (T + j * 8) &&& 3 = 3) (hp2 : mem1 (T + j * 8) &&& PTE_ADDR_MASK = f)
    (hout : ∀ q, q ≠ T + j * 8 → ¬ (f ≤ q ∧ q < f + 4096) → mem1 q = mem q)
    (hnew : L + 1 < 3 → ∀ i, i < 512 →
      EntryOk (fun x => if x = f then some (L + 1, b + j * esz L) else own x) (L + 1)
        (b + j * esz L) i (mem1 (f + i * 8))) :
    WF mem1 (fun x => if x = f then some (L + 1, b + j * esz L) else own x) := by
  have hle : Own.le own (fun x => if x = f then some (L + 1, b + j * esz L) else own x) := by
    intro T1 x hx
    have : T1 ≠ f := by intro e; rw [e, hf] at hx; cases hx
    simp only [this, if_false]; exact hx
  intro T1 L1 b1 hT1
  by_cases hTf : T1 = f
  · subst hTf
    simp only [if_true] at hT1
    cases hT1
    obtain ⟨_, _, _, hb, _⟩ := h T L b hT
    refine ⟨by omega, hfa, hfl, ?_, hnew⟩
    have e1 := esz_succ L hL
    have e2 := esz_pos (L + 1)
    rw [e1] at hb ⊢
    have hb2 : (512 * esz (L + 1)) ∣ b :=
      Nat.dvd_of_mod_eq_zero (by
        have : 512 * (512 * esz (L + 1)) = 512 * esz (L + 1) * 512 := by ring
        rw [this] at hb
        exact Nat.mod_mul_right_mod b _ 512 ▸ (by rw [hb]; simp))
    have hb3 : (512 * esz (L + 1)) ∣ j * (512 * esz (L + 1)) := Dvd.intro_left _ rfl
    exact Nat.mod_eq_zero_of_dvd (Nat.dvd_add hb2 hb3)
  · simp only [hTf, if_false] at hT1
    obtain ⟨h1, h2, h3, h4, h5⟩ := h T1 L1 b1 hT1
    refine ⟨h1, h2, h3, h4, ?_⟩
    intro hL1 j1 hj1
    by_cases heq : T1 + j1 * 8 = T + j * 8
    · have hTa := (h T L b hT).2.1
      obtain ⟨e1, e2⟩ := slot_inj T1 T j1 j h2 hTa hj1 hj heq
      subst e1; subst e2
      rw [hT] at hT1; cases hT1
      refine Or.inr (Or.inr ⟨hp1, ?_⟩)
      rw [hp2]; simp
    · have hnf : ¬ (f ≤ T1 + j1 * 8 ∧ T1 + j1 * 8 < f + 4096) := by
        intro hh
        apply hTf
        omega
      rw [hout _ heq hnf]
      exact (h5 hL1 j1 hj1).mono hle

/-- Under `Fresh` every allocator returns its next frame, zero-filled. -/
theorem call_alloc_spec {cfg : Config} {lim : PgAlloc → Nat} {s : State} {own : Own}
    (hf : Fresh cfg lim s own) (a : PgAlloc) (hlim : s.count a < lim a) :
    ∃ s1, call_alloc cfg a s = Res.ok (cfg.frames a (s.count a), s1) ∧
      (∀ q, s1.mem q = if cfg.frames a (s.count a) ≤ q ∧ q < cfg.frames a (s.count a) + 4096
        then 0 else s.mem q) ∧
      s1.count = (fun b => if b = a then s.count a + 1 else s.count b) := by
  obtain ⟨h1, h2, h3, h4, h5, h6⟩ := hf a (s.count a) (Nat.le_refl _) hlim
  have hne : (cfg.frames a (s.count a) == 0) = false := by simpa using h1
  have hps : PAGE_SIZE = 4096 := by decide
  cases a with
  | early_pgtable_alloc =>
    refine ⟨⟨zero_page s.mem (cfg.frames PgAlloc.early_pgtable_alloc
        (s.count PgAlloc.early_pgtable_alloc)),
      fun b => if b = PgAlloc.early_pgtable_alloc then s.count PgAlloc.early_pgtable_alloc + 1
        else s.count b,
      Event.alloc PgAlloc.early_pgtable_alloc (cfg.frames PgAlloc.early_pgtable_alloc
        (s.count PgAlloc.early_pgtable_alloc)) :: s.trace⟩, ?_, ?_, ?_⟩
    · simp only [call_alloc, early_pgtable_alloc, take_frame, hne]; rfl
    · intro q; simp only [zero_page, hps]
    · rfl
  | late_pgtable_alloc =>
    refine ⟨⟨zero_page s.mem (cfg.frames PgAlloc.late_pgtable_alloc
        (s.count PgAlloc.late_pgtable_alloc)),
      fun b => if b = PgAlloc.late_pgtable_alloc then s.count PgAlloc.late_pgtable_alloc + 1
        else s.count b,
      Event.alloc PgAlloc.late_pgtable_alloc (cfg.frames PgAlloc.late_pgtable_alloc
        (s.count PgAlloc.late_pgtable_alloc)) :: s.trace⟩, ?_, ?_, ?_⟩
    · simp only [call_alloc, late_pgtable_alloc, take_frame, hne]; rfl
    · intro q; simp only [zero_page, hps]
    · rfl
  | rkp_ro_alloc_phys =>
    refine ⟨(take_frame cfg PgAlloc.rkp_ro_alloc_phys s).2, ?_, ?_, ?_⟩
    · simp only [call_alloc, rkp_ro_alloc_phys, take_frame]
    · intro q
      by_cases hq : cfg.frames PgAlloc.rkp_ro_alloc_phys (s.count PgAlloc.rkp_ro_alloc_phys) ≤ q ∧
          q < cfg.frames PgAlloc.rkp_ro_alloc_phys (s.count PgAlloc.rkp_ro_alloc_phys) + 4096
      · rw [if_pos hq]; exact h6 rfl q hq.1 hq.2
      · rw [if_neg hq]; rfl
    · rfl

/-- The frame for a new pmd table, under `Fresh`: the next frame of the secure
allocator when the trust extension is active, of `pgtable_alloc` otherwise. -/
theorem alloc_pmd_frame_spec {cfg : Config} {lim : PgAlloc → Nat} {s : State} {own : Own}
    (hf : Fresh cfg lim s own) (a : PgAlloc) (hlim : ∀ b, s.count b < lim b) :
    ∃ a1 s1, alloc_pmd_frame cfg a s = Res.ok (cfg.frames a1 (s.count a1), s1) ∧
      (∀ q, s1.mem q = if cfg.frames a1 (s.count a1) ≤ q ∧ q < cfg.frames a1 (s.count a1) + 4096
        then 0 else s.mem q) ∧
      s1.count = (fun b => if b = a1 then s.count a1 + 1 else s.count b) := by
  unfold alloc_pmd_frame
  by_cases hr : rkp_do cfg = true
  · obtain ⟨s1, e1, e2, e3⟩ := call_alloc_spec hf PgAlloc.rkp_ro_alloc_phys (hlim _)
    have h1 := (hf PgAlloc.rkp_ro_alloc_phys (s.count PgAlloc.rkp_ro_alloc_phys)
      (Nat.le_refl _) (hlim _)).1
    have hne : (cfg.frames PgAlloc.rkp_ro_alloc_phys (s.count PgAlloc.rkp_ro_alloc_phys) == 0)
        = false := by simpa using h1
    refine ⟨PgAlloc.rkp_ro_alloc_phys, s1, ?_, e2, e3⟩
    simp only [call_alloc] at e1
    simp only [hr, if_true, e1, hne, Bool.false_eq_true, if_false]
  · obtain ⟨s1, e1, e2, e3⟩ := call_alloc_spec hf a (hlim _)
    refine ⟨a, s1, ?_, e2, e3⟩
    simp only [hr, Bool.false_eq_true, if_false, e1]

/-- `Fresh` after a step: the counters did not go back, the frames still to
come are unowned and their content is as before. -/
theorem Fresh.step {cfg : Config} {lim : PgAlloc → Nat} {s s1 : State} {own own1 : Own}
    (hf : Fresh cfg lim s own)
    (hc : ∀ a, s.count a ≤ s1.count a)
    (hown : ∀ a n, s1.count a ≤ n → n < lim a → own1 (cfg.frames a n) = none)
    (hmem : ∀ a n q, s1.count a ≤ n → n < lim a → cfg.frames a n ≤ q →
      q < cfg.frames a n + 4096 → s1.mem q = s.mem q) : Fresh cfg lim s1 own1 := by
  intro a n hn hl
  obtain ⟨h1, h2, h3, _, h5, h6⟩ := hf a n (Nat.le_trans (hc a) hn) hl
  refine ⟨h1, h2, h3, hown a n hn hl, ?_, ?_⟩
  · intro a1 n1 hn1 hl1 he
    exact h5 a1 n1 (Nat.le_trans (hc a1) hn1) hl1 he
  · intro ha q hq1 hq2
    rw [hmem a n q hn hl hq1 hq2]
    exact h6 ha q hq1 hq2

/-! ## What a run leaves alone -/

theorem EntryOk.table {own : Own} {L b j e : Nat} (h : EntryOk own L b j e)
    (ht : e &&& 3 = 3) : own (e &&& PTE_ADDR_MASK) = some (L + 1, b + j * esz L) := by
  rcases h with h | ⟨_, h⟩ | ⟨_, h⟩
  · subst h; simp at ht
  · rw [h] at ht; omega
  · exact h

theorem Mapped3.keep3 {R : Req} {mem mem1 : Nat → Nat} {own own1 : Own} {T b a lo hi : Nat}
    (h : Mapped3 R mem T a) (hw : WF mem own) (hT : own T = some (3, b))
    (hb1 : b ≤ a) (hb2 : a < b + 2097152)
    (hf : Foot own own1 mem mem1 lo hi) (ha : a % 4096 = 0) (hlo : lo % 4096 = 0)
    (hsep : a < lo ∨ hi ≤ a) : Mapped3 R mem1 T a := by
  obtain ⟨_, hTa, _, hbal, _⟩ := hw T 3 b hT
  have hbal2 : b % 2097152 = 0 := hbal
  unfold Mapped3 at h ⊢
  have hi1 : pte_index a < 512 := by rw [pte_index_eq]; omega
  have hfr := frame_of_slot T (pte_index a) hTa hi1
  have : mem1 (T + pte_index a * 8) = mem (T + pte_index a * 8) := by
    by_contra hne
    rcases hf _ hne with ⟨hn, _⟩ | ⟨L, b1, a1, hown, h1, h2, h3, h4, h5, _⟩
    · rw [hfr, hT] at hn; cases hn
    · rw [hfr, hT] at hown
      cases hown
      rw [hfr] at h5
      unfold slot at h5
      simp only [esz] at h4 h5
      rw [pte_index_eq] at h5
      omega
  rw [this]; exact h

theorem Mapped2.keep2 {cfg : Config} {R : Req} {mem mem1 : Nat → Nat} {own own1 : Own}
    {T b a lo hi : Nat}
    (h : Mapped2 cfg R mem T a) (hw : WF mem own) (hT : own T = some (2, b))
    (hb1 : b ≤ a) (hb2 : a < b + 1073741824)
    (hf : Foot own own1 mem mem1 lo hi) (ha : a % 4096 = 0) (hlo : lo % 4096 = 0)
    (s1 : a < lo ∨ hi ≤ a)
    (s2 : big2M cfg R a → a / 2097152 * 2097152 + 2097152 ≤ lo ∨ hi ≤ a / 2097152 * 2097152) :
    Mapped2 cfg R mem1 T a := by
  obtain ⟨_, hTa, _, hbal, hent⟩ := hw T 2 b hT
  have hbal2 : b % 1073741824 = 0 := hbal
  have hi1 : pmd_index a < 512 := by rw [pmd_index_eq]; omega
  have hfr := frame_of_slot T (pmd_index a) hTa hi1
  have hq : mem1 (T + pmd_index a * 8) = mem (T + pmd_index a * 8) := by
    by_contra hne
    rcases hf _ hne with ⟨hn, _⟩ | ⟨L, b1, a1, hown, h1, h2, h3, h4, h5, h6⟩
    · rw [hfr, hT] at hn; cases hn
    · rw [hfr, hT] at hown
      cases hown
      rw [hfr] at h5
      unfold slot at h5
      simp only [esz] at h4 h5 h6
      rw [pmd_index_eq] at h5
      have hch : a1 / 2097152 = a / 2097152 := by omega
      unfold Mapped2 at h
      by_cases hb : big2M cfg R a
      · have := s2 hb
        omega
      · rw [if_neg hb] at h
        have := h6 (by omega) h.1
        omega
  unfold Mapped2 at h ⊢
  rw [hq]
  by_cases hb : big2M cfg R a
  · rw [if_pos hb] at h ⊢; exact h
  · rw [if_neg hb] at h ⊢
    refine ⟨h.1, ?_⟩
    have hc := (hent (by omega) _ hi1).table h.1
    simp only [esz] at hc
    have hidx := pmd_index_eq a
    exact h.2.keep3 hw hc (by omega) (by omega) hf ha hlo s1

theorem Mapped1.keep1 {cfg : Config} {R : Req} {mem mem1 : Nat → Nat} {own own1 : Own}
    {T b a lo hi : Nat}
    (h : Mapped1 cfg R mem T a) (hw : WF mem own) (hT : own T = some (1, b))
    (hb1 : b ≤ a) (hb2 : a < b + 549755813888)
    (hf : Foot own own1 mem mem1 lo hi) (ha : a % 4096 = 0) (hlo : lo % 4096 = 0)
    (hsep : Sep cfg R a lo hi) : Mapped1 cfg R mem1 T a := by
  obtain ⟨_, hTa, _, hbal, hent⟩ := hw T 1 b hT
  have hbal2 : b % 549755813888 = 0 := hbal
  have hi1 : pud_index a < 512 := by rw [pud_index_eq]; omega
  have hfr := frame_of_slot T (pud_index a) hTa hi1
  have s3 := hsep.2.2
  have s1 := hsep.1
  have hq : mem1 (T + pud_index a * 8) = mem (T + pud_index a * 8) := by
    by_contra hne
    rcases hf _ hne with ⟨hn, _⟩ | ⟨L, b1, a1, hown, h1, h2, h3, h4, h5, h6⟩
    · rw [hfr, hT] at hn; cases hn
    · rw [hfr, hT] at hown
      cases hown
      rw [hfr] at h5
      unfold slot at h5
      simp only [esz] at h4 h5 h6
      rw [pud_index_eq] at h5
      have hch : a1 / 1073741824 = a / 1073741824 := by omega
      unfold Mapped1 at h
      by_cases hb : big1G cfg R a
      · have := s3 hb
        omega
      · rw [if_neg hb] at h
        have := h6 (by omega) h.1
        omega
  unfold Mapped1 at h ⊢
  rw [hq]
  by_cases hb : big1G cfg R a
  · rw [if_pos hb] at h ⊢; exact h
  · rw [if_neg hb] at h ⊢
    refine ⟨h.1, ?_⟩
    have hc := (hent (by omega) _ hi1).table h.1
    simp only [esz] at hc
    have hidx := pud_index_eq a
    exact h.2.keep2 hw hc (by omega) (by omega) hf ha hlo hsep.1 hsep.2.1

theorem Mapped0.keep0 {cfg : Config} {R : Req} {mem mem1 : Nat → Nat} {own own1 : Own}
    {T b a lo hi : Nat}
    (h : Mapped0 cfg R mem T a) (hw : WF mem own) (hT : own T = some (0, b))
    (hb1 : b ≤ a) (hb2 : a < b + 281474976710656)
    (hf : Foot own own1 mem mem1 lo hi) (ha : a % 4096 = 0) (hlo : lo % 4096 = 0)
    (hsep : Sep cfg R a lo hi) : Mapped0 cfg R mem1 T a := by
  obtain ⟨_, hTa, _, hbal, hent⟩ := hw T 0 b hT
  have hbal2 : b % 281474976710656 = 0 := hbal
  have hi1 : pgd_index a < 512 := by rw [pgd_index_eq]; omega
  have hfr := frame_of_slot T (pgd_index a) hTa hi1
  have hq : mem1 (T + pgd_index a * 8) = mem (T + pgd_index a * 8) := by
    by_contra hne
    rcases hf _ hne with ⟨hn, _⟩ | ⟨L, b1, a1, hown, h1, h2, h3, h4, h5, h6⟩
    · rw [hfr, hT] at hn; cases hn
    · rw [hfr, hT] at hown
      cases hown
      rw [hfr] at h5
      unfold slot at h5
      simp only [esz] at h4 h5 h6
      rw [pgd_index_eq] at h5
      have hch : a1 / 549755813888 = a / 549755813888 := by omega
      have := h6 (by omega) h.1
      have := hsep.1
      omega
  unfold Mapped0 at h ⊢
  rw [hq]
  refine ⟨h.1, ?_⟩
  have hc := (hent (by omega) _ hi1).table h.1
  simp only [esz] at hc
  have hidx := pgd_index_eq a
  exact h.2.keep1 hw hc (by omega) (by omega) hf ha hlo hsep

/-! ## The translation depends on the entries of the walk only -/

theorem pmd_table_iff (e : Nat) : pmd_table e = true ↔ e &&& 3 = 3 := by
  simp [pmd_table, PMD_TYPE_MASK, PMD_TYPE_TABLE]

theorem pud_table_iff (e : Nat) : pud_table e = true ↔ e &&& 3 = 3 := by
  simp [pud_table, PMD_TYPE_MASK, PUD_TYPE_TABLE]

/-- If, at every owned table on the way of `va`, either the entry of `va` is
the same in `mem1` as in `mem` or the translation from that table is already
known to yield the same physical address, then the translation from every
owned table yields the same physical address. -/
theorem walk_agree {mem mem1 : Nat → Nat} {own : Own} (hw : WF mem own) (va : Nat)
    (h : ∀ T L b, own T = some (L, b) → b ≤ va → va < b + 512 * esz L →
      mem1 (slot L T va) = mem (slot L T va) ∨
      (walkL L mem1 T va).map Prod.fst = (walkL L mem T va).map Prod.fst) :
    ∀ T L b, own T = some (L, b) → b ≤ va → va < b + 512 * esz L →
      (walkL L mem1 T va).map Prod.fst = (walkL L mem T va).map Prod.fst := by
  have h3 : ∀ T b, own T = some (3, b) → b ≤ va → va < b + 512 * esz 3 →
      (walkL 3 mem1 T va).map Prod.fst = (walkL 3 mem T va).map Prod.fst := by
    intro T b hT b1 b2
    rcases h T 3 b hT b1 b2 with he | he
    · have hs : slot 3 T va = T + pte_index va * 8 := by
        unfold slot; rw [pte_index_eq]; rfl
      rw [hs] at he
      show (walk_pte mem1 T va).map Prod.fst = (walk_pte mem T va).map Prod.fst
      unfold walk_pte
      simp only [he]
    · exact he
  have h2 : ∀ T b, own T = some (2, b) → b ≤ va → va < b + 512 * esz 2 →
      (walkL 2 mem1 T va).map Prod.fst = (walkL 2 mem T va).map Prod.fst := by
    intro T b hT b1 b2
    rcases h T 2 b hT b1 b2 with he | he
    · have hs : slot 2 T va = T + pmd_index va * 8 := by
        unfold slot; rw [pmd_index_eq]; rfl
      rw [hs] at he
      obtain ⟨_, _, _, hbal, hent⟩ := hw T 2 b hT
      have hbal2 : b % 1073741824 = 0 := hbal
      have b3 : va < b + 1073741824 := b2
      have hi : pmd_index va < 512 := by rw [pmd_index_eq]; omega
      have hok := hent (by omega) (pmd_index va) hi
      show (walk_pmd mem1 T va).map Prod.fst = (walk_pmd mem T va).map Prod.fst
      unfold walk_pmd
      simp only [he]
      by_cases hsc : pmd_sect (mem (T + pmd_index va * 8)) = true
      · simp only [hsc, if_true]
      · by_cases htb : pmd_table (mem (T + pmd_index va * 8)) = true
        · simp only [hsc, htb, if_true, Bool.false_eq_true, if_false]
          have ho := hok.table ((pmd_table_iff _).mp htb)
          have hidx := pmd_index_eq va
          have hes : esz 2 = 2097152 := rfl
          rw [hes] at ho
          exact h3 _ _ ho (by omega) (by show va < _ + 512 * 4096; omega)
        · simp only [hsc, htb, Bool.false_eq_true, if_false]
    · exact he
  have h1 : ∀ T b, own T = some (1, b) → b ≤ va → va < b + 512 * esz 1 →
      (walkL 1 mem1 T va).map Prod.fst = (walkL 1 mem T va).map Prod.fst := by
    intro T b hT b1 b2
    rcases h T 1 b hT b1 b2 with he | he
    · have hs : slot 1 T va = T + pud_index va * 8 := by
        unfold slot; rw [pud_index_eq]; rfl
      rw [hs] at he
      obtain ⟨_, _, _, hbal, hent⟩ := hw T 1 b hT
      have hbal2 : b % 549755813888 = 0 := hbal
      have b3 : va < b + 549755813888 := b2
      have hi : pud_index va < 512 := by rw [pud_index_eq]; omega
      have hok := hent (by omega) (pud_index va) hi
      show (walk_pud mem1 T va).map Prod.fst = (walk_pud mem T va).map Prod.fst
      unfold walk_pud
      simp only [he]
      by_cases hsc : pud_sect (mem (T + pud_index va * 8)) = true
      · simp only [hsc, if_true]
      · by_cases htb : pud_table (mem (T + pud_index va * 8)) = true
        · simp only [hsc, htb, if_true, Bool.false_eq_true, if_false]
          have ho := hok.table ((pud_table_iff _).mp htb)
          have hidx := pud_index_eq va
          have hes : esz 1 = 1073741824 := rfl
          rw [hes] at ho
          exact h2 _ _ ho (by omega) (by show va < _ + 512 * 2097152; omega)
        · simp only [hsc, htb, Bool.false_eq_true, if_false]
    · exact he
  have h0 : ∀ T b, own T = some (0, b) → b ≤ va → va < b + 512 * esz 0 →
      (walkL 0 mem1 T va).map Prod.fst = (walkL 0 mem T va).map Prod.fst := by
    intro T b hT b1 b2
    rcases h T 0 b hT b1 b2 with he | he
    · have hs : slot 0 T va = T + pgd_index va * 8 := by
        unfold slot; rw [pgd_index_eq]; rfl
      rw [hs] at he
      obtain ⟨_, _, _, hbal, hent⟩ := hw T 0 b hT
      have hbal2 : b % 281474976710656 = 0 := hbal
      have b3 : va < b + 281474976710656 := b2
      have hi : pgd_index va < 512 := by rw [pgd_index_eq]; omega
      have hok := hent (by omega) (pgd_index va) hi
      show (resolve mem1 T va).map Prod.fst = (resolve mem T va).map Prod.fst
      unfold resolve
      simp only [he]
      by_cases htb : (mem (T + pgd_index va * 8) &&& 3 == PUD_TYPE_TABLE) = true
      · simp only [htb, if_true]
        have ht3 : mem (T + pgd_index va * 8) &&& 3 = 3 := by
          simpa [PUD_TYPE_TABLE] using htb
        have ho := hok.table ht3
        have hidx := pgd_index_eq va
        have hes : esz 0 = 549755813888 := rfl
        rw [hes] at ho
        exact h1 _ _ ho (by omega) (by show va < _ + 512 * 1073741824; omega)
      · simp only [htb, Bool.false_eq_true, if_false]
    · exact he
  intro T L b hT b1 b2
  obtain ⟨hL, _⟩ := hw T L b hT
  match L, hT, b2, hL with
  | 0, hT, b2, _ => exact h0 T b hT b1 b2
  | 1, hT, b2, _ => exact h1 T b hT b1 b2
  | 2, hT, b2, _ => exact h2 T b hT b1 b2
  | 3, hT, b2, _ => exact h3 T b hT b1 b2
  | n + 4, _, _, hL => omega

/-! ## Translation through a table that was just linked -/

theorem walk_pte_zero (m : Nat → Nat) (F va : Nat) (h : ∀ k, k < 512 → m (F + k * 8) = 0) :
    walk_pte m F va = none := by
  have hi : pte_index va < 512 := by rw [pte_index_eq]; exact Nat.mod_lt _ (by omega)
  unfold walk_pte
  simp [h _ hi, PTE_TYPE_PAGE]

theorem walk_pmd_zero (m : Nat → Nat) (F va : Nat) (h : ∀ k, k < 512 → m (F + k * 8) = 0) :
    walk_pmd m F va = none := by
  have hi : pmd_index va < 512 := by rw [pmd_index_eq]; exact Nat.mod_lt _ (by omega)
  unfold walk_pmd
  simp [h _ hi, pmd_sect, pmd_table, PMD_TYPE_MASK, PMD_TYPE_SECT, PMD_TYPE_TABLE]

theorem walk_pud_zero (m : Nat → Nat) (F va : Nat) (h : ∀ k, k < 512 → m (F + k * 8) = 0) :
    walk_pud m F va = none := by
  have hi : pud_index va < 512 := by rw [pud_index_eq]; exact Nat.mod_lt _ (by omega)
  unfold walk_pud
  simp [h _ hi, pud_sect, pud_table, PMD_TYPE_MASK, PUD_TYPE_SECT, PUD_TYPE_TABLE]

/-- The table that `split_pmd` fills translates every address of the section
to the physical address the block gave it. -/
theorem walk_pte_split (m : Nat → Nat) (F e va : Nat)
    (h : ∀ k, k < 512 → m (F + k * 8) = pfn_pte (pmd_pfn e + k) PAGE_KERNEL_EXEC) :
    (walk_pte m F va).map Prod.fst = some ((e &&& PMD_MASK &&& PHYS_MASK) + va % PMD_SIZE) := by
  have hpfn : ∀ i, i < 512 → pmd_pfn e + i < 68719476736 := by
    intro i hi; rw [pmd_pfn_eq]; omega
  have hi : va / 4096 % 512 < 512 := Nat.mod_lt _ (by omega)
  have hs1 : PMD_SIZE = 2097152 := by decide
  unfold walk_pte
  simp only [pte_index_eq, h _ hi, split_pmd_entry_type _ (hpfn _ hi),
    split_pmd_entry_addr _ (hpfn _ hi)]
  simp only [PTE_TYPE_PAGE, beq_self_eq_true, if_true, Option.map]
  rw [pmd_out_eq, pmd_pfn_eq, hs1]
  have hps : PAGE_SIZE = 4096 := by decide
  rw [hps]
  apply congrArg some
  omega

/-- The table that `split_pud` fills translates every address of the GiB to
the physical address the block gave it, if the block entry was well formed. -/
theorem walk_pmd_split (m : Nat → Nat) (F e va : Nat) (ht : e &&& 3 = 1)
    (hres : e &&& (PUD_SIZE - PMD_SIZE) = 0)
    (h : ∀ k, k < 512 → m (F + k * 8)
      = (e / 1073741824 % 262144 * 1073741824 + k * 2097152) |||
        (e ^^^ (e / 1073741824 % 262144 * 1073741824))) :
    (walk_pmd m F va).map Prod.fst = some ((e &&& PUD_MASK &&& PHYS_MASK) + va % PUD_SIZE) := by
  have hi : va / 2097152 % 512 < 512 := Nat.mod_lt _ (by omega)
  have hs1 : PMD_SIZE = 2097152 := by decide
  have hs2 : PUD_SIZE = 1073741824 := by decide
  unfold walk_pmd
  simp only [pmd_index_eq, h _ hi, pmd_sect, PMD_TYPE_MASK, PMD_TYPE_SECT,
    split_pud_entry_type, ht, split_pud_entry_out _ _ hi hres]
  simp only [beq_self_eq_true, if_true, Option.map]
  rw [pud_out_eq, hs1, hs2]
  apply congrArg some
  omega

/-- Translation by a pmd entry that is empty, a block, or a table reference. -/
theorem walk_pmd_by_entry (m : Nat → Nat) (T va e : Nat) (he : m (T + pmd_index va * 8) = e) :
    (e = 0 → walk_pmd m T va = none) ∧
    (e &&& 3 = 1 →
      (walk_pmd m T va).map Prod.fst = some ((e &&& PMD_MASK &&& PHYS_MASK) + va % PMD_SIZE)) ∧
    (e &&& 3 = 3 → walk_pmd m T va = walk_pte m (e &&& PTE_ADDR_MASK) va) := by
  unfold walk_pmd
  rw [he]
  refine ⟨?_, ?_, ?_⟩
  · intro h; subst h
    simp [pmd_sect, pmd_table, PMD_TYPE_MASK, PMD_TYPE_SECT, PMD_TYPE_TABLE]
  · intro h
    simp [pmd_sect, PMD_TYPE_MASK, PMD_TYPE_SECT, h]
  · intro h
    simp [pmd_sect, pmd_table, PMD_TYPE_MASK, PMD_TYPE_SECT, PMD_TYPE_TABLE, h, pmd_page_paddr]

/-- Translation by a pud entry that is empty, a block, or a table reference. -/
theorem walk_pud_by_entry (m : Nat → Nat) (T va e : Nat) (he : m (T + pud_index va * 8) = e) :
    (e = 0 → walk_pud m T va = none) ∧
    (e &&& 3 = 1 →
      (walk_pud m T va).map Prod.fst = some ((e &&& PUD_MASK &&& PHYS_MASK) + va % PUD_SIZE)) ∧
    (e &&& 3 = 3 → walk_pud m T va = walk_pmd m (e &&& PTE_ADDR_MASK) va) := by
  unfold walk_pud
  rw [he]
  refine ⟨?_, ?_, ?_⟩
  · intro h; subst h
    simp [pud_sect, pud_table, PMD_TYPE_MASK, PUD_TYPE_SECT, PUD_TYPE_TABLE]
  · intro h
    simp [pud_sect, PMD_TYPE_MASK, PUD_TYPE_SECT, h]
  · intro h
    simp [pud_sect, pud_table, PMD_TYPE_MASK, PUD_TYPE_SECT, PUD_TYPE_TABLE, h, pud_page_paddr]

/-- Translation by a pgd entry that is empty or a table reference. -/
theorem resolve_by_entry (m : Nat → Nat) (T va e : Nat) (he : m (T + pgd_index va * 8) = e) :
    (e = 0 → resolve m T va = none) ∧
    (e &&& 3 = 3 → resolve m T va = walk_pud m (e &&& PTE_ADDR_MASK) va) := by
  unfold resolve
  rw [he]
  refine ⟨?_, ?_⟩
  · intro h; subst h
    simp [PUD_TYPE_TABLE]
  · intro h
    simp [PUD_TYPE_TABLE, h, pgd_page_paddr]

/-! ## Composition of runs -/

theorem Run.refl {cfg : Config} {lim : PgAlloc → Nat} {s : State} {own : Own}
    (hw : WF s.mem own) (hf : Fresh cfg lim s own) (k n lo hi : Nat) :
    Run cfg lim k n s own lo hi s own where
  above := fun _ _ _ _ _ => rfl
  used := fun _ => Nat.le_add_right _ _
  wf := hw
  fresh := hf
  le := fun _ _ h => h
  foot := fun _ h => absurd rfl h
  cnt := fun _ => Nat.le_refl _
  new := fun _ h1 h2 => absurd h1 h2
  out := fun hb => ⟨hb, fun _ _ _ _ _ _ _ _ => rfl⟩

theorem Run.level {cfg : Config} {lim : PgAlloc → Nat} {s s1 : State} {own own1 : Own}
    {k n lo hi : Nat}
    (r : Run cfg lim k n s own lo hi s1 own1) (k1 n1 : Nat) (h : k1 ≤ k) (hn : n ≤ n1) :
    Run cfg lim k1 n1 s own lo hi s1 own1 where
  used := fun a => Nat.le_trans (r.used a) (Nat.add_le_add_left hn _)
  wf := r.wf
  fresh := r.fresh
  le := r.le
  foot := r.foot
  cnt := r.cnt
  new := r.new
  above := fun q L b h1 h2 => r.above q L b h1 (Nat.lt_of_lt_of_le h2 h)
  out := r.out

theorem Run.trans {cfg : Config} {lim : PgAlloc → Nat} {s s1 s2 : State}
    {own own1 own2 : Own} {k n n1 n2 lo hi lo1 hi1 lo2 hi2 : Nat}
    (r1 : Run cfg lim k n1 s own lo1 hi1 s1 own1)
    (r2 : Run cfg lim k n2 s1 own1 lo2 hi2 s2 own2)
    (h1 : lo ≤ lo1) (h2 : lo ≤ lo2) (h3 : hi1 ≤ hi) (h4 : hi2 ≤ hi) (hn : n1 + n2 ≤ n) :
    Run cfg lim k n s own lo hi s2 own2 where
  used := by
    intro a
    have := r1.used a
    have := r2.used a
    omega
  above := by
    intro q L b hq hL
    rw [r2.above q L b (r1.le _ _ hq) hL, r1.above q L b hq hL]
  wf := r2.wf
  fresh := r2.fresh
  le := fun T x h => r2.le T x (r1.le T x h)
  cnt := fun a => Nat.le_trans (r1.cnt a) (r2.cnt a)
  new := by
    intro T hT hT2
    by_cases h : own1 T = none
    · obtain ⟨a, n, e1, e2, e3⟩ := r2.new T h hT2
      exact ⟨a, n, Nat.le_trans (r1.cnt a) e1, e2, e3⟩
    · obtain ⟨a, n, e1, e2, e3⟩ := r1.new T hT h
      exact ⟨a, n, e1, Nat.lt_of_lt_of_le e2 (r2.cnt a), e3⟩
  out := by
    intro hb
    obtain ⟨b1, o1⟩ := r1.out hb
    obtain ⟨b2, o2⟩ := r2.out b1
    refine ⟨b2, ?_⟩
    intro T L b va hT c1 c2 c3
    rw [o2 T L b va (r1.le _ _ hT) c1 c2 (by omega), o1 T L b va hT c1 c2 (by omega)]
  foot := by
    intro q hq
    have first : ∀ (hq1 : s1.mem q ≠ s.mem q),
        (own (q / 4096 * 4096) = none ∧ own2 (q / 4096 * 4096) ≠ none) ∨
        ∃ L b a, own (q / 4096 * 4096) = some (L, b) ∧ lo ≤ a ∧ a < hi ∧
          b ≤ a ∧ a < b + 512 * esz L ∧ q = slot L (q / 4096 * 4096) a ∧
          (L < 3 → s.mem q &&& 3 = 3 →
            lo ≤ a / esz L * esz L ∧ a / esz L * esz L + esz L ≤ hi) := by
      intro hq1
      rcases r1.foot q hq1 with ⟨e1, e2⟩ | ⟨L, b, a, e1, e2, e3, e4, e5, e6, e7⟩
      · left
        refine ⟨e1, ?_⟩
        cases h : own1 (q / 4096 * 4096) with
        | none => exact absurd h e2
        | some x => rw [r2.le _ x h]; simp
      · right
        refine ⟨L, b, a, e1, by omega, by omega, e4, e5, e6, ?_⟩
        intro hL ht
        have := e7 hL ht
        omega
    by_cases hq1 : s1.mem q = s.mem q
    · have hq2 : s2.mem q ≠ s1.mem q := by rw [hq1]; exact hq
      rcases r2.foot q hq2 with ⟨e1, e2⟩ | ⟨L, b, a, e1, e2, e3, e4, e5, e6, e7⟩
      · left
        refine ⟨?_, e2⟩
        cases h : own (q / 4096 * 4096) with
        | none => rfl
        | some x => rw [r1.le _ x h] at e1; cases e1
      · cases h : own (q / 4096 * 4096) with
        | none =>
          left
          refine ⟨rfl, ?_⟩
          rw [r2.le _ _ e1]; simp
        | some x =>
          right
          have := r1.le _ x h
          rw [e1] at this
          cases this
          refine ⟨L, b, a, rfl, by omega, by omega, e4, e5, e6, ?_⟩
          intro hL ht
          rw [← hq1] at ht
          have := e7 hL ht
          omega
    · exact first hq1

theorem table_ref_type (f : Nat) (h1 : f % 4096 = 0) : (f ||| 3) &&& 3 = 3 := by
  rw [or_type _ _ h1]; rfl

theorem table_ref_addr (f : Nat) (h1 : f % 4096 = 0) (h2 : f < 281474976710656) :
    (f ||| 3) &&& PTE_ADDR_MASK = f := by
  rw [or_addr _ _ h1 h2 (by decide)]

/-- Linking the next frame of allocator `al` under entry `j` of the owned table
`T` (an entry that did not refer to a table) is a run: memory changed only at
that entry and inside the frame, whose entries are empty or blocks. -/
theorem link_run {cfg : Config} {lim : PgAlloc → Nat} {s s1 : State} {own : Own}
    (hw : WF s.mem own) (hfr : Fresh cfg lim s own)
    (T L b j : Nat) (al : PgAlloc) (a0 lo hi : Nat) (hlim : s.count al < lim al)
    (hT : own T = some (L, b)) (hL : L < 3) (hj : j < 512)
    (hcnt : s1.count = fun x => if x = al then s.count al + 1 else s.count x)
    (hp : s1.mem (T + j * 8) = cfg.frames al (s.count al) ||| 3)
    (hold : s.mem (T + j * 8) &&& 3 ≠ 3)
    (hout : ∀ q, q ≠ T + j * 8 →
      ¬ (cfg.frames al (s.count al) ≤ q ∧ q < cfg.frames al (s.count al) + 4096) →
      s1.mem q = s.mem q)
    (hnew : L + 1 < 3 → ∀ i, i < 512 →
      s1.mem (cfg.frames al (s.count al) + i * 8) = 0 ∨
      s1.mem (cfg.frames al (s.count al) + i * 8) &&& 3 = 1)
    (hnew0 : L = 0 → ∀ i, i < 512 → s1.mem (cfg.frames al (s.count al) + i * 8) = 0)
    (hsame : Blocks1 s.mem own → ∀ va, b + j * esz L ≤ va → va < b + j * esz L + esz L →
      (walkL L s1.mem T va).map Prod.fst = (walkL L s.mem T va).map Prod.fst)
    (ha1 : lo ≤ a0) (ha2 : a0 < hi) (ha3 : b ≤ a0) (ha4 : a0 < b + 512 * esz L)
    (ha5 : a0 / esz L % 512 = j) :
    Run cfg lim L 1 s own lo hi s1
      (fun x => if x = cfg.frames al (s.count al) then some (L + 1, b + j * esz L)
        else own x) := by
  obtain ⟨f1, f2, f3, f4, f5, _⟩ := hfr al (s.count al) (Nat.le_refl _) hlim
  obtain ⟨_, hTa, _, _, _⟩ := hw T L b hT
  have hcnt1 : ∀ a, s.count a ≤ s1.count a := by
    intro a; rw [hcnt]; by_cases h : a = al
    · subst h; simp
    · simp [h]
  have hfut : ∀ a n, s1.count a ≤ n → n < lim a →
      cfg.frames a n ≠ cfg.frames al (s.count al) := by
    intro a n hn hl he
    obtain ⟨e1, e2⟩ := f5 a n (Nat.le_trans (hcnt1 a) hn) hl he
    subst e1
    rw [hcnt] at hn
    simp at hn
    omega
  refine ⟨?_, ?_, ?_, ?_, hcnt1, ?_, ?_, ?_, ?_⟩
  · apply WF.link hw T L b j _ hT hL hj f4 f2 f3
    · rw [hp]; exact table_ref_type _ f2
    · rw [hp]; exact table_ref_addr _ f2 f3
    · exact hout
    · intro hL1 i hi
      rcases hnew hL1 i hi with h | h
      · exact Or.inl h
      · exact Or.inr (Or.inl ⟨by omega, h⟩)
  · apply Fresh.step hfr hcnt1
    · intro a n hn hl
      simp only [hfut a n hn hl, if_false]
      exact (hfr a n (Nat.le_trans (hcnt1 a) hn) hl).2.2.2.1
    · intro a n q hn hl hq1 hq2
      obtain ⟨_, g2, _, g4, _, _⟩ := hfr a n (Nat.le_trans (hcnt1 a) hn) hl
      have := hfut a n hn hl
      apply hout
      · intro he
        have : cfg.frames a n = T := by omega
        rw [this, hT] at g4
        cases g4
      · omega
  · intro T1 x hx
    have : T1 ≠ cfg.frames al (s.count al) := by
      intro e; rw [e, f4] at hx; cases hx
    simp only [this, if_false]; exact hx
  · intro q hq
    by_cases hqp : q = T + j * 8
    · right
      subst hqp
      rw [frame_of_slot T j hTa hj]
      refine ⟨L, b, a0, hT, ha1, ha2, ha3, ha4, ?_, ?_⟩
      · unfold slot; rw [ha5]
      · intro _ ht; exact absurd ht hold
    · left
      have hin : cfg.frames al (s.count al) ≤ q ∧ q < cfg.frames al (s.count al) + 4096 := by
        by_contra hn
        exact hq (hout q hqp hn)
      have : q / 4096 * 4096 = cfg.frames al (s.count al) := by omega
      rw [this]
      exact ⟨f4, by simp⟩
  · intro T1 h1 h2
    by_cases h : T1 = cfg.frames al (s.count al)
    · refine ⟨al, s.count al, Nat.le_refl _, ?_, h⟩
      rw [hcnt]; simp
    · simp only [h, if_false] at h2
      exact absurd h1 h2
  · intro q L1 b1 hq hL1
    apply hout
    · intro he
      rw [he, frame_of_slot T j hTa hj, hT] at hq
      cases hq; omega
    · intro hin
      have : q / 4096 * 4096 = cfg.frames al (s.count al) := by omega
      rw [this, f4] at hq; cases hq
  · intro a
    rw [hcnt]
    by_cases h : a = al
    · subst h; simp
    · simp [h]
  · intro hb
    constructor
    · intro T1 b1 j1 hT1 hj1 ht
      by_cases hF : T1 = cfg.frames al (s.count al)
      · simp only [hF, if_true, Option.some.injEq, Prod.mk.injEq] at hT1
        have hL0 : L = 0 := by omega
        rw [hF, hnew0 hL0 j1 hj1] at ht
        simp at ht
      · simp only [hF, if_false] at hT1
        obtain ⟨_, hT1a, _, _, _⟩ := hw T1 1 b1 hT1
        by_cases hq : T1 + j1 * 8 = T + j * 8
        · rw [hq, hp, table_ref_type _ f2] at ht
          omega
        · rw [hout _ hq (by omega)] at ht ⊢
          exact hb T1 b1 j1 hT1 hj1 ht
    · intro T1 L1 b1 va hT1 c1 c2 _
      refine walk_agree hw va ?_ T1 L1 b1 hT1 c1 c2
      intro T2 L2 b2 hT2 d1 d2
      obtain ⟨_, hT2a, _, hbal, _⟩ := hw T2 L2 b2 hT2
      have hidx : va / esz L2 % 512 < 512 := Nat.mod_lt _ (by omega)
      have hfr2 := frame_of_slot T2 _ hT2a hidx
      by_cases hq : slot L2 T2 va = T + j * 8
      · right
        have hfrT := frame_of_slot T j hTa hj
        have hTT : T2 = T := by
          unfold slot at hq
          rw [← hfr2, ← hfrT, hq]
        subst hTT
        rw [hT] at hT2
        cases hT2
        have hj2 : va / esz L % 512 = j := by
          unfold slot at hq
          omega
        have hL3 : L = 0 ∨ L = 1 ∨ L = 2 := by omega
        rcases hL3 with h | h | h <;> subst h <;> simp only [esz] at * <;>
          exact hsame hb va (by omega) (by omega)
      · left
        apply hout _ hq
        intro hin
        have hfe : T2 = cfg.frames al (s.count al) := by
          unfold slot at hin
          omega
        rw [hfe, f4] at hT2
        cases hT2

/-! ## Correctness of the page-table level -/

theorem and_two_of_table (e : Nat) (h : e &&& 3 = 3) : e &&& 2 = 2 := by
  have : e &&& 2 = (e &&& 3) &&& 2 := by
    rw [Nat.and_assoc]; rfl
  rw [this, h]; rfl

theorem not_bad_of_table (e : Nat) (h : e &&& 3 = 3) : pmd_bad e = false := by
  unfold pmd_bad
  rw [show PMD_TABLE_BIT = 2 from rfl, and_two_of_table e h]; rfl

theorem ne_zero_of_type {e k : Nat} (h : e &&& 3 = k) (hk : k ≠ 0) : e ≠ 0 := by
  intro he; subst he; simp at h; exact hk h.symm

/-- The writes of the page loop form a run. -/
theorem pte_loop_run {cfg : Config} {lim : PgAlloc → Nat} {s s1 : State} {own : Own}
    (hw : WF s.mem own) (hfr : Fresh cfg lim s own) (T3 b3 lo hi : Nat)
    (hT : own T3 = some (3, b3)) (hb : b3 ≤ lo) (hb1 : hi ≤ b3 + 2097152)
    (hhi : hi % 4096 = 0) (hcount : s1.count = s.count)
    (hfrm : ∀ q, (∀ a, lo ≤ a → a < hi → a % 4096 = 0 → q ≠ T3 + pte_index a * 8) →
      s1.mem q = s.mem q) : Run cfg lim 3 0 s own lo hi s1 own := by
  obtain ⟨_, hTa, _, hbal3, _⟩ := hw T3 3 b3 hT
  have hbal4 : b3 % 2097152 = 0 := hbal3
  have hidx : ∀ a, pte_index a < 512 := by intro a; rw [pte_index_eq]; omega
  have hother : ∀ q, q / 4096 * 4096 ≠ T3 → s1.mem q = s.mem q := by
    intro q hq
    apply hfrm
    intro a _ _ _ he
    apply hq
    rw [he, frame_of_slot T3 _ hTa (hidx a)]
  refine ⟨?_, ?_, fun _ _ h => h, ?_, fun a => by rw [hcount], fun _ h1 h2 => absurd h1 h2,
    ?_, fun a => by rw [hcount]; omega, ?_⟩
  · apply hw.of_agree
    intro T L b j hTo hL hj hok
    obtain ⟨_, hTa1, _, _, _⟩ := hw T L b hTo
    rw [hother]
    · exact hok
    · rw [frame_of_slot T j hTa1 hj]
      intro he; rw [he, hT] at hTo; cases hTo; omega
  · apply Fresh.step hfr (fun a => by rw [hcount])
    · intro a n hn hl
      rw [hcount] at hn
      exact (hfr a n hn hl).2.2.2.1
    · intro a n q hn hl hq1 hq2
      rw [hcount] at hn
      obtain ⟨_, g2, _, g4, _, _⟩ := hfr a n hn hl
      apply hother
      intro he
      have : cfg.frames a n = T3 := by omega
      rw [this, hT] at g4; cases g4
  · intro q hq
    right
    have : ∃ a, lo ≤ a ∧ a < hi ∧ a % 4096 = 0 ∧ q = T3 + pte_index a * 8 := by
      by_contra hn
      apply hq
      apply hfrm
      intro a h1 h2 h3 h4
      exact hn ⟨a, h1, h2, h3, h4⟩
    obtain ⟨a, h1, h2, h3, h4⟩ := this
    have hfr1 : q / 4096 * 4096 = T3 := by rw [h4, frame_of_slot T3 _ hTa (hidx a)]
    rw [hfr1]
    refine ⟨3, b3, a, hT, h1, h2, by omega, ?_, ?_, ?_⟩
    · simp only [esz]; omega
    · rw [h4]; unfold slot; simp only [esz]; rw [pte_index_eq]
    · intro h; omega
  · intro q L b hq hL
    apply hother
    intro he
    rw [he, hT] at hq; cases hq; omega
  · intro hb0
    constructor
    · intro T1 b1 j1 hT1 hj1 ht
      obtain ⟨_, hT1a, _, _, _⟩ := hw T1 1 b1 hT1
      have hne : (T1 + j1 * 8) / 4096 * 4096 ≠ T3 := by
        rw [frame_of_slot T1 j1 hT1a hj1]
        intro he; rw [he, hT] at hT1; cases hT1
      rw [hother _ hne] at ht ⊢
      exact hb0 T1 b1 j1 hT1 hj1 ht
    · intro T1 L1 b1 va hT1 c1 c2 c3
      refine walk_agree hw va ?_ T1 L1 b1 hT1 c1 c2
      intro T2 L2 b2 hT2 d1 d2
      left
      obtain ⟨_, hT2a, _, _, _⟩ := hw T2 L2 b2 hT2
      have hix : va / esz L2 % 512 < 512 := Nat.mod_lt _ (by omega)
      have hfr2 := frame_of_slot T2 _ hT2a hix
      apply hfrm
      intro a h1 h2 h3 he
      have hfr3 := frame_of_slot T3 _ hTa (hidx a)
      have hTT : T2 = T3 := by
        unfold slot at he
        rw [← hfr2, ← hfr3, he]
      subst hTT
      rw [hT] at hT2
      cases hT2
      unfold slot at he
      rw [pte_index_eq] at he
      simp only [esz] at he d2
      omega

/-- The first half of `alloc_init_pte` on entry `j` of the owned pmd table
`T2`: it ends in a state in which the entry refers to an owned page table for
exactly that section, by a run that touched nothing but the entry and the
new frame. -/
theorem alloc_init_pte_prepare_spec {cfg : Config} {lim : PgAlloc → Nat} {s : State}
    {own : Own} (hw : WF s.mem own) (hfr : Fresh cfg lim s own)
    (T2 b2 j : Nat) (al : PgAlloc) (a0 lo hi : Nat) (hlim : s.count al < lim al)
    (hT : own T2 = some (2, b2)) (hj : j < 512)
    (ha1 : lo ≤ a0) (ha2 : a0 < hi) (ha3 : b2 ≤ a0) (ha4 : a0 < b2 + 1073741824)
    (ha5 : a0 / 2097152 % 512 = j) :
    ∃ s1 own1, alloc_init_pte_prepare cfg s (T2 + j * 8) (some al) = Res.ok s1 ∧
      Run cfg lim 2 1 s own lo hi s1 own1 ∧
      s1.mem (T2 + j * 8) &&& 3 = 3 ∧
      own1 (s1.mem (T2 + j * 8) &&& PTE_ADDR_MASK) = some (3, b2 + j * 2097152) := by
  obtain ⟨_, hTa, _, _, hent⟩ := hw T2 2 b2 hT
  have hok := hent (by omega) j hj
  by_cases htab : s.mem (T2 + j * 8) &&& 3 = 3
  · -- already a table reference
    have hnn : pmd_none (s.mem (T2 + j * 8)) = false := by
      simp [pmd_none, ne_zero_of_type htab (by omega)]
    have hns : pmd_sect (s.mem (T2 + j * 8)) = false := by
      simp [pmd_sect, PMD_TYPE_MASK, PMD_TYPE_SECT, htab]
    refine ⟨s, own, ?_, Run.refl hw hfr 2 1 lo hi, htab, ?_⟩
    · simp [alloc_init_pte_prepare, hnn, hns]
    · exact hok.table htab
  · -- empty or a block: a new frame is linked
    have hcond : (pmd_none (s.mem (T2 + j * 8)) || pmd_sect (s.mem (T2 + j * 8))) = true := by
      rcases hok with h | ⟨_, h⟩ | ⟨h, _⟩
      · simp [pmd_none, h]
      · simp [pmd_sect, PMD_TYPE_MASK, PMD_TYPE_SECT, h]
      · exact absurd h htab
    obtain ⟨f1, f2, f3, f4, _, _⟩ := hfr al (s.count al) (Nat.le_refl _) hlim
    obtain ⟨sa, e1, e2, e3⟩ := call_alloc_spec hfr al hlim
    have hpf : ¬ (cfg.frames al (s.count al) ≤ T2 + j * 8 ∧
        T2 + j * 8 < cfg.frames al (s.count al) + 4096) := by
      intro hh
      have : cfg.frames al (s.count al) = T2 := by omega
      rw [this, hT] at f4; cases f4
    have hpa : sa.mem (T2 + j * 8) = s.mem (T2 + j * 8) := by
      rw [e2, if_neg hpf]
    obtain ⟨sp1, sp2, _, sp4⟩ := split_pmd_spec sa (T2 + j * 8) (cfg.frames al (s.count al))
    refine ⟨flush_tlb_all (set_pmd
        (if pmd_sect (sa.mem (T2 + j * 8)) then
          split_pmd sa (T2 + j * 8) (cfg.frames al (s.count al)) else sa)
        (T2 + j * 8) (cfg.frames al (s.count al) ||| PMD_TYPE_TABLE)),
      (fun x => if x = cfg.frames al (s.count al) then some (2 + 1, b2 + j * esz 2)
        else own x), ?_, ?_, ?_, ?_⟩
    · simp only [alloc_init_pte_prepare, hcond, if_true, e1]
    · apply link_run hw hfr T2 2 b2 j al a0 lo hi hlim hT (by omega) hj
      · simp only [flush_tlb_all, set_pmd, set_entry]
        split
        · rw [sp4, e3]
        · rw [e3]
      · simp [flush_tlb_all, set_pmd, set_entry, PMD_TYPE_TABLE]
      · exact htab
      · intro q hq1 hq2
        simp only [flush_tlb_all, set_pmd, set_entry, hq1, if_false]
        split
        · rw [sp2 q (by intro k hk; omega), e2, if_neg hq2]
        · rw [e2, if_neg hq2]
      · intro h; omega
      · intro h; omega
      · intro _ va v1 v2
        simp only [esz] at v1 v2
        obtain ⟨_, _, _, hb2al, _⟩ := hw T2 2 b2 hT
        have hb2al2 : b2 % 1073741824 = 0 := hb2al
        have hjv : pmd_index va = j := by rw [pmd_index_eq]; omega
        have hkv : pte_index va < 512 := by rw [pte_index_eq]; exact Nat.mod_lt _ (by omega)
        have hnew1 : (flush_tlb_all (set_pmd
            (if pmd_sect (sa.mem (T2 + j * 8)) then
              split_pmd sa (T2 + j * 8) (cfg.frames al (s.count al)) else sa)
            (T2 + j * 8) (cfg.frames al (s.count al) ||| PMD_TYPE_TABLE))).mem
              (T2 + pmd_index va * 8) = cfg.frames al (s.count al) ||| 3 := by
          rw [hjv]
          simp [flush_tlb_all, set_pmd, set_entry, PMD_TYPE_TABLE]
        have hin : ∀ k, k < 512 → (flush_tlb_all (set_pmd
            (if pmd_sect (sa.mem (T2 + j * 8)) then
              split_pmd sa (T2 + j * 8) (cfg.frames al (s.count al)) else sa)
            (T2 + j * 8) (cfg.frames al (s.count al) ||| PMD_TYPE_TABLE))).mem
              (cfg.frames al (s.count al) + k * 8)
            = (if pmd_sect (sa.mem (T2 + j * 8)) then
              split_pmd sa (T2 + j * 8) (cfg.frames al (s.count al)) else sa).mem
              (cfg.frames al (s.count al) + k * 8) := by
          intro k hk
          have hne : cfg.frames al (s.count al) + k * 8 ≠ T2 + j * 8 := by omega
          simp only [flush_tlb_all, set_pmd, set_entry, hne, if_false]
        show (walk_pmd _ T2 va).map Prod.fst = (walk_pmd s.mem T2 va).map Prod.fst
        rw [((walk_pmd_by_entry _ T2 va _ hnew1).2.2 (table_ref_type _ f2)),
          table_ref_addr _ f2 f3]
        have hold := walk_pmd_by_entry s.mem T2 va (s.mem (T2 + j * 8)) (by rw [hjv])
        rcases hok with h0 | ⟨_, h1⟩ | ⟨h3, _⟩
        · have hns : pmd_sect (sa.mem (T2 + j * 8)) = false := by
            rw [hpa, h0]; rfl
          rw [hold.1 h0, walk_pte_zero]
          intro k hk
          rw [hin k hk, hns]
          simp only [Bool.false_eq_true, if_false]
          rw [e2, if_pos (by omega)]
        · have hsc : pmd_sect (sa.mem (T2 + j * 8)) = true := by
            rw [hpa]; simp [pmd_sect, PMD_TYPE_MASK, PMD_TYPE_SECT, h1]
          rw [hold.2.1 h1]
          apply walk_pte_split
          intro k hk
          rw [hin k hk, hsc]
          simp only [if_true]
          rw [sp1 k hk, hpa]
        · exact absurd h3 htab
      · exact ha1
      · exact ha2
      · exact ha3
      · simp only [esz]; omega
      · simp only [esz]; exact ha5
    · simp [flush_tlb_all, set_pmd, set_entry, PMD_TYPE_TABLE, table_ref_type _ f2]
    · simp only [flush_tlb_all, set_pmd, set_entry, if_true, PMD_TYPE_TABLE,
        table_ref_addr _ f2 f3, esz]

theorem phys_to_pfn_eq (x : Nat) : phys_to_pfn x = x / 4096 := by
  unfold phys_to_pfn
  show x >>> 12 = _
  rw [Nat.shiftRight_eq_div_pow]

/-- The function `alloc_init_pte` on the part `[lo, hi)` of one section of the
request: it returns, by a run over the range, with the pmd entry referring to a
page table in which every page of the range is mapped as requested. -/
theorem alloc_init_pte_spec {cfg : Config} {lim : PgAlloc → Nat} {s : State} {own : Own}
    (R : Req) (WB : Nat)
    (hv : R.Valid WB) (al : PgAlloc) (hal : R.alloc = some al)
    (hw : WF s.mem own) (hfr : Fresh cfg lim s own) (hlim : ∀ a, s.count a < lim a)
    (T2 b2 lo hi F : Nat)
    (hT : own T2 = some (2, b2)) (hlo : lo % 4096 = 0) (hhi : hi % 4096 = 0) (hlt : lo < hi)
    (hch : hi ≤ lo / 2097152 * 2097152 + 2097152)
    (hb1 : b2 ≤ lo) (hb2 : lo < b2 + 1073741824) (hA : R.A0 ≤ lo) (hE : hi ≤ R.E)
    (hF : 512 ≤ F) :
    ∃ s1 own1, alloc_init_pte cfg F s (T2 + pmd_index lo * 8) lo (hi % U64)
        (phys_to_pfn (R.P0 + (lo - R.A0))) R.prot R.alloc = Res.ok s1 ∧
      Run cfg lim 2 1 s own lo hi s1 own1 ∧
      s1.mem (T2 + pmd_index lo * 8) &&& 3 = 3 ∧
      ∀ a, lo ≤ a → a < hi → a % 4096 = 0 →
        Mapped3 R s1.mem (s1.mem (T2 + pmd_index lo * 8) &&& PTE_ADDR_MASK) a := by
  obtain ⟨v1, v2, v3, v4, v5, v6, v7, v8, v9, v10, v11⟩ := hv
  obtain ⟨_, hTa, _, hbal, _⟩ := hw T2 2 b2 hT
  have hbal2 : b2 % 1073741824 = 0 := hbal
  have hidx := pmd_index_eq lo
  have hj : pmd_index lo < 512 := by omega
  obtain ⟨s1, own1, e1, r1, t1, o1⟩ := alloc_init_pte_prepare_spec hw hfr T2 b2 (pmd_index lo)
    al lo lo hi (hlim al) hT hj (Nat.le_refl _) hlt hb1 hb2 hidx.symm
  have hb3 : b2 + pmd_index lo * 2097152 = lo / 2097152 * 2097152 := by omega
  rw [hb3] at o1
  obtain ⟨_, hT3a, _, _, _⟩ := r1.wf _ 3 _ o1
  obtain ⟨s2, l1, l2, l3, l4⟩ := alloc_init_pte_loop_spec cfg R.prot
    (s1.mem (T2 + pmd_index lo * 8) &&& PTE_ADDR_MASK) (lo / 2097152 * 2097152) hi hhi
    (by omega) hch (by omega) F s1 lo (phys_to_pfn (R.P0 + (lo - R.A0))) hlo hlt (by omega)
    (by omega) (by rw [phys_to_pfn_eq]; omega)
  have r2 := pte_loop_run r1.wf r1.fresh _ _ lo hi o1 (by omega) hch hhi l4 l3
  have hpk : s2.mem (T2 + pmd_index lo * 8) = s1.mem (T2 + pmd_index lo * 8) := by
    apply l3
    intro a _ _ _ he
    have hi2 : pte_index a < 512 := by rw [pte_index_eq]; omega
    have h1 := frame_of_slot T2 _ hTa hj
    have h2 := frame_of_slot _ _ hT3a hi2
    rw [he, h2] at h1
    have h3 := r1.le _ _ hT
    rw [← h1, o1] at h3
    cases h3
  refine ⟨s2, own1, ?_, r1.trans (r2.level 2 0 (by omega) (by omega)) (Nat.le_refl _)
    (Nat.le_refl _) (Nat.le_refl _) (Nat.le_refl _) (by omega), ?_, ?_⟩
  · unfold alloc_init_pte
    rw [hal, e1]
    simp only [not_bad_of_table _ t1, Bool.false_eq_true, if_false, pmd_page_paddr]
    exact l1
  · rw [hpk]; exact t1
  · intro a ha1 ha2 ha3
    unfold Mapped3
    rw [hpk, l2 a ha1 ha2 ha3, phys_to_pfn_eq]
    have e : (R.P0 + (lo - R.A0)) / 4096 + (a - lo) / 4096 = (R.P0 + (a - R.A0)) / 4096 := by
      omega
    rw [e]

/-! ## Correctness of the pmd level -/

theorem release_old_mem (cfg : Config) (s : State) (old : Nat) :
    (release_old cfg s old).mem = s.mem := by
  unfold release_old
  split
  · split
    · split <;> rfl
    · rfl
  · rfl

theorem release_old_count (cfg : Config) (s : State) (old : Nat) :
    (release_old cfg s old).count = s.count := by
  unfold release_old
  split
  · split
    · split <;> rfl
    · rfl
  · rfl

/-- Writing a well-formed entry into an owned table is a run over any range
that holds the whole range of the entry. -/
theorem set_run {cfg : Config} {lim : PgAlloc → Nat} {s s1 : State} {own : Own}
    (hw : WF s.mem own) (hfr : Fresh cfg lim s own)
    (T L b j v a0 lo hi : Nat)
    (hT : own T = some (L, b)) (hj : j < 512) (hv : L < 3 → EntryOk own L b j v)
    (hmem : ∀ q, s1.mem q = if q = T + j * 8 then v else s.mem q)
    (hcnt : s1.count = s.count)
    (ha1 : lo ≤ a0) (ha2 : a0 < hi) (ha3 : b ≤ a0) (ha4 : a0 < b + 512 * esz L)
    (ha5 : a0 / esz L % 512 = j)
    (hwhole : lo ≤ a0 / esz L * esz L ∧ a0 / esz L * esz L + esz L ≤ hi)
    (hvb : L = 1 → v &&& 3 = 1 → v &&& (PUD_SIZE - PMD_SIZE) = 0) :
    Run cfg lim L 0 s own lo hi s1 own := by
  obtain ⟨hL3, hTa, _, hbal, _⟩ := hw T L b hT
  have hfun : s1.mem = fun q => if q = T + j * 8 then v else s.mem q := funext hmem
  refine ⟨?_, ?_, fun _ _ h => h, ?_, fun a => by rw [hcnt], fun _ h1 h2 => absurd h1 h2,
    ?_, fun a => by rw [hcnt]; omega, ?_⟩
  · rw [hfun]; exact hw.set T L b j v hT hj hv
  · apply Fresh.step hfr (fun a => by rw [hcnt])
    · intro a n hn hl
      rw [hcnt] at hn
      exact (hfr a n hn hl).2.2.2.1
    · intro a n q hn hl hq1 hq2
      rw [hcnt] at hn
      obtain ⟨_, g2, _, g4, _, _⟩ := hfr a n hn hl
      rw [hmem, if_neg]
      intro he
      have : cfg.frames a n = T := by omega
      rw [this, hT] at g4; cases g4
  · intro q hq
    right
    have hqp : q = T + j * 8 := by
      by_contra hn
      apply hq
      rw [hmem, if_neg hn]
    subst hqp
    rw [frame_of_slot T j hTa hj]
    refine ⟨L, b, a0, hT, ha1, ha2, ha3, ha4, ?_, fun _ _ => hwhole⟩
    unfold slot; rw [ha5]
  · intro q L1 b1 hq hL1
    rw [hmem, if_neg]
    intro he
    rw [he, frame_of_slot T j hTa hj, hT] at hq
    cases hq; omega
  · intro hb0
    constructor
    · intro T1 b1 j1 hT1 hj1 ht
      obtain ⟨_, hT1a, _, _, _⟩ := hw T1 1 b1 hT1
      by_cases hq : T1 + j1 * 8 = T + j * 8
      · have hTT : T1 = T := by
          have h1 := frame_of_slot T1 j1 hT1a hj1
          have h2 := frame_of_slot T j hTa hj
          rw [← h1, ← h2, hq]
        subst hTT
        rw [hT] at hT1
        cases hT1
        rw [hq, hmem, if_pos rfl] at ht ⊢
        exact hvb rfl ht
      · rw [hmem, if_neg hq] at ht ⊢
        exact hb0 T1 b1 j1 hT1 hj1 ht
    · intro T1 L1 b1 va hT1 c1 c2 c3
      refine walk_agree hw va ?_ T1 L1 b1 hT1 c1 c2
      intro T2 L2 b2 hT2 d1 d2
      left
      obtain ⟨_, hT2a, _, _, _⟩ := hw T2 L2 b2 hT2
      have hix : va / esz L2 % 512 < 512 := Nat.mod_lt _ (by omega)
      have hfr2 := frame_of_slot T2 _ hT2a hix
      rw [hmem, if_neg]
      intro he
      have hfrT := frame_of_slot T j hTa hj
      have hTT : T2 = T := by
        unfold slot at he
        rw [← hfr2, ← hfrT, he]
      subst hTT
      rw [hT] at hT2
      cases hT2
      unfold slot at he
      have hL4 : L = 0 ∨ L = 1 ∨ L = 2 ∨ L = 3 := by omega
      rcases hL4 with h | h | h | h <;> subst h <;> simp only [esz] at * <;> omega

/-- One pass of the pmd loop over the part `[lo, next)` of one section of the
request: it returns, by a run over the range, with every page of the range
mapped as requested (by a section entry exactly when `big2M`). -/
theorem alloc_init_pmd_step_spec {cfg : Config} {lim : PgAlloc → Nat} {s : State} {own : Own}
    (R : Req) (WB : Nat)
    (hv : R.Valid WB) (al : PgAlloc) (hal : R.alloc = some al)
    (hw : WF s.mem own) (hfr : Fresh cfg lim s own) (hlim : ∀ a, s.count a < lim a)
    (T2 b2 lo next F : Nat)
    (hT : own T2 = some (2, b2)) (hlo : lo % 4096 = 0) (hnx : next % 4096 = 0)
    (hlt : lo < next) (hch : next ≤ lo / 2097152 * 2097152 + 2097152)
    (hb1 : b2 ≤ lo) (hb2 : lo < b2 + 1073741824) (hA : R.A0 ≤ lo) (hE : next ≤ R.E)
    (hlo2 : lo = R.A0 ∨ lo % 2097152 = 0) (hnx2 : next = R.E ∨ next % 2097152 = 0)
    (hF : 512 ≤ F) :
    ∃ s1 own1, alloc_init_pmd_step cfg F s (T2 + pmd_index lo * 8) lo (next % U64)
        (R.P0 + (lo - R.A0)) R.prot R.alloc = Res.ok s1 ∧
      Run cfg lim 2 1 s own lo next s1 own1 ∧
      ∀ a, lo ≤ a → a < next → a % 4096 = 0 → Mapped2 cfg R s1.mem T2 a := by
  have hv1 := hv
  obtain ⟨v1, v2, v3, v4, v5, v6, v7, v8, v9, v10, v11⟩ := hv1
  obtain ⟨_, hTa, _, hbal, _⟩ := hw T2 2 b2 hT
  have hbal2 : b2 % 1073741824 = 0 := hbal
  have hidx := pmd_index_eq lo
  have hj : pmd_index lo < 512 := by omega
  have hidxa : ∀ a, lo ≤ a → a < next → pmd_index a = pmd_index lo := by
    intro a h1 h2; rw [pmd_index_eq, pmd_index_eq]; omega
  have hsa := section_aligned_iff lo (next % U64) (R.P0 + (lo - R.A0))
  rw [U64_eq] at hsa ⊢
  unfold alloc_init_pmd_step
  by_cases hblk : (lo % 2097152 = 0 ∧ next % 18446744073709551616 % 2097152 = 0 ∧
      (R.P0 + (lo - R.A0)) % 2097152 = 0) ∧ block_mappings_allowed cfg R.alloc = true
  · -- a section entry
    obtain ⟨⟨k1, k2, k3⟩, k4⟩ := hblk
    have hc1 : ((lo ||| next % 18446744073709551616 ||| (R.P0 + (lo - R.A0))) &&&
        not64 SECTION_MASK == 0) = true := by
      simpa using hsa.mpr ⟨k1, k2, k3⟩
    have hph : (R.P0 + (lo - R.A0)) &&& not64 PMD_MASK = 0 := by
      rw [and_not_PMD_MASK]; exact k3
    have hnext : next = lo + 2097152 := by omega
    refine ⟨release_old cfg (set_pmd s (T2 + pmd_index lo * 8)
        ((R.P0 + (lo - R.A0)) ||| PMD_TYPE_SECT ||| mk_sect_prot R.prot))
        (s.mem (T2 + pmd_index lo * 8)), own, ?_, ?_, ?_⟩
    · simp [hc1, k4, pmd_set_huge, hph]
    · refine (set_run hw hfr T2 2 b2 (pmd_index lo)
        ((R.P0 + (lo - R.A0)) ||| PMD_TYPE_SECT ||| mk_sect_prot R.prot) lo lo next hT hj
        ?_ ?_ ?_ ?_ ?_ ?_ ?_ ?_ ?_ ?_).level 2 1 (Nat.le_refl _) (by omega)
      · intro _
        exact Or.inr (Or.inl ⟨by decide,
          block_entry_type (R.P0 + (lo - R.A0)) R.prot (by omega)⟩)
      · intro q
        rw [release_old_mem]; rfl
      · rw [release_old_count]; rfl
      · exact Nat.le_refl _
      · exact hlt
      · exact hb1
      · simp only [esz]; omega
      · simp only [esz]; omega
      · simp only [esz]; omega
      · intro h; omega
    · intro a ha1 ha2 ha3
      have hbig : big2M cfg R a := ⟨k4, by omega, by omega, by
        have : a / 2097152 * 2097152 = lo := by omega
        rw [this]; exact k3⟩
      unfold Mapped2
      rw [if_pos hbig, release_old_mem, hidxa a ha1 ha2]
      have : a / 2097152 * 2097152 = lo := by omega
      rw [this]
      simp [set_pmd, set_entry]
  · -- page entries
    have hc1 : (((lo ||| next % 18446744073709551616 ||| (R.P0 + (lo - R.A0))) &&&
        not64 SECTION_MASK == 0) && block_mappings_allowed cfg R.alloc) = false := by
      by_cases hx : (lo ||| next % 18446744073709551616 ||| (R.P0 + (lo - R.A0))) &&&
          not64 SECTION_MASK = 0
      · have := hsa.mp hx
        have hb : block_mappings_allowed cfg R.alloc = false := by
          cases hbb : block_mappings_allowed cfg R.alloc
          · rfl
          · exact absurd ⟨this, hbb⟩ hblk
        simp [hb]
      · simp [hx]
    obtain ⟨s1, own1, e1, r1, t1, m1⟩ := alloc_init_pte_spec R WB hv al hal hw hfr hlim T2 b2
      lo next F hT hlo hnx hlt hch hb1 hb2 hA hE hF
    rw [U64_eq] at e1
    refine ⟨s1, own1, ?_, r1, ?_⟩
    · simp only [hc1, Bool.false_eq_true, if_false]
      exact e1
    · intro a ha1 ha2 ha3
      have hnb : ¬ big2M cfg R a := by
        rintro ⟨g1, g2, g3, g4⟩
        apply hblk
        have hc : a / 2097152 * 2097152 = lo / 2097152 * 2097152 := by omega
        rw [hc] at g2 g3 g4
        have hl : lo = lo / 2097152 * 2097152 := by omega
        refine ⟨⟨by omega, by omega, ?_⟩, g1⟩
        rw [hl]; exact g4
      unfold Mapped2
      rw [if_neg hnb, hidxa a ha1 ha2]
      exact ⟨t1, m1 a ha1 ha2 ha3⟩

/-- The loop of `alloc_init_pmd` over the part `[lo, hi)` of one 1 GiB chunk of
the request, on the owned pmd table `T2`: it ends, by a run over the range,
with every page of the range mapped as requested. -/
theorem alloc_init_pmd_loop_spec {cfg : Config} {lim : PgAlloc → Nat} (R : Req) (WB : Nat)
    (hv : R.Valid WB) (al : PgAlloc) (hal : R.alloc = some al) (T2 b2 hi F : Nat)
    (hhi : hi % 4096 = 0) (hhiE : hi ≤ R.E) (hhi2 : hi = R.E ∨ hi % 2097152 = 0)
    (hhb : hi ≤ b2 + 1073741824) (hF : 512 ≤ F) :
    ∀ (fuel : Nat) (s : State) (own : Own) (lo : Nat),
      WF s.mem own → Fresh cfg lim s own → own T2 = some (2, b2) →
      lo % 4096 = 0 → lo < hi → b2 ≤ lo → R.A0 ≤ lo → (lo = R.A0 ∨ lo % 2097152 = 0) →
      (hi + 2097151) / 2097152 - lo / 2097152 ≤ fuel →
      (∀ a, s.count a + ((hi + 2097151) / 2097152 - lo / 2097152) ≤ lim a) →
      ∃ s1 own1, alloc_init_pmd_loop cfg F R.prot (hi % U64) R.alloc fuel s
          (T2 + pmd_index lo * 8) lo (R.P0 + (lo - R.A0)) = Res.ok s1 ∧
        Run cfg lim 2 ((hi + 2097151) / 2097152 - lo / 2097152) s own lo hi s1 own1 ∧
        ∀ a, lo ≤ a → a < hi → a % 4096 = 0 → Mapped2 cfg R s1.mem T2 a := by
  have hv1 := hv
  obtain ⟨v1, v2, v3, v4, v5, v6, v7, v8, v9, v10, v11⟩ := hv1
  intro fuel
  induction fuel with
  | zero => intro s own lo _ _ _ _ h5 _ _ _ h9; omega
  | succ n ih =>
    intro s own lo hw hfr hT hlo hlt hb1 hA hlo2 hfuel hbud
    obtain ⟨_, hTa, _, hbal, _⟩ := hw T2 2 b2 hT
    have hbal2 : b2 % 1073741824 = 0 := hbal
    have hnx := pmd_addr_end_eq lo hi hlt (by omega)
    have hlim1 : ∀ a, s.count a < lim a := by
      intro a; have := hbud a; omega
    obtain ⟨s1, own1, e1, r1, m1⟩ := alloc_init_pmd_step_spec R WB hv al hal hw hfr hlim1 T2 b2
      lo
      (min ((lo / 2097152 + 1) * 2097152) hi) F hT hlo (by omega) (by omega) (by omega)
      hb1 (by omega) hA (by omega) hlo2 (by omega) hF
    rw [alloc_init_pmd_loop]
    simp only [hnx, e1]
    by_cases hend : min ((lo / 2097152 + 1) * 2097152) hi = hi
    · rw [hend] at r1 m1 ⊢
      simp only [bne_self_eq_false, Bool.false_eq_true, if_false]
      exact ⟨s1, own1, rfl, r1.level 2 _ (Nat.le_refl _) (by omega), m1⟩
    · have hne : (min ((lo / 2097152 + 1) * 2097152) hi % U64 != hi % U64) = true := by
        rw [U64_eq]
        have : min ((lo / 2097152 + 1) * 2097152) hi % 18446744073709551616
            ≠ hi % 18446744073709551616 := by omega
        simpa using this
      have hmin : min ((lo / 2097152 + 1) * 2097152) hi = (lo / 2097152 + 1) * 2097152 := by
        omega
      rw [hmin] at r1 m1 hne ⊢
      simp only [hne, if_true]
      have hphys : (R.P0 + (lo - R.A0) + ((lo / 2097152 + 1) * 2097152 % U64 + U64 - lo)) % U64
          = R.P0 + ((lo / 2097152 + 1) * 2097152 - R.A0) := by
        rw [U64_eq]; omega
      have hptr : T2 + pmd_index lo * 8 + 8 = T2 + pmd_index ((lo / 2097152 + 1) * 2097152) * 8
          := by
        rw [pmd_index_eq, pmd_index_eq]; omega
      have hmod : (lo / 2097152 + 1) * 2097152 % U64 = (lo / 2097152 + 1) * 2097152 := by
        rw [U64_eq]; omega
      rw [hphys, hptr, hmod]
      obtain ⟨s2, own2, e2, r2, m2⟩ := ih s1 own1 ((lo / 2097152 + 1) * 2097152) r1.wf r1.fresh
        (r1.le _ _ hT) (by omega) (by omega) (by omega) (by omega) (Or.inr (by omega))
        (by omega) (by intro a; have := hbud a; have := r1.used a; omega)
      refine ⟨s2, own2, e2, r1.trans r2 (Nat.le_refl _) (by omega) (by omega) (Nat.le_refl _)
        (by omega), ?_⟩
      intro a ha1 ha2 ha3
      by_cases hlow : a < (lo / 2097152 + 1) * 2097152
      · exact (m1 a ha1 hlow ha3).keep2 r1.wf (r1.le _ _ hT) (by omega) (by omega) r2.foot ha3
          (by omega) (Or.inl hlow) (fun _ => Or.inl (by omega))
      · exact m2 a (by omega) ha2 ha3

/-- The first half of `alloc_init_pmd` on entry `j` of the owned pud table
`T1`: it ends in a state in which the entry refers to an owned pmd table for
exactly that 1 GiB chunk. -/
theorem alloc_init_pmd_prepare_spec {cfg : Config} {lim : PgAlloc → Nat} {s : State}
    {own : Own} (hw : WF s.mem own) (hfr : Fresh cfg lim s own)
    (T1 b1 j : Nat) (al : PgAlloc) (a0 lo hi : Nat) (hlim : ∀ a, s.count a < lim a)
    (hT : own T1 = some (1, b1)) (hj : j < 512)
    (ha1 : lo ≤ a0) (ha2 : a0 < hi) (ha3 : b1 ≤ a0) (ha4 : a0 < b1 + 549755813888)
    (ha5 : a0 / 1073741824 % 512 = j) :
    ∃ s1 own1, alloc_init_pmd_prepare cfg s (T1 + j * 8) (some al) = Res.ok s1 ∧
      Run cfg lim 1 1 s own lo hi s1 own1 ∧
      s1.mem (T1 + j * 8) &&& 3 = 3 ∧
      own1 (s1.mem (T1 + j * 8) &&& PTE_ADDR_MASK) = some (2, b1 + j * 1073741824) := by
  obtain ⟨_, hTa, _, _, hent⟩ := hw T1 1 b1 hT
  have hok := hent (by omega) j hj
  by_cases htab : s.mem (T1 + j * 8) &&& 3 = 3
  · have hnn : pud_none (s.mem (T1 + j * 8)) = false := by
      simp [pud_none, ne_zero_of_type htab (by omega)]
    have hns : pud_sect (s.mem (T1 + j * 8)) = false := by
      simp [pud_sect, PMD_TYPE_MASK, PUD_TYPE_SECT, htab]
    refine ⟨s, own, ?_, Run.refl hw hfr 1 1 lo hi, htab, ?_⟩
    · simp [alloc_init_pmd_prepare, hnn, hns]
    · exact hok.table htab
  · have hcond : (pud_none (s.mem (T1 + j * 8)) || pud_sect (s.mem (T1 + j * 8))) = true := by
      rcases hok with h | ⟨_, h⟩ | ⟨h, _⟩
      · simp [pud_none, h]
      · simp [pud_sect, PMD_TYPE_MASK, PUD_TYPE_SECT, h]
      · exact absurd h htab
    obtain ⟨a1, sa, e1, e2, e3⟩ := alloc_pmd_frame_spec hfr al hlim
    obtain ⟨f1, f2, f3, f4, _, _⟩ := hfr a1 (s.count a1) (Nat.le_refl _) (hlim a1)
    have hpf : ¬ (cfg.frames a1 (s.count a1) ≤ T1 + j * 8 ∧
        T1 + j * 8 < cfg.frames a1 (s.count a1) + 4096) := by
      intro hh
      have : cfg.frames a1 (s.count a1) = T1 := by omega
      rw [this, hT] at f4; cases f4
    have hpa : sa.mem (T1 + j * 8) = s.mem (T1 + j * 8) := by
      rw [e2, if_neg hpf]
    obtain ⟨sp1, sp2, _, sp4⟩ := split_pud_spec sa (T1 + j * 8) (cfg.frames a1 (s.count a1))
    refine ⟨flush_tlb_all (set_pud
        (if pud_sect (sa.mem (T1 + j * 8)) then
          split_pud sa (T1 + j * 8) (cfg.frames a1 (s.count a1)) else sa)
        (T1 + j * 8) (cfg.frames a1 (s.count a1) ||| PUD_TYPE_TABLE)),
      (fun x => if x = cfg.frames a1 (s.count a1) then some (1 + 1, b1 + j * esz 1)
        else own x), ?_, ?_, ?_, ?_⟩
    · simp only [alloc_init_pmd_prepare, hcond, if_true, e1]
    · apply link_run hw hfr T1 1 b1 j a1 a0 lo hi (hlim a1) hT (by omega) hj
      · simp only [flush_tlb_all, set_pud, set_entry]
        split
        · rw [sp4, e3]
        · rw [e3]
      · simp [flush_tlb_all, set_pud, set_entry, PUD_TYPE_TABLE]
      · exact htab
      · intro q hq1 hq2
        simp only [flush_tlb_all, set_pud, set_entry, hq1, if_false]
        split
        · rw [sp2 q (by intro k hk; omega), e2, if_neg hq2]
        · rw [e2, if_neg hq2]
      · intro _ i hi
        have hne : cfg.frames a1 (s.count a1) + i * 8 ≠ T1 + j * 8 := by omega
        simp only [flush_tlb_all, set_pud, set_entry, hne, if_false]
        split
        · rename_i hs
          right
          rw [sp1 i hi, split_pud_entry_type, hpa]
          rw [hpa] at hs
          simpa [pud_sect, PMD_TYPE_MASK, PUD_TYPE_SECT] using hs
        · left
          rw [e2, if_pos (by omega)]
      · intro h; omega
      · intro hb0 va v1 v2
        simp only [esz] at v1 v2
        obtain ⟨_, _, _, hb1al, _⟩ := hw T1 1 b1 hT
        have hb1al2 : b1 % 549755813888 = 0 := hb1al
        have hjv : pud_index va = j := by rw [pud_index_eq]; omega
        have hnew1 : (flush_tlb_all (set_pud
            (if pud_sect (sa.mem (T1 + j * 8)) then
              split_pud sa (T1 + j * 8) (cfg.frames a1 (s.count a1)) else sa)
            (T1 + j * 8) (cfg.frames a1 (s.count a1) ||| PUD_TYPE_TABLE))).mem
              (T1 + pud_index va * 8) = cfg.frames a1 (s.count a1) ||| 3 := by
          rw [hjv]
          simp [flush_tlb_all, set_pud, set_entry, PUD_TYPE_TABLE]
        have hin : ∀ k, k < 512 → (flush_tlb_all (set_pud
            (if pud_sect (sa.mem (T1 + j * 8)) then
              split_pud sa (T1 + j * 8) (cfg.frames a1 (s.count a1)) else sa)
            (T1 + j * 8) (cfg.frames a1 (s.count a1) ||| PUD_TYPE_TABLE))).mem
              (cfg.frames a1 (s.count a1) + k * 8)
            = (if pud_sect (sa.mem (T1 + j * 8)) then
              split_pud sa (T1 + j * 8) (cfg.frames a1 (s.count a1)) else sa).mem
              (cfg.frames a1 (s.count a1) + k * 8) := by
          intro k hk
          have hne : cfg.frames a1 (s.count a1) + k * 8 ≠ T1 + j * 8 := by omega
          simp only [flush_tlb_all, set_pud, set_entry, hne, if_false]
        show (walk_pud _ T1 va).map Prod.fst = (walk_pud s.mem T1 va).map Prod.fst
        rw [((walk_pud_by_entry _ T1 va _ hnew1).2.2 (table_ref_type _ f2)),
          table_ref_addr _ f2 f3]
        have hold := walk_pud_by_entry s.mem T1 va (s.mem (T1 + j * 8)) (by rw [hjv])
        rcases hok with h0 | ⟨_, h1⟩ | ⟨h3, _⟩
        · have hns : pud_sect (sa.mem (T1 + j * 8)) = false := by
            rw [hpa, h0]; rfl
          rw [hold.1 h0, walk_pmd_zero]
          intro k hk
          rw [hin k hk, hns]
          simp only [Bool.false_eq_true, if_false]
          rw [e2, if_pos (by omega)]
        · have hsc : pud_sect (sa.mem (T1 + j * 8)) = true := by
            rw [hpa]; simp [pud_sect, PMD_TYPE_MASK, PUD_TYPE_SECT, h1]
          rw [hold.2.1 h1]
          apply walk_pmd_split _ _ _ _ h1 (hb0 T1 b1 j hT hj h1)
          intro k hk
          rw [hin k hk, hsc]
          simp only [if_true]
          rw [sp1 k hk, hpa]
        · exact absurd h3 htab
      · exact ha1
      · exact ha2
      · exact ha3
      · simp only [esz]; omega
      · simp only [esz]; exact ha5
    · simp [flush_tlb_all, set_pud, set_entry, PUD_TYPE_TABLE, table_ref_type _ f2]
    · simp only [flush_tlb_all, set_pud, set_entry, if_true, PUD_TYPE_TABLE,
        table_ref_addr _ f2 f3, esz]

/-- The function `alloc_init_pmd` on the part `[lo, hi)` of one 1 GiB chunk of
the request: it returns, by a run over the range, with the pud entry referring
to a pmd table through which every page of the range is mapped as requested. -/
theorem alloc_init_pmd_spec {cfg : Config} {lim : PgAlloc → Nat} {s : State} {own : Own}
    (R : Req) (WB : Nat)
    (hv : R.Valid WB) (al : PgAlloc) (hal : R.alloc = some al)
    (hw : WF s.mem own) (hfr : Fresh cfg lim s own) (hlim : ∀ a, s.count a + 513 ≤ lim a)
    (T1 b1 lo hi F : Nat)
    (hT : own T1 = some (1, b1)) (hlo : lo % 4096 = 0) (hhi : hi % 4096 = 0) (hlt : lo < hi)
    (hch : hi ≤ lo / 1073741824 * 1073741824 + 1073741824)
    (hb1 : b1 ≤ lo) (hb2 : lo < b1 + 549755813888) (hA : R.A0 ≤ lo) (hE : hi ≤ R.E)
    (hlo2 : lo = R.A0 ∨ lo % 1073741824 = 0) (hhi2 : hi = R.E ∨ hi % 1073741824 = 0)
    (hF : 512 ≤ F) :
    ∃ s1 own1, alloc_init_pmd cfg F s (T1 + pud_index lo * 8) lo (hi % U64)
        (R.P0 + (lo - R.A0)) R.prot R.alloc = Res.ok s1 ∧
      Run cfg lim 1 513 s own lo hi s1 own1 ∧
      s1.mem (T1 + pud_index lo * 8) &&& 3 = 3 ∧
      ∀ a, lo ≤ a → a < hi → a % 4096 = 0 →
        Mapped2 cfg R s1.mem (s1.mem (T1 + pud_index lo * 8) &&& PTE_ADDR_MASK) a := by
  obtain ⟨_, hTa, _, hbal, _⟩ := hw T1 1 b1 hT
  have hbal2 : b1 % 549755813888 = 0 := hbal
  have hidx := pud_index_eq lo
  have hj : pud_index lo < 512 := by omega
  obtain ⟨s1, own1, e1, r1, t1, o1⟩ := alloc_init_pmd_prepare_spec hw hfr T1 b1 (pud_index lo)
    al lo lo hi (by intro a; have := hlim a; omega) hT hj (Nat.le_refl _) hlt hb1 hb2 hidx.symm
  have hb3 : b1 + pud_index lo * 1073741824 = lo / 1073741824 * 1073741824 := by omega
  rw [hb3] at o1
  obtain ⟨_, hT2a, _, _, _⟩ := r1.wf _ 2 _ o1
  obtain ⟨s2, own2, e2, r2, m2⟩ := alloc_init_pmd_loop_spec R WB hv al hal
    (s1.mem (T1 + pud_index lo * 8) &&& PTE_ADDR_MASK) (lo / 1073741824 * 1073741824) hi F
    hhi hE (by omega) hch hF F s1 own1 lo r1.wf r1.fresh o1 hlo hlt (by omega) hA
    (by omega) (by omega) (by intro a; have := hlim a; have := r1.used a; omega)
  have hpk : s2.mem (T1 + pud_index lo * 8) = s1.mem (T1 + pud_index lo * 8) := by
    apply r2.above _ 1 b1 _ (by omega)
    rw [frame_of_slot T1 _ hTa hj]
    exact r1.le _ _ hT
  rw [hal] at e2
  refine ⟨s2, own2, ?_, r1.trans (r2.level 1 512 (by omega) (by omega)) (Nat.le_refl _)
    (Nat.le_refl _) (Nat.le_refl _) (Nat.le_refl _) (by omega), ?_, ?_⟩
  · unfold alloc_init_pmd
    rw [hal, e1]
    have hnb : pud_bad (s1.mem (T1 + pud_index lo * 8)) = false := not_bad_of_table _ t1
    simp only [hnb, Bool.false_eq_true, if_false, pud_page_paddr]
    exact e2
  · rw [hpk]; exact t1
  · intro a ha1 ha2 ha3
    rw [hpk]; exact m2 a ha1 ha2 ha3

/-! ## Correctness of the pud level -/

theorem use_1G_block_iff (cfg : Config) (addr next phys : Nat) :
    use_1G_block cfg addr next phys = true ↔
      (addr % 1073741824 = 0 ∧ next % 1073741824 = 0 ∧ phys % 1073741824 = 0) ∧
        cfg.uh_rkp = false := by
  unfold use_1G_block
  have hps : (PAGE_SHIFT != 12) = false := by decide
  have := pud_aligned_iff addr next phys
  by_cases h : (addr ||| next ||| phys) &&& not64 PUD_MASK = 0
  · have h2 := this.mp h
    cases hr : cfg.uh_rkp <;> simp [hps, h, h2]
  · have h2 : ¬ (addr % 1073741824 = 0 ∧ next % 1073741824 = 0 ∧ phys % 1073741824 = 0) :=
      fun hh => h (this.mpr hh)
    simp [hps, h, h2]

/-- One pass of the pud loop over the part `[lo, next)` of one 1 GiB chunk of
the request: it returns, by a run over the range, with every page of the range
mapped as requested (by a 1 GiB entry exactly when `big1G`). -/
theorem alloc_init_pud_step_spec {cfg : Config} {lim : PgAlloc → Nat} {s : State} {own : Own}
    (R : Req) (WB : Nat)
    (hv : R.Valid WB) (al : PgAlloc) (hal : R.alloc = some al)
    (hw : WF s.mem own) (hfr : Fresh cfg lim s own) (hlim : ∀ a, s.count a + 513 ≤ lim a)
    (T1 b1 lo next F : Nat)
    (hT : own T1 = some (1, b1)) (hlo : lo % 4096 = 0) (hnx : next % 4096 = 0)
    (hlt : lo < next) (hch : next ≤ lo / 1073741824 * 1073741824 + 1073741824)
    (hb1 : b1 ≤ lo) (hb2 : lo < b1 + 549755813888) (hA : R.A0 ≤ lo) (hE : next ≤ R.E)
    (hlo2 : lo = R.A0 ∨ lo % 1073741824 = 0) (hnx2 : next = R.E ∨ next % 1073741824 = 0)
    (hF : 512 ≤ F) :
    ∃ s1 own1, alloc_init_pud_step cfg F s (T1 + pud_index lo * 8) lo (next % U64)
        (R.P0 + (lo - R.A0)) R.prot R.alloc = Res.ok s1 ∧
      Run cfg lim 1 513 s own lo next s1 own1 ∧
      ∀ a, lo ≤ a → a < next → a % 4096 = 0 → Mapped1 cfg R s1.mem T1 a := by
  have hv1 := hv
  obtain ⟨v1, v2, v3, v4, v5, v6, v7, v8, v9, v10, v11⟩ := hv1
  obtain ⟨_, hTa, _, hbal, _⟩ := hw T1 1 b1 hT
  have hbal2 : b1 % 549755813888 = 0 := hbal
  have hidx := pud_index_eq lo
  have hj : pud_index lo < 512 := by omega
  have hidxa : ∀ a, lo ≤ a → a < next → pud_index a = pud_index lo := by
    intro a h1 h2; rw [pud_index_eq, pud_index_eq]; omega
  have hu := use_1G_block_iff cfg lo (next % U64) (R.P0 + (lo - R.A0))
  rw [U64_eq] at hu ⊢
  unfold alloc_init_pud_step
  by_cases hblk : use_1G_block cfg lo (next % 18446744073709551616) (R.P0 + (lo - R.A0)) = true
      ∧ block_mappings_allowed cfg R.alloc = true
  · -- a 1 GiB entry
    obtain ⟨k0, k4⟩ := hblk
    obtain ⟨⟨k1, k2, k3⟩, k5⟩ := hu.mp k0
    have hph : (R.P0 + (lo - R.A0)) &&& not64 PUD_MASK = 0 := by
      rw [and_not_PUD_MASK]; exact k3
    have hnext : next = lo + 1073741824 := by omega
    refine ⟨release_old cfg (set_pud s (T1 + pud_index lo * 8)
        ((R.P0 + (lo - R.A0)) ||| PUD_TYPE_SECT ||| mk_sect_prot R.prot))
        (s.mem (T1 + pud_index lo * 8)), own, ?_, ?_, ?_⟩
    · simp [k0, k4, pud_set_huge, hph]
    · refine (set_run hw hfr T1 1 b1 (pud_index lo)
        ((R.P0 + (lo - R.A0)) ||| PUD_TYPE_SECT ||| mk_sect_prot R.prot) lo lo next hT hj
        ?_ ?_ ?_ ?_ ?_ ?_ ?_ ?_ ?_ ?_).level 1 513 (Nat.le_refl _) (by omega)
      · intro _
        exact Or.inr (Or.inl ⟨by decide,
          block_entry_type (R.P0 + (lo - R.A0)) R.prot (by omega)⟩)
      · intro q
        rw [release_old_mem]; rfl
      · rw [release_old_count]; rfl
      · exact Nat.le_refl _
      · exact hlt
      · exact hb1
      · simp only [esz]; omega
      · simp only [esz]; omega
      · simp only [esz]; omega
      · intro _ _
        have hlt48 : R.P0 + (lo - R.A0) < 281474976710656 := by
          have := hv.p_le; omega
        have hadr := block_entry_addr (R.P0 + (lo - R.A0)) R.prot (by omega) hlt48
          hv.prot_addr
        rw [and_PTE_ADDR_MASK] at hadr
        have hadr2 : ((R.P0 + (lo - R.A0)) ||| PUD_TYPE_SECT ||| mk_sect_prot R.prot) / 4096
            % 68719476736 * 4096 = R.P0 + (lo - R.A0) := hadr
        rw [pud_res_mask, and_field_mask]
        norm_num
        omega
    · intro a ha1 ha2 ha3
      have hbig : big1G cfg R a := ⟨k5, k4, by omega, by omega, by
        have : a / 1073741824 * 1073741824 = lo := by omega
        rw [this]; exact k3⟩
      unfold Mapped1
      rw [if_pos hbig, release_old_mem, hidxa a ha1 ha2]
      have : a / 1073741824 * 1073741824 = lo := by omega
      rw [this]
      simp [set_pud, set_entry]
  · -- the pmd level
    have hc1 : (use_1G_block cfg lo (next % 18446744073709551616) (R.P0 + (lo - R.A0)) &&
        block_mappings_allowed cfg R.alloc) = false := by
      cases hx : use_1G_block cfg lo (next % 18446744073709551616) (R.P0 + (lo - R.A0))
      · simp
      · cases hbb : block_mappings_allowed cfg R.alloc
        · simp
        · exact absurd ⟨hx, hbb⟩ hblk
    obtain ⟨s1, own1, e1, r1, t1, m1⟩ := alloc_init_pmd_spec R WB hv al hal hw hfr hlim T1 b1
      lo next F hT hlo hnx hlt hch hb1 hb2 hA hE hlo2 hnx2 hF
    rw [U64_eq] at e1
    refine ⟨s1, own1, ?_, r1, ?_⟩
    · simp only [hc1, Bool.false_eq_true, if_false]
      exact e1
    · intro a ha1 ha2 ha3
      have hnb : ¬ big1G cfg R a := by
        rintro ⟨g0, g1, g2, g3, g4⟩
        apply hblk
        have hc : a / 1073741824 * 1073741824 = lo / 1073741824 * 1073741824 := by omega
        rw [hc] at g2 g3 g4
        have hl : lo = lo / 1073741824 * 1073741824 := by omega
        refine ⟨hu.mpr ⟨⟨by omega, by omega, ?_⟩, g0⟩, g1⟩
        rw [hl]; exact g4
      unfold Mapped1
      rw [if_neg hnb, hidxa a ha1 ha2]
      exact ⟨t1, m1 a ha1 ha2 ha3⟩

/-- The loop of `alloc_init_pud` over the part `[lo, hi)` of one pgd entry's
range of the request, on the owned pud table `T1`: it ends, by a run over the
range, with every page of the range mapped as requested. -/
theorem alloc_init_pud_loop_spec {cfg : Config} {lim : PgAlloc → Nat} (R : Req) (WB : Nat)
    (hv : R.Valid WB) (al : PgAlloc) (hal : R.alloc = some al) (T1 b1 hi F : Nat)
    (hhi : hi % 4096 = 0) (hhiE : hi ≤ R.E) (hhi2 : hi = R.E ∨ hi % 1073741824 = 0)
    (hhb : hi ≤ b1 + 549755813888) (hF : 512 ≤ F) :
    ∀ (fuel : Nat) (s : State) (own : Own) (lo : Nat),
      WF s.mem own → Fresh cfg lim s own → own T1 = some (1, b1) →
      lo % 4096 = 0 → lo < hi → b1 ≤ lo → R.A0 ≤ lo → (lo = R.A0 ∨ lo % 1073741824 = 0) →
      (hi + 1073741823) / 1073741824 - lo / 1073741824 ≤ fuel →
      (∀ a, s.count a + 513 * ((hi + 1073741823) / 1073741824 - lo / 1073741824) ≤ lim a) →
      ∃ s1 own1, alloc_init_pud_loop cfg F R.prot (hi % U64) R.alloc fuel s
          (T1 + pud_index lo * 8) lo (R.P0 + (lo - R.A0)) = Res.ok s1 ∧
        Run cfg lim 1 (513 * ((hi + 1073741823) / 1073741824 - lo / 1073741824)) s own lo hi
          s1 own1 ∧
        ∀ a, lo ≤ a → a < hi → a % 4096 = 0 → Mapped1 cfg R s1.mem T1 a := by
  have hv1 := hv
  obtain ⟨v1, v2, v3, v4, v5, v6, v7, v8, v9, v10, v11⟩ := hv1
  intro fuel
  induction fuel with
  | zero => intro s own lo _ _ _ _ h5 _ _ _ h9; omega
  | succ n ih =>
    intro s own lo hw hfr hT hlo hlt hb1 hA hlo2 hfuel hbud
    obtain ⟨_, hTa, _, hbal, _⟩ := hw T1 1 b1 hT
    have hbal2 : b1 % 549755813888 = 0 := hbal
    have hnx := pud_addr_end_eq lo hi hlt (by omega)
    have hlim1 : ∀ a, s.count a + 513 ≤ lim a := by
      intro a; have := hbud a; omega
    obtain ⟨s1, own1, e1, r1, m1⟩ := alloc_init_pud_step_spec R WB hv al hal hw hfr hlim1 T1 b1
      lo
      (min ((lo / 1073741824 + 1) * 1073741824) hi) F hT hlo (by omega) (by omega) (by omega)
      hb1 (by omega) hA (by omega) hlo2 (by omega) hF
    rw [alloc_init_pud_loop]
    simp only [hnx, e1]
    by_cases hend : min ((lo / 1073741824 + 1) * 1073741824) hi = hi
    · rw [hend] at r1 m1 ⊢
      simp only [bne_self_eq_false, Bool.false_eq_true, if_false]
      exact ⟨s1, own1, rfl, r1.level 1 _ (Nat.le_refl _) (by omega), m1⟩
    · have hne : (min ((lo / 1073741824 + 1) * 1073741824) hi % U64 != hi % U64) = true := by
        rw [U64_eq]
        have : min ((lo / 1073741824 + 1) * 1073741824) hi % 18446744073709551616
            ≠ hi % 18446744073709551616 := by omega
        simpa using this
      have hmin : min ((lo / 1073741824 + 1) * 1073741824) hi
          = (lo / 1073741824 + 1) * 1073741824 := by
        omega
      rw [hmin] at r1 m1 hne ⊢
      simp only [hne, if_true]
      have hphys : (R.P0 + (lo - R.A0) +
          ((lo / 1073741824 + 1) * 1073741824 % U64 + U64 - lo)) % U64
          = R.P0 + ((lo / 1073741824 + 1) * 1073741824 - R.A0) := by
        rw [U64_eq]; omega
      have hptr : T1 + pud_index lo * 8 + 8
          = T1 + pud_index ((lo / 1073741824 + 1) * 1073741824) * 8 := by
        rw [pud_index_eq, pud_index_eq]; omega
      have hmod : (lo / 1073741824 + 1) * 1073741824 % U64
          = (lo / 1073741824 + 1) * 1073741824 := by
        rw [U64_eq]; omega
      rw [hphys, hptr, hmod]
      obtain ⟨s2, own2, e2, r2, m2⟩ := ih s1 own1 ((lo / 1073741824 + 1) * 1073741824) r1.wf
        r1.fresh (r1.le _ _ hT) (by omega) (by omega) (by omega) (by omega) (Or.inr (by omega))
        (by omega) (by intro a; have := hbud a; have := r1.used a; omega)
      refine ⟨s2, own2, e2, r1.trans r2 (Nat.le_refl _) (by omega) (by omega) (Nat.le_refl _)
        (by omega), ?_⟩
      intro a ha1 ha2 ha3
      by_cases hlow : a < (lo / 1073741824 + 1) * 1073741824
      · exact (m1 a ha1 hlow ha3).keep1 r1.wf (r1.le _ _ hT) (by omega) (by omega) r2.foot ha3
          (by omega) ⟨Or.inl hlow, fun _ => Or.inl (by omega), fun _ => Or.inl (by omega)⟩
      · exact m2 a (by omega) ha2 ha3

/-- The first half of `alloc_init_pud` on entry `j` of the directory `T0`: it
ends in a state in which the entry refers to an owned pud table for exactly
that part of the window. -/
theorem alloc_init_pud_prepare_spec {cfg : Config} {lim : PgAlloc → Nat} {s : State}
    {own : Own} (hw : WF s.mem own) (hfr : Fresh cfg lim s own)
    (T0 b0 j : Nat) (al : PgAlloc) (a0 lo hi : Nat) (hlim : s.count al < lim al)
    (hT : own T0 = some (0, b0)) (hj : j < 512)
    (ha1 : lo ≤ a0) (ha2 : a0 < hi) (ha3 : b0 ≤ a0) (ha4 : a0 < b0 + 281474976710656)
    (ha5 : a0 / 549755813888 % 512 = j) :
    ∃ s1 own1, alloc_init_pud_prepare cfg s (T0 + j * 8) (some al) = Res.ok s1 ∧
      Run cfg lim 0 1 s own lo hi s1 own1 ∧
      s1.mem (T0 + j * 8) &&& 3 = 3 ∧
      own1 (s1.mem (T0 + j * 8) &&& PTE_ADDR_MASK) = some (1, b0 + j * 549755813888) := by
  obtain ⟨_, hTa, _, _, hent⟩ := hw T0 0 b0 hT
  have hok := hent (by omega) j hj
  by_cases htab : s.mem (T0 + j * 8) &&& 3 = 3
  · have hnn : pgd_none (s.mem (T0 + j * 8)) = false := by
      simp [pgd_none, ne_zero_of_type htab (by omega)]
    refine ⟨s, own, ?_, Run.refl hw hfr 0 1 lo hi, htab, ?_⟩
    · simp [alloc_init_pud_prepare, hnn]
    · exact hok.table htab
  · have hcond : pgd_none (s.mem (T0 + j * 8)) = true := by
      rcases hok with h | ⟨h, _⟩ | ⟨h, _⟩
      · simp [pgd_none, h]
      · exact absurd rfl h
      · exact absurd h htab
    obtain ⟨sa, e1, e2, e3⟩ := call_alloc_spec hfr al hlim
    obtain ⟨f1, f2, f3, f4, _, _⟩ := hfr al (s.count al) (Nat.le_refl _) hlim
    refine ⟨set_pgd sa (T0 + j * 8) (cfg.frames al (s.count al) ||| PUD_TYPE_TABLE),
      (fun x => if x = cfg.frames al (s.count al) then some (0 + 1, b0 + j * esz 0)
        else own x), ?_, ?_, ?_, ?_⟩
    · simp only [alloc_init_pud_prepare, hcond, if_true, e1]
    · apply link_run hw hfr T0 0 b0 j al a0 lo hi hlim hT (by omega) hj
      · simp only [set_pgd, set_entry]; rw [e3]
      · simp [set_pgd, set_entry, PUD_TYPE_TABLE]
      · exact htab
      · intro q hq1 hq2
        simp only [set_pgd, set_entry, hq1, if_false]
        rw [e2, if_neg hq2]
      · intro _ i hi
        have hne : cfg.frames al (s.count al) + i * 8 ≠ T0 + j * 8 := by
          intro he
          have : cfg.frames al (s.count al) = T0 := by omega
          rw [this, hT] at f4; cases f4
        left
        simp only [set_pgd, set_entry, hne, if_false]
        rw [e2, if_pos (by omega)]
      · intro _ i hi
        have hne : cfg.frames al (s.count al) + i * 8 ≠ T0 + j * 8 := by
          intro he
          have : cfg.frames al (s.count al) = T0 := by omega
          rw [this, hT] at f4; cases f4
        simp only [set_pgd, set_entry, hne, if_false]
        rw [e2, if_pos (by omega)]
      · intro _ va v1 v2
        simp only [esz] at v1 v2
        obtain ⟨_, _, _, hb0al, _⟩ := hw T0 0 b0 hT
        have hb0al2 : b0 % 281474976710656 = 0 := hb0al
        have hjv : pgd_index va = j := by rw [pgd_index_eq]; omega
        have hnew1 : (set_pgd sa (T0 + j * 8)
            (cfg.frames al (s.count al) ||| PUD_TYPE_TABLE)).mem (T0 + pgd_index va * 8)
            = cfg.frames al (s.count al) ||| 3 := by
          rw [hjv]
          simp [set_pgd, set_entry, PUD_TYPE_TABLE]
        have h0 : s.mem (T0 + j * 8) = 0 := by simpa [pgd_none] using hcond
        show (resolve _ T0 va).map Prod.fst = (resolve s.mem T0 va).map Prod.fst
        rw [((resolve_by_entry _ T0 va _ hnew1).2 (table_ref_type _ f2)),
          table_ref_addr _ f2 f3,
          (resolve_by_entry s.mem T0 va (s.mem (T0 + j * 8)) (by rw [hjv])).1 h0,
          walk_pud_zero]
        intro k hk
        have hne : cfg.frames al (s.count al) + k * 8 ≠ T0 + j * 8 := by
          intro he
          have : cfg.frames al (s.count al) = T0 := by omega
          rw [this, hT] at f4; cases f4
        simp only [set_pgd, set_entry, hne, if_false]
        rw [e2, if_pos (by omega)]
      · exact ha1
      · exact ha2
      · exact ha3
      · simp only [esz]; omega
      · simp only [esz]; exact ha5
    · simp [set_pgd, set_entry, PUD_TYPE_TABLE, table_ref_type _ f2]
    · simp only [set_pgd, set_entry, if_true, PUD_TYPE_TABLE, table_ref_addr _ f2 f3, esz]

/-! ## Correctness of the directory level -/

/-- The function `alloc_init_pud` on the part `[lo, hi)` of one pgd entry's
range of the request: it returns, by a run over the range, with every page of
the range mapped as requested. -/
theorem alloc_init_pud_spec {cfg : Config} {lim : PgAlloc → Nat} {s : State} {own : Own}
    (R : Req) (WB : Nat)
    (hv : R.Valid WB) (al : PgAlloc) (hal : R.alloc = some al)
    (hw : WF s.mem own) (hfr : Fresh cfg lim s own) (hlim : ∀ a, s.count a + 262657 ≤ lim a)
    (T0 lo hi F : Nat)
    (hT : own T0 = some (0, WB)) (hlo : lo % 4096 = 0) (hhi : hi % 4096 = 0) (hlt : lo < hi)
    (hch : hi ≤ lo / 549755813888 * 549755813888 + 549755813888)
    (hA : R.A0 ≤ lo) (hE : hi ≤ R.E)
    (hlo2 : lo = R.A0 ∨ lo % 549755813888 = 0) (hhi2 : hi = R.E ∨ hi % 549755813888 = 0)
    (hF : 512 ≤ F) :
    ∃ s1 own1, alloc_init_pud cfg F s (T0 + pgd_index lo * 8) lo (hi % U64)
        (R.P0 + (lo - R.A0)) R.prot R.alloc = Res.ok s1 ∧
      Run cfg lim 0 262657 s own lo hi s1 own1 ∧
      ∀ a, lo ≤ a → a < hi → a % 4096 = 0 → Mapped0 cfg R s1.mem T0 a := by
  have hv1 := hv
  obtain ⟨v1, v2, v3, v4, v5, v6, v7, v8, v9, v10, v11⟩ := hv1
  obtain ⟨_, hTa, _, _, _⟩ := hw T0 0 WB hT
  have hidx := pgd_index_eq lo
  have hj : pgd_index lo < 512 := by omega
  obtain ⟨s1, own1, e1, r1, t1, o1⟩ := alloc_init_pud_prepare_spec hw hfr T0 WB (pgd_index lo)
    al lo lo hi (by have := hlim al; omega) hT hj (Nat.le_refl _) hlt (by omega) (by omega)
    hidx.symm
  have hb3 : WB + pgd_index lo * 549755813888 = lo / 549755813888 * 549755813888 := by omega
  rw [hb3] at o1
  obtain ⟨s2, own2, e2, r2, m2⟩ := alloc_init_pud_loop_spec R WB hv al hal
    (s1.mem (T0 + pgd_index lo * 8) &&& PTE_ADDR_MASK) (lo / 549755813888 * 549755813888) hi F
    hhi hE (by omega) hch hF F s1 own1 lo r1.wf r1.fresh o1 hlo hlt (by omega) hA
    (by omega) (by omega) (by intro a; have := hlim a; have := r1.used a; omega)
  have hpk : s2.mem (T0 + pgd_index lo * 8) = s1.mem (T0 + pgd_index lo * 8) := by
    apply r2.above _ 0 WB _ (by omega)
    rw [frame_of_slot T0 _ hTa hj]
    exact r1.le _ _ hT
  rw [hal] at e2
  refine ⟨s2, own2, ?_, r1.trans (r2.level 0 262656 (by omega) (by omega)) (Nat.le_refl _)
    (Nat.le_refl _) (Nat.le_refl _) (Nat.le_refl _) (by omega), ?_⟩
  · unfold alloc_init_pud
    rw [hal, e1]
    have hnb : pgd_bad (s1.mem (T0 + pgd_index lo * 8)) = false := not_bad_of_table _ t1
    simp only [hnb, Bool.false_eq_true, if_false, pgd_page_paddr]
    exact e2
  · intro a ha1 ha2 ha3
    have hia : pgd_index a = pgd_index lo := by rw [pgd_index_eq, pgd_index_eq]; omega
    unfold Mapped0
    rw [hia, hpk]
    exact ⟨t1, m2 a ha1 ha2 ha3⟩

/-- The loop of `init_pgd` over `[lo, E)` on the directory `T0`: it ends, by a
run over the range, with every page of the range mapped as requested. -/
theorem init_pgd_loop_spec {cfg : Config} {lim : PgAlloc → Nat} (R : Req) (WB : Nat)
    (hv : R.Valid WB) (al : PgAlloc) (hal : R.alloc = some al) (T0 F : Nat) (hF : 512 ≤ F) :
    ∀ (fuel : Nat) (s : State) (own : Own) (lo : Nat),
      WF s.mem own → Fresh cfg lim s own → own T0 = some (0, WB) →
      lo % 4096 = 0 → lo < R.E → R.A0 ≤ lo → (lo = R.A0 ∨ lo % 549755813888 = 0) →
      (R.E + 549755813887) / 549755813888 - lo / 549755813888 ≤ fuel →
      (∀ a, s.count a + 262657 * ((R.E + 549755813887) / 549755813888 - lo / 549755813888)
        ≤ lim a) →
      ∃ s1 own1, init_pgd_loop cfg F R.prot (R.E % U64) R.alloc fuel s
          (T0 + pgd_index lo * 8) lo (R.P0 + (lo - R.A0)) = Res.ok s1 ∧
        Run cfg lim 0 (262657 * ((R.E + 549755813887) / 549755813888 - lo / 549755813888))
          s own lo R.E s1 own1 ∧
        ∀ a, lo ≤ a → a < R.E → a % 4096 = 0 → Mapped0 cfg R s1.mem T0 a := by
  have hv1 := hv
  obtain ⟨v1, v2, v3, v4, v5, v6, v7, v8, v9, v10, v11⟩ := hv1
  intro fuel
  induction fuel with
  | zero => intro s own lo _ _ _ _ h5 _ _ h9; omega
  | succ n ih =>
    intro s own lo hw hfr hT hlo hlt hA hlo2 hfuel hbud
    obtain ⟨_, hTa, _, _, _⟩ := hw T0 0 WB hT
    have hnx := pgd_addr_end_eq lo R.E hlt (by omega)
    have hlim1 : ∀ a, s.count a + 262657 ≤ lim a := by
      intro a; have := hbud a; omega
    obtain ⟨s1, own1, e1, r1, m1⟩ := alloc_init_pud_spec R WB hv al hal hw hfr hlim1 T0 lo
      (min ((lo / 549755813888 + 1) * 549755813888) R.E) F hT hlo (by omega) (by omega)
      (by omega) hA (by omega) hlo2 (by omega) hF
    rw [init_pgd_loop]
    simp only [hnx, e1]
    by_cases hend : min ((lo / 549755813888 + 1) * 549755813888) R.E = R.E
    · rw [hend] at r1 m1 ⊢
      simp only [bne_self_eq_false, Bool.false_eq_true, if_false]
      exact ⟨s1, own1, rfl, r1.level 0 _ (Nat.le_refl _) (by omega), m1⟩
    · have hne : (min ((lo / 549755813888 + 1) * 549755813888) R.E % U64 != R.E % U64)
          = true := by
        rw [U64_eq]
        have : min ((lo / 549755813888 + 1) * 549755813888) R.E % 18446744073709551616
            ≠ R.E % 18446744073709551616 := by omega
        simpa using this
      have hmin : min ((lo / 549755813888 + 1) * 549755813888) R.E
          = (lo / 549755813888 + 1) * 549755813888 := by
        omega
      rw [hmin] at r1 m1 hne ⊢
      simp only [hne, if_true]
      have hphys : (R.P0 + (lo - R.A0) +
          ((lo / 549755813888 + 1) * 549755813888 % U64 + U64 - lo)) % U64
          = R.P0 + ((lo / 549755813888 + 1) * 549755813888 - R.A0) := by
        rw [U64_eq]; omega
      have hptr : T0 + pgd_index lo * 8 + 8
          = T0 + pgd_index ((lo / 549755813888 + 1) * 549755813888) * 8 := by
        rw [pgd_index_eq, pgd_index_eq]; omega
      have hmod : (lo / 549755813888 + 1) * 549755813888 % U64
          = (lo / 549755813888 + 1) * 549755813888 := by
        rw [U64_eq]; omega
      rw [hphys, hptr, hmod]
      obtain ⟨s2, own2, e2, r2, m2⟩ := ih s1 own1 ((lo / 549755813888 + 1) * 549755813888)
        r1.wf r1.fresh (r1.le _ _ hT) (by omega) (by omega) (by omega) (Or.inr (by omega))
        (by omega) (by intro a; have := hbud a; have := r1.used a; omega)
      refine ⟨s2, own2, e2, r1.trans r2 (Nat.le_refl _) (by omega) (by omega) (Nat.le_refl _)
        (by omega), ?_⟩
      intro a ha1 ha2 ha3
      by_cases hlow : a < (lo / 549755813888 + 1) * 549755813888
      · exact (m1 a ha1 hlow ha3).keep0 r1.wf (r1.le _ _ hT) (by omega) (by omega) r2.foot ha3
          (by omega) ⟨Or.inl hlow, fun _ => Or.inl (by omega), fun _ => Or.inl (by omega)⟩
      · exact m2 a (by omega) ha2 ha3

/-! ## `init_pgd` as a whole -/

theorem xor_eq_zero_imp {x y : Nat} (h : x ^^^ y = 0) : x = y := by
  have : x ^^^ (x ^^^ y) = x := by rw [h, Nat.xor_zero]
  rw [← Nat.xor_assoc, Nat.xor_self, Nat.zero_xor] at this
  exact this.symm

/-- The alignment test of `init_pgd` passes exactly when the two addresses have
the same offset in their page. -/
theorem page_offset_eq (phys virt : Nat) :
    (phys ^^^ virt) &&& not64 PAGE_MASK = 0 ↔ phys % 4096 = virt % 4096 := by
  rw [Nat.and_xor_distrib_right, and_not_PAGE_MASK, and_not_PAGE_MASK]
  constructor
  · exact xor_eq_zero_imp
  · intro h; rw [h, Nat.xor_self]

theorem mkReq_valid (WB phys virt size prot : Nat) (alloc : Option PgAlloc)
    (hx : phys % 4096 = virt % 4096) (hsize : 0 < size)
    (hwb1 : WB % 281474976710656 = 0) (hwb2 : WB + 281474976710656 ≤ 18446744073709551616)
    (hwb3 : WB ≤ virt) (hwb4 : virt + size ≤ WB + 281474976710656)
    (hphys : phys + size ≤ 281474976710656)
    (hp1 : prot &&& PTE_ADDR_MASK = 0) (hp2 : prot &&& 3 = 3) :
    (mkReq phys virt size prot alloc).Valid WB := by
  unfold mkReq
  constructor <;> (try dsimp only) <;> first | assumption | omega

/-- The function `init_pgd` on a valid request over a well-formed directory
with enough fresh frames left: it returns, by a run over the page-rounded
range, with every page of the range mapped as requested. -/
theorem init_pgd_spec {cfg : Config} {lim : PgAlloc → Nat} {s : State} {own : Own}
    (WB pgdir phys virt size prot : Nat) (al : PgAlloc) (F : Nat)
    (hx : (phys ^^^ virt) &&& not64 PAGE_MASK = 0) (hsize : 0 < size)
    (hwb1 : WB % 281474976710656 = 0) (hwb2 : WB + 281474976710656 ≤ 18446744073709551616)
    (hwb3 : WB ≤ virt) (hwb4 : virt + size ≤ WB + 281474976710656)
    (hphys : phys + size ≤ 281474976710656)
    (hp1 : prot &&& PTE_ADDR_MASK = 0) (hp2 : prot &&& 3 = 3)
    (hw : WF s.mem own) (hroot : own pgdir = some (0, WB)) (hfr : Fresh cfg lim s own)
    (hbud : ∀ a, s.count a + 134480384 ≤ lim a) (hF : 512 ≤ F) :
    ∃ s1 own1, init_pgd cfg F s (pgd_offset_raw pgdir virt) phys virt size prot (some al)
        = Res.ok s1 ∧
      Run cfg lim 0 134480384 s own (mkReq phys virt size prot (some al)).A0
        (mkReq phys virt size prot (some al)).E s1 own1 ∧
      ∀ a, (mkReq phys virt size prot (some al)).A0 ≤ a →
        a < (mkReq phys virt size prot (some al)).E → a % 4096 = 0 →
        Mapped0 cfg (mkReq phys virt size prot (some al)) s1.mem pgdir a := by
  have hx2 := (page_offset_eq phys virt).mp hx
  have hv := mkReq_valid WB phys virt size prot (some al) hx2 hsize hwb1 hwb2 hwb3 hwb4 hphys
    hp1 hp2
  have hcond : ((phys ^^^ virt) &&& not64 PAGE_MASK != 0) = false := by simp [hx]
  have e1 : phys &&& PAGE_MASK = phys / 4096 * 4096 := by rw [and_PAGE_MASK]; omega
  have e2 : virt &&& PAGE_MASK = virt / 4096 * 4096 := by rw [and_PAGE_MASK]; omega
  have e3 : PAGE_ALIGN ((size + (virt &&& not64 PAGE_MASK)) % U64)
      = (size + virt % 4096 + 4095) / 4096 * 4096 := by
    unfold PAGE_ALIGN
    have hps : PAGE_SIZE = 4096 := by decide
    rw [and_not_PAGE_MASK, and_PAGE_MASK, hps, U64_eq]
    omega
  have e4 : pgd_offset_raw pgdir virt
      = pgdir + pgd_index (mkReq phys virt size prot (some al)).A0 * 8 := by
    unfold pgd_offset_raw mkReq
    rw [pgd_index_eq, pgd_index_eq]
    simp only
    omega
  have hmeas : ((mkReq phys virt size prot (some al)).E + 549755813887) / 549755813888
      - (mkReq phys virt size prot (some al)).A0 / 549755813888 ≤ 512 := by
    have := hv.e_le; have := hv.wb_le; have := hv.lt
    omega
  obtain ⟨s1, own1, l1, l2, l3⟩ := init_pgd_loop_spec (mkReq phys virt size prot (some al)) WB
    hv al rfl pgdir F hF F s own (mkReq phys virt size prot (some al)).A0 hw hfr hroot
    hv.a0_al hv.lt (Nat.le_refl _) (Or.inl rfl) (by omega)
    (by intro a; have := hbud a; omega)
  refine ⟨s1, own1, ?_, l2.level 0 _ (Nat.le_refl _) (by omega), l3⟩
  unfold init_pgd
  simp only [hcond, Bool.false_eq_true, if_false, e1, e2, e3, e4]
  have e5 : (mkReq phys virt size prot (some al)).P0 +
      ((mkReq phys virt size prot (some al)).A0 - (mkReq phys virt size prot (some al)).A0)
      = phys / 4096 * 4096 := by
    simp [mkReq]
  rw [e5] at l1
  exact l1

/-! ## The sample machine satisfies the invariants -/

/-- A directory whose root frame is empty is well formed. -/
theorem WF_own0 (mem : Nat → Nat) (pgdir WB : Nat) (h1 : pgdir % 4096 = 0)
    (h2 : pgdir < 281474976710656) (h3 : WB % 281474976710656 = 0)
    (h4 : ∀ j, j < 512 → mem (pgdir + j * 8) = 0) : WF mem (own0 pgdir WB) := by
  intro T L b hT
  unfold own0 at hT
  by_cases hp : T = pgdir
  · simp only [hp, if_true] at hT
    cases hT
    subst hp
    refine ⟨by omega, h1, h2, h3, ?_⟩
    intro _ j hj
    exact Or.inl (h4 j hj)
  · simp only [hp, if_false] at hT
    cases hT

/-- The frame pool of `cfg0` is fresh for a state that holds zeros and owns
nothing at or above `0x100000000`. -/
theorem Fresh_cfg0 (s : State) (own : Own)
    (hown : ∀ T, 4294967296 ≤ T → own T = none)
    (hmem : ∀ q, 4294967296 ≤ q → s.mem q = 0) : Fresh cfg0 lim0 s own := by
  intro a n _ hn
  have hl : n < 134480384 := hn
  have hfa : frameNo a < 3 := by cases a <;> decide
  have hf : cfg0.frames a n = 4294967296 + 4096 * (3 * n + frameNo a) := rfl
  refine ⟨by omega, by omega, by omega, hown _ (by omega), ?_, ?_⟩
  · intro a1 n1 _ hn1 he
    have hl1 : n1 < 134480384 := hn1
    have hf1 : cfg0.frames a1 n1 = 4294967296 + 4096 * (3 * n1 + frameNo a1) := rfl
    have hfa1 : frameNo a1 < 3 := by cases a1 <;> decide
    rw [hf, hf1] at he
    have h1 : frameNo a1 = frameNo a := by omega
    have h2 : n1 = n := by omega
    refine ⟨?_, h2⟩
    cases a <;> cases a1 <;> first | rfl | (simp [frameNo] at h1)
  · intro _ q hq _
    exact hmem q (by omega)

/-- A run that returned is `Res.ok` of its state. -/
theorem Res.ok_val (r : Res State) (d : State) (h : r.isOk = true) : r = Res.ok (r.val d) := by
  cases r with
  | ok s => rfl
  | bug => cases h
  | timeout => cases h

/-! ## A request of a single page -/

theorem pud_bad_eq (e : Nat) : pud_bad e = pmd_bad e := rfl
theorem pgd_bad_eq (e : Nat) : pgd_bad e = pmd_bad e := rfl

theorem not_sect_of_table (e : Nat) (h : e &&& 3 = 3) : pmd_sect e = false := by
  unfold pmd_sect
  have : PMD_TYPE_MASK = 3 := rfl
  rw [this, h]
  decide

theorem not_none_of_table (e : Nat) (h : e &&& 3 = 3) : pmd_none e = false := by
  unfold pmd_none
  have := ne_zero_of_type h (by decide)
  simpa using this

/-- The steps of the three upper loops for a range of one page: each is the
whole range. -/
theorem one_page_steps (va0 : Nat) (hva : va0 % 4096 = 0)
    (hva2 : va0 + 4096 ≤ 18446744073709551616) :
    pgd_addr_end va0 ((va0 + 4096) % U64) = (va0 + 4096) % U64 ∧
    pud_addr_end va0 ((va0 + 4096) % U64) = (va0 + 4096) % U64 ∧
    pmd_addr_end va0 ((va0 + 4096) % U64) = (va0 + 4096) % U64 := by
  refine ⟨?_, ?_, ?_⟩
  · rw [pgd_addr_end_eq va0 (va0 + 4096) (by omega) hva2]
    have : min ((va0 / 549755813888 + 1) * 549755813888) (va0 + 4096) = va0 + 4096 := by omega
    rw [this]
  · rw [pud_addr_end_eq va0 (va0 + 4096) (by omega) hva2]
    have : min ((va0 / 1073741824 + 1) * 1073741824) (va0 + 4096) = va0 + 4096 := by omega
    rw [this]
  · rw [pmd_addr_end_eq va0 (va0 + 4096) (by omega) hva2]
    have : min ((va0 / 2097152 + 1) * 2097152) (va0 + 4096) = va0 + 4096 := by omega
    rw [this]

/-- A request of one page over a directory whose pgd and pud entries for the
page are table references goes down to `alloc_init_pte` on the pmd entry of
the page: no upper level allocates, installs a block or loops. -/
theorem init_pgd_one_page (cfg : Config) (F : Nat) (s : State) (pgdir phys va0 prot : Nat)
    (alloc : Option PgAlloc)
    (hva : va0 % 4096 = 0) (hva2 : va0 + 4096 ≤ 18446744073709551616)
    (hph : phys % 4096 = 0) (hph2 : phys < 18446744073709551616)
    (h0 : s.mem (pgdir + pgd_index va0 * 8) &&& 3 = 3)
    (h1 : s.mem (pgd_page_paddr (s.mem (pgdir + pgd_index va0 * 8)) + pud_index va0 * 8)
      &&& 3 = 3)
    (hF : 1 ≤ F) :
    init_pgd cfg F s (pgd_offset_raw pgdir va0) phys va0 4096 prot alloc
      = alloc_init_pte cfg F s (pmd_slot s.mem pgdir va0) va0 ((va0 + 4096) % U64)
          (phys_to_pfn phys) prot alloc := by
  obtain ⟨n, rfl⟩ : ∃ n, F = n + 1 := ⟨F - 1, by omega⟩
  obtain ⟨st0, st1, st2⟩ := one_page_steps va0 hva hva2
  have hx : (phys ^^^ va0) &&& not64 PAGE_MASK = 0 := (page_offset_eq phys va0).mpr (by omega)
  have hcond : ((phys ^^^ va0) &&& not64 PAGE_MASK != 0) = false := by simp [hx]
  have e1 : phys &&& PAGE_MASK = phys := by rw [and_PAGE_MASK]; omega
  have e2 : va0 &&& PAGE_MASK = va0 := by rw [and_PAGE_MASK]; omega
  have e3 : PAGE_ALIGN ((4096 + (va0 &&& not64 PAGE_MASK)) % U64) = 4096 := by
    unfold PAGE_ALIGN
    have hps : PAGE_SIZE = 4096 := by decide
    rw [and_not_PAGE_MASK, and_PAGE_MASK, hps, U64_eq]
    omega
  have hne : ∀ x : Nat, (x != x) = false := by intro x; simp
  have hg1 : pgd_none (s.mem (pgdir + pgd_index va0 * 8)) = false := not_none_of_table _ h0
  have hg2 : pgd_bad (s.mem (pgdir + pgd_index va0 * 8)) = false := not_bad_of_table _ h0
  have hu1 : pud_none (s.mem (pgd_page_paddr (s.mem (pgdir + pgd_index va0 * 8))
      + pud_index va0 * 8)) = false := not_none_of_table _ h1
  have hu2 : pud_sect (s.mem (pgd_page_paddr (s.mem (pgdir + pgd_index va0 * 8))
      + pud_index va0 * 8)) = false := not_sect_of_table _ h1
  have hu3 : pud_bad (s.mem (pgd_page_paddr (s.mem (pgdir + pgd_index va0 * 8))
      + pud_index va0 * 8)) = false := not_bad_of_table _ h1
  have hb1 : use_1G_block cfg va0 ((va0 + 4096) % U64) phys = false := by
    cases h : use_1G_block cfg va0 ((va0 + 4096) % U64) phys
    · rfl
    · have := (use_1G_block_iff cfg _ _ _).mp h
      rw [U64_eq] at this
      omega
  have hb2 : ((va0 ||| (va0 + 4096) % U64 ||| phys) &&& not64 SECTION_MASK == 0) = false := by
    have h := section_aligned_iff va0 ((va0 + 4096) % U64) phys
    rw [U64_eq] at h
    have : ¬ (va0 ||| (va0 + 4096) % U64 ||| phys) &&& not64 SECTION_MASK = 0 := by
      rw [U64_eq, h]; omega
    simpa using this
  unfold init_pgd
  simp only [hcond, Bool.false_eq_true, if_false, e1, e2, e3]
  rw [init_pgd_loop]
  simp only [st0, hne, Bool.false_eq_true, if_false]
  unfold alloc_init_pud alloc_init_pud_prepare pgd_offset_raw
  simp only [hg1, hg2, Bool.false_eq_true, if_false]
  rw [alloc_init_pud_loop]
  simp only [st1, hne, Bool.false_eq_true, if_false]
  unfold alloc_init_pud_step
  simp only [hb1, Bool.false_and, Bool.false_eq_true, if_false]
  unfold alloc_init_pmd alloc_init_pmd_prepare
  simp only [hu1, hu2, hu3, Bool.or_self, Bool.false_eq_true, if_false]
  rw [alloc_init_pmd_loop]
  simp only [st2, hne, Bool.false_eq_true, if_false]
  unfold alloc_init_pmd_step
  simp only [hb2, Bool.false_and, Bool.false_eq_true, if_false]
  unfold pmd_slot
  cases alloc_init_pte cfg (n + 1) s
    (pud_page_paddr (s.mem (pgd_page_paddr (s.mem (pgdir + pgd_index va0 * 8))
      + pud_index va0 * 8)) + pmd_index va0 * 8) va0 ((va0 + 4096) % U64)
    (phys_to_pfn phys) prot alloc <;> rfl

theorem set_entry_count (s : State) (p v : Nat) : (set_pte s p v).count = s.count := rfl

theorem set_pmd_count (s : State) (p v : Nat) : (set_pmd s p v).count = s.count := rfl

theorem flush_tlb_all_count (s : State) : (flush_tlb_all s).count = s.count := rfl

/-- A call of an allocator whose next frame is not 0 returns that frame; memory
outside the frame is as before. -/
theorem call_alloc_frame (cfg : Config) (al : PgAlloc) (s : State)
    (hf : cfg.frames al (s.count al) ≠ 0) :
    ∃ s1, call_alloc cfg al s = Res.ok (cfg.frames al (s.count al), s1) ∧
      (∀ q, ¬ (cfg.frames al (s.count al) ≤ q ∧ q < cfg.frames al (s.count al) + 4096) →
        s1.mem q = s.mem q) ∧
      s1.count = (fun b => if b = al then s.count al + 1 else s.count b) := by
  have hne : (cfg.frames al (s.count al) == 0) = false := by simpa using hf
  have hps : PAGE_SIZE = 4096 := by decide
  cases al with
  | early_pgtable_alloc =>
    refine ⟨⟨zero_page s.mem (cfg.frames PgAlloc.early_pgtable_alloc
        (s.count PgAlloc.early_pgtable_alloc)),
      fun b => if b = PgAlloc.early_pgtable_alloc then s.count PgAlloc.early_pgtable_alloc + 1
        else s.count b,
      Event.alloc PgAlloc.early_pgtable_alloc (cfg.frames PgAlloc.early_pgtable_alloc
        (s.count PgAlloc.early_pgtable_alloc)) :: s.trace⟩, ?_, ?_, ?_⟩
    · simp only [call_alloc, early_pgtable_alloc, take_frame, hne]; rfl
    · intro q hq; simp only [zero_page, hps]; rw [if_neg hq]
    · rfl
  | late_pgtable_alloc =>
    refine ⟨⟨zero_page s.mem (cfg.frames PgAlloc.late_pgtable_alloc
        (s.count PgAlloc.late_pgtable_alloc)),
      fun b => if b = PgAlloc.late_pgtable_alloc then s.count PgAlloc.late_pgtable_alloc + 1
        else s.count b,
      Event.alloc PgAlloc.late_pgtable_alloc (cfg.frames PgAlloc.late_pgtable_alloc
        (s.count PgAlloc.late_pgtable_alloc)) :: s.trace⟩, ?_, ?_, ?_⟩
    · simp only [call_alloc, late_pgtable_alloc, take_frame, hne]; rfl
    · intro q hq; simp only [zero_page, hps]; rw [if_neg hq]
    · rfl
  | rkp_ro_alloc_phys =>
    exact ⟨(take_frame cfg PgAlloc.rkp_ro_alloc_phys s).2, rfl, fun _ _ => rfl, rfl⟩

/-- The page level on a section entry, for a range of one page: a frame is
taken, filled by `split_pmd` and linked, and the entry of the page is then
set as requested; the other entries of the new table stay as the split wrote
them. -/
theorem alloc_init_pte_on_block (cfg : Config) (F : Nat) (s : State) (P va0 pfn prot : Nat)
    (al : PgAlloc)
    (hsect : pmd_sect (s.mem P) = true)
    (hf0 : cfg.frames al (s.count al) ≠ 0) (hf1 : cfg.frames al (s.count al) % 4096 = 0)
    (hf2 : cfg.frames al (s.count al) < 281474976710656)
    (hP : ¬ (cfg.frames al (s.count al) ≤ P ∧ P < cfg.frames al (s.count al) + 4096))
    (hF : 1 ≤ F) :
    ∃ s2, alloc_init_pte cfg F s P va0 ((va0 + 4096) % U64) pfn prot (some al) = Res.ok s2 ∧
      s2.mem P = cfg.frames al (s.count al) ||| 3 ∧
      s2.mem (cfg.frames al (s.count al) + pte_index va0 * 8) = pfn_pte pfn prot ∧
      (∀ k, k < 512 → k ≠ pte_index va0 →
        s2.mem (cfg.frames al (s.count al) + k * 8)
          = pfn_pte (pmd_pfn (s.mem P) + k) PAGE_KERNEL_EXEC) ∧
      (∀ q, q ≠ P →
        ¬ (cfg.frames al (s.count al) ≤ q ∧ q < cfg.frames al (s.count al) + 4096) →
        s2.mem q = s.mem q) ∧
      s2.count = (fun b => if b = al then s.count al + 1 else s.count b) := by
  obtain ⟨n, rfl⟩ : ∃ n, F = n + 1 := ⟨F - 1, by omega⟩
  obtain ⟨s1, hc, hm1, hcnt1⟩ := call_alloc_frame cfg al s hf0
  generalize hfd : cfg.frames al (s.count al) = f at *
  have hP1 : s1.mem P = s.mem P := hm1 P hP
  obtain ⟨sp1, sp2, _, sp4⟩ := split_pmd_spec s1 P f
  have hidx : pte_index va0 < 512 := by rw [pte_index_eq]; omega
  have hio : (iotable_on == 1) = false := by decide
  have hps : PAGE_SIZE = 4096 := by decide
  have hne : ∀ x : Nat, (x != x) = false := by intro x; simp
  have hbad : pmd_bad (f ||| PMD_TYPE_TABLE) = false :=
    not_bad_of_table _ (table_ref_type f hf1)
  have hadr : pmd_page_paddr (f ||| PMD_TYPE_TABLE) = f := table_ref_addr f hf1 hf2
  refine ⟨set_pte (flush_tlb_all (set_pmd (split_pmd s1 P f) P (f ||| PMD_TYPE_TABLE)))
    (f + pte_index va0 * 8) (pfn_pte pfn prot), ?_, ?_, ?_, ?_, ?_, ?_⟩
  · unfold alloc_init_pte alloc_init_pte_prepare
    simp only [hsect, Bool.or_true, if_true, hc, hP1]
    simp only [flush_tlb_all, set_pmd, set_entry_mem, if_true, hbad, Bool.false_eq_true,
      if_false, hadr]
    rw [alloc_init_pte_loop]
    simp only [hio, Bool.false_eq_true, if_false, hps, hne]
  · simp only [set_pte, set_entry_mem, flush_tlb_all, set_pmd]
    have : P ≠ f + pte_index va0 * 8 := by omega
    rw [if_neg this]
    rfl
  · simp only [set_pte, set_entry_mem, if_true]
  · intro k hk hkne
    simp only [set_pte, set_entry_mem, flush_tlb_all, set_pmd]
    have h1 : f + k * 8 ≠ f + pte_index va0 * 8 := by omega
    have h2 : f + k * 8 ≠ P := by omega
    rw [if_neg h1, if_neg h2, sp1 k hk, hP1]
  · intro q hq1 hq2
    simp only [set_pte, set_entry_mem, flush_tlb_all, set_pmd]
    have h1 : q ≠ f + pte_index va0 * 8 := by omega
    rw [if_neg h1, if_neg hq1, sp2 q (by intro k hk; omega), hm1 q hq2]
  · rw [set_entry_count, flush_tlb_all_count, set_pmd_count, sp4, hcnt1]

/-! ## Walks through given entries -/

/-- With table references in the pgd and pud entries of `va`, the translation
is decided by the pmd table. -/
theorem resolve_of_tables (mem : Nat → Nat) (pgdir va : Nat)
    (h0 : mem (pgdir + pgd_index va * 8) &&& 3 = 3)
    (h1 : mem (pud_frame mem pgdir va + pud_index va * 8) &&& 3 = 3) :
    resolve mem pgdir va = walk_pmd mem (pmd_frame mem pgdir va) va := by
  have hs : pud_sect (mem (pud_frame mem pgdir va + pud_index va * 8)) = false :=
    not_sect_of_table _ h1
  have ht : pud_table (mem (pud_frame mem pgdir va + pud_index va * 8)) = true := by
    unfold pud_table
    have : PMD_TYPE_MASK = 3 := rfl
    rw [this, h1]
    decide
  unfold resolve walk_pud
  have e : PUD_TYPE_TABLE = 3 := rfl
  simp only [h0, e, beq_self_eq_true, if_true]
  unfold pud_frame at hs ht
  simp only [hs, ht, Bool.false_eq_true, if_false, if_true]
  rfl

/-- A section entry translates the addresses of its section. -/
theorem walk_pmd_block (mem : Nat → Nat) (T va P0 prot : Nat)
    (h : mem (T + pmd_index va * 8) = P0 ||| PMD_TYPE_SECT ||| mk_sect_prot prot)
    (h1 : P0 % 2097152 = 0) (h2 : P0 < 281474976710656)
    (hp : prot &&& PTE_ADDR_MASK = 0) :
    walk_pmd mem T va = some (P0 + va % 2097152, entry_prot prot) := by
  have ht := block_entry_type P0 prot (by omega)
  have hs : pmd_sect (P0 ||| PMD_TYPE_SECT ||| mk_sect_prot prot) = true := by
    unfold pmd_sect
    have : PMD_TYPE_MASK = 3 := rfl
    rw [this, ht]
    decide
  have hps : PMD_SIZE = 2097152 := by decide
  unfold walk_pmd
  simp only [h, hs, if_true, block_entry_pmd_out P0 prot h1 h2 hp,
    block_entry_prot P0 prot (by omega) h2, hps]

/-- A table reference in the pmd entry hands the translation to the page
table it names. -/
theorem walk_pmd_table (mem : Nat → Nat) (T va f : Nat)
    (h : mem (T + pmd_index va * 8) = f ||| 3)
    (h1 : f % 4096 = 0) (h2 : f < 281474976710656) :
    walk_pmd mem T va = walk_pte mem f va := by
  have ht := table_ref_type f h1
  have hs : pmd_sect (f ||| 3) = false := not_sect_of_table _ ht
  have hb : pmd_table (f ||| 3) = true := by
    unfold pmd_table
    have : PMD_TYPE_MASK = 3 := rfl
    rw [this, ht]
    decide
  have ha : pmd_page_paddr (f ||| 3) = f := table_ref_addr f h1 h2
  unfold walk_pmd
  simp only [h, hs, hb, ha, Bool.false_eq_true, if_false, if_true]

/-- A page entry made by `pfn_pte` translates its page. -/
theorem walk_pte_entry (mem : Nat → Nat) (f va x prot : Nat)
    (h : mem (f + pte_index va * 8) = pfn_pte x prot) (hx : x < 68719476736)
    (hp1 : prot &&& PTE_ADDR_MASK = 0) (hp2 : prot &&& 3 = 3) :
    walk_pte mem f va = some (x * 4096 + va % 4096, entry_prot prot) := by
  have hps : PAGE_SIZE = 4096 := by decide
  have e : PTE_TYPE_PAGE = 3 := rfl
  unfold walk_pte
  simp only [h, page_entry_type x prot hx, hp2, e, beq_self_eq_true, if_true,
    page_entry_addr x prot hx hp1, page_entry_prot x prot hx, hps]

/-! ## The fixmap slot of the early allocator -/

/-- With a valid slot index `__set_fixmap` does not halt. -/
theorem set_fixmap_valid (cfg : Config) (s : State) (idx phys flags : Nat)
    (h1 : FIX_HOLE < idx) (h2 : idx < cfg.end_of_fixed_addresses) :
    __set_fixmap cfg s idx phys flags =
      Res.ok (if flags != 0 then
        set_pte s (fixmap_pte cfg (__fix_to_virt cfg idx)) (pfn_pte (phys >>> PAGE_SHIFT) flags)
      else flush_tlb_kernel_range (pte_clear s (fixmap_pte cfg (__fix_to_virt cfg idx)))
        (__fix_to_virt cfg idx) ((__fix_to_virt cfg idx + PAGE_SIZE) % U64)) := by
  unfold __set_fixmap
  have : ¬ (idx ≤ FIX_HOLE ∨ idx ≥ cfg.end_of_fixed_addresses) := by omega
  simp only [this, if_false]
  split <;> rfl

theorem fix_to_virt_lt (cfg : Config) (x : Nat) : __fix_to_virt cfg x < 18446744073709551616 := by
  unfold __fix_to_virt
  rw [U64_eq]
  omega

theorem fix_to_virt_aligned (cfg : Config) (x : Nat) (h : cfg.FIXADDR_TOP % 4096 = 0) :
    __fix_to_virt cfg x % 4096 = 0 := by
  unfold __fix_to_virt
  have hps : PAGE_SHIFT = 12 := rfl
  rw [U64_eq, hps, Nat.shiftLeft_eq]
  omega

/-- The state in which `early_pgtable_alloc_fixmap` returns a usable frame:
the slot was pointed at the frame, the frame cleared through it, and the slot
cleared again. -/
theorem early_pgtable_alloc_fixmap_ok (cfg : Config) (s : State)
    (hfix1 : FIX_HOLE < cfg.FIX_PTE) (hfix2 : cfg.FIX_PTE < cfg.end_of_fixed_addresses)
    (htop : cfg.FIXADDR_TOP % 4096 = 0)
    (hf0 : cfg.frames PgAlloc.early_pgtable_alloc (s.count PgAlloc.early_pgtable_alloc) ≠ 0)
    (hf1 : cfg.frames PgAlloc.early_pgtable_alloc (s.count PgAlloc.early_pgtable_alloc)
      % 4096 = 0)
    (hf2 : cfg.frames PgAlloc.early_pgtable_alloc (s.count PgAlloc.early_pgtable_alloc)
      < 281474976710656) :
    ∃ s1, early_pgtable_alloc_fixmap cfg s
        = Res.ok (cfg.frames PgAlloc.early_pgtable_alloc (s.count PgAlloc.early_pgtable_alloc),
            s1) ∧
      (∀ q, s1.mem q =
        if q = fixmap_pte cfg (__fix_to_virt cfg cfg.FIX_PTE) then 0
        else if cfg.frames PgAlloc.early_pgtable_alloc (s.count PgAlloc.early_pgtable_alloc) ≤ q
            ∧ q < cfg.frames PgAlloc.early_pgtable_alloc (s.count PgAlloc.early_pgtable_alloc)
              + 4096 then 0
        else s.mem q) ∧
      s1.count = (fun b => if b = PgAlloc.early_pgtable_alloc
        then s.count PgAlloc.early_pgtable_alloc + 1 else s.count b) := by
  generalize hfd : cfg.frames PgAlloc.early_pgtable_alloc (s.count PgAlloc.early_pgtable_alloc)
    = f at *
  have hne : (f == 0) = false := by simpa using hf0
  have hV := fix_to_virt_lt cfg cfg.FIX_PTE
  have hVa := fix_to_virt_aligned cfg cfg.FIX_PTE htop
  have hps : PAGE_SIZE = 4096 := by decide
  have hsh : PAGE_SHIFT = 12 := rfl
  have hfl : (FIXMAP_PAGE_NORMAL != 0) = true := by decide
  have hz : ((0 : Nat) != 0) = false := by decide
  have hoff : f &&& (PAGE_SIZE - 1) = 0 := by
    have : PAGE_SIZE - 1 = 2 ^ 12 - 1 := by decide
    rw [this, Nat.and_pow_two_sub_one_eq_mod]; omega
  have hptr : (__fix_to_virt cfg cfg.FIX_PTE + 0) % U64 = __fix_to_virt cfg cfg.FIX_PTE := by
    rw [U64_eq]; omega
  have hvoff : __fix_to_virt cfg cfg.FIX_PTE &&& (PAGE_SIZE - 1) = 0 := by
    have : PAGE_SIZE - 1 = 2 ^ 12 - 1 := by decide
    rw [this, Nat.and_pow_two_sub_one_eq_mod]; omega
  have hvoff2 : __fix_to_virt cfg cfg.FIX_PTE &&& (4096 - 1) = 0 := hvoff
  have hpfn : (pte_pfn (pfn_pte (f >>> PAGE_SHIFT) FIXMAP_PAGE_NORMAL) <<< PAGE_SHIFT) % U64
      = f := by
    have hx : f >>> PAGE_SHIFT < 68719476736 := by
      rw [hsh, Nat.shiftRight_eq_div_pow]; omega
    rw [pte_pfn_pfn_pte _ _ hx (by decide), hsh, Nat.shiftRight_eq_div_pow,
      Nat.shiftLeft_eq, U64_eq]
    omega
  refine ⟨flush_tlb_kernel_range (pte_clear (memset_fixmap cfg
      (set_pte (take_frame cfg PgAlloc.early_pgtable_alloc s).2
        (fixmap_pte cfg (__fix_to_virt cfg cfg.FIX_PTE))
        (pfn_pte (f >>> PAGE_SHIFT) FIXMAP_PAGE_NORMAL))
      (__fix_to_virt cfg cfg.FIX_PTE)) (fixmap_pte cfg (__fix_to_virt cfg cfg.FIX_PTE)))
      (__fix_to_virt cfg cfg.FIX_PTE) ((__fix_to_virt cfg cfg.FIX_PTE + PAGE_SIZE) % U64),
    ?_, ?_, ?_⟩
  · unfold early_pgtable_alloc_fixmap pte_set_fixmap pte_clear_fixmap
    simp only [take_frame, hfd, hne, Bool.false_eq_true, if_false,
      set_fixmap_valid cfg _ cfg.FIX_PTE _ _ hfix1 hfix2, hfl, hz, if_true, Res.bind, hoff, hptr]
  · intro q
    simp only [flush_tlb_kernel_range, pte_clear, set_pte, set_entry_mem, memset_fixmap,
      if_true, hpfn, hvoff, hvoff2, Nat.add_zero, zero_page, hps]
    by_cases h1 : q = fixmap_pte cfg (__fix_to_virt cfg cfg.FIX_PTE)
    · simp only [h1, if_true]
    · by_cases h2 : f ≤ q ∧ q < f + 4096
      · simp only [h1, h2, and_self, if_true, if_false]
      · simp only [h1, h2, if_false]
        rfl
  · simp only [take_frame, hfd]
    rfl

/-- A call of one of the two clearing allocators whose next frame is not 0
returns that frame, cleared. -/
theorem call_alloc_zero (cfg : Config) (al : PgAlloc) (s : State)
    (hf : cfg.frames al (s.count al) ≠ 0) (hal : al ≠ PgAlloc.rkp_ro_alloc_phys) :
    ∃ s1, call_alloc cfg al s = Res.ok (cfg.frames al (s.count al), s1) ∧
      (∀ q, s1.mem q = if cfg.frames al (s.count al) ≤ q ∧ q < cfg.frames al (s.count al) + 4096
        then 0 else s.mem q) ∧
      s1.count = (fun b => if b = al then s.count al + 1 else s.count b) := by
  have hne : (cfg.frames al (s.count al) == 0) = false := by simpa using hf
  have hps : PAGE_SIZE = 4096 := by decide
  cases al with
  | early_pgtable_alloc =>
    refine ⟨⟨zero_page s.mem (cfg.frames PgAlloc.early_pgtable_alloc
        (s.count PgAlloc.early_pgtable_alloc)),
      fun b => if b = PgAlloc.early_pgtable_alloc then s.count PgAlloc.early_pgtable_alloc + 1
        else s.count b,
      Event.alloc PgAlloc.early_pgtable_alloc (cfg.frames PgAlloc.early_pgtable_alloc
        (s.count PgAlloc.early_pgtable_alloc)) :: s.trace⟩, ?_, ?_, ?_⟩
    · simp only [call_alloc, early_pgtable_alloc, take_frame, hne]; rfl
    · intro q; simp only [zero_page, hps]
    · rfl
  | late_pgtable_alloc =>
    refine ⟨⟨zero_page s.mem (cfg.frames PgAlloc.late_pgtable_alloc
        (s.count PgAlloc.late_pgtable_alloc)),
      fun b => if b = PgAlloc.late_pgtable_alloc then s.count PgAlloc.late_pgtable_alloc + 1
        else s.count b,
      Event.alloc PgAlloc.late_pgtable_alloc (cfg.frames PgAlloc.late_pgtable_alloc
        (s.count PgAlloc.late_pgtable_alloc)) :: s.trace⟩, ?_, ?_, ?_⟩
    · simp only [call_alloc, late_pgtable_alloc, take_frame, hne]; rfl
    · intro q; simp only [zero_page, hps]
    · rfl
  | rkp_ro_alloc_phys => exact absurd rfl hal

/-! ## Requests one after the other -/

/-- A page of one request is out of reach of a run over a range that is
disjoint from the request. -/
theorem Sep_of_disjoint (cfg : Config) (R : Req) (a lo hi : Nat)
    (ha1 : R.A0 ≤ a) (ha2 : a < R.E) (hd : R.E ≤ lo ∨ hi ≤ R.A0) : Sep cfg R a lo hi := by
  refine ⟨by omega, ?_, ?_⟩
  · intro hb
    obtain ⟨_, b1, b2, _⟩ := hb
    omega
  · intro hb
    obtain ⟨_, _, b1, b2, _⟩ := hb
    omega

/-- A mapping made for one request survives a run for a disjoint range. -/
theorem Mapped0.kept {cfg : Config} {lim : PgAlloc → Nat} {R : Req} {s1 s2 : State}
    {own1 own2 : Own} {k n WB pgdir a lo hi : Nat}
    (h : Mapped0 cfg R s1.mem pgdir a) (hw : WF s1.mem own1)
    (hT : own1 pgdir = some (0, WB)) (hv : R.Valid WB)
    (r : Run cfg lim k n s1 own1 lo hi s2 own2)
    (ha1 : R.A0 ≤ a) (ha2 : a < R.E) (ha3 : a % 4096 = 0) (hlo : lo % 4096 = 0)
    (hd : R.E ≤ lo ∨ hi ≤ R.A0) : Mapped0 cfg R s2.mem pgdir a :=
  Mapped0.keep0 h hw hT (by have := hv.wb_le; omega) (by have := hv.e_le; omega) r.foot ha3 hlo
    (Sep_of_disjoint cfg R a lo hi ha1 ha2 hd)

/-- Every address of the page-rounded range of a request whose pages are
mapped resolves as requested. -/
theorem resolve_of_mapped (cfg : Config) (WB pgdir phys virt size prot : Nat)
    (alloc : Option PgAlloc) (mem : Nat → Nat)
    (hx : phys % 4096 = virt % 4096)
    (hv : (mkReq phys virt size prot alloc).Valid WB)
    (hm : ∀ a, (mkReq phys virt size prot alloc).A0 ≤ a →
      a < (mkReq phys virt size prot alloc).E → a % 4096 = 0 →
      Mapped0 cfg (mkReq phys virt size prot alloc) mem pgdir a)
    (va : Nat) (h1 : virt / 4096 * 4096 ≤ va)
    (h2 : va < virt / 4096 * 4096 + (size + virt % 4096 + 4095) / 4096 * 4096) :
    resolve mem pgdir va = some (phys + va - virt, entry_prot prot) := by
  have hA : (mkReq phys virt size prot alloc).A0 = virt / 4096 * 4096 := rfl
  have hE : (mkReq phys virt size prot alloc).E
      = virt / 4096 * 4096 + (size + virt % 4096 + 4095) / 4096 * 4096 := rfl
  have hP : (mkReq phys virt size prot alloc).P0 = phys / 4096 * 4096 := rfl
  have hm1 := hm (va / 4096 * 4096) (by rw [hA]; omega) (by rw [hE]; omega) (by omega)
  have hr := resolve_of_Mapped0 cfg _ WB mem pgdir (va / 4096 * 4096) va hv
    (by rw [hA]; omega) (by rw [hE]; omega) (by omega) (by omega) (by omega) hm1
  rw [hr, hA, hP]
  have e : phys / 4096 * 4096 + (va - virt / 4096 * 4096) = phys + va - virt := by omega
  rw [e]
  rfl

/-! ## `mark_rodata_ro` -/

theorem text_req_valid {cfg : Config} {WB : Nat} (L : RodataLayout cfg WB) :
    (text_req cfg).Valid WB := by
  have := L.wb_al; have := L.wb_top; have := L.wb_le; have := L.text; have := L.gap
  have := L.rodata; have := L.top; have := L.etext_al; have := L.voff_al; have := L.voff_le
  have := L.pa_top
  exact mkReq_valid WB _ _ _ _ _ (by omega) (by omega) L.wb_al L.wb_top L.wb_le (by omega)
    (by omega) (by decide) (by decide)

theorem rodata_req_valid {cfg : Config} {WB : Nat} (L : RodataLayout cfg WB) :
    (rodata_req cfg).Valid WB := by
  have := L.wb_al; have := L.wb_top; have := L.wb_le; have := L.text; have := L.gap
  have := L.rodata; have := L.top; have := L.etext_al; have := L.voff_al; have := L.voff_le
  have := L.pa_top
  exact mkReq_valid WB _ _ _ _ _ (by omega) (by omega) L.wb_al L.wb_top (by omega) (by omega)
    (by omega) (by decide) (by decide)

/-- The two calls of `mark_rodata_ro` as calls of `init_pgd`. -/
theorem mark_rodata_ro_eq {cfg : Config} {WB : Nat} (L : RodataLayout cfg WB) (F : Nat)
    (s : State) :
    mark_rodata_ro cfg F s =
      (init_pgd cfg F s (pgd_offset_raw cfg.init_mm_pgd cfg.stext)
        (cfg.stext - cfg.kimage_voffset) cfg.stext (cfg.etext - cfg.stext) PAGE_KERNEL_ROX
        (some PgAlloc.late_pgtable_alloc)).bind fun s1 =>
      init_pgd cfg F s1 (pgd_offset_raw cfg.init_mm_pgd cfg.start_rodata)
        (cfg.start_rodata - cfg.kimage_voffset) cfg.start_rodata
        (cfg.init_begin - cfg.start_rodata) PAGE_KERNEL_RO (some PgAlloc.late_pgtable_alloc) := by
  have := L.wb_al; have := L.wb_top; have := L.wb_le; have := L.text; have := L.gap
  have := L.rodata; have := L.top; have := L.etext_al; have := L.voff_al; have := L.voff_le
  have := L.vmalloc
  have e1 : (cfg.etext + U64 - cfg.stext) % U64 = cfg.etext - cfg.stext := by
    rw [U64_eq]; omega
  have e2 : (cfg.init_begin + U64 - cfg.start_rodata) % U64
      = cfg.init_begin - cfg.start_rodata := by rw [U64_eq]; omega
  have e3 : __pa_symbol cfg cfg.stext = cfg.stext - cfg.kimage_voffset := by
    unfold __pa_symbol; rw [U64_eq]; omega
  have e4 : __pa_symbol cfg cfg.start_rodata = cfg.start_rodata - cfg.kimage_voffset := by
    unfold __pa_symbol; rw [U64_eq]; omega
  have c1 : ¬ cfg.stext < cfg.VMALLOC_START := by omega
  have c2 : ¬ cfg.start_rodata < cfg.VMALLOC_START := by omega
  unfold mark_rodata_ro create_mapping_late __create_pgd_mapping
  simp only [e1, e2, e3, e4, c1, c2, if_false]

/-- The two runs of `mark_rodata_ro` on a well-formed kernel directory: both
return, and afterwards every page of the text request and every page of the
rodata request is mapped as requested. -/
theorem mark_rodata_ro_spec {cfg : Config} {lim : PgAlloc → Nat} {s : State} {own : Own}
    {WB : Nat} (L : RodataLayout cfg WB) (F : Nat) (hF : 512 ≤ F)
    (hw : WF s.mem own) (hroot : own cfg.init_mm_pgd = some (0, WB))
    (hfr : Fresh cfg lim s own) (hbud : ∀ a, s.count a + 268960768 ≤ lim a) :
    ∃ s1 s2 own1 own2,
      init_pgd cfg F s (pgd_offset_raw cfg.init_mm_pgd cfg.stext)
        (cfg.stext - cfg.kimage_voffset) cfg.stext (cfg.etext - cfg.stext) PAGE_KERNEL_ROX
        (some PgAlloc.late_pgtable_alloc) = Res.ok s1 ∧
      init_pgd cfg F s1 (pgd_offset_raw cfg.init_mm_pgd cfg.start_rodata)
        (cfg.start_rodata - cfg.kimage_voffset) cfg.start_rodata
        (cfg.init_begin - cfg.start_rodata) PAGE_KERNEL_RO (some PgAlloc.late_pgtable_alloc)
        = Res.ok s2 ∧
      Run cfg lim 0 134480384 s own (text_req cfg).A0 (text_req cfg).E s1 own1 ∧
      Run cfg lim 0 134480384 s1 own1 (rodata_req cfg).A0 (rodata_req cfg).E s2 own2 ∧
      (∀ a, (text_req cfg).A0 ≤ a → a < (text_req cfg).E → a % 4096 = 0 →
        Mapped0 cfg (text_req cfg) s2.mem cfg.init_mm_pgd a) ∧
      (∀ a, (rodata_req cfg).A0 ≤ a → a < (rodata_req cfg).E → a % 4096 = 0 →
        Mapped0 cfg (rodata_req cfg) s2.mem cfg.init_mm_pgd a) := by
  have := L.wb_al; have := L.wb_top; have := L.wb_le; have := L.text; have := L.gap
  have := L.rodata; have := L.top; have := L.etext_al; have := L.voff_al; have := L.voff_le
  have := L.pa_top
  obtain ⟨s1, own1, e1, r1, m1⟩ := @init_pgd_spec cfg lim s own
    WB cfg.init_mm_pgd (cfg.stext - cfg.kimage_voffset) cfg.stext (cfg.etext - cfg.stext)
    PAGE_KERNEL_ROX PgAlloc.late_pgtable_alloc F
    ((page_offset_eq _ _).mpr (by omega)) (by omega) L.wb_al L.wb_top L.wb_le (by omega)
    (by omega) (by decide) (by decide) hw hroot hfr
    (by intro a; have := hbud a; omega) hF
  obtain ⟨s2, own2, e2, r2, m2⟩ := @init_pgd_spec cfg lim s1 own1 WB cfg.init_mm_pgd (cfg.start_rodata - cfg.kimage_voffset) cfg.start_rodata
    (cfg.init_begin - cfg.start_rodata) PAGE_KERNEL_RO PgAlloc.late_pgtable_alloc F
    ((page_offset_eq _ _).mpr (by omega)) (by omega) L.wb_al L.wb_top (by omega) (by omega)
    (by omega) (by decide) (by decide) r1.wf (r1.le _ _ hroot) r1.fresh
    (by intro a; have := hbud a; have := r1.used a; omega) hF
  refine ⟨s1, s2, own1, own2, e1, e2, r1, r2, ?_, m2⟩
  intro a ha1 ha2 ha3
  have hA2 : (rodata_req cfg).A0 = cfg.start_rodata / 4096 * 4096 := rfl
  have hE1 : (text_req cfg).E = cfg.stext / 4096 * 4096
      + (cfg.etext - cfg.stext + cfg.stext % 4096 + 4095) / 4096 * 4096 := rfl
  have hlo : (rodata_req cfg).A0 % 4096 = 0 := by rw [hA2]; omega
  have hd : (text_req cfg).E ≤ (rodata_req cfg).A0 := by rw [hA2, hE1]; omega
  exact Mapped0.kept (m1 a ha1 ha2 ha3) r1.wf (r1.le _ _ hroot) (text_req_valid L) r2
    ha1 ha2 ha3 hlo (Or.inl hd)

/-- The frame pool of `cfg0` is fresh up to `lim1` too. -/
theorem Fresh_cfg0_lim1 (s : State) (own : Own)
    (hown : ∀ T, 4294967296 ≤ T → own T = none)
    (hmem : ∀ q, 4294967296 ≤ q → s.mem q = 0) : Fresh cfg0 lim1 s own := by
  intro a n _ hn
  have hl : n < 1075843072 := hn
  have hfa : frameNo a < 3 := by cases a <;> decide
  have hf : cfg0.frames a n = 4294967296 + 4096 * (3 * n + frameNo a) := rfl
  refine ⟨by omega, by omega, by omega, hown _ (by omega), ?_, ?_⟩
  · intro a1 n1 _ hn1 he
    have hl1 : n1 < 1075843072 := hn1
    have hf1 : cfg0.frames a1 n1 = 4294967296 + 4096 * (3 * n1 + frameNo a1) := rfl
    have hfa1 : frameNo a1 < 3 := by cases a1 <;> decide
    rw [hf, hf1] at he
    have h1 : frameNo a1 = frameNo a := by omega
    have h2 : n1 = n := by omega
    refine ⟨?_, h2⟩
    cases a <;> cases a1 <;> first | rfl | (simp [frameNo] at h1)
  · intro _ q hq _
    exact hmem q (by omega)

/-- The image of `cfg0` is laid out as `mark_rodata_ro` expects. -/
theorem RodataLayout_cfg0 : RodataLayout cfg0 0xffff000000000000 := by
  constructor <;> decide

/-! ## Mapping again what is mapped -/

/-- The page level over a range whose pages are mapped as requested stores
what is there already. -/
theorem alloc_init_pte_idem (cfg : Config) (R : Req) (WB : Nat) (hv : R.Valid WB)
    (s : State) (P lo hi F : Nat) (alloc : Option PgAlloc)
    (hlo : lo % 4096 = 0) (hhi : hi % 4096 = 0) (hlt : lo < hi)
    (hch : hi ≤ lo / 2097152 * 2097152 + 2097152) (hA : R.A0 ≤ lo) (hE : hi ≤ R.E)
    (hF : 512 ≤ F)
    (ht : s.mem P &&& 3 = 3)
    (hm : ∀ a, lo ≤ a → a < hi → a % 4096 = 0 →
      Mapped3 R s.mem (s.mem P &&& PTE_ADDR_MASK) a) :
    ∃ s1, alloc_init_pte cfg F s P lo (hi % U64) (phys_to_pfn (R.P0 + (lo - R.A0))) R.prot alloc
        = Res.ok s1 ∧ s1.mem = s.mem ∧ s1.count = s.count := by
  obtain ⟨v1, v2, v3, v4, v5, v6, v7, v8, v9, v10, v11⟩ := hv
  have hnn : pmd_none (s.mem P) = false := not_none_of_table _ ht
  have hns : pmd_sect (s.mem P) = false := not_sect_of_table _ ht
  have hnb : pmd_bad (s.mem P) = false := not_bad_of_table _ ht
  obtain ⟨s1, e1, w1, o1, c1⟩ := alloc_init_pte_loop_spec cfg R.prot (s.mem P &&& PTE_ADDR_MASK)
    (lo / 2097152 * 2097152) hi hhi (by omega) hch (by omega) F s lo
    (phys_to_pfn (R.P0 + (lo - R.A0))) hlo hlt (by omega) (by omega)
    (by rw [phys_to_pfn_eq]; omega)
  refine ⟨s1, ?_, ?_, c1⟩
  · unfold alloc_init_pte alloc_init_pte_prepare
    simp only [hnn, hns, Bool.or_self, Bool.false_eq_true, if_false, hnb]
    exact e1
  · funext q
    by_cases hq : ∃ a, lo ≤ a ∧ a < hi ∧ a % 4096 = 0 ∧
        q = (s.mem P &&& PTE_ADDR_MASK) + pte_index a * 8
    · obtain ⟨a, a1, a2, a3, rfl⟩ := hq
      rw [w1 a a1 a2 a3, hm a a1 a2 a3, phys_to_pfn_eq]
      have : (R.P0 + (lo - R.A0)) / 4096 + (a - lo) / 4096 = (R.P0 + (a - R.A0)) / 4096 := by
        omega
      rw [this]
    · exact o1 q (fun a a1 a2 a3 h => hq ⟨a, a1, a2, a3, h⟩)

/-- Storing into an entry the value it holds leaves memory as it is. -/
theorem set_entry_same (s : State) (p v : Nat) (h : s.mem p = v) :
    (set_entry s p v).mem = s.mem := by
  funext q
  rw [set_entry_mem]
  split
  · rename_i hq; rw [hq, h]
  · rfl

/-- One pass of the pmd loop over a range whose pages are mapped as requested
stores what is there already. -/
theorem alloc_init_pmd_step_idem (cfg : Config) (R : Req) (WB : Nat) (hv : R.Valid WB)
    (s : State) (T2 lo next F : Nat)
    (hlo : lo % 4096 = 0) (hnx : next % 4096 = 0)
    (hlt : lo < next) (hch : next ≤ lo / 2097152 * 2097152 + 2097152)
    (hA : R.A0 ≤ lo) (hE : next ≤ R.E)
    (hlo2 : lo = R.A0 ∨ lo % 2097152 = 0) (hnx2 : next = R.E ∨ next % 2097152 = 0)
    (hF : 512 ≤ F)
    (hm : ∀ a, lo ≤ a → a < next → a % 4096 = 0 → Mapped2 cfg R s.mem T2 a) :
    ∃ s1, alloc_init_pmd_step cfg F s (T2 + pmd_index lo * 8) lo (next % U64)
        (R.P0 + (lo - R.A0)) R.prot R.alloc = Res.ok s1 ∧
      s1.mem = s.mem ∧ s1.count = s.count := by
  have hv1 := hv
  obtain ⟨v1, v2, v3, v4, v5, v6, v7, v8, v9, v10, v11⟩ := hv1
  have hidxa : ∀ a, lo ≤ a → a < next → pmd_index a = pmd_index lo := by
    intro a h1 h2; rw [pmd_index_eq, pmd_index_eq]; omega
  have hsa := section_aligned_iff lo (next % U64) (R.P0 + (lo - R.A0))
  rw [U64_eq] at hsa ⊢
  have hmlo := hm lo (Nat.le_refl _) hlt hlo
  unfold alloc_init_pmd_step
  by_cases hblk : (lo % 2097152 = 0 ∧ next % 18446744073709551616 % 2097152 = 0 ∧
      (R.P0 + (lo - R.A0)) % 2097152 = 0) ∧ block_mappings_allowed cfg R.alloc = true
  · obtain ⟨⟨k1, k2, k3⟩, k4⟩ := hblk
    have hc1 : ((lo ||| next % 18446744073709551616 ||| (R.P0 + (lo - R.A0))) &&&
        not64 SECTION_MASK == 0) = true := by
      simpa using hsa.mpr ⟨k1, k2, k3⟩
    have hph : (R.P0 + (lo - R.A0)) &&& not64 PMD_MASK = 0 := by
      rw [and_not_PMD_MASK]; exact k3
    have hnext : next = lo + 2097152 := by omega
    have hl : lo / 2097152 * 2097152 = lo := by omega
    have hbig : big2M cfg R lo := ⟨k4, by omega, by omega, by rw [hl]; exact k3⟩
    unfold Mapped2 at hmlo
    rw [if_pos hbig, hl] at hmlo
    refine ⟨release_old cfg (set_pmd s (T2 + pmd_index lo * 8)
        ((R.P0 + (lo - R.A0)) ||| PMD_TYPE_SECT ||| mk_sect_prot R.prot))
        (s.mem (T2 + pmd_index lo * 8)), ?_, ?_, ?_⟩
    · simp [hc1, k4, pmd_set_huge, hph]
    · rw [release_old_mem]
      exact set_entry_same s _ _ hmlo
    · rw [release_old_count]; rfl
  · have hc1 : (((lo ||| next % 18446744073709551616 ||| (R.P0 + (lo - R.A0))) &&&
        not64 SECTION_MASK == 0) && block_mappings_allowed cfg R.alloc) = false := by
      by_cases hx : (lo ||| next % 18446744073709551616 ||| (R.P0 + (lo - R.A0))) &&&
          not64 SECTION_MASK = 0
      · have := hsa.mp hx
        have hb : block_mappings_allowed cfg R.alloc = false := by
          cases hbb : block_mappings_allowed cfg R.alloc
          · rfl
          · exact absurd ⟨this, hbb⟩ hblk
        simp [hb]
      · simp [hx]
    have hnb : ∀ a, lo ≤ a → a < next → ¬ big2M cfg R a := by
      intro a ha1 ha2
      rintro ⟨g1, g2, g3, g4⟩
      apply hblk
      have hc : a / 2097152 * 2097152 = lo / 2097152 * 2097152 := by omega
      rw [hc] at g2 g3 g4
      have hl : lo = lo / 2097152 * 2097152 := by omega
      refine ⟨⟨by omega, by omega, ?_⟩, g1⟩
      rw [hl]; exact g4
    unfold Mapped2 at hmlo
    rw [if_neg (hnb lo (Nat.le_refl _) hlt)] at hmlo
    obtain ⟨s1, e1, m1, c1⟩ := alloc_init_pte_idem cfg R WB hv s (T2 + pmd_index lo * 8) lo next F
      R.alloc hlo hnx hlt hch hA hE hF hmlo.1 (by
        intro a ha1 ha2 ha3
        have h := hm a ha1 ha2 ha3
        unfold Mapped2 at h
        rw [if_neg (hnb a ha1 ha2), hidxa a ha1 ha2] at h
        exact h.2)
    rw [U64_eq] at e1
    refine ⟨s1, ?_, m1, c1⟩
    simp only [hc1, Bool.false_eq_true, if_false]
    exact e1

/-- The loop of `alloc_init_pmd` over a range whose pages are mapped as
requested leaves memory and the counters as they are. -/
theorem alloc_init_pmd_loop_idem (cfg : Config) (R : Req) (WB : Nat) (hv : R.Valid WB)
    (T2 b2 hi F : Nat)
    (hhi : hi % 4096 = 0) (hhiE : hi ≤ R.E) (hhi2 : hi = R.E ∨ hi % 2097152 = 0)
    (hbal : b2 % 1073741824 = 0) (hhb : hi ≤ b2 + 1073741824) (hF : 512 ≤ F) :
    ∀ (fuel : Nat) (s : State) (lo : Nat),
      lo % 4096 = 0 → lo < hi → b2 ≤ lo → R.A0 ≤ lo → (lo = R.A0 ∨ lo % 2097152 = 0) →
      (hi + 2097151) / 2097152 - lo / 2097152 ≤ fuel →
      (∀ a, lo ≤ a → a < hi → a % 4096 = 0 → Mapped2 cfg R s.mem T2 a) →
      ∃ s1, alloc_init_pmd_loop cfg F R.prot (hi % U64) R.alloc fuel s
          (T2 + pmd_index lo * 8) lo (R.P0 + (lo - R.A0)) = Res.ok s1 ∧
        s1.mem = s.mem ∧ s1.count = s.count := by
  have hv1 := hv
  obtain ⟨v1, v2, v3, v4, v5, v6, v7, v8, v9, v10, v11⟩ := hv1
  intro fuel
  induction fuel with
  | zero => intro s lo _ _ _ _ _ h _; omega
  | succ n ih =>
    intro s lo hlo hlt hb1 hA hlo2 hfuel hm
    have hnx := pmd_addr_end_eq lo hi hlt (by omega)
    obtain ⟨s1, e1, m1, c1⟩ := alloc_init_pmd_step_idem cfg R WB hv s T2 lo
      (min ((lo / 2097152 + 1) * 2097152) hi) F hlo (by omega) (by omega) (by omega)
      hA (by omega) hlo2 (by omega) hF (fun a h1 h2 h3 => hm a h1 (by omega) h3)
    rw [alloc_init_pmd_loop]
    simp only [hnx, e1]
    by_cases hend : min ((lo / 2097152 + 1) * 2097152) hi = hi
    · rw [hend]
      simp only [bne_self_eq_false, Bool.false_eq_true, if_false]
      exact ⟨s1, rfl, m1, c1⟩
    · have hne : (min ((lo / 2097152 + 1) * 2097152) hi % U64 != hi % U64) = true := by
        rw [U64_eq]
        have : min ((lo / 2097152 + 1) * 2097152) hi % 18446744073709551616
            ≠ hi % 18446744073709551616 := by omega
        simpa using this
      have hmin : min ((lo / 2097152 + 1) * 2097152) hi = (lo / 2097152 + 1) * 2097152 := by
        omega
      rw [hmin] at hne ⊢
      simp only [hne, if_true]
      have hphys : (R.P0 + (lo - R.A0) + ((lo / 2097152 + 1) * 2097152 % U64 + U64 - lo)) % U64
          = R.P0 + ((lo / 2097152 + 1) * 2097152 - R.A0) := by
        rw [U64_eq]; omega
      have hptr : T2 + pmd_index lo * 8 + 8 = T2 + pmd_index ((lo / 2097152 + 1) * 2097152) * 8
          := by
        rw [pmd_index_eq, pmd_index_eq]; omega
      have hmod : (lo / 2097152 + 1) * 2097152 % U64 = (lo / 2097152 + 1) * 2097152 := by
        rw [U64_eq]; omega
      rw [hphys, hptr, hmod]
      obtain ⟨s2, e2, m2, c2⟩ := ih s1 ((lo / 2097152 + 1) * 2097152) (by omega) (by omega)
        (by omega) (by omega) (Or.inr (by omega)) (by omega)
        (fun a h1 h2 h3 => by rw [m1]; exact hm a (by omega) h2 h3)
      exact ⟨s2, e2, m2.trans m1, c2.trans c1⟩

/-- The function `alloc_init_pmd` over a range whose pages are mapped as
requested through the pmd table that the pud entry names. -/
theorem alloc_init_pmd_idem (cfg : Config) (R : Req) (WB : Nat) (hv : R.Valid WB)
    (s : State) (P lo hi F : Nat)
    (hlo : lo % 4096 = 0) (hhi : hi % 4096 = 0) (hlt : lo < hi)
    (hch : hi ≤ lo / 1073741824 * 1073741824 + 1073741824)
    (hA : R.A0 ≤ lo) (hE : hi ≤ R.E)
    (hlo2 : lo = R.A0 ∨ lo % 1073741824 = 0) (hhi2 : hi = R.E ∨ hi % 1073741824 = 0)
    (hF : 512 ≤ F)
    (ht : s.mem P &&& 3 = 3)
    (hm : ∀ a, lo ≤ a → a < hi → a % 4096 = 0 →
      Mapped2 cfg R s.mem (s.mem P &&& PTE_ADDR_MASK) a) :
    ∃ s1, alloc_init_pmd cfg F s P lo (hi % U64) (R.P0 + (lo - R.A0)) R.prot R.alloc
        = Res.ok s1 ∧ s1.mem = s.mem ∧ s1.count = s.count := by
  have hnn : pud_none (s.mem P) = false := not_none_of_table _ ht
  have hns : pud_sect (s.mem P) = false := not_sect_of_table _ ht
  have hnb : pud_bad (s.mem P) = false := not_bad_of_table _ ht
  obtain ⟨s1, e1, m1, c1⟩ := alloc_init_pmd_loop_idem cfg R WB hv (s.mem P &&& PTE_ADDR_MASK)
    (lo / 1073741824 * 1073741824) hi F hhi hE (by omega) (by omega) hch hF F s lo hlo hlt
    (by omega) hA (by omega) (by omega) hm
  refine ⟨s1, ?_, m1, c1⟩
  unfold alloc_init_pmd alloc_init_pmd_prepare
  simp only [hnn, hns, Bool.or_self, Bool.false_eq_true, if_false, hnb]
  exact e1

/-- One pass of the pud loop over a range whose pages are mapped as requested
stores what is there already. -/
theorem alloc_init_pud_step_idem (cfg : Config) (R : Req) (WB : Nat) (hv : R.Valid WB)
    (s : State) (T1 lo next F : Nat)
    (hlo : lo % 4096 = 0) (hnx : next % 4096 = 0)
    (hlt : lo < next) (hch : next ≤ lo / 1073741824 * 1073741824 + 1073741824)
    (hA : R.A0 ≤ lo) (hE : next ≤ R.E)
    (hlo2 : lo = R.A0 ∨ lo % 1073741824 = 0) (hnx2 : next = R.E ∨ next % 1073741824 = 0)
    (hF : 512 ≤ F)
    (hm : ∀ a, lo ≤ a → a < next → a % 4096 = 0 → Mapped1 cfg R s.mem T1 a) :
    ∃ s1, alloc_init_pud_step cfg F s (T1 + pud_index lo * 8) lo (next % U64)
        (R.P0 + (lo - R.A0)) R.prot R.alloc = Res.ok s1 ∧
      s1.mem = s.mem ∧ s1.count = s.count := by
  have hv1 := hv
  obtain ⟨v1, v2, v3, v4, v5, v6, v7, v8, v9, v10, v11⟩ := hv1
  have hidxa : ∀ a, lo ≤ a → a < next → pud_index a = pud_index lo := by
    intro a h1 h2; rw [pud_index_eq, pud_index_eq]; omega
  have hu := use_1G_block_iff cfg lo (next % U64) (R.P0 + (lo - R.A0))
  rw [U64_eq] at hu ⊢
  have hmlo := hm lo (Nat.le_refl _) hlt hlo
  unfold alloc_init_pud_step
  by_cases hblk : use_1G_block cfg lo (next % 18446744073709551616) (R.P0 + (lo - R.A0)) = true
      ∧ block_mappings_allowed cfg R.alloc = true
  · obtain ⟨k0, k4⟩ := hblk
    obtain ⟨⟨k1, k2, k3⟩, k5⟩ := hu.mp k0
    have hph : (R.P0 + (lo - R.A0)) &&& not64 PUD_MASK = 0 := by
      rw [and_not_PUD_MASK]; exact k3
    have hnext : next = lo + 1073741824 := by omega
    have hl : lo / 1073741824 * 1073741824 = lo := by omega
    have hbig : big1G cfg R lo := ⟨k5, k4, by omega, by omega, by rw [hl]; exact k3⟩
    unfold Mapped1 at hmlo
    rw [if_pos hbig, hl] at hmlo
    refine ⟨release_old cfg (set_pud s (T1 + pud_index lo * 8)
        ((R.P0 + (lo - R.A0)) ||| PUD_TYPE_SECT ||| mk_sect_prot R.prot))
        (s.mem (T1 + pud_index lo * 8)), ?_, ?_, ?_⟩
    · simp [k0, k4, pud_set_huge, hph]
    · rw [release_old_mem]
      exact set_entry_same s _ _ hmlo
    · rw [release_old_count]; rfl
  · have hc1 : (use_1G_block cfg lo (next % 18446744073709551616) (R.P0 + (lo - R.A0)) &&
        block_mappings_allowed cfg R.alloc) = false := by
      cases hx : use_1G_block cfg lo (next % 18446744073709551616) (R.P0 + (lo - R.A0))
      · simp
      · cases hbb : block_mappings_allowed cfg R.alloc
        · simp
        · exact absurd ⟨hx, hbb⟩ hblk
    have hnb : ∀ a, lo ≤ a → a < next → ¬ big1G cfg R a := by
      intro a ha1 ha2
      rintro ⟨g0, g1, g2, g3, g4⟩
      apply hblk
      have hc : a / 1073741824 * 1073741824 = lo / 1073741824 * 1073741824 := by omega
      rw [hc] at g2 g3 g4
      have hl : lo = lo / 1073741824 * 1073741824 := by omega
      refine ⟨hu.mpr ⟨⟨by omega, by omega, ?_⟩, g0⟩, g1⟩
      rw [hl]; exact g4
    unfold Mapped1 at hmlo
    rw [if_neg (hnb lo (Nat.le_refl _) hlt)] at hmlo
    obtain ⟨s1, e1, m1, c1⟩ := alloc_init_pmd_idem cfg R WB hv s (T1 + pud_index lo * 8) lo next F
      hlo hnx hlt hch hA hE hlo2 hnx2 hF hmlo.1 (by
        intro a ha1 ha2 ha3
        have h := hm a ha1 ha2 ha3
        unfold Mapped1 at h
        rw [if_neg (hnb a ha1 ha2), hidxa a ha1 ha2] at h
        exact h.2)
    rw [U64_eq] at e1
    refine ⟨s1, ?_, m1, c1⟩
    simp only [hc1, Bool.false_eq_true, if_false]
    exact e1

/-- The loop of `alloc_init_pud` over a range whose pages are mapped as
requested leaves memory and the counters as they are. -/
theorem alloc_init_pud_loop_idem (cfg : Config) (R : Req) (WB : Nat) (hv : R.Valid WB)
    (T1 b1 hi F : Nat)
    (hhi : hi % 4096 = 0) (hhiE : hi ≤ R.E) (hhi2 : hi = R.E ∨ hi % 1073741824 = 0)
    (hbal : b1 % 549755813888 = 0) (hhb : hi ≤ b1 + 549755813888) (hF : 512 ≤ F) :
    ∀ (fuel : Nat) (s : State) (lo : Nat),
      lo % 4096 = 0 → lo < hi → b1 ≤ lo → R.A0 ≤ lo → (lo = R.A0 ∨ lo % 1073741824 = 0) →
      (hi + 1073741823) / 1073741824 - lo / 1073741824 ≤ fuel →
      (∀ a, lo ≤ a → a < hi → a % 4096 = 0 → Mapped1 cfg R s.mem T1 a) →
      ∃ s1, alloc_init_pud_loop cfg F R.prot (hi % U64) R.alloc fuel s
          (T1 + pud_index lo * 8) lo (R.P0 + (lo - R.A0)) = Res.ok s1 ∧
        s1.mem = s.mem ∧ s1.count = s.count := by
  have hv1 := hv
  obtain ⟨v1, v2, v3, v4, v5, v6, v7, v8, v9, v10, v11⟩ := hv1
  intro fuel
  induction fuel with
  | zero => intro s lo _ _ _ _ _ h _; omega
  | succ n ih =>
    intro s lo hlo hlt hb1 hA hlo2 hfuel hm
    have hnx := pud_addr_end_eq lo hi hlt (by omega)
    obtain ⟨s1, e1, m1, c1⟩ := alloc_init_pud_step_idem cfg R WB hv s T1 lo
      (min ((lo / 1073741824 + 1) * 1073741824) hi) F hlo (by omega) (by omega) (by omega)
      hA (by omega) hlo2 (by omega) hF (fun a h1 h2 h3 => hm a h1 (by omega) h3)
    rw [alloc_init_pud_loop]
    simp only [hnx, e1]
    by_cases hend : min ((lo / 1073741824 + 1) * 1073741824) hi = hi
    · rw [hend]
      simp only [bne_self_eq_false, Bool.false_eq_true, if_false]
      exact ⟨s1, rfl, m1, c1⟩
    · have hne : (min ((lo / 1073741824 + 1) * 1073741824) hi % U64 != hi % U64) = true := by
        rw [U64_eq]
        have : min ((lo / 1073741824 + 1) * 1073741824) hi % 18446744073709551616
            ≠ hi % 18446744073709551616 := by omega
        simpa using this
      have hmin : min ((lo / 1073741824 + 1) * 1073741824) hi
          = (lo / 1073741824 + 1) * 1073741824 := by omega
      rw [hmin] at hne ⊢
      simp only [hne, if_true]
      have hphys : (R.P0 + (lo - R.A0) + ((lo / 1073741824 + 1) * 1073741824 % U64 + U64 - lo))
          % U64 = R.P0 + ((lo / 1073741824 + 1) * 1073741824 - R.A0) := by
        rw [U64_eq]; omega
      have hptr : T1 + pud_index lo * 8 + 8
          = T1 + pud_index ((lo / 1073741824 + 1) * 1073741824) * 8 := by
        rw [pud_index_eq, pud_index_eq]; omega
      have hmod : (lo / 1073741824 + 1) * 1073741824 % U64
          = (lo / 1073741824 + 1) * 1073741824 := by
        rw [U64_eq]; omega
      rw [hphys, hptr, hmod]
      obtain ⟨s2, e2, m2, c2⟩ := ih s1 ((lo / 1073741824 + 1) * 1073741824) (by omega) (by omega)
        (by omega) (by omega) (Or.inr (by omega)) (by omega)
        (fun a h1 h2 h3 => by rw [m1]; exact hm a (by omega) h2 h3)
      exact ⟨s2, e2, m2.trans m1, c2.trans c1⟩

/-- The function `alloc_init_pud` over a range whose pages are mapped as
requested. -/
theorem alloc_init_pud_idem (cfg : Config) (R : Req) (WB : Nat) (hv : R.Valid WB)
    (s : State) (T0 lo hi F : Nat)
    (hlo : lo % 4096 = 0) (hhi : hi % 4096 = 0) (hlt : lo < hi)
    (hch : hi ≤ lo / 549755813888 * 549755813888 + 549755813888)
    (hA : R.A0 ≤ lo) (hE : hi ≤ R.E)
    (hlo2 : lo = R.A0 ∨ lo % 549755813888 = 0) (hhi2 : hi = R.E ∨ hi % 549755813888 = 0)
    (hF : 512 ≤ F)
    (hm : ∀ a, lo ≤ a → a < hi → a % 4096 = 0 → Mapped0 cfg R s.mem T0 a) :
    ∃ s1, alloc_init_pud cfg F s (T0 + pgd_index lo * 8) lo (hi % U64)
        (R.P0 + (lo - R.A0)) R.prot R.alloc = Res.ok s1 ∧
      s1.mem = s.mem ∧ s1.count = s.count := by
  have hmlo := hm lo (Nat.le_refl _) hlt hlo
  have ht := hmlo.1
  have hnn : pgd_none (s.mem (T0 + pgd_index lo * 8)) = false := not_none_of_table _ ht
  have hnb : pgd_bad (s.mem (T0 + pgd_index lo * 8)) = false := not_bad_of_table _ ht
  obtain ⟨s1, e1, m1, c1⟩ := alloc_init_pud_loop_idem cfg R WB hv
    (s.mem (T0 + pgd_index lo * 8) &&& PTE_ADDR_MASK) (lo / 549755813888 * 549755813888) hi F
    hhi hE (by omega) (by omega) hch hF F s lo hlo hlt (by omega) hA (by omega) (by omega)
    (by
      intro a ha1 ha2 ha3
      have hia : pgd_index a = pgd_index lo := by rw [pgd_index_eq, pgd_index_eq]; omega
      have h := (hm a ha1 ha2 ha3).2
      rw [hia] at h
      exact h)
  refine ⟨s1, ?_, m1, c1⟩
  unfold alloc_init_pud alloc_init_pud_prepare
  simp only [hnn, Bool.false_eq_true, if_false, hnb, pgd_page_paddr]
  exact e1

/-- The loop of `init_pgd` over a range whose pages are mapped as requested. -/
theorem init_pgd_loop_idem (cfg : Config) (R : Req) (WB : Nat) (hv : R.Valid WB)
    (T0 F : Nat) (hF : 512 ≤ F) :
    ∀ (fuel : Nat) (s : State) (lo : Nat),
      lo % 4096 = 0 → lo < R.E → R.A0 ≤ lo → (lo = R.A0 ∨ lo % 549755813888 = 0) →
      (R.E + 549755813887) / 549755813888 - lo / 549755813888 ≤ fuel →
      (∀ a, lo ≤ a → a < R.E → a % 4096 = 0 → Mapped0 cfg R s.mem T0 a) →
      ∃ s1, init_pgd_loop cfg F R.prot (R.E % U64) R.alloc fuel s
          (T0 + pgd_index lo * 8) lo (R.P0 + (lo - R.A0)) = Res.ok s1 ∧
        s1.mem = s.mem ∧ s1.count = s.count := by
  have hv1 := hv
  obtain ⟨v1, v2, v3, v4, v5, v6, v7, v8, v9, v10, v11⟩ := hv1
  intro fuel
  induction fuel with
  | zero => intro s lo _ _ _ _ h _; omega
  | succ n ih =>
    intro s lo hlo hlt hA hlo2 hfuel hm
    have hnx := pgd_addr_end_eq lo R.E hlt (by omega)
    obtain ⟨s1, e1, m1, c1⟩ := alloc_init_pud_idem cfg R WB hv s T0 lo
      (min ((lo / 549755813888 + 1) * 549755813888) R.E) F hlo (by omega) (by omega)
      (by omega) hA (by omega) hlo2 (by omega) hF (fun a h1 h2 h3 => hm a h1 (by omega) h3)
    rw [init_pgd_loop]
    simp only [hnx, e1]
    by_cases hend : min ((lo / 549755813888 + 1) * 549755813888) R.E = R.E
    · rw [hend]
      simp only [bne_self_eq_false, Bool.false_eq_true, if_false]
      exact ⟨s1, rfl, m1, c1⟩
    · have hne : (min ((lo / 549755813888 + 1) * 549755813888) R.E % U64 != R.E % U64)
          = true := by
        rw [U64_eq]
        have : min ((lo / 549755813888 + 1) * 549755813888) R.E % 18446744073709551616
            ≠ R.E % 18446744073709551616 := by omega
        simpa using this
      have hmin : min ((lo / 549755813888 + 1) * 549755813888) R.E
          = (lo / 549755813888 + 1) * 549755813888 := by
        omega
      rw [hmin] at hne ⊢
      simp only [hne, if_true]
      have hphys : (R.P0 + (lo - R.A0) +
          ((lo / 549755813888 + 1) * 549755813888 % U64 + U64 - lo)) % U64
          = R.P0 + ((lo / 549755813888 + 1) * 549755813888 - R.A0) := by
        rw [U64_eq]; omega
      have hptr : T0 + pgd_index lo * 8 + 8
          = T0 + pgd_index ((lo / 549755813888 + 1) * 549755813888) * 8 := by
        rw [pgd_index_eq, pgd_index_eq]; omega
      have hmod : (lo / 549755813888 + 1) * 549755813888 % U64
          = (lo / 549755813888 + 1) * 549755813888 := by
        rw [U64_eq]; omega
      rw [hphys, hptr, hmod]
      obtain ⟨s2, e2, m2, c2⟩ := ih s1 ((lo / 549755813888 + 1) * 549755813888) (by omega)
        (by omega) (by omega) (Or.inr (by omega)) (by omega)
        (fun a h1 h2 h3 => by rw [m1]; exact hm a (by omega) h2 h3)
      exact ⟨s2, e2, m2.trans m1, c2.trans c1⟩

/-- The function `init_pgd` for a request all of whose pages are mapped as
it asks: it returns with memory and the allocation counters unchanged. -/
theorem init_pgd_idem (cfg : Config) (WB pgdir phys virt size prot : Nat)
    (alloc : Option PgAlloc) (F : Nat) (s : State)
    (hx : phys % 4096 = virt % 4096)
    (hv : (mkReq phys virt size prot alloc).Valid WB) (hF : 512 ≤ F)
    (hm : ∀ a, (mkReq phys virt size prot alloc).A0 ≤ a →
      a < (mkReq phys virt size prot alloc).E → a % 4096 = 0 →
      Mapped0 cfg (mkReq phys virt size prot alloc) s.mem pgdir a) :
    ∃ s1, init_pgd cfg F s (pgd_offset_raw pgdir virt) phys virt size prot alloc = Res.ok s1 ∧
      s1.mem = s.mem ∧ s1.count = s.count := by
  have hx1 := (page_offset_eq phys virt).mpr hx
  have hcond : ((phys ^^^ virt) &&& not64 PAGE_MASK != 0) = false := by simp [hx1]
  have hA : (mkReq phys virt size prot alloc).A0 = virt / 4096 * 4096 := rfl
  have hE : (mkReq phys virt size prot alloc).E
      = virt / 4096 * 4096 + (size + virt % 4096 + 4095) / 4096 * 4096 := rfl
  have hP : (mkReq phys virt size prot alloc).P0 = phys / 4096 * 4096 := rfl
  have b1 := hv.e_le
  have b2 := hv.wb_top
  have b3 := hv.lt
  have b4 := hv.p_le
  have b5 := hv.wb_le
  have b6 := hv.wb_al
  rw [hE] at b1
  rw [hA, hE] at b3
  rw [hP, hE, hA] at b4
  rw [hA] at b5
  have e1 : phys &&& PAGE_MASK = phys / 4096 * 4096 := by
    rw [and_PAGE_MASK]; omega
  have e2 : virt &&& PAGE_MASK = virt / 4096 * 4096 := by
    rw [and_PAGE_MASK]; omega
  have e3 : PAGE_ALIGN ((size + (virt &&& not64 PAGE_MASK)) % U64)
      = (size + virt % 4096 + 4095) / 4096 * 4096 := by
    unfold PAGE_ALIGN
    have hps : PAGE_SIZE = 4096 := by decide
    rw [and_not_PAGE_MASK, and_PAGE_MASK, hps, U64_eq]
    omega
  have e4 : pgd_offset_raw pgdir virt
      = pgdir + pgd_index (mkReq phys virt size prot alloc).A0 * 8 := by
    unfold pgd_offset_raw mkReq
    rw [pgd_index_eq, pgd_index_eq]
    simp only
    omega
  obtain ⟨s1, l1, l2, l3⟩ := init_pgd_loop_idem cfg (mkReq phys virt size prot alloc) WB hv
    pgdir F hF F s (mkReq phys virt size prot alloc).A0 hv.a0_al hv.lt (Nat.le_refl _)
    (Or.inl rfl) (by rw [hE, hA]; omega) hm
  refine ⟨s1, ?_, l2, l3⟩
  unfold init_pgd
  simp only [hcond, Bool.false_eq_true, if_false, e1, e2, e3, e4]
  have e5 : (mkReq phys virt size prot alloc).P0 +
      ((mkReq phys virt size prot alloc).A0 - (mkReq phys virt size prot alloc).A0)
      = phys / 4096 * 4096 := by
    simp [mkReq]
  rw [e5] at l1
  exact l1

/-! ## Lists of calls -/

theorem GoodReq.valid {WB : Nat} {r : MapReq} (g : GoodReq WB r)
    (hwb1 : WB % 281474976710656 = 0) (hwb2 : WB + 281474976710656 ≤ 18446744073709551616) :
    r.req.Valid WB :=
  mkReq_valid WB r.phys r.virt r.size r.prot _ g.offs g.pos hwb1 hwb2 g.lo g.hi g.phys
    g.prot_addr g.prot_type

/-- A list of good calls on a well-formed directory: every call returns; the
directory stays well formed; what was mapped for a request disjoint from all
the calls stays mapped; and the pages of each call that no later call of the
list meets are mapped as that call asked. -/
theorem run_requests_spec {cfg : Config} {lim : PgAlloc → Nat} (WB pgdir F : Nat)
    (hwb1 : WB % 281474976710656 = 0) (hwb2 : WB + 281474976710656 ≤ 18446744073709551616)
    (hF : 512 ≤ F) :
    ∀ (rs : List MapReq) (s : State) (own : Own),
      (∀ r ∈ rs, GoodReq WB r) → WF s.mem own → own pgdir = some (0, WB) →
      Fresh cfg lim s own → (∀ a, s.count a + 134480384 * rs.length ≤ lim a) →
      ∃ s1 own1, run_requests cfg F pgdir rs s = Res.ok s1 ∧
        WF s1.mem own1 ∧ own1 pgdir = some (0, WB) ∧ Fresh cfg lim s1 own1 ∧
        (∀ a, s1.count a ≤ s.count a + 134480384 * rs.length) ∧
        (∀ (R0 : Req) (a : Nat), R0.Valid WB → R0.A0 ≤ a → a < R0.E → a % 4096 = 0 →
          (∀ r ∈ rs, R0.E ≤ r.req.A0 ∨ r.req.E ≤ R0.A0) →
          Mapped0 cfg R0 s.mem pgdir a → Mapped0 cfg R0 s1.mem pgdir a) ∧
        (∀ (l1 l2 : List MapReq) (r : MapReq), rs = l1 ++ r :: l2 →
          (∀ r1 ∈ l2, r.disjoint r1) →
          ∀ a, r.req.A0 ≤ a → a < r.req.E → a % 4096 = 0 →
            Mapped0 cfg r.req s1.mem pgdir a) := by
  intro rs
  induction rs with
  | nil =>
    intro s own _ hw hroot hfr _
    refine ⟨s, own, rfl, hw, hroot, hfr, fun a => by simp, fun _ _ _ _ _ _ _ h => h, ?_⟩
    intro l1 l2 r h
    cases l1 <;> cases h
  | cons r0 rest ih =>
    intro s own hg hw hroot hfr hbud
    have g0 := hg r0 (List.mem_cons_self _ _)
    have hlen : (r0 :: rest).length = rest.length + 1 := rfl
    have hbud1 : ∀ a, s.count a + 134480384 * (rest.length + 1) ≤ lim a := hbud
    obtain ⟨sA, ownA, eA, rA, mA⟩ := @init_pgd_spec cfg lim s own
      WB pgdir r0.phys r0.virt r0.size r0.prot PgAlloc.early_pgtable_alloc F
      ((page_offset_eq _ _).mpr g0.offs) g0.pos hwb1 hwb2 g0.lo g0.hi g0.phys g0.prot_addr
      g0.prot_type hw hroot hfr (by intro a; have := hbud1 a; omega) hF
    obtain ⟨s1, own1, e1, w1, t1, f1, c1, p1, m1⟩ := ih sA ownA
      (fun r hr => hg r (List.mem_cons_of_mem _ hr)) rA.wf (rA.le _ _ hroot) rA.fresh
      (by intro a; have := hbud1 a; have := rA.used a; omega)
    have hv0 := g0.valid hwb1 hwb2
    have keepA : ∀ (R0 : Req) (a : Nat), R0.Valid WB → R0.A0 ≤ a → a < R0.E → a % 4096 = 0 →
        (R0.E ≤ r0.req.A0 ∨ r0.req.E ≤ R0.A0) →
        Mapped0 cfg R0 s.mem pgdir a → Mapped0 cfg R0 sA.mem pgdir a := by
      intro R0 a hv a1 a2 a3 hd h
      exact Mapped0.kept h hw hroot hv rA a1 a2 a3 hv0.a0_al hd
    refine ⟨s1, own1, ?_, w1, t1, f1, ?_, ?_, ?_⟩
    · show (__create_pgd_mapping cfg F s pgdir r0.phys r0.virt r0.size r0.prot
        (some PgAlloc.early_pgtable_alloc)).bind (run_requests cfg F pgdir rest) = Res.ok s1
      unfold __create_pgd_mapping
      rw [eA]
      exact e1
    · intro a
      have := c1 a; have := rA.used a
      rw [hlen]; omega
    · intro R0 a hv a1 a2 a3 hd h
      exact p1 R0 a hv a1 a2 a3 (fun r hr => hd r (List.mem_cons_of_mem _ hr))
        (keepA R0 a hv a1 a2 a3 (hd r0 (List.mem_cons_self _ _)) h)
    · intro l1 l2 r hsplit hdis a a1 a2 a3
      cases l1 with
      | nil =>
        simp only [List.nil_append, List.cons.injEq] at hsplit
        obtain ⟨rfl, rfl⟩ := hsplit
        exact p1 r0.req a hv0 a1 a2 a3 (fun r1 hr1 => hdis r1 hr1) (mA a a1 a2 a3)
      | cons x l1t =>
        simp only [List.cons_append, List.cons.injEq] at hsplit
        obtain ⟨rfl, h2⟩ := hsplit
        exact m1 l1t l2 r h2 hdis a a1 a2 a3

/-! ## The linear map -/

theorem PAGE_OFFSET_eq : PAGE_OFFSET = 2 ^ 47 * 131071 := by decide

/-- The linear alias of a physical address inside the linear map. -/
theorem phys_to_virt_eq (cfg : Config) (x : Nat) (h1 : cfg.memstart_addr ≤ x)
    (h2 : x < cfg.memstart_addr + 140737488355328) :
    __phys_to_virt cfg x = 18446603336221196288 + (x - cfg.memstart_addr) := by
  unfold __phys_to_virt
  have e : (x + U64 - cfg.memstart_addr) % U64 = x - cfg.memstart_addr := by
    rw [U64_eq]; omega
  rw [e, PAGE_OFFSET_eq, Nat.lor_comm,
    ← Nat.mul_add_lt_is_or (by norm_num; omega) 131071]

theorem Res.bind_ok {α : Type} (r : Res α) : (r.bind fun x => Res.ok x) = r := by
  cases r <;> rfl

/-- The function `__map_memblock` is its list of calls, one after the other. -/
theorem map_memblock_eq (cfg : Config) (F : Nat) (s : State) (pgd start e : Nat) :
    __map_memblock cfg F s pgd start e
      = run_requests cfg F pgd (map_memblock_requests cfg start e) s := by
  unfold __map_memblock map_memblock_requests
  by_cases h0 : e < __pa_symbol cfg cfg.stext ∨ start ≥ __pa_symbol cfg cfg.init_begin
  · simp only [h0, if_true, run_requests, Res.bind_ok]
  · by_cases h1 : start < __pa_symbol cfg cfg.stext <;>
      by_cases h2 : __pa_symbol cfg cfg.init_begin < e <;>
      simp only [h0, h1, h2, if_true, if_false, run_requests, Res.bind_ok, List.nil_append,
        List.singleton_append, List.cons_append, List.append_nil] <;> rfl

/-- Every call of `__map_memblock` is one of at most three shapes. -/
theorem map_memblock_requests_mem (cfg : Config) (start e : Nat) (r : MapReq)
    (hr : r ∈ map_memblock_requests cfg start e) :
    ((e < __pa_symbol cfg cfg.stext ∨ start ≥ __pa_symbol cfg cfg.init_begin) ∧
      r = ⟨start, __phys_to_virt cfg start, (e + U64 - start) % U64, PAGE_KERNEL⟩) ∨
    (¬ (e < __pa_symbol cfg cfg.stext ∨ start ≥ __pa_symbol cfg cfg.init_begin) ∧
      ((start < __pa_symbol cfg cfg.stext ∧
        r = ⟨start, __phys_to_virt cfg start, (__pa_symbol cfg cfg.stext + U64 - start) % U64,
          PAGE_KERNEL⟩) ∨
      (__pa_symbol cfg cfg.init_begin < e ∧
        r = ⟨__pa_symbol cfg cfg.init_begin,
          __phys_to_virt cfg (__pa_symbol cfg cfg.init_begin),
          (e + U64 - __pa_symbol cfg cfg.init_begin) % U64, PAGE_KERNEL⟩) ∨
      r = ⟨__pa_symbol cfg cfg.stext, __phys_to_virt cfg (__pa_symbol cfg cfg.stext),
        (__pa_symbol cfg cfg.init_begin + U64 - __pa_symbol cfg cfg.stext) % U64,
        PAGE_KERNEL_RO⟩)) := by
  unfold map_memblock_requests at hr
  by_cases h0 : e < __pa_symbol cfg cfg.stext ∨ start ≥ __pa_symbol cfg cfg.init_begin
  · simp only [h0, if_true, List.mem_singleton] at hr
    exact Or.inl ⟨h0, hr⟩
  · right
    refine ⟨h0, ?_⟩
    simp only [h0, if_false, List.mem_append, List.mem_singleton] at hr
    rcases hr with (hr | hr) | hr
    · by_cases h1 : start < __pa_symbol cfg cfg.stext
      · simp only [h1, if_true, List.mem_singleton] at hr
        exact Or.inl ⟨h1, hr⟩
      · simp only [h1, if_false, List.not_mem_nil] at hr
    · by_cases h2 : __pa_symbol cfg cfg.init_begin < e
      · simp only [h2, if_true, List.mem_singleton] at hr
        exact Or.inr (Or.inl ⟨h2, hr⟩)
      · simp only [h2, if_false, List.not_mem_nil] at hr
    · exact Or.inr (Or.inr hr)

/-- Under `LinearLayout` every call of `__map_memblock` maps a linear alias,
is a call that `init_pgd` can serve in the kernel window, and, when its
protection is `PAGE_KERNEL`, covers physical pages outside the kernel text and
rodata. -/
theorem map_memblock_requests_good (cfg : Config) (start e : Nat)
    (L : LinearLayout cfg start e) (r : MapReq)
    (hr : r ∈ map_memblock_requests cfg start e) :
    r.virt = __phys_to_virt cfg r.phys ∧
    r.virt = 18446603336221196288 + (r.phys - cfg.memstart_addr) ∧
    cfg.memstart_addr ≤ r.phys ∧
    GoodReq 18446462598732840960 r ∧
    (r.prot = PAGE_KERNEL ∨ r.prot = PAGE_KERNEL_RO) ∧
    (r.prot = PAGE_KERNEL →
      r.pend ≤ __pa_symbol cfg cfg.stext ∨ __pa_symbol cfg cfg.init_begin ≤ r.pstart) ∧
    (r.prot = PAGE_KERNEL_RO →
      r.pstart = __pa_symbol cfg cfg.stext ∧ r.pend = __pa_symbol cfg cfg.init_begin) := by
  have := L.ks_al; have := L.ke_al; have := L.k_lt; have := L.ms_al; have := L.ms_start
  have := L.ms_ks; have := L.bank; have := L.e_lin; have := L.ke_lin; have := L.e_phys
  have := L.ke_phys
  have hne : PAGE_KERNEL_RO ≠ PAGE_KERNEL := by decide
  have hk : PAGE_KERNEL &&& PTE_ADDR_MASK = 0 ∧ PAGE_KERNEL &&& 3 = 3 := by decide
  have hro : PAGE_KERNEL_RO &&& PTE_ADDR_MASK = 0 ∧ PAGE_KERNEL_RO &&& 3 = 3 := by decide
  have pv1 := phys_to_virt_eq cfg start (by omega)
  have pv2 := phys_to_virt_eq cfg (__pa_symbol cfg cfg.stext) (by omega) (by omega)
  have pv3 := phys_to_virt_eq cfg (__pa_symbol cfg cfg.init_begin) (by omega)
  rcases map_memblock_requests_mem cfg start e r hr with ⟨h0, rfl⟩ | ⟨h0, ⟨h1, rfl⟩ | ⟨h2, rfl⟩ | rfl⟩
  · have pv := pv1 (by omega)
    have esz : (e + U64 - start) % U64 = e - start := by rw [U64_eq]; omega
    refine ⟨rfl, pv, by simp only; omega, ⟨?_, ?_, ?_, ?_, ?_, hk.1, hk.2⟩, Or.inl rfl, ?_, ?_⟩
    · simp only [pv]; omega
    · simp only [esz]; omega
    · simp only [pv]; omega
    · simp only [pv, esz]; omega
    · simp only [esz]; omega
    · intro _
      simp only [MapReq.pend, MapReq.pstart, pv, esz]
      omega
    · intro h; exact absurd h.symm hne
  · have pv := pv1 (by omega)
    have esz : (__pa_symbol cfg cfg.stext + U64 - start) % U64
        = __pa_symbol cfg cfg.stext - start := by rw [U64_eq]; omega
    refine ⟨rfl, pv, by simp only; omega, ⟨?_, ?_, ?_, ?_, ?_, hk.1, hk.2⟩, Or.inl rfl, ?_, ?_⟩
    · simp only [pv]; omega
    · simp only [esz]; omega
    · simp only [pv]; omega
    · simp only [pv, esz]; omega
    · simp only [esz]; omega
    · intro _
      simp only [MapReq.pend, MapReq.pstart, pv, esz]
      omega
    · intro h; exact absurd h.symm hne
  · have pv := pv3 (by omega)
    have esz : (e + U64 - __pa_symbol cfg cfg.init_begin) % U64
        = e - __pa_symbol cfg cfg.init_begin := by rw [U64_eq]; omega
    refine ⟨rfl, pv, by simp only; omega, ⟨?_, ?_, ?_, ?_, ?_, hk.1, hk.2⟩, Or.inl rfl, ?_, ?_⟩
    · simp only [pv]; omega
    · simp only [esz]; omega
    · simp only [pv]; omega
    · simp only [pv, esz]; omega
    · simp only [esz]; omega
    · intro _
      simp only [MapReq.pend, MapReq.pstart, pv, esz]
      omega
    · intro h; exact absurd h.symm hne
  · have esz : (__pa_symbol cfg cfg.init_begin + U64 - __pa_symbol cfg cfg.stext) % U64
        = __pa_symbol cfg cfg.init_begin - __pa_symbol cfg cfg.stext := by rw [U64_eq]; omega
    refine ⟨rfl, pv2, by simp only; omega, ⟨?_, ?_, ?_, ?_, ?_, hro.1, hro.2⟩, Or.inr rfl, ?_, ?_⟩
    · simp only [pv2]; omega
    · simp only [esz]; omega
    · simp only [pv2]; omega
    · simp only [pv2, esz]; omega
    · simp only [esz]; omega
    · intro h; exact absurd h hne
    · intro _
      simp only [MapReq.pend, MapReq.pstart, pv2, esz]
      omega

/-- The virtual page range of a call that maps a linear alias, in terms of
its physical page range. -/
theorem linear_req_range (cfg : Config) (r : MapReq) (hal : cfg.memstart_addr % 4096 = 0)
    (h1 : r.virt = 18446603336221196288 + (r.phys - cfg.memstart_addr))
    (h2 : cfg.memstart_addr ≤ r.phys) :
    r.req.A0 = 18446603336221196288 + (r.pstart - cfg.memstart_addr) ∧
    r.req.E = 18446603336221196288 + (r.pend - cfg.memstart_addr) ∧
    cfg.memstart_addr ≤ r.pstart ∧ r.pstart ≤ r.pend := by
  have hA : r.req.A0 = r.virt / 4096 * 4096 := rfl
  have hE : r.req.E = r.virt / 4096 * 4096 + (r.size + r.virt % 4096 + 4095) / 4096 * 4096 :=
    rfl
  rw [hA, hE]
  unfold MapReq.pstart MapReq.pend
  rw [h1]
  omega

/-- The calls of `__map_memblock` cover pairwise disjoint page ranges. -/
theorem map_memblock_requests_pairwise (cfg : Config) (start e : Nat)
    (L : LinearLayout cfg start e) :
    (map_memblock_requests cfg start e).Pairwise MapReq.disjoint := by
  have hks := L.ks_al
  have hke := L.ke_al
  have hlt := L.k_lt
  have key : ∀ r ∈ map_memblock_requests cfg start e,
      ∀ r1 ∈ map_memblock_requests cfg start e,
      (r.pend ≤ r1.pstart ∨ r1.pend ≤ r.pstart) → r.disjoint r1 := by
    intro r hr r1 hr1 hd
    obtain ⟨_, a2, a3, _, _, _, _⟩ := map_memblock_requests_good cfg start e L r hr
    obtain ⟨_, b2, b3, _, _, _, _⟩ := map_memblock_requests_good cfg start e L r1 hr1
    obtain ⟨c1, c2, c3, c4⟩ := linear_req_range cfg r L.ms_al a2 a3
    obtain ⟨d1, d2, d3, d4⟩ := linear_req_range cfg r1 L.ms_al b2 b3
    unfold MapReq.disjoint
    rw [c1, c2, d1, d2]
    omega
  have good := map_memblock_requests_good cfg start e L
  revert key good
  unfold map_memblock_requests
  by_cases h0 : e < __pa_symbol cfg cfg.stext ∨ start ≥ __pa_symbol cfg cfg.init_begin
  · simp only [h0, if_true, List.pairwise_singleton, implies_true]
  · by_cases h1 : start < __pa_symbol cfg cfg.stext <;>
      by_cases h2 : __pa_symbol cfg cfg.init_begin < e <;>
      simp only [h0, h1, h2, if_true, if_false, List.nil_append, List.singleton_append,
        List.cons_append, List.append_nil, List.pairwise_cons, List.mem_cons,
        List.mem_singleton, List.not_mem_nil, List.Pairwise.nil, and_true, false_implies,
        implies_true, or_false, forall_eq_or_imp, forall_eq] <;>
      intro key good
    · obtain ⟨g1, g2, g3⟩ := good
      have a := g1.2.2.2.2.2.1 trivial
      have b := g2.2.2.2.2.2.1 trivial
      have c := g3.2.2.2.2.2.2 trivial
      have hs1 : (⟨start, __phys_to_virt cfg start,
          (__pa_symbol cfg cfg.stext + U64 - start) % U64, PAGE_KERNEL⟩ : MapReq).pstart
          < __pa_symbol cfg cfg.stext := by
        unfold MapReq.pstart; simp only; omega
      have hs2 : __pa_symbol cfg cfg.init_begin ≤ (⟨__pa_symbol cfg cfg.init_begin,
          __phys_to_virt cfg (__pa_symbol cfg cfg.init_begin),
          (e + U64 - __pa_symbol cfg cfg.init_begin) % U64, PAGE_KERNEL⟩ : MapReq).pstart := by
        unfold MapReq.pstart; simp only; omega
      refine ⟨⟨?_, ?_⟩, ?_⟩
      · exact key.1.2.1 (by omega)
      · exact key.1.2.2 (by rw [c.1]; omega)
      · exact key.2.1.2.2 (by rw [c.2]; omega)
    · obtain ⟨g1, g3⟩ := good
      have a := g1.2.2.2.2.2.1 trivial
      have c := g3.2.2.2.2.2.2 trivial
      have hs1 : (⟨start, __phys_to_virt cfg start,
          (__pa_symbol cfg cfg.stext + U64 - start) % U64, PAGE_KERNEL⟩ : MapReq).pstart
          < __pa_symbol cfg cfg.stext := by
        unfold MapReq.pstart; simp only; omega
      exact key.1.2 (by rw [c.1]; omega)
    · obtain ⟨g2, g3⟩ := good
      have b := g2.2.2.2.2.2.1 trivial
      have c := g3.2.2.2.2.2.2 trivial
      have hs2 : __pa_symbol cfg cfg.init_begin ≤ (⟨__pa_symbol cfg cfg.init_begin,
          __phys_to_virt cfg (__pa_symbol cfg cfg.init_begin),
          (e + U64 - __pa_symbol cfg cfg.init_begin) % U64, PAGE_KERNEL⟩ : MapReq).pstart := by
        unfold MapReq.pstart; simp only; omega
      exact key.1.2 (by rw [c.2]; omega)

/-! ## What a run adds to the trace -/

theorem grow_refl (s : State) : Grow s s := ⟨[], rfl, fun _ h => by cases h⟩

theorem grow_trans {s s1 s2 : State} (h1 : Grow s s1) (h2 : Grow s1 s2) : Grow s s2 := by
  obtain ⟨e1, t1, q1⟩ := h1
  obtain ⟨e2, t2, q2⟩ := h2
  refine ⟨e2 ++ e1, by rw [t2, t1, List.append_assoc], ?_⟩
  intro e he
  rcases List.mem_append.mp he with h | h
  · exact q2 e h
  · exact q1 e h

theorem grow_one {s s1 : State} (e : Event) (ht : s1.trace = e :: s.trace)
    (he : table_event e = true) : Grow s s1 :=
  ⟨[e], ht, fun x hx => by rw [List.mem_singleton] at hx; rw [hx]; exact he⟩

theorem Wrote.grow {s s1 : State} (h : Wrote s s1) : Grow s s1 := by
  obtain ⟨evs, t, q, _⟩ := h
  exact ⟨evs, t, q⟩

theorem wrote_then {s s1 s2 : State} (h1 : Wrote s s1) (h2 : Grow s1 s2) : Wrote s s2 := by
  obtain ⟨e1, t1, q1, w, hw, hw2⟩ := h1
  obtain ⟨e2, t2, q2⟩ := h2
  refine ⟨e2 ++ e1, by rw [t2, t1, List.append_assoc], ?_, w, List.mem_append.mpr (Or.inr hw), hw2⟩
  intro e he
  rcases List.mem_append.mp he with h | h
  · exact q2 e h
  · exact q1 e h

theorem then_wrote {s s1 s2 : State} (h1 : Grow s s1) (h2 : Wrote s1 s2) : Wrote s s2 := by
  obtain ⟨e1, t1, q1⟩ := h1
  obtain ⟨e2, t2, q2, w, hw, hw2⟩ := h2
  refine ⟨e2 ++ e1, by rw [t2, t1, List.append_assoc], ?_, w, List.mem_append.mpr (Or.inl hw), hw2⟩
  intro e he
  rcases List.mem_append.mp he with h | h
  · exact q2 e h
  · exact q1 e h

theorem wrote_entry (s : State) (p v : Nat) : Wrote s (set_entry s p v) :=
  ⟨[Event.write p v], rfl, fun x hx => by rw [List.mem_singleton] at hx; rw [hx]; rfl,
    Event.write p v, List.mem_singleton.mpr rfl, rfl⟩

/-- Table-building events register no area. -/
theorem vm_areas_grow {s s1 : State} (h : Grow s s1) : vm_areas s1.trace = vm_areas s.trace := by
  obtain ⟨evs, t, q⟩ := h
  rw [t]
  clear t
  induction evs with
  | nil => rfl
  | cons e rest ih =>
    have he := q e (List.mem_cons_self _ _)
    have hr := ih (fun x hx => q x (List.mem_cons_of_mem _ hx))
    cases e with
    | write p v => exact hr
    | flush_tlb_all => exact hr
    | alloc a f => exact hr
    | free f => exact hr
    | warn => exact hr
    | flush_tlb_kernel_range a b => cases he
    | vm_area_add_early a b c d => cases he

theorem split_pmd_loop_grow : ∀ (fuel : Nat) (s : State) (pte pfn i : Nat),
    Grow s (split_pmd_loop fuel s pte pfn i) := by
  intro fuel
  induction fuel with
  | zero => intro s pte pfn i; exact grow_refl s
  | succ n ih =>
    intro s pte pfn i
    rw [split_pmd_loop]
    split
    · exact grow_trans (wrote_entry s pte _).grow (ih _ _ _ _)
    · exact (wrote_entry s pte _).grow

theorem split_pud_loop_grow (prot : Nat) : ∀ (fuel : Nat) (s : State) (pmd addr i : Nat),
    Grow s (split_pud_loop prot fuel s pmd addr i) := by
  intro fuel
  induction fuel with
  | zero => intro s pmd addr i; exact grow_refl s
  | succ n ih =>
    intro s pmd addr i
    rw [split_pud_loop]
    split
    · exact grow_trans (wrote_entry s pmd _).grow (ih _ _ _ _)
    · exact (wrote_entry s pmd _).grow

theorem call_alloc_grow (cfg : Config) (a : PgAlloc) (s : State) (r : Nat × State)
    (h : call_alloc cfg a s = Res.ok r) : Grow s r.2 := by
  cases a with
  | early_pgtable_alloc =>
    simp only [call_alloc, early_pgtable_alloc, take_frame] at h
    split at h
    · cases h
    · simp only [Res.ok.injEq] at h
      subst h
      exact grow_one (Event.alloc _ _) rfl rfl
  | late_pgtable_alloc =>
    simp only [call_alloc, late_pgtable_alloc, take_frame] at h
    split at h
    · cases h
    · simp only [Res.ok.injEq] at h
      subst h
      exact grow_one (Event.alloc _ _) rfl rfl
  | rkp_ro_alloc_phys =>
    simp only [call_alloc, rkp_ro_alloc_phys, take_frame, Res.ok.injEq] at h
    subst h
    exact grow_one (Event.alloc _ _) rfl rfl

theorem alloc_pmd_frame_grow (cfg : Config) (a : PgAlloc) (s : State) (r : Nat × State)
    (h : alloc_pmd_frame cfg a s = Res.ok r) : Grow s r.2 := by
  unfold alloc_pmd_frame at h
  split at h
  · have g1 : Grow s (take_frame cfg PgAlloc.rkp_ro_alloc_phys s).2 :=
      grow_one (Event.alloc _ _) rfl rfl
    simp only [rkp_ro_alloc_phys] at h
    split at h
    · exact grow_trans g1 (call_alloc_grow cfg a _ r h)
    · simp only [Res.ok.injEq] at h
      subst h
      exact g1
  · exact call_alloc_grow cfg a s r h

theorem release_old_grow (cfg : Config) (s : State) (old : Nat) :
    Grow s (release_old cfg s old) := by
  unfold release_old
  cases pmd_none old
  · cases pmd_table old
    · exact grow_one Event.flush_tlb_all rfl rfl
    · cases cfg.slab_available
      · exact grow_trans (grow_one Event.flush_tlb_all rfl rfl : Grow s (flush_tlb_all s))
          (grow_one (Event.free (pmd_page_paddr old)) rfl rfl)
      · exact grow_trans (grow_one Event.flush_tlb_all rfl rfl : Grow s (flush_tlb_all s))
          (grow_one Event.warn rfl rfl)
  · exact grow_refl s

theorem alloc_init_pte_prepare_grow (cfg : Config) (s s1 : State) (pmd : Nat)
    (al : Option PgAlloc) (h : alloc_init_pte_prepare cfg s pmd al = Res.ok s1) : Grow s s1 := by
  unfold alloc_init_pte_prepare at h
  split at h
  · cases al with
    | none => cases h
    | some a =>
      simp only at h
      cases hc : call_alloc cfg a s with
      | ok r =>
        obtain ⟨p, s2⟩ := r
        simp only [hc, Res.ok.injEq] at h
        subst h
        have g1 : Grow s s2 := call_alloc_grow cfg a s (p, s2) hc
        have g2 : Grow s2 (if pmd_sect (s2.mem pmd) then split_pmd s2 pmd p else s2) := by
          split
          · exact split_pmd_loop_grow _ _ _ _ _
          · exact grow_refl s2
        exact grow_trans (grow_trans g1 g2)
          (grow_trans (wrote_entry _ pmd _).grow (grow_one Event.flush_tlb_all rfl rfl))
      | bug => simp only [hc] at h; cases h
      | timeout => simp only [hc] at h; cases h
  · simp only [Res.ok.injEq] at h
    subst h
    exact grow_refl s

theorem alloc_init_pte_loop_wrote (cfg : Config) (prot e : Nat) :
    ∀ (fuel : Nat) (s s1 : State) (pte addr pfn : Nat),
      alloc_init_pte_loop cfg prot e fuel s pte addr pfn = Res.ok s1 → Wrote s s1 := by
  intro fuel
  induction fuel with
  | zero =>
    intro s s1 pte addr pfn h
    rw [alloc_init_pte_loop] at h
    cases h
  | succ n ih =>
    intro s s1 pte addr pfn h
    rw [alloc_init_pte_loop] at h
    have hio : (iotable_on == 1) = false := by decide
    simp only [hio, Bool.false_eq_true, if_false] at h
    split at h
    · exact wrote_then (wrote_entry s pte _) (ih _ _ _ _ _ h).grow
    · simp only [Res.ok.injEq] at h
      subst h
      exact wrote_entry s pte _

theorem alloc_init_pte_wrote (cfg : Config) (F : Nat) (s s1 : State) (pmd addr e pfn prot : Nat)
    (al : Option PgAlloc) (h : alloc_init_pte cfg F s pmd addr e pfn prot al = Res.ok s1) :
    Wrote s s1 := by
  unfold alloc_init_pte at h
  cases hp : alloc_init_pte_prepare cfg s pmd al with
  | ok s2 =>
    simp only [hp] at h
    split at h
    · cases h
    · exact then_wrote (alloc_init_pte_prepare_grow cfg s s2 pmd al hp)
        (alloc_init_pte_loop_wrote cfg prot e F _ _ _ _ _ h)
  | bug => simp only [hp] at h; cases h
  | timeout => simp only [hp] at h; cases h

theorem alloc_init_pmd_step_wrote (cfg : Config) (F : Nat) (s s1 : State)
    (pmd addr next phys prot : Nat) (al : Option PgAlloc)
    (h : alloc_init_pmd_step cfg F s pmd addr next phys prot al = Res.ok s1) : Wrote s s1 := by
  unfold alloc_init_pmd_step at h
  split at h
  · cases hh : pmd_set_huge s pmd phys prot with
    | ok s2 =>
      simp only [hh, Res.ok.injEq] at h
      subst h
      unfold pmd_set_huge at hh
      split at hh
      · cases hh
      · simp only [Res.ok.injEq] at hh
        subst hh
        exact wrote_then (wrote_entry s pmd _) (release_old_grow cfg _ _)
    | bug => simp only [hh] at h; cases h
    | timeout => simp only [hh] at h; cases h
  · exact alloc_init_pte_wrote cfg F s s1 pmd addr next (phys_to_pfn phys) prot al h

theorem alloc_init_pmd_loop_wrote (cfg : Config) (F : Nat) (prot e : Nat) (al : Option PgAlloc) :
    ∀ (fuel : Nat) (s s1 : State) (pmd addr phys : Nat),
      alloc_init_pmd_loop cfg F prot e al fuel s pmd addr phys = Res.ok s1 → Wrote s s1 := by
  intro fuel
  induction fuel with
  | zero =>
    intro s s1 pmd addr phys h
    rw [alloc_init_pmd_loop] at h
    cases h
  | succ n ih =>
    intro s s1 pmd addr phys h
    rw [alloc_init_pmd_loop] at h
    simp only at h
    split at h
    · rename_i s2 hs
      have q1 := alloc_init_pmd_step_wrote cfg F s s2 pmd addr _ phys prot al hs
      split at h
      · exact wrote_then q1 (ih _ _ _ _ _ h).grow
      · simp only [Res.ok.injEq] at h
        subst h
        exact q1
    · cases h
    · cases h

theorem alloc_init_pmd_prepare_grow (cfg : Config) (s s1 : State) (pud : Nat)
    (al : Option PgAlloc) (h : alloc_init_pmd_prepare cfg s pud al = Res.ok s1) : Grow s s1 := by
  unfold alloc_init_pmd_prepare at h
  split at h
  · cases al with
    | none => cases h
    | some a =>
      simp only at h
      cases hc : alloc_pmd_frame cfg a s with
      | ok r =>
        obtain ⟨p, s2⟩ := r
        simp only [hc, Res.ok.injEq] at h
        subst h
        have g1 : Grow s s2 := alloc_pmd_frame_grow cfg a s (p, s2) hc
        have g2 : Grow s2 (if pud_sect (s2.mem pud) then split_pud s2 pud p else s2) := by
          split
          · exact split_pud_loop_grow _ _ _ _ _ _
          · exact grow_refl s2
        exact grow_trans (grow_trans g1 g2)
          (grow_trans (wrote_entry _ pud _).grow (grow_one Event.flush_tlb_all rfl rfl))
      | bug => simp only [hc] at h; cases h
      | timeout => simp only [hc] at h; cases h
  · simp only [Res.ok.injEq] at h
    subst h
    exact grow_refl s

theorem alloc_init_pmd_wrote (cfg : Config) (F : Nat) (s s1 : State) (pud addr e phys prot : Nat)
    (al : Option PgAlloc) (h : alloc_init_pmd cfg F s pud addr e phys prot al = Res.ok s1) :
    Wrote s s1 := by
  unfold alloc_init_pmd at h
  cases hp : alloc_init_pmd_prepare cfg s pud al with
  | ok s2 =>
    simp only [hp] at h
    split at h
    · cases h
    · exact then_wrote (alloc_init_pmd_prepare_grow cfg s s2 pud al hp)
        (alloc_init_pmd_loop_wrote cfg F prot e al F _ _ _ _ _ h)
  | bug => simp only [hp] at h; cases h
  | timeout => simp only [hp] at h; cases h

theorem alloc_init_pud_step_wrote (cfg : Config) (F : Nat) (s s1 : State)
    (pud addr next phys prot : Nat) (al : Option PgAlloc)
    (h : alloc_init_pud_step cfg F s pud addr next phys prot al = Res.ok s1) : Wrote s s1 := by
  unfold alloc_init_pud_step at h
  split at h
  · cases hh : pud_set_huge s pud phys prot with
    | ok s2 =>
      simp only [hh, Res.ok.injEq] at h
      subst h
      unfold pud_set_huge at hh
      split at hh
      · cases hh
      · simp only [Res.ok.injEq] at hh
        subst hh
        exact wrote_then (wrote_entry s pud _) (release_old_grow cfg _ _)
    | bug => simp only [hh] at h; cases h
    | timeout => simp only [hh] at h; cases h
  · exact alloc_init_pmd_wrote cfg F s s1 pud addr next phys prot al h

theorem alloc_init_pud_loop_wrote (cfg : Config) (F : Nat) (prot e : Nat) (al : Option PgAlloc) :
    ∀ (fuel : Nat) (s s1 : State) (pud addr phys : Nat),
      alloc_init_pud_loop cfg F prot e al fuel s pud addr phys = Res.ok s1 → Wrote s s1 := by
  intro fuel
  induction fuel with
  | zero =>
    intro s s1 pud addr phys h
    rw [alloc_init_pud_loop] at h
    cases h
  | succ n ih =>
    intro s s1 pud addr phys h
    rw [alloc_init_pud_loop] at h
    simp only at h
    split at h
    · rename_i s2 hs
      have q1 := alloc_init_pud_step_wrote cfg F s s2 pud addr _ phys prot al hs
      split at h
      · exact wrote_then q1 (ih _ _ _ _ _ h).grow
      · simp only [Res.ok.injEq] at h
        subst h
        exact q1
    · cases h
    · cases h

theorem alloc_init_pud_prepare_grow (cfg : Config) (s s1 : State) (pgd : Nat)
    (al : Option PgAlloc) (h : alloc_init_pud_prepare cfg s pgd al = Res.ok s1) : Grow s s1 := by
  unfold alloc_init_pud_prepare at h
  split at h
  · cases al with
    | none => cases h
    | some a =>
      simp only at h
      cases hc : call_alloc cfg a s with
      | ok r =>
        obtain ⟨p, s2⟩ := r
        simp only [hc, Res.ok.injEq] at h
        subst h
        exact grow_trans (call_alloc_grow cfg a s (p, s2) hc) (wrote_entry _ pgd _).grow
      | bug => simp only [hc] at h; cases h
      | timeout => simp only [hc] at h; cases h
  · simp only [Res.ok.injEq] at h
    subst h
    exact grow_refl s

theorem alloc_init_pud_wrote (cfg : Config) (F : Nat) (s s1 : State) (pgd addr e phys prot : Nat)
    (al : Option PgAlloc) (h : alloc_init_pud cfg F s pgd addr e phys prot al = Res.ok s1) :
    Wrote s s1 := by
  unfold alloc_init_pud at h
  cases hp : alloc_init_pud_prepare cfg s pgd al with
  | ok s2 =>
    simp only [hp] at h
    split at h
    · cases h
    · exact then_wrote (alloc_init_pud_prepare_grow cfg s s2 pgd al hp)
        (alloc_init_pud_loop_wrote cfg F prot e al F _ _ _ _ _ h)
  | bug => simp only [hp] at h; cases h
  | timeout => simp only [hp] at h; cases h

theorem init_pgd_loop_wrote (cfg : Config) (F : Nat) (prot e : Nat) (al : Option PgAlloc) :
    ∀ (fuel : Nat) (s s1 : State) (pgd addr phys : Nat),
      init_pgd_loop cfg F prot e al fuel s pgd addr phys = Res.ok s1 → Wrote s s1 := by
  intro fuel
  induction fuel with
  | zero =>
    intro s s1 pgd addr phys h
    rw [init_pgd_loop] at h
    cases h
  | succ n ih =>
    intro s s1 pgd addr phys h
    rw [init_pgd_loop] at h
    simp only at h
    split at h
    · rename_i s2 hs
      have q1 := alloc_init_pud_wrote cfg F s s2 pgd addr _ phys prot al hs
      split at h
      · exact wrote_then q1 (ih _ _ _ _ _ h).grow
      · simp only [Res.ok.injEq] at h
        subst h
        exact q1
    · cases h
    · cases h

/-- A run of `init_pgd` that returns adds table-building events only, and at
least one store unless the two addresses disagree below the page size. -/
theorem init_pgd_grow (cfg : Config) (F : Nat) (s s1 : State) (pgd phys virt size prot : Nat)
    (al : Option PgAlloc) (h : init_pgd cfg F s pgd phys virt size prot al = Res.ok s1) :
    Grow s s1 ∧ ((phys ^^^ virt) &&& not64 PAGE_MASK = 0 → Wrote s s1) := by
  unfold init_pgd at h
  split at h
  · rename_i hc
    simp only [Res.ok.injEq] at h
    subst h
    refine ⟨grow_one Event.warn rfl rfl, ?_⟩
    intro h0
    rw [h0] at hc
    simp at hc
  · have w := init_pgd_loop_wrote cfg F prot _ al F _ _ _ _ _ h
    exact ⟨w.grow, fun _ => w⟩

/-! ## The kernel image regions -/

theorem Res.ok_bind {α β : Type} (a : α) (f : α → Res β) : (Res.ok a).bind f = f a := rfl

theorem PAGE_ALIGNED_of_mod (x : Nat) (h : x % 4096 = 0) : PAGE_ALIGNED x = true := by
  unfold PAGE_ALIGNED
  have hps : PAGE_SIZE - 1 = 2 ^ 12 - 1 := by decide
  rw [hps, Nat.and_pow_two_sub_one_eq_mod]
  simp [h]

/-- The mapping call of `map_kernel_chunk` for a region of whole pages inside
the window: the two assertions hold, the call returns, the region is mapped
and no area is registered by the call itself. -/
theorem kernel_chunk_spec {cfg : Config} {lim : PgAlloc → Nat} {s : State} {own : Own}
    (WB pgdir F va_start va_end prot : Nat) (al : PgAlloc)
    (hwb1 : WB % 281474976710656 = 0) (hwb2 : WB + 281474976710656 ≤ 18446744073709551616)
    (hF : 512 ≤ F)
    (h1 : va_start % 4096 = 0) (h2 : va_end % 4096 = 0) (h3 : va_start < va_end)
    (h4 : WB ≤ va_start) (h5 : va_end ≤ WB + 281474976710656)
    (h6 : cfg.kimage_voffset % 4096 = 0) (h7 : cfg.kimage_voffset ≤ va_start)
    (h8 : va_end - cfg.kimage_voffset ≤ 281474976710656)
    (hp1 : prot &&& PTE_ADDR_MASK = 0) (hp2 : prot &&& 3 = 3)
    (hw : WF s.mem own) (hroot : own pgdir = some (0, WB)) (hfr : Fresh cfg lim s own)
    (hbud : ∀ a, s.count a + 134480384 ≤ lim a) :
    __pa_symbol cfg va_start = va_start - cfg.kimage_voffset ∧
    (va_end + U64 - va_start) % U64 = va_end - va_start ∧
    PAGE_ALIGNED (__pa_symbol cfg va_start) = true ∧
    PAGE_ALIGNED ((va_end + U64 - va_start) % U64) = true ∧
    (chunk_req cfg va_start va_end prot al).Valid WB ∧
    (chunk_req cfg va_start va_end prot al).A0 = va_start ∧
    (chunk_req cfg va_start va_end prot al).E = va_end ∧
    ∃ s1 own1, __create_pgd_mapping cfg F s pgdir (__pa_symbol cfg va_start) va_start
        ((va_end + U64 - va_start) % U64) prot (some al) = Res.ok s1 ∧
      Run cfg lim 0 134480384 s own va_start va_end s1 own1 ∧
      (∀ a, va_start ≤ a → a < va_end → a % 4096 = 0 →
        Mapped0 cfg (chunk_req cfg va_start va_end prot al) s1.mem pgdir a) ∧
      vm_areas s1.trace = vm_areas s.trace := by
  have e1 : __pa_symbol cfg va_start = va_start - cfg.kimage_voffset := by
    unfold __pa_symbol
    rw [U64_eq]
    omega
  have e2 : (va_end + U64 - va_start) % U64 = va_end - va_start := by
    rw [U64_eq]
    omega
  have hA : (chunk_req cfg va_start va_end prot al).A0 = va_start := by
    show va_start / 4096 * 4096 = va_start
    omega
  have hE : (chunk_req cfg va_start va_end prot al).E = va_end := by
    show va_start / 4096 * 4096 + (va_end - va_start + va_start % 4096 + 4095) / 4096 * 4096
      = va_end
    omega
  have hx : (va_start - cfg.kimage_voffset) % 4096 = va_start % 4096 := by omega
  have hv : (chunk_req cfg va_start va_end prot al).Valid WB :=
    mkReq_valid WB _ _ _ _ _ hx (by omega) hwb1 hwb2 h4 (by omega) (by omega) hp1 hp2
  obtain ⟨s1, own1, r1, run1, m1⟩ := @init_pgd_spec cfg lim s own WB pgdir
    (va_start - cfg.kimage_voffset) va_start (va_end - va_start) prot al F
    ((page_offset_eq _ _).mpr hx) (by omega) hwb1 hwb2 h4 (by omega) (by omega) hp1 hp2 hw hroot
    hfr hbud hF
  have run2 : Run cfg lim 0 134480384 s own (chunk_req cfg va_start va_end prot al).A0
      (chunk_req cfg va_start va_end prot al).E s1 own1 := run1
  rw [hA, hE] at run2
  have m2 : ∀ a, (chunk_req cfg va_start va_end prot al).A0 ≤ a →
      a < (chunk_req cfg va_start va_end prot al).E → a % 4096 = 0 →
      Mapped0 cfg (chunk_req cfg va_start va_end prot al) s1.mem pgdir a := m1
  rw [hA, hE] at m2
  refine ⟨e1, e2, ?_, ?_, hv, hA, hE, s1, own1, ?_, run2, m2, ?_⟩
  · rw [e1]; exact PAGE_ALIGNED_of_mod _ (by omega)
  · rw [e2]; exact PAGE_ALIGNED_of_mod _ (by omega)
  · unfold __create_pgd_mapping
    rw [e1, e2]
    exact r1
  · exact vm_areas_grow (init_pgd_grow cfg F s s1 _ _ _ _ _ _ r1).1

/-- A run below the directory entry of `FIX` leaves that entry as it was. -/
theorem fix_slot_kept {cfg : Config} {lim : PgAlloc → Nat} {s s1 : State} {own own1 : Own}
    {k n lo hi : Nat} (WB pgd FIX : Nat) (r : Run cfg lim k n s own lo hi s1 own1)
    (hw : WF s.mem own) (hroot : own pgd = some (0, WB))
    (h2 : hi ≤ FIX / 549755813888 * 549755813888)
    (h3 : FIX < WB + 281474976710656) :
    s1.mem (pgd_offset_raw pgd FIX) = s.mem (pgd_offset_raw pgd FIX) := by
  obtain ⟨_, hTa, _, hbal, _⟩ := hw pgd 0 WB hroot
  have hbal2 : WB % 281474976710656 = 0 := hbal
  have hi1 : pgd_index FIX < 512 := by rw [pgd_index_eq]; omega
  have hfr := frame_of_slot pgd (pgd_index FIX) hTa hi1
  by_contra hne
  unfold pgd_offset_raw at hne
  rcases r.foot _ hne with ⟨hn, _⟩ | ⟨L, b, a, hown, a1, a2, a3, a4, a5, _⟩
  · rw [hfr, hroot] at hn; cases hn
  · rw [hfr, hroot] at hown
    cases hown
    rw [hfr] at a5
    unfold slot at a5
    have he : esz 0 = 549755813888 := rfl
    rw [he, pgd_index_eq] at a5
    omega

/-- Storing into the directory entry of `FIX` keeps what is mapped below that
entry. -/
theorem mapped_kept_set_fix {cfg : Config} {R : Req} {s : State} {own : Own}
    (WB pgd FIX v a : Nat) (h : Mapped0 cfg R s.mem pgd a) (hw : WF s.mem own)
    (hroot : own pgd = some (0, WB)) (hv : R.Valid WB) (ha1 : R.A0 ≤ a) (ha2 : a < R.E)
    (ha3 : a % 4096 = 0) (h2 : R.E ≤ FIX / 549755813888 * 549755813888)
    (h3 : FIX < WB + 281474976710656) :
    Mapped0 cfg R (set_pgd s (pgd_offset_raw pgd FIX) v).mem pgd a := by
  obtain ⟨_, hTa, _, hbal, _⟩ := hw pgd 0 WB hroot
  have hbal2 : WB % 281474976710656 = 0 := hbal
  have hi1 : pgd_index FIX < 512 := by rw [pgd_index_eq]; omega
  have hfr := frame_of_slot pgd (pgd_index FIX) hTa hi1
  have b1 := hv.wb_le
  have b2 := hv.e_le
  have hf : Foot own own s.mem (set_pgd s (pgd_offset_raw pgd FIX) v).mem
      (FIX / 549755813888 * 549755813888) (FIX / 549755813888 * 549755813888 + 549755813888) := by
    intro q hne
    have hq : q = pgd_offset_raw pgd FIX := by
      by_contra hq
      apply hne
      show (set_entry s (pgd_offset_raw pgd FIX) v).mem q = s.mem q
      rw [set_entry_mem, if_neg hq]
    right
    refine ⟨0, WB, FIX, ?_, by omega, by omega, by omega, ?_, ?_, ?_⟩
    · rw [hq]; unfold pgd_offset_raw; rw [hfr]; exact hroot
    · have he : esz 0 = 549755813888 := rfl
      rw [he]; omega
    · rw [hq]; unfold pgd_offset_raw; rw [hfr]; unfold slot
      have he : esz 0 = 549755813888 := rfl
      rw [he, pgd_index_eq]
    · intro _ _
      have he : esz 0 = 549755813888 := rfl
      rw [he]; omega
  exact Mapped0.keep0 h hw hroot (by omega) (by omega) hf ha3 (by omega)
    (Sep_of_disjoint cfg R a _ _ ha1 ha2 (Or.inl h2))

/-- The common part of `map_kernel_chunk` and `map_kernel_text_chunk`: the
mapping call followed by the registration of the area `(A, P, S)`. It returns;
the directory stays well formed; what was mapped elsewhere stays mapped; the
directory entry of an address above the region is untouched; the region is
mapped; and exactly the one area is registered. -/
theorem chunk_core_spec {cfg : Config} {lim : PgAlloc → Nat} {s : State} {own : Own}
    (WB pgd F va_start va_end prot : Nat) (al : PgAlloc) (A P S : Nat)
    (hwb1 : WB % 281474976710656 = 0) (hwb2 : WB + 281474976710656 ≤ 18446744073709551616)
    (hF : 512 ≤ F)
    (h1 : va_start % 4096 = 0) (h2 : va_end % 4096 = 0) (h3 : va_start < va_end)
    (h4 : WB ≤ va_start) (h5 : va_end ≤ WB + 281474976710656)
    (h6 : cfg.kimage_voffset % 4096 = 0) (h7 : cfg.kimage_voffset ≤ va_start)
    (h8 : va_end - cfg.kimage_voffset ≤ 281474976710656)
    (hp1 : prot &&& PTE_ADDR_MASK = 0) (hp2 : prot &&& 3 = 3)
    (hw : WF s.mem own) (hroot : own pgd = some (0, WB)) (hfr : Fresh cfg lim s own)
    (hbud : ∀ a, s.count a + 134480384 ≤ lim a) :
    PAGE_ALIGNED (__pa_symbol cfg va_start) = true ∧
    PAGE_ALIGNED ((va_end + U64 - va_start) % U64) = true ∧
    ∃ s1 own1, (__create_pgd_mapping cfg F s pgd (__pa_symbol cfg va_start) va_start
        ((va_end + U64 - va_start) % U64) prot (some al)).bind
        (fun t => Res.ok (vm_area_add_early t A P S VM_MAP)) = Res.ok s1 ∧
      WF s1.mem own1 ∧ own1 pgd = some (0, WB) ∧ Fresh cfg lim s1 own1 ∧
      (∀ a, s1.count a ≤ s.count a + 134480384) ∧
      (∀ (R0 : Req) (a : Nat), R0.Valid WB → R0.A0 ≤ a → a < R0.E → a % 4096 = 0 →
        (R0.E ≤ va_start ∨ va_end ≤ R0.A0) →
        Mapped0 cfg R0 s.mem pgd a → Mapped0 cfg R0 s1.mem pgd a) ∧
      (∀ FIX, va_end ≤ FIX / 549755813888 * 549755813888 → FIX < WB + 281474976710656 →
        s1.mem (pgd_offset_raw pgd FIX) = s.mem (pgd_offset_raw pgd FIX)) ∧
      (∀ a, va_start ≤ a → a < va_end → a % 4096 = 0 →
        Mapped0 cfg (chunk_req cfg va_start va_end prot al) s1.mem pgd a) ∧
      vm_areas s1.trace = (A, P, S, VM_MAP) :: vm_areas s.trace := by
  obtain ⟨_, _, c3, c4, _, _, _, s1, own1, e1, run1, m1, t1⟩ :=
    @kernel_chunk_spec cfg lim s own WB pgd F va_start va_end prot al hwb1 hwb2 hF h1 h2 h3 h4 h5
      h6 h7 h8 hp1 hp2 hw hroot hfr hbud
  refine ⟨c3, c4, vm_area_add_early s1 A P S VM_MAP, own1, ?_, run1.wf, run1.le _ _ hroot,
    run1.fresh, run1.used, ?_, ?_, m1, ?_⟩
  · rw [e1]; rfl
  · intro R0 a hv a1 a2 a3 hd h
    have k : Mapped0 cfg R0 s1.mem pgd a := Mapped0.kept h hw hroot hv run1 a1 a2 a3 h1 hd
    exact k
  · intro FIX f1 f2
    have k : s1.mem (pgd_offset_raw pgd FIX) = s.mem (pgd_offset_raw pgd FIX) :=
      fix_slot_kept WB pgd FIX run1 hw hroot f1 f2
    exact k
  · show (A, P, S, VM_MAP) :: vm_areas s1.trace = _
    rw [t1]

/-- The request of a region of whole pages inside the window is valid and
covers exactly the region. -/
theorem chunk_req_facts (cfg : Config) (WB va_start va_end prot : Nat) (al : PgAlloc)
    (hwb1 : WB % 281474976710656 = 0) (hwb2 : WB + 281474976710656 ≤ 18446744073709551616)
    (h1 : va_start % 4096 = 0) (h2 : va_end % 4096 = 0) (h3 : va_start < va_end)
    (h4 : WB ≤ va_start) (h5 : va_end ≤ WB + 281474976710656)
    (h6 : cfg.kimage_voffset % 4096 = 0) (h7 : cfg.kimage_voffset ≤ va_start)
    (h8 : va_end - cfg.kimage_voffset ≤ 281474976710656)
    (hp1 : prot &&& PTE_ADDR_MASK = 0) (hp2 : prot &&& 3 = 3) :
    (chunk_req cfg va_start va_end prot al).Valid WB ∧
    (chunk_req cfg va_start va_end prot al).A0 = va_start ∧
    (chunk_req cfg va_start va_end prot al).E = va_end := by
  have hA : (chunk_req cfg va_start va_end prot al).A0 = va_start := by
    show va_start / 4096 * 4096 = va_start
    omega
  have hE : (chunk_req cfg va_start va_end prot al).E = va_end := by
    show va_start / 4096 * 4096 + (va_end - va_start + va_start % 4096 + 4095) / 4096 * 4096
      = va_end
    omega
  have hx : (va_start - cfg.kimage_voffset) % 4096 = va_start % 4096 := by omega
  exact ⟨mkReq_valid WB _ _ _ _ _ hx (by omega) hwb1 hwb2 h4 (by omega) (by omega) hp1 hp2,
    hA, hE⟩

theorem map_kernel_chunk_eq (cfg : Config) (F : Nat) (s : State) (pgd va_start va_end prot : Nat)
    (h1 : PAGE_ALIGNED (__pa_symbol cfg va_start) = true)
    (h2 : PAGE_ALIGNED ((va_end + U64 - va_start) % U64) = true) :
    map_kernel_chunk cfg F s pgd va_start va_end prot
      = (__create_pgd_mapping cfg F s pgd (__pa_symbol cfg va_start) va_start
          ((va_end + U64 - va_start) % U64) prot (some PgAlloc.early_pgtable_alloc)).bind
          (fun t => Res.ok (vm_area_add_early t va_start (__pa_symbol cfg va_start)
            ((va_end + U64 - va_start) % U64) VM_MAP)) := by
  unfold map_kernel_chunk
  simp only [h1, h2, Bool.not_true, Bool.false_eq_true, if_false]

theorem map_kernel_text_chunk_eq (cfg : Config) (F : Nat) (s : State)
    (pgd va_start va_end prot : Nat)
    (h1 : PAGE_ALIGNED (__pa_symbol cfg va_start) = true)
    (h2 : PAGE_ALIGNED ((va_end + U64 - va_start) % U64) = true) :
    map_kernel_text_chunk cfg F s pgd va_start va_end prot
      = (__create_pgd_mapping cfg F s pgd (__pa_symbol cfg va_start) va_start
          ((va_end + U64 - va_start) % U64) prot (some PgAlloc.rkp_ro_alloc_phys)).bind
          (fun t => Res.ok (vm_area_add_early t (va_start &&& PMD_MASK)
            (__pa_symbol cfg va_start &&& PMD_MASK)
            (((va_end + U64 - va_start) % U64 + va_start + U64 - (va_start &&& PMD_MASK)) % U64)
            VM_MAP)) := by
  unfold map_kernel_text_chunk
  simp only [h1, h2, Bool.not_true, Bool.false_eq_true, if_false]

/-- The first call of `map_kernel`, for the text region, in terms of
`text_start`, `text_alloc` and `text_area`. -/
theorem map_kernel_text_eq (cfg : Config) (F : Nat) (s : State) (pgd : Nat)
    (h1 : PAGE_ALIGNED (__pa_symbol cfg (text_start cfg)) = true)
    (h2 : PAGE_ALIGNED ((cfg.etext + U64 - text_start cfg) % U64) = true) :
    (if rkp_do cfg then map_kernel_text_chunk cfg F s pgd cfg.text cfg.etext PAGE_KERNEL_EXEC
      else map_kernel_chunk cfg F s pgd cfg.stext cfg.etext PAGE_KERNEL_EXEC)
      = (__create_pgd_mapping cfg F s pgd (__pa_symbol cfg (text_start cfg)) (text_start cfg)
          ((cfg.etext + U64 - text_start cfg) % U64) PAGE_KERNEL_EXEC
          (some (text_alloc cfg))).bind
          (fun t => Res.ok (vm_area_add_early t (text_area cfg).1 (text_area cfg).2.1
            (text_area cfg).2.2.1 VM_MAP)) ∧
    (text_area cfg).2.2.2 = VM_MAP := by
  by_cases hr : rkp_do cfg = true
  · have e1 : text_start cfg = cfg.text := by unfold text_start; rw [if_pos hr]
    have e2 : text_alloc cfg = PgAlloc.rkp_ro_alloc_phys := by unfold text_alloc; rw [if_pos hr]
    have e3 : text_area cfg = (cfg.text &&& PMD_MASK, __pa_symbol cfg cfg.text &&& PMD_MASK,
        ((cfg.etext + U64 - cfg.text) % U64 + cfg.text + U64 - (cfg.text &&& PMD_MASK)) % U64,
        VM_MAP) := by unfold text_area; rw [if_pos hr]
    rw [e1] at h1 h2
    rw [if_pos hr, e1, e2, e3, map_kernel_text_chunk_eq cfg F s pgd _ _ _ h1 h2]
    exact ⟨rfl, rfl⟩
  · have e1 : text_start cfg = cfg.stext := by unfold text_start; rw [if_neg hr]
    have e2 : text_alloc cfg = PgAlloc.early_pgtable_alloc := by unfold text_alloc; rw [if_neg hr]
    have e3 : text_area cfg = (cfg.stext, __pa_symbol cfg cfg.stext,
        (cfg.etext + U64 - cfg.stext) % U64, VM_MAP) := by unfold text_area; rw [if_neg hr]
    rw [e1] at h1 h2
    rw [if_neg hr, e1, e2, e3, map_kernel_chunk_eq cfg F s pgd _ _ _ h1 h2]
    exact ⟨rfl, rfl⟩

/-- The function `map_kernel` on a well-formed directory whose entry for the
fixmap is empty: it returns, the four regions are mapped as the four calls
ask, and the four areas are registered, the data area last. -/
theorem map_kernel_spec {cfg : Config} {lim : PgAlloc → Nat} {s : State} {own : Own}
    (WB pgd F : Nat) (L : KernelLayout cfg WB) (hF : 512 ≤ F)
    (hw : WF s.mem own) (hroot : own pgd = some (0, WB)) (hfr : Fresh cfg lim s own)
    (hbud : ∀ a, s.count a + 537921536 ≤ lim a)
    (hfix : s.mem (pgd_offset_raw pgd cfg.FIXADDR_START) = 0) :
    ∃ s1, map_kernel cfg F s pgd = Res.ok s1 ∧
      (∀ a, text_start cfg ≤ a → a < cfg.etext → a % 4096 = 0 →
        Mapped0 cfg (chunk_req cfg (text_start cfg) cfg.etext PAGE_KERNEL_EXEC (text_alloc cfg))
          s1.mem pgd a) ∧
      (∀ a, cfg.start_rodata ≤ a → a < cfg.init_begin → a % 4096 = 0 →
        Mapped0 cfg (chunk_req cfg cfg.start_rodata cfg.init_begin PAGE_KERNEL
          PgAlloc.early_pgtable_alloc) s1.mem pgd a) ∧
      (∀ a, cfg.init_begin ≤ a → a < cfg.init_end → a % 4096 = 0 →
        Mapped0 cfg (chunk_req cfg cfg.init_begin cfg.init_end PAGE_KERNEL_EXEC
          PgAlloc.early_pgtable_alloc) s1.mem pgd a) ∧
      (∀ a, cfg.data ≤ a → a < cfg.kernel_end → a % 4096 = 0 →
        Mapped0 cfg (chunk_req cfg cfg.data cfg.kernel_end PAGE_KERNEL
          PgAlloc.early_pgtable_alloc) s1.mem pgd a) ∧
      vm_areas s1.trace
        = (cfg.data, __pa_symbol cfg cfg.data, (cfg.kernel_end + U64 - cfg.data) % U64, VM_MAP) ::
          (cfg.init_begin, __pa_symbol cfg cfg.init_begin,
            (cfg.init_end + U64 - cfg.init_begin) % U64, VM_MAP) ::
          (cfg.start_rodata, __pa_symbol cfg cfg.start_rodata,
            (cfg.init_begin + U64 - cfg.start_rodata) % U64, VM_MAP) ::
          text_area cfg :: vm_areas s.trace := by
  have l1 := L.wb_al; have l2 := L.wb_top; have l3 := L.wb_le; have l4 := L.text
  have l5 := L.gap1; have l6 := L.rodata; have l7 := L.init; have l8 := L.gap2
  have l9 := L.data; have l10 := L.top; have l11 := L.fix_top; have l12 := L.text_al
  have l13 := L.etext_al; have l14 := L.rodata_al; have l15 := L.init_al
  have l16 := L.init_end_al; have l17 := L.data_al; have l18 := L.end_al
  have l19 := L.voff_al; have l20 := L.voff_le; have l21 := L.pa_top
  have hfixle : cfg.FIXADDR_START / 549755813888 * 549755813888 ≤ cfg.FIXADDR_START :=
    Nat.div_mul_le_self _ _
  have pk1 : PAGE_KERNEL &&& PTE_ADDR_MASK = 0 := by decide
  have pk2 : PAGE_KERNEL &&& 3 = 3 := by decide
  have pe1 : PAGE_KERNEL_EXEC &&& PTE_ADDR_MASK = 0 := by decide
  have pe2 : PAGE_KERNEL_EXEC &&& 3 = 3 := by decide
  -- text
  obtain ⟨va1, va2, s1, own1, r1, w1, t1, f1, c1, _, x1, m1, a1⟩ :=
    @chunk_core_spec cfg lim s own WB pgd F (text_start cfg) cfg.etext PAGE_KERNEL_EXEC
      (text_alloc cfg) (text_area cfg).1 (text_area cfg).2.1 (text_area cfg).2.2.1
      l1 l2 hF l12 l13 l4 l3 (by omega) l19 l20 (by omega) pe1 pe2 hw hroot hfr
      (by intro a; have := hbud a; omega)
  obtain ⟨eq1, ta⟩ := map_kernel_text_eq cfg F s pgd va1 va2
  obtain ⟨v1, A1, E1⟩ := chunk_req_facts cfg WB (text_start cfg) cfg.etext PAGE_KERNEL_EXEC
    (text_alloc cfg) l1 l2 l12 l13 l4 l3 (by omega) l19 l20 (by omega) pe1 pe2
  -- rodata
  obtain ⟨vb1, vb2, s2, own2, r2, w2, t2, f2, c2, k2, x2, m2, a2⟩ :=
    @chunk_core_spec cfg lim s1 own1 WB pgd F cfg.start_rodata cfg.init_begin PAGE_KERNEL
      PgAlloc.early_pgtable_alloc cfg.start_rodata (__pa_symbol cfg cfg.start_rodata)
      ((cfg.init_begin + U64 - cfg.start_rodata) % U64)
      l1 l2 hF l14 l15 l6 (by omega) (by omega) l19 (by omega) (by omega) pk1 pk2 w1 t1 f1
      (by intro a; have := hbud a; have := c1 a; omega)
  obtain ⟨v2, A2, E2⟩ := chunk_req_facts cfg WB cfg.start_rodata cfg.init_begin PAGE_KERNEL
    PgAlloc.early_pgtable_alloc l1 l2 l14 l15 l6 (by omega) (by omega) l19 (by omega) (by omega)
    pk1 pk2
  -- init
  obtain ⟨vc1, vc2, s3, own3, r3, w3, t3, f3, c3, k3, x3, m3, a3⟩ :=
    @chunk_core_spec cfg lim s2 own2 WB pgd F cfg.init_begin cfg.init_end PAGE_KERNEL_EXEC
      PgAlloc.early_pgtable_alloc cfg.init_begin (__pa_symbol cfg cfg.init_begin)
      ((cfg.init_end + U64 - cfg.init_begin) % U64)
      l1 l2 hF l15 l16 l7 (by omega) (by omega) l19 (by omega) (by omega) pe1 pe2 w2 t2 f2
      (by intro a; have := hbud a; have := c1 a; have := c2 a; omega)
  obtain ⟨v3, A3, E3⟩ := chunk_req_facts cfg WB cfg.init_begin cfg.init_end PAGE_KERNEL_EXEC
    PgAlloc.early_pgtable_alloc l1 l2 l15 l16 l7 (by omega) (by omega) l19 (by omega) (by omega)
    pe1 pe2
  -- data
  obtain ⟨vd1, vd2, s4, own4, r4, w4, t4, f4, c4, k4, x4, m4, a4⟩ :=
    @chunk_core_spec cfg lim s3 own3 WB pgd F cfg.data cfg.kernel_end PAGE_KERNEL
      PgAlloc.early_pgtable_alloc cfg.data (__pa_symbol cfg cfg.data)
      ((cfg.kernel_end + U64 - cfg.data) % U64)
      l1 l2 hF l17 l18 l9 (by omega) (by omega) l19 (by omega) (by omega) pk1 pk2 w3 t3 f3
      (by intro a; have := hbud a; have := c1 a; have := c2 a; have := c3 a; omega)
  obtain ⟨v4, A4, E4⟩ := chunk_req_facts cfg WB cfg.data cfg.kernel_end PAGE_KERNEL
    PgAlloc.early_pgtable_alloc l1 l2 l17 l18 l9 (by omega) (by omega) l19 (by omega) (by omega)
    pk1 pk2
  have hfix4 : s4.mem (pgd_offset_raw pgd cfg.FIXADDR_START) = 0 := by
    rw [x4 _ (by omega) l11, x3 _ (by omega) l11, x2 _ (by omega) l11, x1 _ (by omega) l11]
    exact hfix
  refine ⟨set_pgd s4 (pgd_offset_raw pgd cfg.FIXADDR_START)
    (s4.mem (pgd_offset_raw cfg.init_mm_pgd cfg.FIXADDR_START)), ?_, ?_, ?_, ?_, ?_, ?_⟩
  · unfold map_kernel
    rw [eq1, r1]
    simp only [Res.ok_bind]
    rw [map_kernel_chunk_eq cfg F s1 pgd _ _ _ vb1 vb2, r2]
    simp only [Res.ok_bind]
    rw [map_kernel_chunk_eq cfg F s2 pgd _ _ _ vc1 vc2, r3]
    simp only [Res.ok_bind]
    rw [map_kernel_chunk_eq cfg F s3 pgd _ _ _ vd1 vd2, r4]
    simp only [Res.ok_bind]
    have hz : ∀ t : State, (vm_area_add_early t cfg.data (__pa_symbol cfg cfg.data)
        ((cfg.kernel_end + U64 - cfg.data) % U64) VM_MAP).mem = t.mem := fun _ => rfl
    simp only [hz, hfix4, beq_self_eq_true, if_true]
  · intro a b1 b2 b3
    have q1 := m1 a b1 b2 b3
    have q2 := k2 _ a v1 (by omega) (by omega) b3
      (Or.inl (by omega)) q1
    have q3 := k3 _ a v1 (by omega) (by omega) b3
      (Or.inl (by omega)) q2
    have q4 := k4 _ a v1 (by omega) (by omega) b3
      (Or.inl (by omega)) q3
    exact mapped_kept_set_fix WB pgd cfg.FIXADDR_START _ a q4 w4 t4 v1
      (by omega) (by omega) b3 (by omega) l11
  · intro a b1 b2 b3
    have q2 := m2 a b1 b2 b3
    have q3 := k3 _ a v2 (by omega) (by omega) b3
      (Or.inl (by omega)) q2
    have q4 := k4 _ a v2 (by omega) (by omega) b3
      (Or.inl (by omega)) q3
    exact mapped_kept_set_fix WB pgd cfg.FIXADDR_START _ a q4 w4 t4 v2
      (by omega) (by omega) b3 (by omega) l11
  · intro a b1 b2 b3
    have q3 := m3 a b1 b2 b3
    have q4 := k4 _ a v3 (by omega) (by omega) b3
      (Or.inl (by omega)) q3
    exact mapped_kept_set_fix WB pgd cfg.FIXADDR_START _ a q4 w4 t4 v3
      (by omega) (by omega) b3 (by omega) l11
  · intro a b1 b2 b3
    have q4 := m4 a b1 b2 b3
    exact mapped_kept_set_fix WB pgd cfg.FIXADDR_START _ a q4 w4 t4 v4
      (by omega) (by omega) b3 (by omega) l11
  · show vm_areas s4.trace = _
    rw [a4, a3, a2, a1]
    have e : ((text_area cfg).1, (text_area cfg).2.1, (text_area cfg).2.2.1, VM_MAP)
        = text_area cfg := by
      rw [← ta]
    rw [e]

/-- Every address of a mapped region resolves to its physical address, the
address minus `kimage_voffset`, with the attributes of the region. -/
theorem region_resolves (cfg : Config) (WB pgd va_start va_end prot : Nat) (al : PgAlloc)
    (mem : Nat → Nat)
    (hwb1 : WB % 281474976710656 = 0) (hwb2 : WB + 281474976710656 ≤ 18446744073709551616)
    (h1 : va_start % 4096 = 0) (h2 : va_end % 4096 = 0) (h3 : va_start < va_end)
    (h4 : WB ≤ va_start) (h5 : va_end ≤ WB + 281474976710656)
    (h6 : cfg.kimage_voffset % 4096 = 0) (h7 : cfg.kimage_voffset ≤ va_start)
    (h8 : va_end - cfg.kimage_voffset ≤ 281474976710656)
    (hp1 : prot &&& PTE_ADDR_MASK = 0) (hp2 : prot &&& 3 = 3)
    (m : ∀ a, va_start ≤ a → a < va_end → a % 4096 = 0 →
      Mapped0 cfg (chunk_req cfg va_start va_end prot al) mem pgd a) :
    ∀ va, va_start ≤ va → va < va_end →
      resolve mem pgd va = some (va - cfg.kimage_voffset, entry_prot prot) := by
  intro va b1 b2
  obtain ⟨v, A, E⟩ := chunk_req_facts cfg WB va_start va_end prot al hwb1 hwb2 h1 h2 h3 h4 h5 h6
    h7 h8 hp1 hp2
  have hm : ∀ a, (mkReq (va_start - cfg.kimage_voffset) va_start (va_end - va_start) prot
        (some al)).A0 ≤ a →
      a < (mkReq (va_start - cfg.kimage_voffset) va_start (va_end - va_start) prot (some al)).E →
      a % 4096 = 0 →
      Mapped0 cfg (mkReq (va_start - cfg.kimage_voffset) va_start (va_end - va_start) prot
        (some al)) mem pgd a := by
    intro a c1 c2 c3
    have c1b : (chunk_req cfg va_start va_end prot al).A0 ≤ a := c1
    have c2b : a < (chunk_req cfg va_start va_end prot al).E := c2
    exact m a (by omega) (by omega) c3
  rw [resolve_of_mapped cfg WB pgd (va_start - cfg.kimage_voffset) va_start (va_end - va_start)
    prot (some al) mem (by omega) v hm va (by omega) (by omega)]
  have e : va_start - cfg.kimage_voffset + va - va_start = va - cfg.kimage_voffset := by omega
  rw [e]

/-- The function `map_kernel` in terms of what resolves afterwards. -/
theorem map_kernel_resolves {cfg : Config} {lim : PgAlloc → Nat} {s : State} {own : Own}
    (WB pgd F : Nat) (L : KernelLayout cfg WB) (hF : 512 ≤ F)
    (hw : WF s.mem own) (hroot : own pgd = some (0, WB)) (hfr : Fresh cfg lim s own)
    (hbud : ∀ a, s.count a + 537921536 ≤ lim a)
    (hfix : s.mem (pgd_offset_raw pgd cfg.FIXADDR_START) = 0) :
    ∃ s1, map_kernel cfg F s pgd = Res.ok s1 ∧
      (∀ va, text_start cfg ≤ va → va < cfg.etext →
        resolve s1.mem pgd va = some (va - cfg.kimage_voffset, entry_prot PAGE_KERNEL_EXEC)) ∧
      (∀ va, cfg.start_rodata ≤ va → va < cfg.init_begin →
        resolve s1.mem pgd va = some (va - cfg.kimage_voffset, entry_prot PAGE_KERNEL)) ∧
      (∀ va, cfg.init_begin ≤ va → va < cfg.init_end →
        resolve s1.mem pgd va = some (va - cfg.kimage_voffset, entry_prot PAGE_KERNEL_EXEC)) ∧
      (∀ va, cfg.data ≤ va → va < cfg.kernel_end →
        resolve s1.mem pgd va = some (va - cfg.kimage_voffset, entry_prot PAGE_KERNEL)) ∧
      vm_areas s1.trace
        = (cfg.data, __pa_symbol cfg cfg.data, (cfg.kernel_end + U64 - cfg.data) % U64, VM_MAP) ::
          (cfg.init_begin, __pa_symbol cfg cfg.init_begin,
            (cfg.init_end + U64 - cfg.init_begin) % U64, VM_MAP) ::
          (cfg.start_rodata, __pa_symbol cfg cfg.start_rodata,
            (cfg.init_begin + U64 - cfg.start_rodata) % U64, VM_MAP) ::
          text_area cfg :: vm_areas s.trace := by
  have l1 := L.wb_al; have l2 := L.wb_top; have l3 := L.wb_le; have l4 := L.text
  have l5 := L.gap1; have l6 := L.rodata; have l7 := L.init; have l8 := L.gap2
  have l9 := L.data; have l10 := L.top; have l11 := L.fix_top; have l12 := L.text_al
  have l13 := L.etext_al; have l14 := L.rodata_al; have l15 := L.init_al
  have l16 := L.init_end_al; have l17 := L.data_al; have l18 := L.end_al
  have l19 := L.voff_al; have l20 := L.voff_le; have l21 := L.pa_top
  have hfixle : cfg.FIXADDR_START / 549755813888 * 549755813888 ≤ cfg.FIXADDR_START :=
    Nat.div_mul_le_self _ _
  have pk1 : PAGE_KERNEL &&& PTE_ADDR_MASK = 0 := by decide
  have pk2 : PAGE_KERNEL &&& 3 = 3 := by decide
  have pe1 : PAGE_KERNEL_EXEC &&& PTE_ADDR_MASK = 0 := by decide
  have pe2 : PAGE_KERNEL_EXEC &&& 3 = 3 := by decide
  obtain ⟨s1, e1, m1, m2, m3, m4, a1⟩ := map_kernel_spec WB pgd F L hF hw hroot hfr hbud hfix
  exact ⟨s1, e1,
    region_resolves cfg WB pgd _ _ _ _ s1.mem l1 l2 l12 l13 l4 l3 (by omega) l19 l20 (by omega)
      pe1 pe2 m1,
    region_resolves cfg WB pgd _ _ _ _ s1.mem l1 l2 l14 l15 l6 (by omega) (by omega) l19
      (by omega) (by omega) pk1 pk2 m2,
    region_resolves cfg WB pgd _ _ _ _ s1.mem l1 l2 l15 l16 l7 (by omega) (by omega) l19
      (by omega) (by omega) pe1 pe2 m3,
    region_resolves cfg WB pgd _ _ _ _ s1.mem l1 l2 l17 l18 l9 (by omega) (by omega) l19
      (by omega) (by omega) pk1 pk2 m4, a1⟩

/-- The image of the sample machine is laid out as `map_kernel` expects. -/
theorem KernelLayout_cfg0 : KernelLayout cfg0 0xffff000000000000 := by
  constructor <;> decide

/-! ## The memory banks -/

theorem Res.bind_assoc {α β γ : Type} (r : Res α) (f : α → Res β) (g : β → Res γ) :
    (r.bind f).bind g = r.bind (fun x => (f x).bind g) := by
  cases r <;> rfl

theorem run_requests_append (cfg : Config) (F pgd : Nat) :
    ∀ (l1 l2 : List MapReq) (s : State),
      run_requests cfg F pgd (l1 ++ l2) s
        = (run_requests cfg F pgd l1 s).bind (run_requests cfg F pgd l2) := by
  intro l1
  induction l1 with
  | nil => intro l2 s; rfl
  | cons r rest ih =>
    intro l2 s
    show (__create_pgd_mapping cfg F s pgd r.phys r.virt r.size r.prot
        (some PgAlloc.early_pgtable_alloc)).bind (run_requests cfg F pgd (rest ++ l2)) = _
    have e : run_requests cfg F pgd (rest ++ l2)
        = fun x => (run_requests cfg F pgd rest x).bind (run_requests cfg F pgd l2) := by
      funext x; exact ih l2 x
    rw [e, ← Res.bind_assoc]
    rfl

/-- The function `map_mem` is its list of calls, one after the other. -/
theorem map_mem_eq (cfg : Config) (F pgd : Nat) :
    ∀ (regs : List memblock_region) (s : State),
      map_mem cfg F pgd regs s = run_requests cfg F pgd (map_mem_requests cfg regs) s := by
  intro regs
  induction regs with
  | nil => intro s; rfl
  | cons reg rest ih =>
    intro s
    unfold map_mem map_mem_requests memblock_is_nomap
    by_cases h1 : reg.base ≥ (reg.base + reg.size) % U64
    · simp only [h1, if_true]; rfl
    · by_cases h2 : reg.nomap = true
      · simp only [h1, h2, if_true, if_false]; exact ih s
      · simp only [h1, h2, Bool.false_eq_true, if_false]
        rw [run_requests_append, map_memblock_eq]
        have e : map_mem cfg F pgd rest = run_requests cfg F pgd (map_mem_requests cfg rest) := by
          funext x; exact ih x
        rw [e]

/-- Where the calls of `map_mem` come from: each belongs to a bank that is
not empty and not marked nomap. -/
theorem map_mem_requests_mem (cfg : Config) :
    ∀ (regs : List memblock_region) (r : MapReq), r ∈ map_mem_requests cfg regs →
      ∃ reg ∈ regs, reg.nomap = false ∧ reg.base < (reg.base + reg.size) % U64 ∧
        r ∈ map_memblock_requests cfg reg.base ((reg.base + reg.size) % U64) := by
  intro regs
  induction regs with
  | nil => intro r h; cases h
  | cons reg rest ih =>
    intro r h
    unfold map_mem_requests at h
    by_cases h1 : reg.base ≥ (reg.base + reg.size) % U64
    · simp only [h1, if_true] at h; cases h
    · by_cases h2 : reg.nomap = true
      · simp only [h1, h2, if_true, if_false] at h
        obtain ⟨g, hg, k⟩ := ih r h
        exact ⟨g, List.mem_cons_of_mem _ hg, k⟩
      · simp only [h1, h2, Bool.false_eq_true, if_false] at h
        rcases List.mem_append.mp h with h | h
        · exact ⟨reg, List.mem_cons_self _ _, by simpa using h2, by omega, h⟩
        · obtain ⟨g, hg, k⟩ := ih r h
          exact ⟨g, List.mem_cons_of_mem _ hg, k⟩

/-- When no bank is empty, the calls are those of the banks not marked nomap,
in order. -/
theorem map_mem_requests_filter (cfg : Config) :
    ∀ (regs : List memblock_region),
      (∀ reg ∈ regs, reg.base < (reg.base + reg.size) % U64) →
      map_mem_requests cfg regs
        = ((regs.filter (fun reg => !reg.nomap)).map
            (fun reg => map_memblock_requests cfg reg.base ((reg.base + reg.size) % U64))).flatten := by
  intro regs
  induction regs with
  | nil => intro _; rfl
  | cons reg rest ih =>
    intro h
    have h0 := h reg (List.mem_cons_self _ _)
    have h1 : ¬ reg.base ≥ (reg.base + reg.size) % U64 := by omega
    have hr := ih (fun g hg => h g (List.mem_cons_of_mem _ hg))
    unfold map_mem_requests
    by_cases h2 : reg.nomap = true
    · simp only [h1, h2, if_true, if_false, List.filter_cons, Bool.not_true, Bool.false_eq_true]
      exact hr
    · have h3 : reg.nomap = false := by simpa using h2
      simp only [h1, h3, Bool.false_eq_true, if_false, List.filter_cons, Bool.not_false, if_true,
        List.map_cons, List.flatten_cons]
      rw [hr]

/-- The last occurrence of a member of a list. -/
theorem last_split {α : Type} : ∀ (rs : List α) (r : α), r ∈ rs →
    ∃ l1 l2, rs = l1 ++ r :: l2 ∧ r ∉ l2 := by
  intro rs
  induction rs with
  | nil => intro r h; cases h
  | cons x t ih =>
    intro r h
    by_cases ht : r ∈ t
    · obtain ⟨l1, l2, e, hn⟩ := ih r ht
      exact ⟨x :: l1, l2, by rw [e]; rfl, hn⟩
    · have hx : r = x := by
        rcases List.mem_cons.mp h with h | h
        · exact h
        · exact absurd h ht
      subst hx
      exact ⟨[], t, rfl, ht⟩

/-- The calls for one bank: a writable call stays inside the pages of the
bank, the read-only call is `ro_req`, and every address of the bank lies in the
pages of one of the calls. -/
theorem map_memblock_requests_bank (cfg : Config) (start e : Nat)
    (L : LinearLayout cfg start e) :
    (∀ r ∈ map_memblock_requests cfg start e,
      (r.prot = PAGE_KERNEL →
        start / 4096 * 4096 ≤ r.pstart ∧ r.pend ≤ (e + 4095) / 4096 * 4096) ∧
      (r.prot = PAGE_KERNEL_RO → r = ro_req cfg)) ∧
    (∀ pa, start ≤ pa → pa < e →
      ∃ r ∈ map_memblock_requests cfg start e, r.pstart ≤ pa ∧ pa < r.pend) := by
  have := L.ks_al; have := L.ke_al; have := L.k_lt; have := L.ms_al; have := L.ms_start
  have := L.ms_ks; have := L.bank; have := L.e_lin; have := L.ke_lin; have := L.e_phys
  have := L.ke_phys
  have hne : PAGE_KERNEL_RO ≠ PAGE_KERNEL := by decide
  have pv1 := phys_to_virt_eq cfg start (by omega)
  have pv2 := phys_to_virt_eq cfg (__pa_symbol cfg cfg.stext) (by omega) (by omega)
  have pv3 := phys_to_virt_eq cfg (__pa_symbol cfg cfg.init_begin) (by omega)
  have z1 : (e + U64 - start) % U64 = e - start := by rw [U64_eq]; omega
  have z2 : (__pa_symbol cfg cfg.init_begin + U64 - __pa_symbol cfg cfg.stext) % U64
      = __pa_symbol cfg cfg.init_begin - __pa_symbol cfg cfg.stext := by rw [U64_eq]; omega
  constructor
  · intro r hr
    rcases map_memblock_requests_mem cfg start e r hr with
      ⟨h0, rfl⟩ | ⟨h0, ⟨h1, rfl⟩ | ⟨h2, rfl⟩ | rfl⟩
    · have pv := pv1 (by omega)
      refine ⟨fun _ => ?_, fun h => absurd h.symm hne⟩
      simp only [MapReq.pend, MapReq.pstart, pv, z1]
      omega
    · have pv := pv1 (by omega)
      have z : (__pa_symbol cfg cfg.stext + U64 - start) % U64
          = __pa_symbol cfg cfg.stext - start := by rw [U64_eq]; omega
      refine ⟨fun _ => ?_, fun h => absurd h.symm hne⟩
      simp only [MapReq.pend, MapReq.pstart, pv, z]
      omega
    · have pv := pv3 (by omega)
      have z : (e + U64 - __pa_symbol cfg cfg.init_begin) % U64
          = e - __pa_symbol cfg cfg.init_begin := by rw [U64_eq]; omega
      refine ⟨fun _ => ?_, fun h => absurd h.symm hne⟩
      simp only [MapReq.pend, MapReq.pstart, pv, z]
      omega
    · exact ⟨fun h => absurd h hne, fun _ => rfl⟩
  · intro pa b1 b2
    unfold map_memblock_requests
    by_cases h0 : e < __pa_symbol cfg cfg.stext ∨ start ≥ __pa_symbol cfg cfg.init_begin
    · have pv := pv1 (by omega)
      refine ⟨_, by rw [if_pos h0]; exact List.mem_singleton.mpr rfl, ?_, ?_⟩
      · simp only [MapReq.pstart]; omega
      · simp only [MapReq.pend, pv, z1]; omega
    · rw [if_neg h0]
      by_cases c1 : pa < __pa_symbol cfg cfg.stext
      · have h1 : start < __pa_symbol cfg cfg.stext := by omega
        have pv := pv1 (by omega)
        have z : (__pa_symbol cfg cfg.stext + U64 - start) % U64
            = __pa_symbol cfg cfg.stext - start := by rw [U64_eq]; omega
        refine ⟨⟨start, __phys_to_virt cfg start,
          (__pa_symbol cfg cfg.stext + U64 - start) % U64, PAGE_KERNEL⟩, ?_, ?_, ?_⟩
        · rw [if_pos h1]; simp
        · simp only [MapReq.pstart]; omega
        · simp only [MapReq.pend, pv, z]; omega
      · by_cases c2 : pa < __pa_symbol cfg cfg.init_begin
        · refine ⟨⟨__pa_symbol cfg cfg.stext, __phys_to_virt cfg (__pa_symbol cfg cfg.stext),
            (__pa_symbol cfg cfg.init_begin + U64 - __pa_symbol cfg cfg.stext) % U64,
            PAGE_KERNEL_RO⟩, by simp, ?_, ?_⟩
          · simp only [MapReq.pstart]; omega
          · simp only [MapReq.pend, pv2, z2]; omega
        · have h2 : __pa_symbol cfg cfg.init_begin < e := by omega
          have pv := pv3 (by omega)
          have z : (e + U64 - __pa_symbol cfg cfg.init_begin) % U64
              = e - __pa_symbol cfg cfg.init_begin := by rw [U64_eq]; omega
          refine ⟨⟨__pa_symbol cfg cfg.init_begin,
            __phys_to_virt cfg (__pa_symbol cfg cfg.init_begin),
            (e + U64 - __pa_symbol cfg cfg.init_begin) % U64, PAGE_KERNEL⟩, ?_, ?_, ?_⟩
          · rw [if_pos h2]; simp
          · simp only [MapReq.pstart]; omega
          · simp only [MapReq.pend, pv, z]; omega

/-- Two calls that map linear aliases of physical pages that do not meet
cover virtual pages that do not meet. -/
theorem disjoint_of_phys (cfg : Config) (r r1 : MapReq) (hal : cfg.memstart_addr % 4096 = 0)
    (a2 : r.virt = 18446603336221196288 + (r.phys - cfg.memstart_addr))
    (a3 : cfg.memstart_addr ≤ r.phys)
    (b2 : r1.virt = 18446603336221196288 + (r1.phys - cfg.memstart_addr))
    (b3 : cfg.memstart_addr ≤ r1.phys)
    (hd : r.pend ≤ r1.pstart ∨ r1.pend ≤ r.pstart) : r.disjoint r1 := by
  obtain ⟨c1, c2, c3, c4⟩ := linear_req_range cfg r hal a2 a3
  obtain ⟨d1, d2, d3, d4⟩ := linear_req_range cfg r1 hal b2 b3
  unfold MapReq.disjoint
  rw [c1, c2, d1, d2]
  omega

theorem BankLayout.tail {cfg : Config} {reg : memblock_region} {rest : List memblock_region}
    (B : BankLayout cfg (reg :: rest)) : BankLayout cfg rest :=
  ⟨fun g hg => B.each g (List.mem_cons_of_mem _ hg),
    fun g hg => B.aligned g (List.mem_cons_of_mem _ hg), (List.pairwise_cons.mp B.apart).2⟩

theorem BankLayout.end_eq {cfg : Config} {regs : List memblock_region} (B : BankLayout cfg regs)
    (reg : memblock_region) (h : reg ∈ regs) :
    (reg.base + reg.size) % U64 = reg.base + reg.size := by
  have := (B.each reg h).e_phys
  rw [U64_eq]
  omega

/-- Any two calls of `map_mem`, the one made before the other, cover pages
that do not meet, or are the same call (the read-only call for the kernel,
made once for every bank that meets it). -/
theorem map_mem_requests_pairwise (cfg : Config) :
    ∀ (regs : List memblock_region), BankLayout cfg regs →
      (map_mem_requests cfg regs).Pairwise (fun r r1 => r.disjoint r1 ∨ r1 = r) := by
  intro regs
  induction regs with
  | nil => intro _; exact List.Pairwise.nil
  | cons reg rest ih =>
    intro B
    have hr := ih B.tail
    unfold map_mem_requests
    by_cases h1 : reg.base ≥ (reg.base + reg.size) % U64
    · simp only [h1, if_true]; exact List.Pairwise.nil
    · by_cases h2 : reg.nomap = true
      · simp only [h1, h2, if_true, if_false]; exact hr
      · simp only [h1, h2, Bool.false_eq_true, if_false]
        have hmem := List.mem_cons_self reg rest
        have L := B.each reg hmem
        have he := B.end_eq reg hmem
        rw [he]
        rw [List.pairwise_append]
        refine ⟨(map_memblock_requests_pairwise cfg _ _ L).imp (fun h => Or.inl h), hr, ?_⟩
        intro a ha b hb
        obtain ⟨g, hg, _, _, hbg⟩ := map_mem_requests_mem cfg rest b hb
        have hgm := List.mem_cons_of_mem reg hg
        have Lg := B.each g hgm
        rw [B.end_eq g hgm] at hbg
        obtain ⟨_, a2, a3, _, a5, a6, a7⟩ := map_memblock_requests_good cfg _ _ L a ha
        obtain ⟨_, b2, b3, _, b5, b6, b7⟩ := map_memblock_requests_good cfg _ _ Lg b hbg
        obtain ⟨a8, a9⟩ := (map_memblock_requests_bank cfg _ _ L).1 a ha
        obtain ⟨b8, b9⟩ := (map_memblock_requests_bank cfg _ _ Lg).1 b hbg
        have hap := (List.pairwise_cons.mp B.apart).1 g hg
        have al1 := B.aligned reg hmem
        have al2 := B.aligned g hgm
        have hk := L.k_lt
        rcases a5 with pa | pa <;> rcases b5 with pb | pb
        · have x1 := a8 pa
          have x2 := b8 pb
          exact Or.inl (disjoint_of_phys cfg a b L.ms_al a2 a3 b2 b3 (by omega))
        · have x1 := a6 pa
          have x2 := b7 pb
          exact Or.inl (disjoint_of_phys cfg a b L.ms_al a2 a3 b2 b3 (by omega))
        · have x1 := a7 pa
          have x2 := b6 pb
          exact Or.inl (disjoint_of_phys cfg a b L.ms_al a2 a3 b2 b3 (by omega))
        · right
          rw [a9 pa, b9 pb]

/-- Every physical address of the pages of a call that maps a linear alias
resolves at its alias, once the pages of the call are mapped. -/
theorem linear_resolves (cfg : Config) (pgd : Nat) (r : MapReq) (mem : Nat → Nat)
    (hal : cfg.memstart_addr % 4096 = 0)
    (a2 : r.virt = 18446603336221196288 + (r.phys - cfg.memstart_addr))
    (a3 : cfg.memstart_addr ≤ r.phys) (g : GoodReq 18446462598732840960 r)
    (hm : ∀ a, r.req.A0 ≤ a → a < r.req.E → a % 4096 = 0 → Mapped0 cfg r.req mem pgd a) :
    ∀ pa, r.pstart ≤ pa → pa < r.pend →
      resolve mem pgd (__phys_to_virt cfg pa) = some (pa, entry_prot r.prot) := by
  intro pa h1 h2
  obtain ⟨c1, c2, c3, c4⟩ := linear_req_range cfg r hal a2 a3
  have hv := g.valid (by norm_num) (by norm_num)
  have hA : r.req.A0 = r.virt / 4096 * 4096 := rfl
  have hE : r.req.E = r.virt / 4096 * 4096 + (r.size + r.virt % 4096 + 4095) / 4096 * 4096 :=
    rfl
  have hP : r.req.P0 = r.phys / 4096 * 4096 := rfl
  have hpe : r.pend ≤ 281474976710656 ∧ r.pend ≤ cfg.memstart_addr + 140737488355328 := by
    have b1 := hv.e_le
    have b2 := hv.p_le
    rw [hE, hA, hP] at b2
    rw [c2] at b1
    unfold MapReq.pend
    constructor
    · omega
    · unfold MapReq.pend at b1; omega
  rw [hA] at c1
  rw [hE] at c2
  have hptv := phys_to_virt_eq cfg pa (by omega) (by omega)
  rw [resolve_of_mapped cfg 18446462598732840960 pgd r.phys r.virt r.size r.prot
    (some PgAlloc.early_pgtable_alloc) mem g.offs hv hm
    (__phys_to_virt cfg pa) (by rw [hptv, c1]; omega) (by rw [hptv, c2]; omega)]
  have hps : r.pstart = r.phys / 4096 * 4096 := rfl
  have e : r.phys + __phys_to_virt cfg pa - r.virt = pa := by
    rw [hptv, a2]; omega
  rw [e]

/-- The calls for a bank that is not marked nomap are among the calls of
`map_mem`, when no bank is empty. -/
theorem map_mem_requests_of_bank (cfg : Config) :
    ∀ (regs : List memblock_region),
      (∀ reg ∈ regs, reg.base < (reg.base + reg.size) % U64) →
      ∀ reg ∈ regs, reg.nomap = false →
      ∀ r ∈ map_memblock_requests cfg reg.base ((reg.base + reg.size) % U64),
        r ∈ map_mem_requests cfg regs := by
  intro regs
  induction regs with
  | nil => intro _ reg h; cases h
  | cons x rest ih =>
    intro hne reg hreg hn r hr
    have h0 := hne x (List.mem_cons_self _ _)
    have h1 : ¬ x.base ≥ (x.base + x.size) % U64 := by omega
    have hrest := ih (fun g hg => hne g (List.mem_cons_of_mem _ hg))
    unfold map_mem_requests
    by_cases h2 : x.nomap = true
    · simp only [h1, h2, if_true, if_false]
      rcases List.mem_cons.mp hreg with h | h
      · rw [h, h2] at hn; cases hn
      · exact hrest reg h hn r hr
    · simp only [h1, h2, Bool.false_eq_true, if_false]
      rcases List.mem_cons.mp hreg with h | h
      · rw [h] at hr
        exact List.mem_append.mpr (Or.inl hr)
      · exact List.mem_append.mpr (Or.inr (hrest reg h hn r hr))

/-- The function `map_mem` on a well-formed directory with fresh frames: it
returns, and every physical address of a bank not marked nomap resolves at its
linear alias to itself, writable or, in the kernel text and rodata,
read-only. -/
theorem map_mem_spec {cfg : Config} {lim : PgAlloc → Nat} {s : State} {own : Own}
    (pgd F : Nat) (regs : List memblock_region) (B : BankLayout cfg regs) (hF : 512 ≤ F)
    (hw : WF s.mem own) (hroot : own pgd = some (0, 18446462598732840960))
    (hfr : Fresh cfg lim s own)
    (hbud : ∀ a, s.count a + 134480384 * (map_mem_requests cfg regs).length ≤ lim a) :
    ∃ s1, map_mem cfg F pgd regs s = Res.ok s1 ∧
      ∀ reg ∈ regs, reg.nomap = false → ∀ pa, reg.base ≤ pa → pa < reg.base + reg.size →
        resolve s1.mem pgd (__phys_to_virt cfg pa) = some (pa, entry_prot PAGE_KERNEL) ∨
        resolve s1.mem pgd (__phys_to_virt cfg pa) = some (pa, entry_prot PAGE_KERNEL_RO) := by
  have hne : ∀ reg ∈ regs, reg.base < (reg.base + reg.size) % U64 := by
    intro reg h
    rw [B.end_eq reg h]
    exact (B.each reg h).bank
  have good : ∀ r ∈ map_mem_requests cfg regs,
      r.virt = 18446603336221196288 + (r.phys - cfg.memstart_addr) ∧
      cfg.memstart_addr ≤ r.phys ∧ cfg.memstart_addr % 4096 = 0 ∧
      GoodReq 18446462598732840960 r ∧ (r.prot = PAGE_KERNEL ∨ r.prot = PAGE_KERNEL_RO) := by
    intro r hr
    obtain ⟨g, hg, _, _, hrg⟩ := map_mem_requests_mem cfg regs r hr
    rw [B.end_eq g hg] at hrg
    obtain ⟨_, a2, a3, a4, a5, _, _⟩ := map_memblock_requests_good cfg _ _ (B.each g hg) r hrg
    exact ⟨a2, a3, (B.each g hg).ms_al, a4, a5⟩
  obtain ⟨s1, own1, e1, _, _, _, _, _, m1⟩ :=
    @run_requests_spec cfg lim 18446462598732840960 pgd F (by norm_num) (by norm_num) hF
      (map_mem_requests cfg regs) s own (fun r hr => (good r hr).2.2.2.1) hw hroot hfr hbud
  refine ⟨s1, by rw [map_mem_eq]; exact e1, ?_⟩
  intro reg hreg hn pa b1 b2
  obtain ⟨r, hr, c1, c2⟩ := (map_memblock_requests_bank cfg _ _ (B.each reg hreg)).2 pa b1 b2
  rw [← B.end_eq reg hreg] at hr
  have hrs := map_mem_requests_of_bank cfg regs hne reg hreg hn r hr
  obtain ⟨l1, l2, hsplit, hnot⟩ := last_split _ r hrs
  have hpw := map_mem_requests_pairwise cfg regs B
  rw [hsplit] at hpw
  have hdis : ∀ r1 ∈ l2, r.disjoint r1 := by
    intro r1 h1
    rcases (List.pairwise_cons.mp (List.pairwise_append.mp hpw).2.1).1 r1 h1 with h | h
    · exact h
    · rw [h] at h1; exact absurd h1 hnot
  obtain ⟨a2, a3, a4, g, a5⟩ := good r hrs
  have hres := linear_resolves cfg pgd r s1.mem a4 a2 a3 g (m1 l1 l2 r hsplit hdis) pa c1 c2
  rcases a5 with h | h
  · left; rw [hres, h]
  · right; rw [hres, h]

theorem BankLayout_regs0 : BankLayout cfg0 regs0 := by
  refine ⟨?_, ?_, ?_⟩
  · intro reg h
    simp only [regs0, List.mem_cons, List.mem_singleton, List.not_mem_nil, or_false] at h
    rcases h with rfl | rfl
    · exact ⟨by decide, by decide, by decide, by decide, by decide, by decide, by decide,
        by decide, by decide, by decide, by decide⟩
    · exact ⟨by decide, by decide, by decide, by decide, by decide, by decide, by decide,
        by decide, by decide, by decide, by decide⟩
  · intro reg h
    simp only [regs0, List.mem_cons, List.mem_singleton, List.not_mem_nil, or_false] at h
    rcases h with rfl | rfl <;> decide
  · simp only [regs0, List.pairwise_cons, List.mem_singleton, List.not_mem_nil, forall_eq,
      List.Pairwise.nil, and_true, false_implies, implies_true]
    decide

/-! ## Termination of the loops, whatever the state -/

theorem call_alloc_ne_timeout (cfg : Config) (a : PgAlloc) (s : State) :
    call_alloc cfg a s ≠ Res.timeout := by
  cases a <;> simp only [call_alloc, early_pgtable_alloc, late_pgtable_alloc, rkp_ro_alloc_phys,
    take_frame] <;> (try split) <;> simp

theorem alloc_pmd_frame_ne_timeout (cfg : Config) (a : PgAlloc) (s : State) :
    alloc_pmd_frame cfg a s ≠ Res.timeout := by
  unfold alloc_pmd_frame
  split
  · simp only [rkp_ro_alloc_phys]
    split
    · exact call_alloc_ne_timeout cfg a _
    · simp
  · exact call_alloc_ne_timeout cfg a s

/-- The loop of `alloc_init_pte` from a page-aligned `addr` to the true end
`E` (of which the code holds `E % 2^64`): it returns after exactly
`(E - addr) / 4096` passes, each of which stores one entry. -/
theorem alloc_init_pte_loop_total (cfg : Config) (prot E : Nat)
    (hE : E ≤ 18446744073709551616) (hEa : E % 4096 = 0) :
    ∀ (fuel : Nat) (s : State) (pte addr pfn : Nat),
      addr % 4096 = 0 → addr < E → (E - addr) / 4096 ≤ fuel →
      ∃ s1, alloc_init_pte_loop cfg prot (E % U64) fuel s pte addr pfn = Res.ok s1 ∧
        s1.trace.length = s.trace.length + (E - addr) / 4096 := by
  intro fuel
  induction fuel with
  | zero => intro s pte addr pfn h1 h2 h3; omega
  | succ n ih =>
    intro s pte addr pfn h1 h2 h3
    rw [alloc_init_pte_loop]
    have hio : (iotable_on == 1) = false := by decide
    have hps : PAGE_SIZE = 4096 := by decide
    simp only [hio, Bool.false_eq_true, if_false, hps, U64_eq]
    by_cases hlast : addr + 4096 = E
    · have hc : ((addr + 4096) % 18446744073709551616 != E % 18446744073709551616) = false := by
        rw [hlast]; simp
      simp only [hc, Bool.false_eq_true, if_false]
      refine ⟨_, rfl, ?_⟩
      have : (E - addr) / 4096 = 1 := by omega
      rw [this]
      rfl
    · have hc : ((addr + 4096) % 18446744073709551616 != E % 18446744073709551616) = true := by
        simp only [bne_iff_ne, ne_eq]
        omega
      simp only [hc, if_true]
      have hm : (addr + 4096) % 18446744073709551616 = addr + 4096 := by omega
      rw [hm]
      have hU : (18446744073709551616 : Nat) = U64 := by rw [U64_eq]
      rw [hU]
      obtain ⟨s1, e1, t1⟩ := ih (set_pte s pte (pfn_pte pfn prot)) (pte + 8) (addr + 4096)
        ((pfn + 1) % U64) (by omega) (by omega) (by omega)
      refine ⟨s1, e1, ?_⟩
      rw [t1]
      have : (set_pte s pte (pfn_pte pfn prot)).trace.length = s.trace.length + 1 := rfl
      rw [this]
      omega

theorem alloc_init_pte_prepare_ne_timeout (cfg : Config) (s : State) (pmd : Nat)
    (al : Option PgAlloc) : alloc_init_pte_prepare cfg s pmd al ≠ Res.timeout := by
  unfold alloc_init_pte_prepare
  split
  · cases al with
    | none => simp
    | some a =>
      have h := call_alloc_ne_timeout cfg a s
      cases hc : call_alloc cfg a s with
      | ok x => obtain ⟨f, s1⟩ := x; simp [hc]
      | bug => simp [hc]
      | timeout => exact absurd hc h
  · simp

theorem alloc_init_pmd_prepare_ne_timeout (cfg : Config) (s : State) (pud : Nat)
    (al : Option PgAlloc) : alloc_init_pmd_prepare cfg s pud al ≠ Res.timeout := by
  unfold alloc_init_pmd_prepare
  split
  · cases al with
    | none => simp
    | some a =>
      have h := alloc_pmd_frame_ne_timeout cfg a s
      cases hc : alloc_pmd_frame cfg a s with
      | ok x => obtain ⟨f, s1⟩ := x; simp [hc]
      | bug => simp [hc]
      | timeout => exact absurd hc h
  · simp

theorem alloc_init_pud_prepare_ne_timeout (cfg : Config) (s : State) (pgd : Nat)
    (al : Option PgAlloc) : alloc_init_pud_prepare cfg s pgd al ≠ Res.timeout := by
  unfold alloc_init_pud_prepare
  split
  · cases al with
    | none => simp
    | some a =>
      have h := call_alloc_ne_timeout cfg a s
      cases hc : call_alloc cfg a s with
      | ok x => obtain ⟨f, s1⟩ := x; simp [hc]
      | bug => simp [hc]
      | timeout => exact absurd hc h
  · simp

/-- The page-table level ends on every step `[addr, N)` of the pmd loop. -/
theorem alloc_init_pte_ne_timeout (cfg : Config) (F : Nat) (hF : 512 ≤ F) (s : State)
    (pmd addr N pfn prot : Nat) (al : Option PgAlloc)
    (h1 : addr % 4096 = 0) (h2 : addr < N) (h3 : N ≤ (addr / 2097152 + 1) * 2097152)
    (h4 : N % 4096 = 0) (h5 : N ≤ 18446744073709551616) :
    alloc_init_pte cfg F s pmd addr (N % U64) pfn prot al ≠ Res.timeout := by
  unfold alloc_init_pte
  have h := alloc_init_pte_prepare_ne_timeout cfg s pmd al
  cases hc : alloc_init_pte_prepare cfg s pmd al with
  | ok s1 =>
    simp only
    split
    · simp
    · obtain ⟨s2, e2, _⟩ := alloc_init_pte_loop_total cfg prot N h5 h4 F s1
        (pmd_page_paddr (s1.mem pmd) + pte_index addr * 8) addr pfn h1 h2 (by omega)
      rw [e2]
      simp
  | bug => simp
  | timeout => exact absurd hc h

theorem alloc_init_pmd_step_ne_timeout (cfg : Config) (F : Nat) (hF : 512 ≤ F) (s : State)
    (pmd addr N phys prot : Nat) (al : Option PgAlloc)
    (h1 : addr % 4096 = 0) (h2 : addr < N) (h3 : N ≤ (addr / 2097152 + 1) * 2097152)
    (h4 : N % 4096 = 0) (h5 : N ≤ 18446744073709551616) :
    alloc_init_pmd_step cfg F s pmd addr (N % U64) phys prot al ≠ Res.timeout := by
  unfold alloc_init_pmd_step
  split
  · unfold pmd_set_huge
    by_cases hb : (phys &&& not64 PMD_MASK != 0) = true
    · rw [if_pos hb]; simp
    · rw [if_neg hb]; simp
  · exact alloc_init_pte_ne_timeout cfg F hF s pmd addr N _ prot al h1 h2 h3 h4 h5

/-- The loop of `alloc_init_pmd` from `addr` to the true end `E` ends within
one pass per 2 MiB chunk that `[addr, E)` meets. -/
theorem alloc_init_pmd_loop_ne_timeout (cfg : Config) (F : Nat) (hF : 512 ≤ F) (prot E : Nat)
    (al : Option PgAlloc) (hE : E ≤ 18446744073709551616) (hEa : E % 4096 = 0) :
    ∀ (fuel : Nat) (s : State) (pmd addr phys : Nat),
      addr % 4096 = 0 → addr < E → (E + 2097151) / 2097152 - addr / 2097152 ≤ fuel →
      alloc_init_pmd_loop cfg F prot (E % U64) al fuel s pmd addr phys ≠ Res.timeout := by
  intro fuel
  induction fuel with
  | zero => intro s pmd addr phys h1 h2 h3; omega
  | succ n ih =>
    intro s pmd addr phys h1 h2 h3
    rw [alloc_init_pmd_loop]
    simp only
    rw [pmd_addr_end_eq addr E h2 hE]
    have hN1 : addr < min ((addr / 2097152 + 1) * 2097152) E := by omega
    have hN2 : min ((addr / 2097152 + 1) * 2097152) E ≤ (addr / 2097152 + 1) * 2097152 := by omega
    have hN3 : min ((addr / 2097152 + 1) * 2097152) E % 4096 = 0 := by omega
    have hN4 : min ((addr / 2097152 + 1) * 2097152) E ≤ 18446744073709551616 := by omega
    have hs := alloc_init_pmd_step_ne_timeout cfg F hF s pmd addr _ phys prot al h1 hN1 hN2 hN3 hN4
    cases hc : alloc_init_pmd_step cfg F s pmd addr
        (min ((addr / 2097152 + 1) * 2097152) E % U64) phys prot al with
    | ok s1 =>
      simp only
      split
      · rename_i hne
        have hlt : (addr / 2097152 + 1) * 2097152 < E := by
          by_contra hcon
          have : min ((addr / 2097152 + 1) * 2097152) E = E := by omega
          rw [this] at hne
          simp at hne
        have hm : min ((addr / 2097152 + 1) * 2097152) E % U64 = (addr / 2097152 + 1) * 2097152 := by
          rw [U64_eq]; omega
        rw [hm]
        exact ih s1 (pmd + 8) _ _ (by omega) hlt (by omega)
      · simp
    | bug => simp
    | timeout => exact absurd hc hs

/-- The pmd level ends on every step `[addr, N)` of the pud loop. -/
theorem alloc_init_pmd_ne_timeout (cfg : Config) (F : Nat) (hF : 512 ≤ F) (s : State)
    (pud addr N phys prot : Nat) (al : Option PgAlloc)
    (h1 : addr % 4096 = 0) (h2 : addr < N) (h3 : N ≤ (addr / 1073741824 + 1) * 1073741824)
    (h4 : N % 4096 = 0) (h5 : N ≤ 18446744073709551616) :
    alloc_init_pmd cfg F s pud addr (N % U64) phys prot al ≠ Res.timeout := by
  unfold alloc_init_pmd
  have h := alloc_init_pmd_prepare_ne_timeout cfg s pud al
  cases hc : alloc_init_pmd_prepare cfg s pud al with
  | ok s1 =>
    simp only
    split
    · simp
    · exact alloc_init_pmd_loop_ne_timeout cfg F hF prot N al h5 h4 F s1 _ addr phys h1 h2
        (by omega)
  | bug => simp
  | timeout => exact absurd hc h

theorem alloc_init_pud_step_ne_timeout (cfg : Config) (F : Nat) (hF : 512 ≤ F) (s : State)
    (pud addr N phys prot : Nat) (al : Option PgAlloc)
    (h1 : addr % 4096 = 0) (h2 : addr < N) (h3 : N ≤ (addr / 1073741824 + 1) * 1073741824)
    (h4 : N % 4096 = 0) (h5 : N ≤ 18446744073709551616) :
    alloc_init_pud_step cfg F s pud addr (N % U64) phys prot al ≠ Res.timeout := by
  unfold alloc_init_pud_step
  split
  · unfold pud_set_huge
    by_cases hb : (phys &&& not64 PUD_MASK != 0) = true
    · rw [if_pos hb]; simp
    · rw [if_neg hb]; simp
  · exact alloc_init_pmd_ne_timeout cfg F hF s pud addr N phys prot al h1 h2 h3 h4 h5

/-- The loop of `alloc_init_pud` from `addr` to the true end `E` ends within
one pass per 1 GiB chunk that `[addr, E)` meets. -/
theorem alloc_init_pud_loop_ne_timeout (cfg : Config) (F : Nat) (hF : 512 ≤ F) (prot E : Nat)
    (al : Option PgAlloc) (hE : E ≤ 18446744073709551616) (hEa : E % 4096 = 0) :
    ∀ (fuel : Nat) (s : State) (pud addr phys : Nat),
      addr % 4096 = 0 → addr < E → (E + 1073741823) / 1073741824 - addr / 1073741824 ≤ fuel →
      alloc_init_pud_loop cfg F prot (E % U64) al fuel s pud addr phys ≠ Res.timeout := by
  intro fuel
  induction fuel with
  | zero => intro s pud addr phys h1 h2 h3; omega
  | succ n ih =>
    intro s pud addr phys h1 h2 h3
    rw [alloc_init_pud_loop]
    simp only
    rw [pud_addr_end_eq addr E h2 hE]
    have hN1 : addr < min ((addr / 1073741824 + 1) * 1073741824) E := by omega
    have hN2 : min ((addr / 1073741824 + 1) * 1073741824) E
        ≤ (addr / 1073741824 + 1) * 1073741824 := by omega
    have hN3 : min ((addr / 1073741824 + 1) * 1073741824) E % 4096 = 0 := by omega
    have hN4 : min ((addr / 1073741824 + 1) * 1073741824) E ≤ 18446744073709551616 := by omega
    have hs := alloc_init_pud_step_ne_timeout cfg F hF s pud addr _ phys prot al h1 hN1 hN2 hN3 hN4
    cases hc : alloc_init_pud_step cfg F s pud addr
        (min ((addr / 1073741824 + 1) * 1073741824) E % U64) phys prot al with
    | ok s1 =>
      simp only
      split
      · rename_i hne
        have hlt : (addr / 1073741824 + 1) * 1073741824 < E := by
          by_contra hcon
          have : min ((addr / 1073741824 + 1) * 1073741824) E = E := by omega
          rw [this] at hne
          simp at hne
        have hm : min ((addr / 1073741824 + 1) * 1073741824) E % U64
            = (addr / 1073741824 + 1) * 1073741824 := by
          rw [U64_eq]; omega
        rw [hm]
        exact ih s1 (pud + 8) _ _ (by omega) hlt (by omega)
      · simp
    | bug => simp
    | timeout => exact absurd hc hs

/-- The pud level ends on every step `[addr, N)` of the pgd loop. -/
theorem alloc_init_pud_ne_timeout (cfg : Config) (F : Nat) (hF : 512 ≤ F) (s : State)
    (pgd addr N phys prot : Nat) (al : Option PgAlloc)
    (h1 : addr % 4096 = 0) (h2 : addr < N) (h3 : N ≤ (addr / 549755813888 + 1) * 549755813888)
    (h4 : N % 4096 = 0) (h5 : N ≤ 18446744073709551616) :
    alloc_init_pud cfg F s pgd addr (N % U64) phys prot al ≠ Res.timeout := by
  unfold alloc_init_pud
  have h := alloc_init_pud_prepare_ne_timeout cfg s pgd al
  cases hc : alloc_init_pud_prepare cfg s pgd al with
  | ok s1 =>
    simp only
    split
    · simp
    · exact alloc_init_pud_loop_ne_timeout cfg F hF prot N al h5 h4 F s1 _ addr phys h1 h2
        (by omega)
  | bug => simp
  | timeout => exact absurd hc h

/-- The loop of `init_pgd` from `addr` to the true end `E` ends within one
pass per 512 GiB chunk that `[addr, E)` meets. -/
theorem init_pgd_loop_ne_timeout (cfg : Config) (F : Nat) (hF : 512 ≤ F) (prot E : Nat)
    (al : Option PgAlloc) (hE : E ≤ 18446744073709551616) (hEa : E % 4096 = 0) :
    ∀ (fuel : Nat) (s : State) (pgd addr phys : Nat),
      addr % 4096 = 0 → addr < E → (E + 549755813887) / 549755813888 - addr / 549755813888 ≤ fuel →
      init_pgd_loop cfg F prot (E % U64) al fuel s pgd addr phys ≠ Res.timeout := by
  intro fuel
  induction fuel with
  | zero => intro s pgd addr phys h1 h2 h3; omega
  | succ n ih =>
    intro s pgd addr phys h1 h2 h3
    rw [init_pgd_loop]
    simp only
    rw [pgd_addr_end_eq addr E h2 hE]
    have hN1 : addr < min ((addr / 549755813888 + 1) * 549755813888) E := by omega
    have hN2 : min ((addr / 549755813888 + 1) * 549755813888) E
        ≤ (addr / 549755813888 + 1) * 549755813888 := by omega
    have hN3 : min ((addr / 549755813888 + 1) * 549755813888) E % 4096 = 0 := by omega
    have hN4 : min ((addr / 549755813888 + 1) * 549755813888) E ≤ 18446744073709551616 := by omega
    have hs := alloc_init_pud_ne_timeout cfg F hF s pgd addr _ phys prot al h1 hN1 hN2 hN3 hN4
    cases hc : alloc_init_pud cfg F s pgd addr
        (min ((addr / 549755813888 + 1) * 549755813888) E % U64) phys prot al with
    | ok s1 =>
      simp only
      split
      · rename_i hne
        have hlt : (addr / 549755813888 + 1) * 549755813888 < E := by
          by_contra hcon
          have : min ((addr / 549755813888 + 1) * 549755813888) E = E := by omega
          rw [this] at hne
          simp at hne
        have hm : min ((addr / 549755813888 + 1) * 549755813888) E % U64
            = (addr / 549755813888 + 1) * 549755813888 := by
          rw [U64_eq]; omega
        rw [hm]
        exact ih s1 (pgd + 8) _ _ (by omega) hlt (by omega)
      · simp
    | bug => simp
    | timeout => exact absurd hc hs

theorem PAGE_ALIGN_mod (x : Nat) : PAGE_ALIGN x % 4096 = 0 := by
  unfold PAGE_ALIGN
  rw [and_PAGE_MASK]
  omega

/-- The four nested loops end: with fuel `F` of at least `2 ^ 25` (the number
of 512 GiB chunks of the 64-bit space; every inner loop makes at most 512
passes) `init_pgd` never runs out of fuel, whatever the tables hold. -/
theorem init_pgd_ne_timeout (cfg : Config) (F : Nat) (hF : 33554432 ≤ F) (s : State)
    (pgd phys virt size prot : Nat) (al : Option PgAlloc)
    (hlen : 0 < PAGE_ALIGN ((size + (virt &&& not64 PAGE_MASK)) % U64))
    (hend : (virt &&& PAGE_MASK) + PAGE_ALIGN ((size + (virt &&& not64 PAGE_MASK)) % U64)
      ≤ 18446744073709551616) :
    init_pgd cfg F s pgd phys virt size prot al ≠ Res.timeout := by
  unfold init_pgd
  split
  · simp
  · simp only
    have ha : (virt &&& PAGE_MASK) % 4096 = 0 := by rw [and_PAGE_MASK]; omega
    have hl := PAGE_ALIGN_mod ((size + (virt &&& not64 PAGE_MASK)) % U64)
    exact init_pgd_loop_ne_timeout cfg F (by omega) prot _ al hend (by omega) F s pgd _ _ ha
      (by omega) (by omega)

/-! ## What a list of calls leaves alone -/

/-- A list of good calls on a well-formed directory: every call returns, and
an address of the window that lies in the pages of none of the calls resolves
to the same physical address as before, or not at all if it did not before. -/
theorem run_requests_outside {cfg : Config} {lim : PgAlloc → Nat} (WB pgdir F : Nat)
    (hwb1 : WB % 281474976710656 = 0) (hwb2 : WB + 281474976710656 ≤ 18446744073709551616)
    (hF : 512 ≤ F) :
    ∀ (rs : List MapReq) (s : State) (own : Own),
      (∀ r ∈ rs, GoodReq WB r) → WF s.mem own → own pgdir = some (0, WB) →
      Fresh cfg lim s own → (∀ a, s.count a + 134480384 * rs.length ≤ lim a) →
      Blocks1 s.mem own →
      ∃ s1, run_requests cfg F pgdir rs s = Res.ok s1 ∧
        ∀ va, WB ≤ va → va < WB + 281474976710656 →
          (∀ r ∈ rs, va < r.req.A0 ∨ r.req.E ≤ va) →
          (resolve s1.mem pgdir va).map Prod.fst = (resolve s.mem pgdir va).map Prod.fst := by
  intro rs
  induction rs with
  | nil =>
    intro s own _ _ _ _ _ _
    exact ⟨s, rfl, fun _ _ _ _ => rfl⟩
  | cons r0 rest ih =>
    intro s own hg hw hroot hfr hbud hblk
    have g0 := hg r0 (List.mem_cons_self _ _)
    have hbud1 : ∀ a, s.count a + 134480384 * (rest.length + 1) ≤ lim a := hbud
    obtain ⟨sA, ownA, eA, rA, _⟩ := @init_pgd_spec cfg lim s own
      WB pgdir r0.phys r0.virt r0.size r0.prot PgAlloc.early_pgtable_alloc F
      ((page_offset_eq _ _).mpr g0.offs) g0.pos hwb1 hwb2 g0.lo g0.hi g0.phys g0.prot_addr
      g0.prot_type hw hroot hfr (by intro a; have := hbud1 a; omega) hF
    obtain ⟨bA, oA⟩ := rA.out hblk
    obtain ⟨s1, e1, o1⟩ := ih sA ownA
      (fun r hr => hg r (List.mem_cons_of_mem _ hr)) rA.wf (rA.le _ _ hroot) rA.fresh
      (by intro a; have := hbud1 a; have := rA.used a; omega) bA
    refine ⟨s1, ?_, ?_⟩
    · show (__create_pgd_mapping cfg F s pgdir r0.phys r0.virt r0.size r0.prot
        (some PgAlloc.early_pgtable_alloc)).bind (run_requests cfg F pgdir rest) = Res.ok s1
      unfold __create_pgd_mapping
      rw [eA]
      exact e1
    · intro va v1 v2 v3
      rw [o1 va v1 v2 (fun r hr => v3 r (List.mem_cons_of_mem _ hr))]
      exact oA pgdir 0 WB va hroot v1 v2 (v3 r0 (List.mem_cons_self _ _))

/-- The function `map_mem` leaves the linear alias of a bank marked nomap
alone, when the kernel text and rodata do not lie in that bank. -/
theorem map_mem_nomap {cfg : Config} {lim : PgAlloc → Nat} {s : State} {own : Own}
    (pgd F : Nat) (regs : List memblock_region) (B : BankLayout cfg regs) (hF : 512 ≤ F)
    (hw : WF s.mem own) (hroot : own pgd = some (0, 18446462598732840960))
    (hfr : Fresh cfg lim s own)
    (hbud : ∀ a, s.count a + 134480384 * (map_mem_requests cfg regs).length ≤ lim a)
    (hblk : Blocks1 s.mem own) :
    ∃ s1, map_mem cfg F pgd regs s = Res.ok s1 ∧
      ∀ reg ∈ regs, reg.nomap = true →
        (__pa_symbol cfg cfg.init_begin ≤ reg.base
          ∨ reg.base + reg.size ≤ __pa_symbol cfg cfg.stext) →
        ∀ pa, reg.base ≤ pa → pa < reg.base + reg.size →
          (resolve s1.mem pgd (__phys_to_virt cfg pa)).map Prod.fst
            = (resolve s.mem pgd (__phys_to_virt cfg pa)).map Prod.fst := by
  have good : ∀ r ∈ map_mem_requests cfg regs, GoodReq 18446462598732840960 r := by
    intro r hr
    obtain ⟨g, hg, _, _, hrg⟩ := map_mem_requests_mem cfg regs r hr
    rw [B.end_eq g hg] at hrg
    exact (map_memblock_requests_good cfg _ _ (B.each g hg) r hrg).2.2.2.1
  obtain ⟨s1, e1, o1⟩ :=
    @run_requests_outside cfg lim 18446462598732840960 pgd F (by norm_num) (by norm_num) hF
      (map_mem_requests cfg regs) s own good hw hroot hfr hbud hblk
  refine ⟨s1, by rw [map_mem_eq]; exact e1, ?_⟩
  intro reg hreg hn hk pa b1 b2
  have L := B.each reg hreg
  have := L.ms_start; have := L.e_lin; have := L.ms_al; have := L.ks_al; have := L.ke_al
  have := L.k_lt
  have al := B.aligned reg hreg
  have pv := phys_to_virt_eq cfg pa (by omega) (by omega)
  rw [pv]
  apply o1 _ (by omega) (by omega)
  intro r hr
  obtain ⟨g, hg, gn, _, hrg⟩ := map_mem_requests_mem cfg regs r hr
  rw [B.end_eq g hg] at hrg
  have Lg := B.each g hg
  obtain ⟨_, a2, a3, _, a5, _, a7⟩ := map_memblock_requests_good cfg _ _ Lg r hrg
  obtain ⟨a8, _⟩ := (map_memblock_requests_bank cfg _ _ Lg).1 r hrg
  obtain ⟨c1, c2, c3, c4⟩ := linear_req_range cfg r L.ms_al a2 a3
  rw [c1, c2]
  have alg := B.aligned g hg
  have hne : g ≠ reg := by
    intro h
    rw [h, hn] at gn
    cases gn
  have hap := B.apart.forall (fun _ _ h => h.symm) hg hreg hne
  rcases a5 with p | p
  · have x := a8 p
    omega
  · have x := a7 p
    omega

/-! ## What a run of the descent with its fixmap slots adds to the trace -/

theorem Ext.same (P : Event → Prop) (s : State) : Ext P s s :=
  ⟨[], rfl, fun _ h => by cases h⟩

theorem Ext.seq {P : Event → Prop} {s s1 s2 : State} (h1 : Ext P s s1) (h2 : Ext P s1 s2) :
    Ext P s s2 := by
  obtain ⟨e1, t1, q1⟩ := h1
  obtain ⟨e2, t2, q2⟩ := h2
  refine ⟨e2 ++ e1, by rw [t2, t1, List.append_assoc], ?_⟩
  intro e he
  rcases List.mem_append.mp he with h | h
  · exact q2 e h
  · exact q1 e h

theorem Ext.one {P : Event → Prop} {s s1 : State} (e : Event) (ht : s1.trace = e :: s.trace)
    (he : P e) : Ext P s s1 :=
  ⟨[e], ht, fun x hx => by rw [List.mem_singleton] at hx; rw [hx]; exact he⟩

theorem Ext.of_eq {P : Event → Prop} {s s1 : State} (ht : s1.trace = s.trace) : Ext P s s1 :=
  ⟨[], ht, fun _ h => by cases h⟩

theorem Ext.of_grow {s s1 : State} (h : Grow s s1) : Ext (fun _ => True) s s1 := by
  obtain ⟨evs, t, _⟩ := h
  exact ⟨evs, t, fun _ _ => trivial⟩

/-- A bind that returned: both halves returned. -/
theorem Res.bind_eq_ok {α β : Type} {r : Res α} {f : α → Res β} {y : β}
    (h : r.bind f = Res.ok y) : ∃ x, r = Res.ok x ∧ f x = Res.ok y := by
  cases r with
  | ok x => exact ⟨x, rfl, h⟩
  | bug => cases h
  | timeout => cases h

/-- The two shapes of a call of `__set_fixmap` that returns. -/
theorem set_fixmap_cases (cfg : Config) (s s1 : State) (idx phys flags : Nat)
    (h : __set_fixmap cfg s idx phys flags = Res.ok s1) :
    (flags ≠ 0 ∧
      s1 = set_pte s (fixmap_slot cfg idx) (pfn_pte (phys >>> PAGE_SHIFT) flags)) ∨
    (flags = 0 ∧
      s1 = flush_tlb_kernel_range (pte_clear s (fixmap_slot cfg idx)) (__fix_to_virt cfg idx)
        ((__fix_to_virt cfg idx + PAGE_SIZE) % U64)) := by
  unfold __set_fixmap at h
  split at h
  · cases h
  · by_cases hf : flags = 0
    · subst hf
      simp only [bne_self_eq_false, Bool.false_eq_true, if_false, Res.ok.injEq] at h
      exact Or.inr ⟨rfl, h.symm⟩
    · have : (flags != 0) = true := by simpa using hf
      simp only [this, if_true, Res.ok.injEq] at h
      exact Or.inl ⟨hf, h.symm⟩

/-- A call of `clear_fixmap` that returns ends with the store of 0 into the
slot and the invalidation of the page of the slot. -/
theorem clear_fixmap_trace (cfg : Config) (s s1 : State) (idx : Nat)
    (h : clear_fixmap cfg s idx = Res.ok s1) :
    s1.trace = Event.flush_tlb_kernel_range (__fix_to_virt cfg idx)
        ((__fix_to_virt cfg idx + PAGE_SIZE) % U64)
      :: Event.write (fixmap_slot cfg idx) 0 :: s.trace := by
  rcases set_fixmap_cases cfg s s1 idx 0 0 h with ⟨h1, _⟩ | ⟨_, h2⟩
  · exact absurd rfl h1
  · rw [h2]; rfl

theorem set_fixmap_ext (cfg : Config) (s s1 : State) (idx phys flags : Nat)
    (h : __set_fixmap cfg s idx phys flags = Res.ok s1) : Ext (fun _ => True) s s1 := by
  rcases set_fixmap_cases cfg s s1 idx phys flags h with ⟨_, h2⟩ | ⟨_, h2⟩
  · rw [h2]; exact Ext.one _ rfl trivial
  · rw [h2]
    exact ⟨[_, _], rfl, fun _ _ => trivial⟩

theorem call_alloc_fixmap_ext (cfg : Config) (a : PgAlloc) (s : State) (r : Nat × State)
    (h : call_alloc_fixmap cfg a s = Res.ok r) : Ext (fun _ => True) s r.2 := by
  cases a with
  | early_pgtable_alloc =>
    simp only [call_alloc_fixmap, early_pgtable_alloc_fixmap, take_frame] at h
    split at h
    · cases h
    · obtain ⟨r1, h1, h2⟩ := Res.bind_eq_ok h
      obtain ⟨s3, h3, h4⟩ := Res.bind_eq_ok h2
      simp only [Res.ok.injEq] at h4
      subst h4
      unfold pte_set_fixmap at h1
      obtain ⟨s1, h5, h6⟩ := Res.bind_eq_ok h1
      simp only [Res.ok.injEq] at h6
      subst h6
      have e1 := set_fixmap_ext cfg _ _ _ _ _ h5
      have e2 : Ext (fun _ => True) s1 (memset_fixmap cfg s1
          ((__fix_to_virt cfg cfg.FIX_PTE
            + (cfg.frames PgAlloc.early_pgtable_alloc (s.count PgAlloc.early_pgtable_alloc)
              &&& (PAGE_SIZE - 1))) % U64)) := Ext.of_eq rfl
      have e3 := set_fixmap_ext cfg _ _ _ _ _ h3
      have e0 : Ext (fun _ => True) s
          { s with
            count := fun b => if b = PgAlloc.early_pgtable_alloc
              then s.count PgAlloc.early_pgtable_alloc + 1 else s.count b,
            trace := Event.alloc PgAlloc.early_pgtable_alloc
              (cfg.frames PgAlloc.early_pgtable_alloc (s.count PgAlloc.early_pgtable_alloc))
              :: s.trace } := Ext.one _ rfl trivial
      exact e0.seq (e1.seq (e2.seq e3))
  | late_pgtable_alloc =>
    exact Ext.of_grow (call_alloc_grow cfg PgAlloc.late_pgtable_alloc s r h)
  | rkp_ro_alloc_phys =>
    exact Ext.of_grow (call_alloc_grow cfg PgAlloc.rkp_ro_alloc_phys s r h)

theorem alloc_pmd_frame_fixmap_ext (cfg : Config) (a : PgAlloc) (s : State) (r : Nat × State)
    (h : alloc_pmd_frame_fixmap cfg a s = Res.ok r) : Ext (fun _ => True) s r.2 := by
  unfold alloc_pmd_frame_fixmap at h
  split at h
  · have g1 : Ext (fun _ => True) s (take_frame cfg PgAlloc.rkp_ro_alloc_phys s).2 :=
      Ext.one (Event.alloc _ _) rfl trivial
    simp only [rkp_ro_alloc_phys] at h
    split at h
    · exact g1.seq (call_alloc_fixmap_ext cfg a _ r h)
    · simp only [Res.ok.injEq] at h
      subst h
      exact g1
  · exact call_alloc_fixmap_ext cfg a s r h

theorem split_pmd_ext (s : State) (pmd pte : Nat) : Ext (fun _ => True) s (split_pmd s pmd pte) :=
  Ext.of_grow (split_pmd_loop_grow _ _ _ _ _)

theorem split_pud_ext (s : State) (pud pmd : Nat) : Ext (fun _ => True) s (split_pud s pud pmd) :=
  Ext.of_grow (split_pud_loop_grow _ _ _ _ _ _)

/-- The branch of `alloc_init_pte` that makes a page table, when it is taken
and returns, ends with the store of the table reference, `flush_tlb_all`, and
the clearing of the slot with its invalidation. -/
theorem alloc_init_pte_prepare_fixmap_trace (cfg : Config) (s s1 : State) (pmd : Nat)
    (al : Option PgAlloc) (h : alloc_init_pte_prepare_fixmap cfg s pmd al = Res.ok s1) :
    Ext (fun _ => True) s s1 ∧
    ((pmd_none (s.mem pmd) || pmd_sect (s.mem pmd)) = true →
      ∃ v t, s1.trace = Event.flush_tlb_kernel_range (__fix_to_virt cfg cfg.FIX_PTE)
          ((__fix_to_virt cfg cfg.FIX_PTE + PAGE_SIZE) % U64)
        :: Event.write (fixmap_slot cfg cfg.FIX_PTE) 0 :: Event.flush_tlb_all
        :: Event.write pmd v :: t) := by
  unfold alloc_init_pte_prepare_fixmap at h
  split at h
  · cases al with
    | none => cases h
    | some a =>
      simp only at h
      obtain ⟨r, h1, h2⟩ := Res.bind_eq_ok h
      obtain ⟨s2, h3, h4⟩ := Res.bind_eq_ok h2
      have e1 := call_alloc_fixmap_ext cfg a s r h1
      have e2 := set_fixmap_ext cfg _ _ _ _ _ h3
      have e3 : Ext (fun _ => True) s2
          (if pmd_sect (s2.mem pmd) then split_pmd s2 pmd r.1 else s2) := by
        split
        · exact split_pmd_ext _ _ _
        · exact Ext.same _ _
      have e4 : Ext (fun _ => True) (if pmd_sect (s2.mem pmd) then split_pmd s2 pmd r.1 else s2)
          (flush_tlb_all (set_pmd (if pmd_sect (s2.mem pmd) then split_pmd s2 pmd r.1 else s2)
            pmd (r.1 ||| PMD_TYPE_TABLE))) := ⟨[_, _], rfl, fun _ _ => trivial⟩
      have e5 := set_fixmap_ext cfg _ _ _ _ _ h4
      have t5 := clear_fixmap_trace cfg _ _ _ h4
      exact ⟨e1.seq (e2.seq (e3.seq (e4.seq e5))), fun _ => ⟨_, _, t5⟩⟩
  · rename_i hc
    simp only [Res.ok.injEq] at h
    subst h
    exact ⟨Ext.same _ _, fun hh => absurd hh hc⟩

/-- The same for the branch of `alloc_init_pmd` that makes a pmd table. -/
theorem alloc_init_pmd_prepare_fixmap_trace (cfg : Config) (s s1 : State) (pud : Nat)
    (al : Option PgAlloc) (h : alloc_init_pmd_prepare_fixmap cfg s pud al = Res.ok s1) :
    Ext (fun _ => True) s s1 ∧
    ((pud_none (s.mem pud) || pud_sect (s.mem pud)) = true →
      ∃ v t, s1.trace = Event.flush_tlb_kernel_range (__fix_to_virt cfg (FIX_PMD cfg))
          ((__fix_to_virt cfg (FIX_PMD cfg) + PAGE_SIZE) % U64)
        :: Event.write (fixmap_slot cfg (FIX_PMD cfg)) 0 :: Event.flush_tlb_all
        :: Event.write pud v :: t) := by
  unfold alloc_init_pmd_prepare_fixmap at h
  split at h
  · cases al with
    | none => cases h
    | some a =>
      simp only at h
      obtain ⟨r, h1, h2⟩ := Res.bind_eq_ok h
      obtain ⟨s2, h3, h4⟩ := Res.bind_eq_ok h2
      have e1 := alloc_pmd_frame_fixmap_ext cfg a s r h1
      have e2 := set_fixmap_ext cfg _ _ _ _ _ h3
      have e3 : Ext (fun _ => True) s2
          (if pud_sect (s2.mem pud) then split_pud s2 pud r.1 else s2) := by
        split
        · exact split_pud_ext _ _ _
        · exact Ext.same _ _
      have e4 : Ext (fun _ => True) (if pud_sect (s2.mem pud) then split_pud s2 pud r.1 else s2)
          (flush_tlb_all (set_pud (if pud_sect (s2.mem pud) then split_pud s2 pud r.1 else s2)
            pud (r.1 ||| PUD_TYPE_TABLE))) := ⟨[_, _], rfl, fun _ _ => trivial⟩
      have e5 := set_fixmap_ext cfg _ _ _ _ _ h4
      have t5 := clear_fixmap_trace cfg _ _ _ h4
      exact ⟨e1.seq (e2.seq (e3.seq (e4.seq e5))), fun _ => ⟨_, _, t5⟩⟩
  · rename_i hc
    simp only [Res.ok.injEq] at h
    subst h
    exact ⟨Ext.same _ _, fun hh => absurd hh hc⟩

theorem alloc_init_pud_prepare_fixmap_ext (cfg : Config) (s s1 : State) (pgd : Nat)
    (al : Option PgAlloc) (h : alloc_init_pud_prepare_fixmap cfg s pgd al = Res.ok s1) :
    Ext (fun _ => True) s s1 := by
  unfold alloc_init_pud_prepare_fixmap at h
  split at h
  · cases al with
    | none => cases h
    | some a =>
      simp only at h
      obtain ⟨r, h1, h2⟩ := Res.bind_eq_ok h
      simp only [Res.ok.injEq] at h2
      subst h2
      exact (call_alloc_fixmap_ext cfg a s r h1).seq (Ext.one _ rfl trivial)
  · simp only [Res.ok.injEq] at h
    subst h
    exact Ext.same _ _

/-- A trace that ends with the clearing of a slot extends what it extends. -/
theorem ext_of_closed {s t s1 : State} {a b : Event} (h1 : Ext (fun _ => True) s t)
    (h2 : s1.trace = a :: b :: t.trace) : Ext (fun _ => True) s s1 :=
  h1.seq ⟨[a, b], h2, fun _ _ => trivial⟩

/-- The function `alloc_init_pte`, when it returns, has as its last events the
clearing of the `FIX_PTE` slot and the invalidation of its page. -/
theorem alloc_init_pte_fixmap_trace (cfg : Config) (F : Nat) (s s1 : State)
    (pmd addr e pfn prot : Nat) (al : Option PgAlloc)
    (h : alloc_init_pte_fixmap cfg F s pmd addr e pfn prot al = Res.ok s1) :
    ∃ t, Ext (fun _ => True) s t ∧
      s1.trace = Event.flush_tlb_kernel_range (__fix_to_virt cfg cfg.FIX_PTE)
          ((__fix_to_virt cfg cfg.FIX_PTE + PAGE_SIZE) % U64)
        :: Event.write (fixmap_slot cfg cfg.FIX_PTE) 0 :: t.trace := by
  unfold alloc_init_pte_fixmap at h
  obtain ⟨s2, h1, h2⟩ := Res.bind_eq_ok h
  split at h2
  · cases h2
  · simp only at h2
    obtain ⟨s3, h3, h4⟩ := Res.bind_eq_ok h2
    obtain ⟨s4, h5, h6⟩ := Res.bind_eq_ok h4
    have e1 := (alloc_init_pte_prepare_fixmap_trace cfg s s2 pmd al h1).1
    have e2 := set_fixmap_ext cfg _ _ _ _ _ h3
    have e3 := Ext.of_grow (alloc_init_pte_loop_wrote cfg prot e F s3 s4 _ addr pfn h5).grow
    exact ⟨s4, e1.seq (e2.seq e3), clear_fixmap_trace cfg _ _ _ h6⟩

theorem alloc_init_pmd_step_fixmap_ext (cfg : Config) (F : Nat) (s s1 : State)
    (pmd addr next phys prot : Nat) (al : Option PgAlloc)
    (h : alloc_init_pmd_step_fixmap cfg F s pmd addr next phys prot al = Res.ok s1) :
    Ext (fun _ => True) s s1 := by
  unfold alloc_init_pmd_step_fixmap at h
  split at h
  · simp only at h
    obtain ⟨s2, h1, h2⟩ := Res.bind_eq_ok h
    simp only [Res.ok.injEq] at h2
    subst h2
    unfold pmd_set_huge at h1
    split at h1
    · cases h1
    · simp only [Res.ok.injEq] at h1
      subst h1
      exact (Ext.one _ rfl trivial).seq (Ext.of_grow (release_old_grow cfg _ _))
  · obtain ⟨t, e1, e2⟩ := alloc_init_pte_fixmap_trace cfg F s s1 pmd addr next _ prot al h
    exact ext_of_closed e1 e2

theorem alloc_init_pmd_loop_fixmap_ext (cfg : Config) (F : Nat) (prot e : Nat)
    (al : Option PgAlloc) :
    ∀ (fuel : Nat) (s s1 : State) (pmd addr phys : Nat),
      alloc_init_pmd_loop_fixmap cfg F prot e al fuel s pmd addr phys = Res.ok s1 →
      Ext (fun _ => True) s s1 := by
  intro fuel
  induction fuel with
  | zero =>
    intro s s1 pmd addr phys h
    rw [alloc_init_pmd_loop_fixmap] at h
    cases h
  | succ n ih =>
    intro s s1 pmd addr phys h
    rw [alloc_init_pmd_loop_fixmap] at h
    simp only at h
    obtain ⟨s2, h1, h2⟩ := Res.bind_eq_ok h
    have e1 := alloc_init_pmd_step_fixmap_ext cfg F s s2 pmd addr _ phys prot al h1
    split at h2
    · exact e1.seq (ih _ _ _ _ _ h2)
    · simp only [Res.ok.injEq] at h2
      subst h2
      exact e1

/-- The function `alloc_init_pmd`, when it returns, has as its last events the
clearing of the `FIX_PMD` slot and the invalidation of its page. -/
theorem alloc_init_pmd_fixmap_trace (cfg : Config) (F : Nat) (s s1 : State)
    (pud addr e phys prot : Nat) (al : Option PgAlloc)
    (h : alloc_init_pmd_fixmap cfg F s pud addr e phys prot al = Res.ok s1) :
    ∃ t, Ext (fun _ => True) s t ∧
      s1.trace = Event.flush_tlb_kernel_range (__fix_to_virt cfg (FIX_PMD cfg))
          ((__fix_to_virt cfg (FIX_PMD cfg) + PAGE_SIZE) % U64)
        :: Event.write (fixmap_slot cfg (FIX_PMD cfg)) 0 :: t.trace := by
  unfold alloc_init_pmd_fixmap at h
  obtain ⟨s2, h1, h2⟩ := Res.bind_eq_ok h
  split at h2
  · cases h2
  · simp only at h2
    obtain ⟨s3, h3, h4⟩ := Res.bind_eq_ok h2
    obtain ⟨s4, h5, h6⟩ := Res.bind_eq_ok h4
    have e1 := (alloc_init_pmd_prepare_fixmap_trace cfg s s2 pud al h1).1
    have e2 := set_fixmap_ext cfg _ _ _ _ _ h3
    have e3 := alloc_init_pmd_loop_fixmap_ext cfg F prot e al F s3 s4 _ addr phys h5
    exact ⟨s4, e1.seq (e2.seq e3), clear_fixmap_trace cfg _ _ _ h6⟩

theorem alloc_init_pud_step_fixmap_ext (cfg : Config) (F : Nat) (s s1 : State)
    (pud addr next phys prot : Nat) (al : Option PgAlloc)
    (h : alloc_init_pud_step_fixmap cfg F s pud addr next phys prot al = Res.ok s1) :
    Ext (fun _ => True) s s1 := by
  unfold alloc_init_pud_step_fixmap at h
  split at h
  · simp only at h
    obtain ⟨s2, h1, h2⟩ := Res.bind_eq_ok h
    simp only [Res.ok.injEq] at h2
    subst h2
    unfold pud_set_huge at h1
    split at h1
    · cases h1
    · simp only [Res.ok.injEq] at h1
      subst h1
      exact (Ext.one _ rfl trivial).seq (Ext.of_grow (release_old_grow cfg _ _))
  · obtain ⟨t, e1, e2⟩ := alloc_init_pmd_fixmap_trace cfg F s s1 pud addr next phys prot al h
    exact ext_of_closed e1 e2

theorem alloc_init_pud_loop_fixmap_ext (cfg : Config) (F : Nat) (prot e : Nat)
    (al : Option PgAlloc) :
    ∀ (fuel : Nat) (s s1 : State) (pud addr phys : Nat),
      alloc_init_pud_loop_fixmap cfg F prot e al fuel s pud addr phys = Res.ok s1 →
      Ext (fun _ => True) s s1 := by
  intro fuel
  induction fuel with
  | zero =>
    intro s s1 pud addr phys h
    rw [alloc_init_pud_loop_fixmap] at h
    cases h
  | succ n ih =>
    intro s s1 pud addr phys h
    rw [alloc_init_pud_loop_fixmap] at h
    simp only at h
    obtain ⟨s2, h1, h2⟩ := Res.bind_eq_ok h
    have e1 := alloc_init_pud_step_fixmap_ext cfg F s s2 pud addr _ phys prot al h1
    split at h2
    · exact e1.seq (ih _ _ _ _ _ h2)
    · simp only [Res.ok.injEq] at h2
      subst h2
      exact e1

/-- The function `alloc_init_pud`, when it returns, has as its last events the
clearing of the `FIX_PUD` slot and the invalidation of its page:
`pud_clear_fixmap()` is its last statement. -/
theorem alloc_init_pud_fixmap_trace (cfg : Config) (F : Nat) (s s1 : State)
    (pgd addr e phys prot : Nat) (al : Option PgAlloc)
    (h : alloc_init_pud_fixmap cfg F s pgd addr e phys prot al = Res.ok s1) :
    ∃ t, Ext (fun _ => True) s t ∧
      s1.trace = Event.flush_tlb_kernel_range (__fix_to_virt cfg (FIX_PUD cfg))
          ((__fix_to_virt cfg (FIX_PUD cfg) + PAGE_SIZE) % U64)
        :: Event.write (fixmap_slot cfg (FIX_PUD cfg)) 0 :: t.trace := by
  unfold alloc_init_pud_fixmap at h
  obtain ⟨s2, h1, h2⟩ := Res.bind_eq_ok h
  split at h2
  · cases h2
  · simp only at h2
    obtain ⟨s3, h3, h4⟩ := Res.bind_eq_ok h2
    obtain ⟨s4, h5, h6⟩ := Res.bind_eq_ok h4
    have e1 := alloc_init_pud_prepare_fixmap_ext cfg s s2 pgd al h1
    have e2 := set_fixmap_ext cfg _ _ _ _ _ h3
    have e3 := alloc_init_pud_loop_fixmap_ext cfg F prot e al F s3 s4 _ addr phys h5
    exact ⟨s4, e1.seq (e2.seq e3), clear_fixmap_trace cfg _ _ _ h6⟩

/-- The loop of `init_pgd`, when it returns, returns what its last call of
`alloc_init_pud` returned. -/
theorem init_pgd_loop_fixmap_trace (cfg : Config) (F : Nat) (prot e : Nat)
    (al : Option PgAlloc) :
    ∀ (fuel : Nat) (s s1 : State) (pgd addr phys : Nat),
      init_pgd_loop_fixmap cfg F prot e al fuel s pgd addr phys = Res.ok s1 →
      ∃ t, Ext (fun _ => True) s t ∧
        s1.trace = Event.flush_tlb_kernel_range (__fix_to_virt cfg (FIX_PUD cfg))
            ((__fix_to_virt cfg (FIX_PUD cfg) + PAGE_SIZE) % U64)
          :: Event.write (fixmap_slot cfg (FIX_PUD cfg)) 0 :: t.trace := by
  intro fuel
  induction fuel with
  | zero =>
    intro s s1 pgd addr phys h
    rw [init_pgd_loop_fixmap] at h
    cases h
  | succ n ih =>
    intro s s1 pgd addr phys h
    rw [init_pgd_loop_fixmap] at h
    simp only at h
    obtain ⟨s2, h1, h2⟩ := Res.bind_eq_ok h
    obtain ⟨t, e1, e2⟩ := alloc_init_pud_fixmap_trace cfg F s s2 pgd addr _ phys prot al h1
    split at h2
    · obtain ⟨t1, e3, e4⟩ := ih _ _ _ _ _ h2
      exact ⟨t1, (ext_of_closed e1 e2).seq e3, e4⟩
    · simp only [Res.ok.injEq] at h2
      subst h2
      exact ⟨t, e1, e2⟩

/-- A trace whose most recent event is an invalidation has an invalidation
after every store in it. -/
theorem write_then_invalidation (a b : Nat) (rest : List Event) :
    ∀ l1 p v l2, Event.flush_tlb_kernel_range a b :: rest = l1 ++ Event.write p v :: l2 →
      ∃ ev ∈ l1, is_invalidation ev = true := by
  intro l1 p v l2 h
  cases l1 with
  | nil => simp at h
  | cons x xs =>
    simp only [List.cons_append, List.cons.injEq] at h
    exact ⟨x, List.mem_cons_self _ _, by rw [← h.1]; rfl⟩

/-! ## The descent without an allocator -/

theorem NoTable.chain {cfg : Config} {own : Own} {prot : Nat} {s s1 s2 : State}
    (h1 : NoTable cfg own prot s s1) (h2 : NoTable cfg own prot s1 s2) :
    NoTable cfg own prot s s2 :=
  ⟨Eq.trans h2.1 h1.1, h2.2.1, h1.2.2.seq h2.2.2⟩

/-- A store into `bm_pte` keeps the directory well formed. -/
theorem WF.set_slot {cfg : Config} {own : Own} {mem : Nat → Nat} (hw : WF mem own)
    (hs : SlotsOk cfg own) (addr v : Nat) :
    WF (fun q => if q = fixmap_pte cfg addr then v else mem q) own := by
  have hj : pte_index addr < 512 := by rw [pte_index_eq]; omega
  rcases hs.2 with h | ⟨b, h⟩
  · apply hw.set_unowned
    intro q hq
    by_cases he : q = fixmap_pte cfg addr
    · exfalso
      apply hq
      rw [he]
      unfold fixmap_pte
      rw [frame_of_slot _ _ hs.1 hj]
      exact h
    · simp only [he, if_false]
  · exact hw.set cfg.bm_pte 3 b (pte_index addr) v h hj (fun h3 => by omega)

/-- A call of `__set_fixmap` for one of the three slots of the descent
creates no table. -/
theorem set_fixmap_notable {cfg : Config} {own : Own} (prot : Nat) {s s1 : State}
    (hw : WF s.mem own) (hs : SlotsOk cfg own) (idx phys flags : Nat)
    (hi : idx = cfg.FIX_PTE ∨ idx = FIX_PMD cfg ∨ idx = FIX_PUD cfg)
    (h : __set_fixmap cfg s idx phys flags = Res.ok s1) : NoTable cfg own prot s s1 := by
  have hev : ∀ v, noalloc_event cfg own prot (Event.write (fixmap_slot cfg idx) v) := by
    intro v
    left
    rcases hi with h | h | h
    · left; rw [h]
    · right; left; rw [h]
    · right; right; rw [h]
  rcases set_fixmap_cases cfg s s1 idx phys flags h with ⟨_, h2⟩ | ⟨_, h2⟩
  · rw [h2]
    exact ⟨rfl, hw.set_slot hs _ _, Ext.one _ rfl (hev _)⟩
  · rw [h2]
    refine ⟨rfl, hw.set_slot hs _ _, ⟨[_, _], rfl, ?_⟩⟩
    intro e he
    simp only [List.mem_cons, List.mem_singleton, List.not_mem_nil, or_false] at he
    rcases he with rfl | rfl
    · trivial
    · exact hev _

/-- The table that a table entry of a well-formed directory refers to. -/
theorem child_of_entry {mem : Nat → Nat} {own : Own} (hw : WF mem own) (T L b j : Nat)
    (hT : own T = some (L, b)) (hL : L < 3) (hj : j < 512)
    (hn : mem (T + j * 8) ≠ 0) (hs : L ≠ 0 → mem (T + j * 8) &&& 3 ≠ 1) :
    own (mem (T + j * 8) &&& PTE_ADDR_MASK) = some (L + 1, b + j * esz L) := by
  rcases (hw T L b hT).2.2.2.2 hL j hj with h | ⟨h1, h2⟩ | ⟨_, h⟩
  · exact absurd h hn
  · exact absurd h2 (hs h1)
  · exact h

theorem sect_of_type (e : Nat) (h : pmd_sect e = false) : e &&& 3 ≠ 1 := by
  intro h1
  unfold pmd_sect at h
  have hm : PMD_TYPE_MASK = 3 := rfl
  rw [hm, h1] at h
  revert h
  decide

/-- The loop of `alloc_init_pte` over entries of one page table of the
directory stores page entries there and nothing else. -/
theorem alloc_init_pte_loop_notable (cfg : Config) (own : Own) (prot E T b : Nat)
    (hT : own T = some (3, b)) (hE : E ≤ 18446744073709551616) (hEa : E % 4096 = 0) :
    ∀ (fuel : Nat) (s s1 : State) (i addr pfn : Nat),
      WF s.mem own → addr % 4096 = 0 → addr < E → i + (E - addr) / 4096 ≤ 512 →
      alloc_init_pte_loop cfg prot (E % U64) fuel s (T + i * 8) addr pfn = Res.ok s1 →
      NoTable cfg own prot s s1 := by
  intro fuel
  induction fuel with
  | zero =>
    intro s s1 i addr pfn _ _ _ _ h
    rw [alloc_init_pte_loop] at h
    cases h
  | succ n ih =>
    intro s s1 i addr pfn hw h1 h2 h3 h
    rw [alloc_init_pte_loop] at h
    have hio : (iotable_on == 1) = false := by decide
    have hps : PAGE_SIZE = 4096 := by decide
    simp only [hio, Bool.false_eq_true, if_false, hps, U64_eq] at h
    have hi : i < 512 := by omega
    have step : NoTable cfg own prot s (set_pte s (T + i * 8) (pfn_pte pfn prot)) := by
      refine ⟨rfl, hw.set T 3 b i _ hT hi (fun h3 => by omega), Ext.one _ rfl ?_⟩
      right
      exact ⟨T, 3, b, i, hT, hi, rfl, Or.inr ⟨rfl, pfn, rfl⟩⟩
    by_cases hlast : addr + 4096 = E
    · have hc : ((addr + 4096) % 18446744073709551616 != E % 18446744073709551616) = false := by
        rw [hlast]; simp
      simp only [hc, Bool.false_eq_true, if_false, Res.ok.injEq] at h
      subst h
      exact step
    · have hc : ((addr + 4096) % 18446744073709551616 != E % 18446744073709551616) = true := by
        simp only [bne_iff_ne, ne_eq]
        omega
      simp only [hc, if_true] at h
      have hm : (addr + 4096) % 18446744073709551616 = addr + 4096 := by omega
      rw [hm] at h
      have hp : T + i * 8 + 8 = T + (i + 1) * 8 := by omega
      rw [hp] at h
      have hU : (18446744073709551616 : Nat) = U64 := by rw [U64_eq]
      rw [hU] at h
      exact step.chain (ih _ s1 (i + 1) (addr + 4096) _ step.2.1 (by omega) (by omega)
        (by omega) h)

theorem ne_zero_of_not_none (e : Nat) (h : pmd_none e = false) : e ≠ 0 := by
  unfold pmd_none at h
  simpa using h

/-- Without an allocator `alloc_init_pte` halts on an empty or section pmd
entry; when it returns it has stored page entries into the page table that
the pmd entry refers to, and into the `FIX_PTE` slot. -/
theorem alloc_init_pte_fixmap_notable (cfg : Config) (own : Own) (prot F : Nat) (s s1 : State)
    (T b j addr N pfn : Nat) (hw : WF s.mem own) (hs : SlotsOk cfg own)
    (hT : own T = some (2, b)) (hj : j < 512)
    (h1 : addr % 4096 = 0) (h2 : addr < N) (h3 : N ≤ (addr / 2097152 + 1) * 2097152)
    (h4 : N % 4096 = 0) (h5 : N ≤ 18446744073709551616)
    (h : alloc_init_pte_fixmap cfg F s (T + j * 8) addr (N % U64) pfn prot none = Res.ok s1) :
    NoTable cfg own prot s s1 := by
  unfold alloc_init_pte_fixmap at h
  obtain ⟨s2, p1, p2⟩ := Res.bind_eq_ok h
  unfold alloc_init_pte_prepare_fixmap at p1
  split at p1
  · cases p1
  · rename_i hc
    simp only [Res.ok.injEq] at p1
    subst p1
    simp only [Bool.or_eq_true, not_or, Bool.not_eq_true] at hc
    split at p2
    · cases p2
    · simp only at p2
      obtain ⟨s3, q1, q2⟩ := Res.bind_eq_ok p2
      obtain ⟨s4, q3, q4⟩ := Res.bind_eq_ok q2
      have hch := child_of_entry hw T 2 b j hT (by omega) hj (ne_zero_of_not_none _ hc.1)
        (fun _ => sect_of_type _ hc.2)
      have n1 := set_fixmap_notable prot hw hs _ _ _ (Or.inl rfl) q1
      have hp : pmd_page_paddr (s.mem (T + j * 8)) + pte_index addr * 8
          = (s.mem (T + j * 8) &&& PTE_ADDR_MASK) + (addr / 4096 % 512) * 8 := by
        rw [pte_index_eq]; rfl
      rw [hp] at q3
      have n2 := alloc_init_pte_loop_notable cfg own prot N _ _ hch h5 h4 F s3 s4 _ addr pfn
        n1.2.1 h1 h2 (by omega) q3
      have n3 := set_fixmap_notable prot n2.2.1 hs _ _ _ (Or.inl rfl) q4
      exact n1.chain (n2.chain n3)

/-- The events that `release_old` adds: invalidation, release, warning. -/
theorem release_old_notable (cfg : Config) (own : Own) (prot : Nat) (s : State) (old : Nat)
    (hw : WF s.mem own) : NoTable cfg own prot s (release_old cfg s old) := by
  refine ⟨release_old_count cfg s old, by rw [release_old_mem]; exact hw, ?_⟩
  unfold release_old
  cases pmd_none old
  · cases pmd_table old
    · exact Ext.one Event.flush_tlb_all rfl trivial
    · cases cfg.slab_available
      · exact ⟨[Event.free _, Event.flush_tlb_all], rfl, fun e he => by
          simp only [List.mem_cons, List.mem_singleton, List.not_mem_nil, or_false] at he
          rcases he with rfl | rfl <;> trivial⟩
      · exact ⟨[Event.warn, Event.flush_tlb_all], rfl, fun e he => by
          simp only [List.mem_cons, List.mem_singleton, List.not_mem_nil, or_false] at he
          rcases he with rfl | rfl <;> trivial⟩
  · exact Ext.same _ _

/-- The store of a block entry into an entry of a pud or pmd table of the
directory. -/
theorem block_store_notable (cfg : Config) (own : Own) (prot : Nat) (s : State)
    (T L b j phys : Nat) (hw : WF s.mem own) (hT : own T = some (L, b)) (hL : L = 1 ∨ L = 2)
    (hj : j < 512) (hp : phys % 4096 = 0) :
    NoTable cfg own prot s
      (set_entry s (T + j * 8) (phys ||| PMD_TYPE_SECT ||| mk_sect_prot prot)) := by
  refine ⟨rfl, hw.set T L b j _ hT hj (fun _ => ?_), Ext.one _ rfl ?_⟩
  · exact Or.inr (Or.inl ⟨by omega, block_entry_type phys prot hp⟩)
  · right
    exact ⟨T, L, b, j, hT, hj, rfl, Or.inl ⟨hL, phys, rfl⟩⟩

theorem alloc_init_pmd_step_fixmap_notable (cfg : Config) (own : Own) (prot F : Nat)
    (s s1 : State) (T b j addr N phys : Nat) (hw : WF s.mem own) (hs : SlotsOk cfg own)
    (hT : own T = some (2, b)) (hj : j < 512)
    (h1 : addr % 4096 = 0) (h2 : addr < N) (h3 : N ≤ (addr / 2097152 + 1) * 2097152)
    (h4 : N % 4096 = 0) (h5 : N ≤ 18446744073709551616)
    (h : alloc_init_pmd_step_fixmap cfg F s (T + j * 8) addr (N % U64) phys prot none
      = Res.ok s1) :
    NoTable cfg own prot s s1 := by
  unfold alloc_init_pmd_step_fixmap at h
  split at h
  · rename_i hc
    simp only [Bool.and_eq_true, beq_iff_eq] at hc
    have hal := (section_aligned_iff addr (N % U64) phys).mp hc.1
    simp only at h
    obtain ⟨s2, q1, q2⟩ := Res.bind_eq_ok h
    simp only [Res.ok.injEq] at q2
    subst q2
    unfold pmd_set_huge at q1
    split at q1
    · cases q1
    · simp only [Res.ok.injEq] at q1
      subst q1
      have n1 := block_store_notable cfg own prot s T 2 b j phys hw hT (Or.inr rfl) hj
        (by omega)
      exact n1.chain (release_old_notable cfg own prot _ _ n1.2.1)
  · exact alloc_init_pte_fixmap_notable cfg own prot F s s1 T b j addr N _ hw hs hT hj
      h1 h2 h3 h4 h5 h

/-- The loop of `alloc_init_pmd` over entries of one pmd table of the
directory. -/
theorem alloc_init_pmd_loop_fixmap_notable (cfg : Config) (own : Own) (prot F E T b : Nat)
    (hs : SlotsOk cfg own) (hT : own T = some (2, b))
    (hE : E ≤ 18446744073709551616) (hEa : E % 4096 = 0) :
    ∀ (fuel : Nat) (s s1 : State) (addr phys : Nat),
      WF s.mem own → addr % 4096 = 0 → addr < E →
      E ≤ (addr / 1073741824 + 1) * 1073741824 →
      alloc_init_pmd_loop_fixmap cfg F prot (E % U64) none fuel s
        (T + addr / 2097152 % 512 * 8) addr phys = Res.ok s1 →
      NoTable cfg own prot s s1 := by
  intro fuel
  induction fuel with
  | zero =>
    intro s s1 addr phys _ _ _ _ h
    rw [alloc_init_pmd_loop_fixmap] at h
    cases h
  | succ n ih =>
    intro s s1 addr phys hw h1 h2 h3 h
    rw [alloc_init_pmd_loop_fixmap] at h
    simp only at h
    rw [pmd_addr_end_eq addr E h2 hE] at h
    obtain ⟨s2, q1, q2⟩ := Res.bind_eq_ok h
    have n1 := alloc_init_pmd_step_fixmap_notable cfg own prot F s s2 T b _ addr _ phys hw hs
      hT (by omega) h1 (by omega) (by omega) (by omega) (by omega) q1
    split at q2
    · rename_i hne
      have hlt : (addr / 2097152 + 1) * 2097152 < E := by
        by_contra hcon
        have : min ((addr / 2097152 + 1) * 2097152) E = E := by omega
        rw [this] at hne
        simp at hne
      have hm : min ((addr / 2097152 + 1) * 2097152) E % U64
          = (addr / 2097152 + 1) * 2097152 := by
        rw [U64_eq]; omega
      rw [hm] at q2
      have hp : T + addr / 2097152 % 512 * 8 + 8
          = T + (addr / 2097152 + 1) * 2097152 / 2097152 % 512 * 8 := by omega
      rw [hp] at q2
      exact n1.chain (ih s2 s1 _ _ n1.2.1 (by omega) hlt (by omega) q2)
    · simp only [Res.ok.injEq] at q2
      subst q2
      exact n1

/-- Without an allocator `alloc_init_pmd` halts on an empty or block pud entry;
when it returns it has stored into the pmd table that the pud entry refers to,
the page tables below it, and the fixmap slots. -/
theorem alloc_init_pmd_fixmap_notable (cfg : Config) (own : Own) (prot F : Nat) (s s1 : State)
    (T b j addr N phys : Nat) (hw : WF s.mem own) (hs : SlotsOk cfg own)
    (hT : own T = some (1, b)) (hj : j < 512)
    (h1 : addr % 4096 = 0) (h2 : addr < N) (h3 : N ≤ (addr / 1073741824 + 1) * 1073741824)
    (h4 : N % 4096 = 0) (h5 : N ≤ 18446744073709551616)
    (h : alloc_init_pmd_fixmap cfg F s (T + j * 8) addr (N % U64) phys prot none = Res.ok s1) :
    NoTable cfg own prot s s1 := by
  unfold alloc_init_pmd_fixmap at h
  obtain ⟨s2, p1, p2⟩ := Res.bind_eq_ok h
  unfold alloc_init_pmd_prepare_fixmap at p1
  split at p1
  · cases p1
  · rename_i hc
    simp only [Res.ok.injEq] at p1
    subst p1
    simp only [Bool.or_eq_true, not_or, Bool.not_eq_true] at hc
    split at p2
    · cases p2
    · simp only at p2
      obtain ⟨s3, q1, q2⟩ := Res.bind_eq_ok p2
      obtain ⟨s4, q3, q4⟩ := Res.bind_eq_ok q2
      have hch := child_of_entry hw T 1 b j hT (by omega) hj (ne_zero_of_not_none _ hc.1)
        (fun _ => sect_of_type _ hc.2)
      have n1 := set_fixmap_notable prot hw hs _ _ _ (Or.inr (Or.inl rfl)) q1
      have hp : pud_page_paddr (s.mem (T + j * 8)) + pmd_index addr * 8
          = (s.mem (T + j * 8) &&& PTE_ADDR_MASK) + addr / 2097152 % 512 * 8 := by
        rw [pmd_index_eq]; rfl
      rw [hp] at q3
      have n2 := alloc_init_pmd_loop_fixmap_notable cfg own prot F N _ _ hs hch h5 h4 F s3 s4
        addr phys n1.2.1 h1 h2 h3 q3
      have n3 := set_fixmap_notable prot n2.2.1 hs _ _ _ (Or.inr (Or.inl rfl)) q4
      exact n1.chain (n2.chain n3)

theorem alloc_init_pud_step_fixmap_notable (cfg : Config) (own : Own) (prot F : Nat)
    (s s1 : State) (T b j addr N phys : Nat) (hw : WF s.mem own) (hs : SlotsOk cfg own)
    (hT : own T = some (1, b)) (hj : j < 512)
    (h1 : addr % 4096 = 0) (h2 : addr < N) (h3 : N ≤ (addr / 1073741824 + 1) * 1073741824)
    (h4 : N % 4096 = 0) (h5 : N ≤ 18446744073709551616)
    (h : alloc_init_pud_step_fixmap cfg F s (T + j * 8) addr (N % U64) phys prot none
      = Res.ok s1) :
    NoTable cfg own prot s s1 := by
  unfold alloc_init_pud_step_fixmap at h
  split at h
  · rename_i hc
    simp only [Bool.and_eq_true] at hc
    have hal := (use_1G_block_iff cfg addr (N % U64) phys).mp hc.1
    simp only at h
    obtain ⟨s2, q1, q2⟩ := Res.bind_eq_ok h
    simp only [Res.ok.injEq] at q2
    subst q2
    unfold pud_set_huge at q1
    split at q1
    · cases q1
    · simp only [Res.ok.injEq] at q1
      subst q1
      have n1 := block_store_notable cfg own prot s T 1 b j phys hw hT (Or.inl rfl) hj
        (by omega)
      exact n1.chain (release_old_notable cfg own prot _ _ n1.2.1)
  · exact alloc_init_pmd_fixmap_notable cfg own prot F s s1 T b j addr N phys hw hs hT hj
      h1 h2 h3 h4 h5 h

/-- The loop of `alloc_init_pud` over entries of one pud table of the
directory. -/
theorem alloc_init_pud_loop_fixmap_notable (cfg : Config) (own : Own) (prot F E T b : Nat)
    (hs : SlotsOk cfg own) (hT : own T = some (1, b))
    (hE : E ≤ 18446744073709551616) (hEa : E % 4096 = 0) :
    ∀ (fuel : Nat) (s s1 : State) (addr phys : Nat),
      WF s.mem own → addr % 4096 = 0 → addr < E →
      E ≤ (addr / 549755813888 + 1) * 549755813888 →
      alloc_init_pud_loop_fixmap cfg F prot (E % U64) none fuel s
        (T + addr / 1073741824 % 512 * 8) addr phys = Res.ok s1 →
      NoTable cfg own prot s s1 := by
  intro fuel
  induction fuel with
  | zero =>
    intro s s1 addr phys _ _ _ _ h
    rw [alloc_init_pud_loop_fixmap] at h
    cases h
  | succ n ih =>
    intro s s1 addr phys hw h1 h2 h3 h
    rw [alloc_init_pud_loop_fixmap] at h
    simp only at h
    rw [pud_addr_end_eq addr E h2 hE] at h
    obtain ⟨s2, q1, q2⟩ := Res.bind_eq_ok h
    have n1 := alloc_init_pud_step_fixmap_notable cfg own prot F s s2 T b _ addr _ phys hw hs
      hT (by omega) h1 (by omega) (by omega) (by omega) (by omega) q1
    split at q2
    · rename_i hne
      have hlt : (addr / 1073741824 + 1) * 1073741824 < E := by
        by_contra hcon
        have : min ((addr / 1073741824 + 1) * 1073741824) E = E := by omega
        rw [this] at hne
        simp at hne
      have hm : min ((addr / 1073741824 + 1) * 1073741824) E % U64
          = (addr / 1073741824 + 1) * 1073741824 := by
        rw [U64_eq]; omega
      rw [hm] at q2
      have hp : T + addr / 1073741824 % 512 * 8 + 8
          = T + (addr / 1073741824 + 1) * 1073741824 / 1073741824 % 512 * 8 := by omega
      rw [hp] at q2
      exact n1.chain (ih s2 s1 _ _ n1.2.1 (by omega) hlt (by omega) q2)
    · simp only [Res.ok.injEq] at q2
      subst q2
      exact n1

/-- Without an allocator `alloc_init_pud` halts on an empty pgd entry; when it
returns it has stored into the pud table that the pgd entry refers to, the
tables below it, and the fixmap slots. -/
theorem alloc_init_pud_fixmap_notable (cfg : Config) (own : Own) (prot F : Nat) (s s1 : State)
    (T b j addr N phys : Nat) (hw : WF s.mem own) (hs : SlotsOk cfg own)
    (hT : own T = some (0, b)) (hj : j < 512)
    (h1 : addr % 4096 = 0) (h2 : addr < N) (h3 : N ≤ (addr / 549755813888 + 1) * 549755813888)
    (h4 : N % 4096 = 0) (h5 : N ≤ 18446744073709551616)
    (h : alloc_init_pud_fixmap cfg F s (T + j * 8) addr (N % U64) phys prot none = Res.ok s1) :
    NoTable cfg own prot s s1 := by
  unfold alloc_init_pud_fixmap at h
  obtain ⟨s2, p1, p2⟩ := Res.bind_eq_ok h
  unfold alloc_init_pud_prepare_fixmap at p1
  split at p1
  · cases p1
  · rename_i hc
    simp only [Res.ok.injEq] at p1
    subst p1
    simp only [Bool.not_eq_true] at hc
    split at p2
    · cases p2
    · simp only at p2
      obtain ⟨s3, q1, q2⟩ := Res.bind_eq_ok p2
      obtain ⟨s4, q3, q4⟩ := Res.bind_eq_ok q2
      have hch := child_of_entry hw T 0 b j hT (by omega) hj (ne_zero_of_not_none _ hc)
        (fun h0 => absurd rfl h0)
      have n1 := set_fixmap_notable prot hw hs _ _ _ (Or.inr (Or.inr rfl)) q1
      have hp : pgd_page_paddr (s.mem (T + j * 8)) + pud_index addr * 8
          = (s.mem (T + j * 8) &&& PTE_ADDR_MASK) + addr / 1073741824 % 512 * 8 := by
        rw [pud_index_eq]; rfl
      rw [hp] at q3
      have n2 := alloc_init_pud_loop_fixmap_notable cfg own prot F N _ _ hs hch h5 h4 F s3 s4
        addr phys n1.2.1 h1 h2 h3 q3
      have n3 := set_fixmap_notable prot n2.2.1 hs _ _ _ (Or.inr (Or.inr rfl)) q4
      exact n1.chain (n2.chain n3)

/-- The loop of `init_pgd` over entries of the directory. -/
theorem init_pgd_loop_fixmap_notable (cfg : Config) (own : Own) (prot F E pgdir WB : Nat)
    (hs : SlotsOk cfg own) (hT : own pgdir = some (0, WB))
    (hwb : WB % 281474976710656 = 0)
    (hE : E ≤ 18446744073709551616) (hEa : E % 4096 = 0) (hEw : E ≤ WB + 281474976710656) :
    ∀ (fuel : Nat) (s s1 : State) (addr phys : Nat),
      WF s.mem own → addr % 4096 = 0 → addr < E → WB ≤ addr →
      init_pgd_loop_fixmap cfg F prot (E % U64) none fuel s
        (pgdir + addr / 549755813888 % 512 * 8) addr phys = Res.ok s1 →
      NoTable cfg own prot s s1 := by
  intro fuel
  induction fuel with
  | zero =>
    intro s s1 addr phys _ _ _ _ h
    rw [init_pgd_loop_fixmap] at h
    cases h
  | succ n ih =>
    intro s s1 addr phys hw h1 h2 h3 h
    rw [init_pgd_loop_fixmap] at h
    simp only at h
    rw [pgd_addr_end_eq addr E h2 hE] at h
    obtain ⟨s2, q1, q2⟩ := Res.bind_eq_ok h
    have n1 := alloc_init_pud_fixmap_notable cfg own prot F s s2 pgdir WB _ addr _ phys hw hs
      hT (by omega) h1 (by omega) (by omega) (by omega) (by omega) q1
    split at q2
    · rename_i hne
      have hlt : (addr / 549755813888 + 1) * 549755813888 < E := by
        by_contra hcon
        have : min ((addr / 549755813888 + 1) * 549755813888) E = E := by omega
        rw [this] at hne
        simp at hne
      have hm : min ((addr / 549755813888 + 1) * 549755813888) E % U64
          = (addr / 549755813888 + 1) * 549755813888 := by
        rw [U64_eq]; omega
      rw [hm] at q2
      have hp : pgdir + addr / 549755813888 % 512 * 8 + 8
          = pgdir + (addr / 549755813888 + 1) * 549755813888 / 549755813888 % 512 * 8 := by
        omega
      rw [hp] at q2
      exact n1.chain (ih s2 s1 _ _ n1.2.1 (by omega) hlt (by omega) q2)
    · simp only [Res.ok.injEq] at q2
      subst q2
      exact n1

/-- The function `init_pgd` without an allocator, on a well-formed directory
and for a range inside its window: when it returns it has called no frame
source, the tables of the directory are the tables it had, and every store
went into an entry of one of them or into a fixmap slot. -/
theorem init_pgd_fixmap_notable (cfg : Config) (own : Own) (F : Nat) (s s1 : State)
    (WB pgdir phys virt size prot : Nat) (hsize : 0 < size)
    (hwb1 : WB % 281474976710656 = 0) (hwb2 : WB + 281474976710656 ≤ 18446744073709551616)
    (hwb3 : WB ≤ virt) (hwb4 : virt + size ≤ WB + 281474976710656)
    (hw : WF s.mem own) (hs : SlotsOk cfg own) (hroot : own pgdir = some (0, WB))
    (h : init_pgd_fixmap cfg F s (pgd_offset_raw pgdir virt) phys virt size prot none
      = Res.ok s1) :
    NoTable cfg own prot s s1 := by
  unfold init_pgd_fixmap at h
  split at h
  · simp only [Res.ok.injEq] at h
    subst h
    exact ⟨rfl, hw, Ext.one Event.warn rfl trivial⟩
  · simp only at h
    have e2 : virt &&& PAGE_MASK = virt / 4096 * 4096 := by rw [and_PAGE_MASK]; omega
    have e4 : PAGE_ALIGN ((size + (virt &&& not64 PAGE_MASK)) % U64)
        = (size + virt % 4096 + 4095) / 4096 * 4096 := by
      unfold PAGE_ALIGN
      have hps : PAGE_SIZE = 4096 := by decide
      rw [and_not_PAGE_MASK, and_PAGE_MASK, hps, U64_eq]
      omega
    have e5 : pgd_offset_raw pgdir virt
        = pgdir + virt / 4096 * 4096 / 549755813888 % 512 * 8 := by
      unfold pgd_offset_raw
      rw [pgd_index_eq]
      omega
    rw [e2, e4, e5] at h
    exact init_pgd_loop_fixmap_notable cfg own prot F _ pgdir WB hs hroot hwb1 (by omega)
      (by omega) (by omega) F s s1 _ _ hw (by omega) (by omega) (by omega) h

/-! ## Theorems -/

/-- C2: a request whose physical and virtual address differ below the page
granule makes `init_pgd` return at once: the only effect is the logged warning,
memory (the directory and every table) is as before, no frame source was
called and no entry was written. -/
theorem init_pgd_misaligned (cfg : Config) (F : Nat) (s : State)
    (pgd phys virt size prot : Nat) (pgtable_alloc : Option PgAlloc)
    (h : (phys ^^^ virt) &&& not64 PAGE_MASK ≠ 0) :
    ∃ s1, init_pgd cfg F s pgd phys virt size prot pgtable_alloc = Res.ok s1 ∧
      s1.mem = s.mem ∧ s1.count = s.count ∧ s1.trace = Event.warn :: s.trace := by
  refine ⟨warn s, ?_, rfl, rfl, rfl⟩
  unfold init_pgd
  simp [h]

theorem init_pgd_misaligned_witness :
    (0x40000001 ^^^ 0xffff000040000000) &&& not64 PAGE_MASK ≠ 0 ∧
    ∃ s1, init_pgd cfg0 512 s0 0x80000000 0x40000001 0xffff000040000000 0x1000 PAGE_KERNEL
        (some PgAlloc.early_pgtable_alloc) = Res.ok s1 ∧
      s1.mem = s0.mem ∧ s1.count = s0.count ∧ s1.trace = Event.warn :: s0.trace :=
  ⟨by decide, init_pgd_misaligned cfg0 512 s0 0x80000000 0x40000001
    0xffff000040000000 0x1000 PAGE_KERNEL (some PgAlloc.early_pgtable_alloc) (by decide)⟩

/-- C9: below `VMALLOC_START` both `create_mapping_late` and
`create_mapping_noalloc` only log the warning, leaving memory and the
allocation counters as they were; at or above it they are exactly
`__create_pgd_mapping` on the kernel directory, with `late_pgtable_alloc` and
with no allocator respectively. -/
theorem create_mapping_range_check (cfg : Config) (F : Nat) (s : State)
    (phys virt size prot : Nat) :
    create_mapping_late cfg F s phys virt size prot =
      (if virt < cfg.VMALLOC_START then Res.ok (warn s)
       else __create_pgd_mapping cfg F s cfg.init_mm_pgd phys virt size prot
          (some PgAlloc.late_pgtable_alloc)) ∧
    create_mapping_noalloc cfg F s phys virt size prot =
      (if virt < cfg.VMALLOC_START then Res.ok (warn s)
       else __create_pgd_mapping cfg F s cfg.init_mm_pgd phys virt size prot none) ∧
    (warn s).mem = s.mem ∧ (warn s).count = s.count ∧
    (warn s).trace = Event.warn :: s.trace :=
  ⟨rfl, rfl, rfl, rfl, rfl⟩

/-- C3: splitting preserves physical coverage. `split_pmd` writes the
`PTRS_PER_PTE` entries of the new table and nothing else, entry `i` being the
page entry of frame `pmd_pfn + i`; `split_pud`, for a block entry whose bits
between the section and the 1 GiB granule are zero (an output address aligned
to 1 GiB), writes the `PTRS_PER_PMD` entries of the new table and nothing
else, entry `i` having output address `(pud_pfn << PAGE_SHIFT) + i * PMD_SIZE`.
Every address then resolves through the new table to the physical address the
block gave it. -/
theorem split_preserves_coverage (s : State) (pmd pte old_pud pmdt : Nat)
    (hsect : pud_sect (s.mem old_pud) = true)
    (hres : s.mem old_pud &&& (PUD_SIZE - PMD_SIZE) = 0) :
    (∀ i, i < PTRS_PER_PTE →
      (split_pmd s pmd pte).mem (pte + i * 8)
        = pfn_pte (pmd_pfn (s.mem pmd) + i) PAGE_KERNEL_EXEC ∧
      pte_pfn ((split_pmd s pmd pte).mem (pte + i * 8)) = pmd_pfn (s.mem pmd) + i) ∧
    (∀ q, (∀ i, i < PTRS_PER_PTE → q ≠ pte + i * 8) → (split_pmd s pmd pte).mem q = s.mem q) ∧
    (split_pmd s pmd pte).trace.length = s.trace.length + PTRS_PER_PTE ∧
    (∀ va, (walk_pte (split_pmd s pmd pte).mem pte va).map Prod.fst
        = some ((s.mem pmd &&& PMD_MASK &&& PHYS_MASK) + va % PMD_SIZE)) ∧
    (∀ i, i < PTRS_PER_PMD →
      (split_pud s old_pud pmdt).mem (pmdt + i * 8) &&& PMD_MASK &&& PHYS_MASK
        = (pud_pfn (s.mem old_pud) <<< PAGE_SHIFT) + i * PMD_SIZE) ∧
    (∀ q, (∀ i, i < PTRS_PER_PMD → q ≠ pmdt + i * 8) →
      (split_pud s old_pud pmdt).mem q = s.mem q) ∧
    (split_pud s old_pud pmdt).trace.length = s.trace.length + PTRS_PER_PMD ∧
    (∀ va, (walk_pmd (split_pud s old_pud pmdt).mem pmdt va).map Prod.fst
        = some ((s.mem old_pud &&& PUD_MASK &&& PHYS_MASK) + va % PUD_SIZE)) := by
  obtain ⟨a1, a2, a3, _⟩ := split_pmd_spec s pmd pte
  obtain ⟨b1, b2, b3, _⟩ := split_pud_spec s old_pud pmdt
  have hn1 : PTRS_PER_PTE = 512 := by decide
  have hn2 : PTRS_PER_PMD = 512 := by decide
  have hs1 : PMD_SIZE = 2097152 := by decide
  have hs2 : PUD_SIZE = 1073741824 := by decide
  have hpfn : ∀ i, i < 512 → pmd_pfn (s.mem pmd) + i < 68719476736 := by
    intro i hi; rw [pmd_pfn_eq]; omega
  rw [hn1, hn2]
  refine ⟨?_, a2, a3, ?_, ?_, b2, b3, ?_⟩
  · intro i hi
    rw [a1 i hi]
    exact ⟨rfl, pte_pfn_pfn_pte _ _ (hpfn i hi) PAGE_KERNEL_EXEC_addr⟩
  · intro va
    have hi : va / 4096 % 512 < 512 := Nat.mod_lt _ (by omega)
    unfold walk_pte
    simp only [pte_index_eq, a1 _ hi, split_pmd_entry_type _ (hpfn _ hi),
      split_pmd_entry_addr _ (hpfn _ hi)]
    simp only [PTE_TYPE_PAGE, beq_self_eq_true, if_true, Option.map]
    rw [pmd_out_eq, pmd_pfn_eq, hs1]
    have hps : PAGE_SIZE = 4096 := by decide
    rw [hps]
    apply congrArg some
    omega
  · intro i hi
    rw [b1 i hi, split_pud_entry_out _ _ hi hres, pud_pfn_eq, hs1]
    show _ = _ <<< 12 + _
    rw [Nat.shiftLeft_eq]
    omega
  · intro va
    have hi : va / 2097152 % 512 < 512 := Nat.mod_lt _ (by omega)
    have ht : s.mem old_pud &&& 3 = 1 := by
      simpa [pud_sect, PMD_TYPE_MASK, PUD_TYPE_SECT] using hsect
    unfold walk_pmd
    simp only [pmd_index_eq, b1 _ hi, pmd_sect, PMD_TYPE_MASK, PMD_TYPE_SECT,
      split_pud_entry_type, ht, split_pud_entry_out _ _ hi hres]
    simp only [beq_self_eq_true, if_true, Option.map]
    rw [pud_out_eq, hs1, hs2]
    apply congrArg some
    omega

/-- A 1 GiB block at physical `0x40000000` in the entry at address 8, split
into the table at `0x2000`: every address resolves as the block resolved it. -/
theorem split_preserves_coverage_witness :
    pud_sect ((⟨fun q => if q = 8 then 0x40000711 else 0, fun _ => 0, []⟩ : State).mem 8) = true ∧
    (⟨fun q => if q = 8 then 0x40000711 else 0, fun _ => 0, []⟩ : State).mem 8
      &&& (PUD_SIZE - PMD_SIZE) = 0 ∧
    ∀ va, (walk_pmd (split_pud ⟨fun q => if q = 8 then 0x40000711 else 0, fun _ => 0, []⟩
        8 0x2000).mem 0x2000 va).map Prod.fst
      = some (((⟨fun q => if q = 8 then 0x40000711 else 0, fun _ => 0, []⟩ : State).mem 8
          &&& PUD_MASK &&& PHYS_MASK) + va % PUD_SIZE) :=
  ⟨by decide, by decide,
    (split_preserves_coverage ⟨fun q => if q = 8 then 0x40000711 else 0, fun _ => 0, []⟩
      0 0x1000 8 0x2000 (by decide) (by decide)).2.2.2.2.2.2.2⟩

/-- C4 fails for `split_pmd`: a section entry with the read-write/no-execute
attributes of `PAGE_KERNEL` (at address 8) is split into page entries whose
attribute bits differ from the block's. -/
theorem split_pmd_changes_protection :
    pmd_sect ((⟨fun q => if q = 8 then 0x40000000 ||| sect_bits PAGE_KERNEL else 0,
        fun _ => 0, []⟩ : State).mem 8) = true ∧
    entry_prot ((split_pmd ⟨fun q => if q = 8 then 0x40000000 ||| sect_bits PAGE_KERNEL else 0,
        fun _ => 0, []⟩ 8 0x1000).mem (0x1000 + 0 * 8))
      ≠ entry_prot ((⟨fun q => if q = 8 then 0x40000000 ||| sect_bits PAGE_KERNEL else 0,
        fun _ => 0, []⟩ : State).mem 8) := by
  refine ⟨by decide, ?_⟩
  rw [(split_pmd_spec _ 8 0x1000).1 0 (by omega)]
  decide

/-- C4 (amended): `split_pud` gives every entry it writes the attribute bits of
the block entry it splits; `split_pmd` gives every entry it writes the attribute
bits of `PAGE_KERNEL_EXEC`, whatever the attribute bits of the block were. -/
theorem split_protection (s : State) (pmd pte old_pud pmdt : Nat) :
    (∀ i, i < PTRS_PER_PMD →
      entry_prot ((split_pud s old_pud pmdt).mem (pmdt + i * 8)) = entry_prot (s.mem old_pud)) ∧
    (∀ i, i < PTRS_PER_PTE →
      entry_prot ((split_pmd s pmd pte).mem (pte + i * 8)) = entry_prot PAGE_KERNEL_EXEC) := by
  have hn1 : PTRS_PER_PTE = 512 := by decide
  have hn2 : PTRS_PER_PMD = 512 := by decide
  rw [hn1, hn2]
  constructor
  · intro i hi
    rw [(split_pud_spec s old_pud pmdt).1 i hi]
    exact split_pud_entry_prot _ _ hi
  · intro i hi
    rw [(split_pmd_spec s pmd pte).1 i hi]
    exact split_pmd_entry_prot _ (by rw [pmd_pfn_eq]; omega)

/-- C7: block mappings are chosen exactly when alignment and policy allow. A
step of `alloc_init_pmd` installs the section entry (and then releases what
the old entry referred to) if and only if `addr`, `next` and `phys` are
multiples of the section size and `block_mappings_allowed` holds, and is
`alloc_init_pte` otherwise; `use_1G_block` holds exactly when the page shift
is 12, the three values are multiples of `PUD_SIZE` and RKP is not configured;
a step of `alloc_init_pud` installs the 1 GiB block if and only if
`use_1G_block` and `block_mappings_allowed` hold, and is `alloc_init_pmd`
otherwise. -/
theorem block_mapping_choice (cfg : Config) (F : Nat) (s : State)
    (p addr next phys prot : Nat) (pgtable_alloc : Option PgAlloc) :
    alloc_init_pmd_step cfg F s p addr next phys prot pgtable_alloc =
      (if addr % SECTION_SIZE = 0 ∧ next % SECTION_SIZE = 0 ∧ phys % SECTION_SIZE = 0 ∧
          block_mappings_allowed cfg pgtable_alloc = true then
        Res.ok (release_old cfg
          (set_pmd s p (phys ||| PMD_TYPE_SECT ||| mk_sect_prot prot)) (s.mem p))
      else alloc_init_pte cfg F s p addr next (phys_to_pfn phys) prot pgtable_alloc) ∧
    (use_1G_block cfg addr next phys = true ↔
      PAGE_SHIFT = 12 ∧ addr % PUD_SIZE = 0 ∧ next % PUD_SIZE = 0 ∧ phys % PUD_SIZE = 0 ∧
        cfg.uh_rkp = false) ∧
    alloc_init_pud_step cfg F s p addr next phys prot pgtable_alloc =
      (if use_1G_block cfg addr next phys = true ∧
          block_mappings_allowed cfg pgtable_alloc = true then
        Res.ok (release_old cfg
          (set_pud s p (phys ||| PUD_TYPE_SECT ||| mk_sect_prot prot)) (s.mem p))
      else alloc_init_pmd cfg F s p addr next phys prot pgtable_alloc) := by
  have hs1 : SECTION_SIZE = 2097152 := by decide
  have hs2 : PUD_SIZE = 1073741824 := by decide
  have hps : PAGE_SHIFT = 12 := rfl
  have huse : use_1G_block cfg addr next phys = true ↔
      PAGE_SHIFT = 12 ∧ addr % PUD_SIZE = 0 ∧ next % PUD_SIZE = 0 ∧ phys % PUD_SIZE = 0 ∧
        cfg.uh_rkp = false := by
    unfold use_1G_block
    rw [hs2]
    have := pud_aligned_iff addr next phys
    by_cases h : (addr ||| next ||| phys) &&& not64 PUD_MASK = 0
    · have h2 := this.mp h
      cases hr : cfg.uh_rkp <;> simp [hps, h, h2]
    · have h2 : ¬ (addr % 1073741824 = 0 ∧ next % 1073741824 = 0 ∧ phys % 1073741824 = 0) :=
        fun hh => h (this.mpr hh)
      simp [hps, h]
      intro h3 h4 h5
      exact absurd ⟨h3, h4, h5⟩ h2
  refine ⟨?_, huse, ?_⟩
  · unfold alloc_init_pmd_step
    rw [hs1]
    have := section_aligned_iff addr next phys
    by_cases h : (addr ||| next ||| phys) &&& not64 SECTION_MASK = 0
    · have h2 := this.mp h
      have h3 : phys &&& not64 PMD_MASK = 0 := by rw [and_not_PMD_MASK]; exact h2.2.2
      cases hb : block_mappings_allowed cfg pgtable_alloc <;>
        simp [h, h2, pmd_set_huge, h3]
    · have h2 : ¬ (addr % 2097152 = 0 ∧ next % 2097152 = 0 ∧ phys % 2097152 = 0) :=
        fun hh => h (this.mpr hh)
      have h3 : ¬ (addr % 2097152 = 0 ∧ next % 2097152 = 0 ∧ phys % 2097152 = 0 ∧
          block_mappings_allowed cfg pgtable_alloc = true) :=
        fun hh => h2 ⟨hh.1, hh.2.1, hh.2.2.1⟩
      rw [if_neg h3]
      simp [h]
  · unfold alloc_init_pud_step
    cases hu : use_1G_block cfg addr next phys
    · simp
    · have h2 := huse.mp hu
      rw [hs2] at h2
      have h3 : phys &&& not64 PUD_MASK = 0 := by rw [and_not_PUD_MASK]; exact h2.2.2.2.1
      cases hb : block_mappings_allowed cfg pgtable_alloc <;> simp [pud_set_huge, h3]

/-- C1: for a request whose physical and virtual address agree below the page
granule, with `size > 0`, a protection that is a valid page descriptor without
address bits, the virtual range inside one 48-bit window and the physical
range below `2^48`, on a well-formed directory (a tree of tables, owned as
`own` records) and with allocators that do not fail (`Fresh`, with enough
frames left for the tables of a whole window), `init_pgd` returns, and then
every virtual address of the page-rounded range resolves through the
directory to `phys + (address - virt)` with the attribute bits of `prot`. -/
theorem init_pgd_maps_range (cfg : Config) (lim : PgAlloc → Nat) (s : State) (own : Own)
    (WB pgdir phys virt size prot : Nat) (al : PgAlloc) (F : Nat)
    (hx : (phys ^^^ virt) &&& not64 PAGE_MASK = 0) (hsize : 0 < size)
    (hwb1 : WB % 281474976710656 = 0) (hwb2 : WB + 281474976710656 ≤ 18446744073709551616)
    (hwb3 : WB ≤ virt) (hwb4 : virt + size ≤ WB + 281474976710656)
    (hphys : phys + size ≤ 281474976710656)
    (hp1 : prot &&& PTE_ADDR_MASK = 0) (hp2 : prot &&& 3 = 3)
    (hw : WF s.mem own) (hroot : own pgdir = some (0, WB)) (hfr : Fresh cfg lim s own)
    (hbud : ∀ a, s.count a + 134480384 ≤ lim a) (hF : 512 ≤ F) :
    ∃ s1, init_pgd cfg F s (pgd_offset_raw pgdir virt) phys virt size prot (some al)
        = Res.ok s1 ∧
      ∀ va, virt &&& PAGE_MASK ≤ va →
        va < (virt &&& PAGE_MASK) + PAGE_ALIGN (size + (virt &&& not64 PAGE_MASK)) →
        resolve s1.mem pgdir va = some (phys + va - virt, entry_prot prot) := by
  obtain ⟨s1, own1, e1, _, m1⟩ := init_pgd_spec WB pgdir phys virt size prot al F hx hsize
    hwb1 hwb2 hwb3 hwb4 hphys hp1 hp2 hw hroot hfr hbud hF
  have hx2 := (page_offset_eq phys virt).mp hx
  have hv := mkReq_valid WB phys virt size prot (some al) hx2 hsize hwb1 hwb2 hwb3 hwb4 hphys
    hp1 hp2
  refine ⟨s1, e1, ?_⟩
  intro va h1 h2
  have e2 : virt &&& PAGE_MASK = virt / 4096 * 4096 := by rw [and_PAGE_MASK]; omega
  have e3 : PAGE_ALIGN (size + (virt &&& not64 PAGE_MASK))
      = (size + virt % 4096 + 4095) / 4096 * 4096 := by
    unfold PAGE_ALIGN
    have hps : PAGE_SIZE = 4096 := by decide
    rw [and_not_PAGE_MASK, and_PAGE_MASK, hps, U64_eq]
    omega
  rw [e2] at h1 h2
  rw [e3] at h2
  have hA : (mkReq phys virt size prot (some al)).A0 = virt / 4096 * 4096 := rfl
  have hE : (mkReq phys virt size prot (some al)).E
      = virt / 4096 * 4096 + (size + virt % 4096 + 4095) / 4096 * 4096 := rfl
  have hP : (mkReq phys virt size prot (some al)).P0 = phys / 4096 * 4096 := rfl
  have hm := m1 (va / 4096 * 4096) (by rw [hA]; omega) (by rw [hE]; omega) (by omega)
  have hr := resolve_of_Mapped0 cfg _ WB s1.mem pgdir (va / 4096 * 4096) va hv
    (by rw [hA]; omega) (by rw [hE]; omega) (by omega) (by omega) (by omega) hm
  rw [hr, hA, hP]
  have e : phys / 4096 * 4096 + (va - virt / 4096 * 4096) = phys + va - virt := by omega
  rw [e]
  rfl

/-- The 2 MiB scenario of the specification on the sample machine: physical
`0x40000000` mapped at `0xffff000040000000` with `PAGE_KERNEL` into the empty
directory at `0x80000000`. -/
theorem init_pgd_maps_range_witness :
    (0x40000000 ^^^ 0xffff000040000000) &&& not64 PAGE_MASK = 0 ∧
    PAGE_KERNEL &&& PTE_ADDR_MASK = 0 ∧ PAGE_KERNEL &&& 3 = 3 ∧
    WF s0.mem (own0 0x80000000 0xffff000000000000) ∧
    Fresh cfg0 lim0 s0 (own0 0x80000000 0xffff000000000000) ∧
    ∃ s1, init_pgd cfg0 512 s0 (pgd_offset_raw 0x80000000 0xffff000040000000) 0x40000000
        0xffff000040000000 0x200000 PAGE_KERNEL (some PgAlloc.early_pgtable_alloc)
        = Res.ok s1 ∧
      ∀ va, 0xffff000040000000 &&& PAGE_MASK ≤ va →
        va < (0xffff000040000000 &&& PAGE_MASK) +
          PAGE_ALIGN (0x200000 + (0xffff000040000000 &&& not64 PAGE_MASK)) →
        resolve s1.mem 0x80000000 va
          = some (0x40000000 + va - 0xffff000040000000, entry_prot PAGE_KERNEL) :=
  have hw : WF s0.mem (own0 0x80000000 0xffff000000000000) :=
    WF_own0 _ _ _ (by decide) (by decide) (by decide) (fun _ _ => rfl)
  have hf : Fresh cfg0 lim0 s0 (own0 0x80000000 0xffff000000000000) :=
    Fresh_cfg0 _ _ (fun T hT => by
      unfold own0
      have : T ≠ 0x80000000 := by omega
      simp [this]) (fun _ _ => rfl)
  ⟨by decide, by decide, by decide, hw, hf,
    init_pgd_maps_range cfg0 lim0 s0 (own0 0x80000000 0xffff000000000000)
      0xffff000000000000 0x80000000 0x40000000 0xffff000040000000 0x200000 PAGE_KERNEL
      PgAlloc.early_pgtable_alloc 512 (by decide) (by decide) (by decide) (by decide)
      (by decide) (by decide) (by decide) (by decide) (by decide) hw
      (by simp [own0]) hf (fun a => by show 0 + 134480384 ≤ 134480384; omega) (by omega)⟩

set_option maxRecDepth 100000 in
theorem scenario_map_check_true : scenario_map_check scenario_map = true := by
  decide

/-- C6: on the sample machine (4 KiB pages, empty kernel directory, block
mappings allowed) mapping physical `[0x40000000, 0x40200000)` at
`0xffff000040000000` with `PAGE_KERNEL` returns; the pmd entry of the range is
the section entry for `0x40000000`, the other 511 entries of that pmd table are
empty, and exactly two frames were allocated (the pud and the pmd table), so
there is no page table; `kern_addr_valid` holds at every page of the range and
fails one page below its start and at its end. -/
theorem scenario_block_mapping :
    ∃ s1, init_pgd cfg0 512 s0 (pgd_offset_raw cfg0.init_mm_pgd 0xffff000040000000) 0x40000000
        0xffff000040000000 0x200000 PAGE_KERNEL (some PgAlloc.early_pgtable_alloc) = Res.ok s1 ∧
      s1.mem (pmd_slot s1.mem cfg0.init_mm_pgd 0xffff000040000000)
        = (0x40000000 ||| PMD_TYPE_SECT ||| mk_sect_prot PAGE_KERNEL) ∧
      pmd_sect (s1.mem (pmd_slot s1.mem cfg0.init_mm_pgd 0xffff000040000000)) = true ∧
      (∀ j, j < 512 → j ≠ 0 →
        s1.mem (pmd_slot s1.mem cfg0.init_mm_pgd 0xffff000040000000 + j * 8) = 0) ∧
      s1.count PgAlloc.early_pgtable_alloc = 2 ∧
      s1.count PgAlloc.late_pgtable_alloc = 0 ∧
      s1.count PgAlloc.rkp_ro_alloc_phys = 0 ∧
      (∀ k, k < 512 → kern_addr_valid cfg0 s1.mem (0xffff000040000000 + k * 4096) = true) ∧
      kern_addr_valid cfg0 s1.mem (0xffff000040000000 - 4096) = false ∧
      kern_addr_valid cfg0 s1.mem (0xffff000040000000 + 0x200000) = false := by
  have h := scenario_map_check_true
  unfold scenario_map at h
  revert h
  generalize init_pgd cfg0 512 s0 (pgd_offset_raw cfg0.init_mm_pgd 0xffff000040000000)
    0x40000000 0xffff000040000000 0x200000 PAGE_KERNEL (some PgAlloc.early_pgtable_alloc) = r
  intro h
  cases r with
  | ok s1 =>
    simp only [scenario_map_check, Bool.and_eq_true, beq_iff_eq, List.all_eq_true,
      List.mem_range, Bool.or_eq_true, Bool.not_eq_true'] at h
    obtain ⟨⟨⟨⟨⟨⟨⟨⟨h1, h2⟩, h3⟩, h4⟩, h5⟩, h6⟩, h7⟩, h8⟩, h9⟩ := h
    refine ⟨s1, rfl, h1, h2, ?_, h4, h5, h6, h7, h8, h9⟩
    intro j hj hj0
    rcases h3 j hj with h | h
    · exact absurd h hj0
    · exact h
  | bug => simp [scenario_map_check] at h
  | timeout => simp [scenario_map_check] at h

set_option maxRecDepth 100000 in
theorem scenario_remap_check_true :
    scenario_remap_check (scenario_map.val s0) scenario_remap = true := by
  decide

/-- C5 fails on the sample machine: after the 2 MiB `PAGE_KERNEL` section of
the scenario has its first 4 KiB mapped read-only, the second page of the
range resolves to the same physical address but with the attributes of
`PAGE_KERNEL_EXEC`, which are not those of `PAGE_KERNEL` it had before. -/
theorem scenario_remap_changes_protection :
    (scenario_map.val s0).mem (pmd_slot (scenario_map.val s0).mem cfg0.init_mm_pgd
        0xffff000040000000) = (0x40000000 ||| PMD_TYPE_SECT ||| mk_sect_prot PAGE_KERNEL) ∧
    resolve (scenario_map.val s0).mem cfg0.init_mm_pgd 0xffff000040001000
      = some (0x40001000, entry_prot PAGE_KERNEL) ∧
    ∃ s2, init_pgd cfg0 512 (scenario_map.val s0)
        (pgd_offset_raw cfg0.init_mm_pgd 0xffff000040000000) 0x40000000 0xffff000040000000
        0x1000 PAGE_KERNEL_RO (some PgAlloc.early_pgtable_alloc) = Res.ok s2 ∧
      resolve s2.mem cfg0.init_mm_pgd 0xffff000040001000
        ≠ resolve (scenario_map.val s0).mem cfg0.init_mm_pgd 0xffff000040001000 := by
  have h := scenario_remap_check_true
  unfold scenario_remap at h
  revert h
  generalize init_pgd cfg0 512 (scenario_map.val s0)
    (pgd_offset_raw cfg0.init_mm_pgd 0xffff000040000000) 0x40000000 0xffff000040000000
    0x1000 PAGE_KERNEL_RO (some PgAlloc.early_pgtable_alloc) = r
  intro h
  cases r with
  | ok s2 =>
    simp only [scenario_remap_check, Bool.and_eq_true, beq_iff_eq, bne_iff_ne] at h
    obtain ⟨⟨⟨⟨⟨h1, h2⟩, _⟩, _⟩, h5⟩, h6⟩ := h
    refine ⟨h1, h2, s2, rfl, ?_⟩
    rw [h5, h2]
    intro he
    apply h6
    injection he with he
    injection he
  | bug => simp [scenario_remap_check] at h
  | timeout => simp [scenario_remap_check] at h

/-- C5 (as amended): in a directory where the 2 MiB-aligned range at `va0` is
mapped by one pmd section entry with `PAGE_KERNEL` (reached through table
references in the pgd and pud entries), mapping the first 4 KiB read-only
through `init_pgd` returns, replaces the section entry by a table reference
and makes the first page resolve read-only; each of the remaining 511 pages
resolves to the same physical address as before, now with the attributes of
`PAGE_KERNEL_EXEC` that `split_pmd` gave it, where it had those of
`PAGE_KERNEL`. The frame the allocator hands out is a usable frame other
than the three tables of the walk. -/
theorem remap_first_page_of_block (cfg : Config) (F : Nat) (s : State)
    (pgdir va0 phys0 : Nat) (al : PgAlloc)
    (hva : va0 % 2097152 = 0) (hva2 : va0 + 2097152 ≤ 18446744073709551616)
    (hph : phys0 % 2097152 = 0) (hph2 : phys0 + 2097152 ≤ 281474976710656)
    (hpg : pgdir % 4096 = 0)
    (h0 : s.mem (pgdir + pgd_index va0 * 8) &&& 3 = 3)
    (h1 : s.mem (pud_frame s.mem pgdir va0 + pud_index va0 * 8) &&& 3 = 3)
    (h2 : s.mem (pmd_slot s.mem pgdir va0)
      = phys0 ||| PMD_TYPE_SECT ||| mk_sect_prot PAGE_KERNEL)
    (hf0 : cfg.frames al (s.count al) ≠ 0) (hf1 : cfg.frames al (s.count al) % 4096 = 0)
    (hf2 : cfg.frames al (s.count al) < 281474976710656)
    (hd1 : cfg.frames al (s.count al) ≠ pgdir)
    (hd2 : cfg.frames al (s.count al) ≠ pud_frame s.mem pgdir va0)
    (hd3 : cfg.frames al (s.count al) ≠ pmd_frame s.mem pgdir va0)
    (hd4 : pmd_frame s.mem pgdir va0 ≠ pgdir)
    (hd5 : pmd_frame s.mem pgdir va0 ≠ pud_frame s.mem pgdir va0)
    (hF : 1 ≤ F) :
    ∃ s2, init_pgd cfg F s (pgd_offset_raw pgdir va0) phys0 va0 0x1000 PAGE_KERNEL_RO (some al)
        = Res.ok s2 ∧
      pmd_table (s2.mem (pmd_slot s2.mem pgdir va0)) = true ∧
      (∀ va, va0 ≤ va → va < va0 + 4096 →
        resolve s2.mem pgdir va = some (phys0 + (va - va0), entry_prot PAGE_KERNEL_RO)) ∧
      (∀ va, va0 + 4096 ≤ va → va < va0 + 2097152 →
        resolve s.mem pgdir va = some (phys0 + (va - va0), entry_prot PAGE_KERNEL) ∧
        resolve s2.mem pgdir va = some (phys0 + (va - va0), entry_prot PAGE_KERNEL_EXEC)) := by
  have hT1 : pud_frame s.mem pgdir va0 % 4096 = 0 := by
    unfold pud_frame pgd_page_paddr; rw [and_PTE_ADDR_MASK]; omega
  have hT2 : pmd_frame s.mem pgdir va0 % 4096 = 0 := by
    unfold pmd_frame pud_page_paddr; rw [and_PTE_ADDR_MASK]; omega
  have hP : pmd_slot s.mem pgdir va0 = pmd_frame s.mem pgdir va0 + pmd_index va0 * 8 := rfl
  have hi0 : pgd_index va0 < 512 := by rw [pgd_index_eq]; omega
  have hi1 : pud_index va0 < 512 := by rw [pud_index_eq]; omega
  have hi2 : pmd_index va0 < 512 := by rw [pmd_index_eq]; omega
  have hrw : PAGE_KERNEL_RO &&& PTE_ADDR_MASK = 0 ∧ PAGE_KERNEL_RO &&& 3 = 3 ∧
      PAGE_KERNEL &&& PTE_ADDR_MASK = 0 := by decide
  have hsect : pmd_sect (s.mem (pmd_slot s.mem pgdir va0)) = true := by
    rw [h2]
    unfold pmd_sect
    have : PMD_TYPE_MASK = 3 := rfl
    rw [this, block_entry_type phys0 PAGE_KERNEL (by omega)]
    decide
  have hone := init_pgd_one_page cfg F s pgdir phys0 va0 PAGE_KERNEL_RO (some al) (by omega)
    (by omega) (by omega) (by omega) h0 h1 hF
  obtain ⟨s2, e2, m1, m2, m3, m4, _⟩ := alloc_init_pte_on_block cfg F s
    (pmd_slot s.mem pgdir va0) va0 (phys_to_pfn phys0) PAGE_KERNEL_RO al
    hsect hf0 hf1 hf2 (by rw [hP]; omega) hF
  generalize hfd : cfg.frames al (s.count al) = f at *
  have hpfn : pmd_pfn (s.mem (pmd_slot s.mem pgdir va0)) = phys0 / 4096 := by
    have a1 := block_entry_pmd_out phys0 PAGE_KERNEL hph (by omega) hrw.2.2
    rw [← h2, pmd_out_eq] at a1
    rw [pmd_pfn_eq]
    omega
  -- the entries of the walk above the pmd level are as before
  have hq0 : s2.mem (pgdir + pgd_index va0 * 8) = s.mem (pgdir + pgd_index va0 * 8) :=
    m4 _ (by rw [hP]; omega) (by omega)
  have hq1 : s2.mem (pud_frame s.mem pgdir va0 + pud_index va0 * 8)
      = s.mem (pud_frame s.mem pgdir va0 + pud_index va0 * 8) :=
    m4 _ (by rw [hP]; omega) (by omega)
  have hf_1 : pud_frame s2.mem pgdir va0 = pud_frame s.mem pgdir va0 := by
    unfold pud_frame; rw [hq0]
  have hf_2 : pmd_frame s2.mem pgdir va0 = pmd_frame s.mem pgdir va0 := by
    unfold pmd_frame; rw [hf_1, hq1]
  have hslot : pmd_slot s2.mem pgdir va0 = pmd_slot s.mem pgdir va0 := by
    show pmd_frame s2.mem pgdir va0 + _ = pmd_frame s.mem pgdir va0 + _
    rw [hf_2]
  -- all addresses of the section share the upper indices
  have hidx : ∀ va, va0 ≤ va → va < va0 + 2097152 →
      pgd_index va = pgd_index va0 ∧ pud_index va = pud_index va0 ∧
        pmd_index va = pmd_index va0 ∧ pte_index va = (va - va0) / 4096 := by
    intro va l1 l2
    rw [pgd_index_eq, pgd_index_eq, pud_index_eq, pud_index_eq, pmd_index_eq, pmd_index_eq,
      pte_index_eq]
    omega
  have hwalk2 : ∀ va, va0 ≤ va → va < va0 + 2097152 →
      resolve s2.mem pgdir va = walk_pte s2.mem f va := by
    intro va l1 l2
    obtain ⟨i0, i1, i2, _⟩ := hidx va l1 l2
    have f1 : pud_frame s2.mem pgdir va = pud_frame s.mem pgdir va0 := by
      unfold pud_frame; rw [i0, hq0]
    have f2 : pmd_frame s2.mem pgdir va = pmd_frame s.mem pgdir va0 := by
      unfold pmd_frame; rw [f1, i1, hq1]
    rw [resolve_of_tables s2.mem pgdir va (by rw [i0, hq0]; exact h0)
      (by rw [f1, i1, hq1]; exact h1), f2]
    exact walk_pmd_table s2.mem _ va f (by rw [i2, ← hP]; exact m1) hf1 hf2
  refine ⟨s2, hone.trans e2, ?_, ?_, ?_⟩
  · rw [hslot, m1]
    unfold pmd_table
    have : PMD_TYPE_MASK = 3 := rfl
    rw [this, table_ref_type f hf1]
    decide
  · intro va l1 l2
    obtain ⟨_, _, _, i3⟩ := hidx va l1 (by omega)
    have hi : pte_index va = pte_index va0 := by rw [i3, pte_index_eq]; omega
    rw [hwalk2 va l1 (by omega)]
    rw [walk_pte_entry s2.mem f va (phys_to_pfn phys0) PAGE_KERNEL_RO (by rw [hi]; exact m2)
      (by rw [phys_to_pfn_eq]; omega) hrw.1 hrw.2.1, phys_to_pfn_eq]
    have e : phys0 / 4096 * 4096 + va % 4096 = phys0 + (va - va0) := by omega
    rw [e]
  · intro va l1 l2
    obtain ⟨i0, i1, i2, i3⟩ := hidx va (by omega) l2
    constructor
    · have f1 : pud_frame s.mem pgdir va = pud_frame s.mem pgdir va0 := by
        unfold pud_frame; rw [i0]
      have f2 : pmd_frame s.mem pgdir va = pmd_frame s.mem pgdir va0 := by
        unfold pmd_frame; rw [f1, i1]
      rw [resolve_of_tables s.mem pgdir va (by rw [i0]; exact h0) (by rw [f1, i1]; exact h1),
        f2, walk_pmd_block s.mem _ va phys0 PAGE_KERNEL (by rw [i2, ← hP]; exact h2) hph
          (by omega) hrw.2.2]
      have e : phys0 + va % 2097152 = phys0 + (va - va0) := by omega
      rw [e]
    · rw [hwalk2 va (by omega) l2]
      have hk : pte_index va < 512 := by rw [pte_index_eq]; omega
      have hne : pte_index va ≠ pte_index va0 := by
        rw [i3, pte_index_eq]; omega
      rw [walk_pte_entry s2.mem f va (phys0 / 4096 + pte_index va) PAGE_KERNEL_EXEC
        (by rw [m3 _ hk hne, hpfn]) (by rw [i3]; omega) PAGE_KERNEL_EXEC_addr
        PAGE_KERNEL_EXEC_type]
      have e : (phys0 / 4096 + pte_index va) * 4096 + va % 4096 = phys0 + (va - va0) := by
        rw [i3]; omega
      rw [e]

set_option maxRecDepth 100000 in
/-- The scenario of the specification on the sample machine: the state after
the 2 MiB mapping is such a directory, and the next frame of the early
allocator is the third of its pool. -/
theorem remap_first_page_of_block_witness :
    ∃ s2, init_pgd cfg0 512 (scenario_map.val s0)
        (pgd_offset_raw cfg0.init_mm_pgd 0xffff000040000000) 0x40000000 0xffff000040000000
        0x1000 PAGE_KERNEL_RO (some PgAlloc.early_pgtable_alloc) = Res.ok s2 ∧
      pmd_table (s2.mem (pmd_slot s2.mem cfg0.init_mm_pgd 0xffff000040000000)) = true ∧
      (∀ va, 0xffff000040000000 ≤ va → va < 0xffff000040000000 + 4096 →
        resolve s2.mem cfg0.init_mm_pgd va
          = some (0x40000000 + (va - 0xffff000040000000), entry_prot PAGE_KERNEL_RO)) ∧
      (∀ va, 0xffff000040000000 + 4096 ≤ va → va < 0xffff000040000000 + 2097152 →
        resolve (scenario_map.val s0).mem cfg0.init_mm_pgd va
          = some (0x40000000 + (va - 0xffff000040000000), entry_prot PAGE_KERNEL) ∧
        resolve s2.mem cfg0.init_mm_pgd va
          = some (0x40000000 + (va - 0xffff000040000000), entry_prot PAGE_KERNEL_EXEC)) :=
  remap_first_page_of_block cfg0 512 (scenario_map.val s0) cfg0.init_mm_pgd
    0xffff000040000000 0x40000000 PgAlloc.early_pgtable_alloc (by decide) (by decide)
    (by decide) (by decide) (by decide) (by decide) (by decide) (by decide) (by decide)
    (by decide) (by decide) (by decide) (by decide) (by decide) (by decide) (by decide)
    (by decide)

set_option maxRecDepth 100000 in
/-- C10 at the failing input: a blob at the aligned address `0x48000008` whose
header carries the right magic and the total size `0x80000000`, which exceeds
`MAX_FDT_SIZE`. The size is stored into an `int`, becomes negative and passes
the signed comparison, so `__fixmap_remap_fdt` returns the non-`NULL` pointer
`0xffff7dfffe600008` with that size; a blob declaring 3 MiB is rejected with
`NULL` as the claim says. -/
theorem fixmap_remap_fdt_oversize :
    fdt32_to_cpu (0x00000080edfe0dd0 % 2 ^ 32) = FDT_MAGIC ∧
    fdt32_to_cpu (0x00000080edfe0dd0 >>> 32) = 0x80000000 ∧
    MAX_FDT_SIZE < ((0x80000000 : Nat) : Int) ∧
    fdt_result_is (__fixmap_remap_fdt cfg0 512 (fdt_state 0x00000080edfe0dd0) 0x48000008 0
      PAGE_KERNEL_RO) 0xffff7dfffe600008 0x80000000 = true ∧
    fdt_result_is (__fixmap_remap_fdt cfg0 512 (fdt_state 0x00003000edfe0dd0) 0x48000008 0
      PAGE_KERNEL_RO) 0 0x300000 = true := by
  decide

/-- C11: `kern_addr_valid` is a function of the table memory alone (it writes
nothing), and it returns non-zero exactly when the bits of `addr` from
`VA_BITS` up are all ones, the pgd entry and the pud entry of `addr` in the
kernel directory are present, and the walk ends at a pud block whose frame is
`pfn_valid`, or at a present pmd entry that is a block whose frame is
`pfn_valid`, or at a present page entry whose frame is `pfn_valid`; so it
returns 0 whenever an entry on the walk is absent. -/
theorem kern_addr_valid_iff (cfg : Config) (mem : Nat → Nat) (addr : Nat) :
    kern_addr_valid cfg mem addr = true ↔
      addr >>> VA_BITS = 65535 ∧
      mem (cfg.init_mm_pgd + pgd_index addr * 8) ≠ 0 ∧
      mem (pud_frame mem cfg.init_mm_pgd addr + pud_index addr * 8) ≠ 0 ∧
      ((pud_sect (mem (pud_frame mem cfg.init_mm_pgd addr + pud_index addr * 8)) = true ∧
          cfg.pfn_valid
            (pud_pfn (mem (pud_frame mem cfg.init_mm_pgd addr + pud_index addr * 8))) = true) ∨
        (pud_sect (mem (pud_frame mem cfg.init_mm_pgd addr + pud_index addr * 8)) = false ∧
          mem (pmd_slot mem cfg.init_mm_pgd addr) ≠ 0 ∧
          ((pmd_sect (mem (pmd_slot mem cfg.init_mm_pgd addr)) = true ∧
              cfg.pfn_valid (pmd_pfn (mem (pmd_slot mem cfg.init_mm_pgd addr))) = true) ∨
            (pmd_sect (mem (pmd_slot mem cfg.init_mm_pgd addr)) = false ∧
              mem (pmd_page_paddr (mem (pmd_slot mem cfg.init_mm_pgd addr))
                + pte_index addr * 8) ≠ 0 ∧
              cfg.pfn_valid (pte_pfn (mem (pmd_page_paddr
                (mem (pmd_slot mem cfg.init_mm_pgd addr)) + pte_index addr * 8))) = true)))) := by
  have hc : U64 >>> VA_BITS - 1 = 65535 := by decide
  unfold kern_addr_valid pmd_slot pud_frame
  simp only [hc, pgd_none, pud_none, pmd_none, pte_none, bne_iff_ne, beq_iff_eq, ne_eq,
    ite_not]
  split_ifs <;> simp_all

/-- C15 fails on the sample machine, which is in early boot
(`slab_is_available()` false): a step of `alloc_init_pmd` that installs a
section entry over a reference to the page table at `0x80003000` does hand the
table back (`memblock_free`); with the general allocator online the same step
only warns and frees nothing. -/
theorem early_boot_frees_table :
    cfg0.slab_available = false ∧
    pmd_table (table_state.mem 0x80002000) = true ∧
    (alloc_init_pmd_step cfg0 512 table_state 0x80002000 0xffff000040000000
        0xffff000040200000 0x40000000 PAGE_KERNEL (some PgAlloc.early_pgtable_alloc)).trace
      = [Event.free 0x80003000, Event.flush_tlb_all,
          Event.write 0x80002000 (0x40000000 ||| PMD_TYPE_SECT ||| mk_sect_prot PAGE_KERNEL)] ∧
    (alloc_init_pmd_step { cfg0 with slab_available := true } 512 table_state 0x80002000
        0xffff000040000000 0xffff000040200000 0x40000000 PAGE_KERNEL
        (some PgAlloc.early_pgtable_alloc)).trace
      = [Event.warn, Event.flush_tlb_all,
          Event.write 0x80002000 (0x40000000 ||| PMD_TYPE_SECT ||| mk_sect_prot PAGE_KERNEL)] := by
  decide

/-- C15 (as amended): when a block entry installed at pmd or pud level replaces
a table reference, the TLB is flushed and the table that the old entry named
is handed back with `memblock_free` exactly when the general allocator is not
yet online (`slab_is_available()` false, early boot); once it is online the
return is skipped with a warning and the frame stays allocated. -/
theorem table_release_policy (cfg : Config) (F : Nat) (s : State)
    (p addr next phys prot : Nat) (pgtable_alloc : Option PgAlloc)
    (htab : pmd_table (s.mem p) = true)
    (hal : block_mappings_allowed cfg pgtable_alloc = true) :
    (addr % SECTION_SIZE = 0 ∧ next % SECTION_SIZE = 0 ∧ phys % SECTION_SIZE = 0 →
      alloc_init_pmd_step cfg F s p addr next phys prot pgtable_alloc =
        Res.ok (if cfg.slab_available = true then
          warn (flush_tlb_all (set_pmd s p (phys ||| PMD_TYPE_SECT ||| mk_sect_prot prot)))
        else memblock_free
          (flush_tlb_all (set_pmd s p (phys ||| PMD_TYPE_SECT ||| mk_sect_prot prot)))
          (pmd_page_paddr (s.mem p)))) ∧
    (use_1G_block cfg addr next phys = true →
      alloc_init_pud_step cfg F s p addr next phys prot pgtable_alloc =
        Res.ok (if cfg.slab_available = true then
          warn (flush_tlb_all (set_pud s p (phys ||| PUD_TYPE_SECT ||| mk_sect_prot prot)))
        else memblock_free
          (flush_tlb_all (set_pud s p (phys ||| PUD_TYPE_SECT ||| mk_sect_prot prot)))
          (pud_page_paddr (s.mem p)))) := by
  have hne : pmd_none (s.mem p) = false := by
    unfold pmd_table at htab
    unfold pmd_none
    have h3 : s.mem p &&& 3 = 3 := by simpa [PMD_TYPE_MASK, PMD_TYPE_TABLE] using htab
    have := ne_zero_of_type h3 (by decide)
    simpa using this
  have hss : SECTION_SIZE = 2097152 := by decide
  constructor
  · rintro ⟨h1, h2, h3⟩
    rw [hss] at h1 h2 h3
    have hc : (addr ||| next ||| phys) &&& not64 SECTION_MASK = 0 :=
      (section_aligned_iff addr next phys).mpr ⟨h1, h2, h3⟩
    have hp : phys &&& not64 PMD_MASK = 0 := by rw [and_not_PMD_MASK]; exact h3
    unfold alloc_init_pmd_step pmd_set_huge release_old
    simp only [hc, hal, hp, hne, htab, beq_self_eq_true, Bool.and_self, if_true, bne_self_eq_false,
      Bool.false_eq_true, if_false, Bool.not_false]
  · intro h1
    have h2 := ((use_1G_block_iff cfg addr next phys).mp h1).1
    have hp : phys &&& not64 PUD_MASK = 0 := by rw [and_not_PUD_MASK]; exact h2.2.2
    unfold alloc_init_pud_step pud_set_huge release_old
    simp only [h1, hal, hp, hne, htab, Bool.and_self, if_true, bne_self_eq_false,
      Bool.false_eq_true, if_false, Bool.not_false]
    rfl

/-- The step of the counterexample, in early boot and with the general
allocator online. -/
theorem table_release_policy_witness :
    (0xffff000040000000 % SECTION_SIZE = 0 ∧ 0xffff000040200000 % SECTION_SIZE = 0 ∧
        0x40000000 % SECTION_SIZE = 0 →
      alloc_init_pmd_step cfg0 512 table_state 0x80002000 0xffff000040000000
          0xffff000040200000 0x40000000 PAGE_KERNEL (some PgAlloc.early_pgtable_alloc) =
        Res.ok (if cfg0.slab_available = true then
          warn (flush_tlb_all (set_pmd table_state 0x80002000
            (0x40000000 ||| PMD_TYPE_SECT ||| mk_sect_prot PAGE_KERNEL)))
        else memblock_free
          (flush_tlb_all (set_pmd table_state 0x80002000
            (0x40000000 ||| PMD_TYPE_SECT ||| mk_sect_prot PAGE_KERNEL)))
          (pmd_page_paddr (table_state.mem 0x80002000)))) ∧
    (use_1G_block cfg0 0xffff000040000000 0xffff000040200000 0x40000000 = true →
      alloc_init_pud_step cfg0 512 table_state 0x80002000 0xffff000040000000
          0xffff000040200000 0x40000000 PAGE_KERNEL (some PgAlloc.early_pgtable_alloc) =
        Res.ok (if cfg0.slab_available = true then
          warn (flush_tlb_all (set_pud table_state 0x80002000
            (0x40000000 ||| PUD_TYPE_SECT ||| mk_sect_prot PAGE_KERNEL)))
        else memblock_free
          (flush_tlb_all (set_pud table_state 0x80002000
            (0x40000000 ||| PUD_TYPE_SECT ||| mk_sect_prot PAGE_KERNEL)))
          (pud_page_paddr (table_state.mem 0x80002000)))) :=
  table_release_policy cfg0 512 table_state 0x80002000 0xffff000040000000
    0xffff000040200000 0x40000000 PAGE_KERNEL (some PgAlloc.early_pgtable_alloc)
    (by decide) (by decide)

/-- C17 fails on the sample machine: the `FIX_PTE` slot holds a mapping of
frame `0x12345`, and `__set_fixmap` on that slot with `PAGE_KERNEL` does not
halt; it returns with the entry overwritten by the mapping of `0x54321`. -/
theorem set_fixmap_overwrites :
    FIX_HOLE < cfg0.FIX_PTE ∧ cfg0.FIX_PTE < cfg0.end_of_fixed_addresses ∧
    pte_none (fix_state.mem (fixmap_pte cfg0 (__fix_to_virt cfg0 cfg0.FIX_PTE))) = false ∧
    (__set_fixmap cfg0 fix_state cfg0.FIX_PTE 0x54321000 PAGE_KERNEL).isBug = false ∧
    ((__set_fixmap cfg0 fix_state cfg0.FIX_PTE 0x54321000 PAGE_KERNEL).val s0).mem
        (fixmap_pte cfg0 (__fix_to_virt cfg0 cfg0.FIX_PTE)) = pfn_pte 0x54321 PAGE_KERNEL := by
  decide

/-- C17 (as amended): the only fatal assertion of `__set_fixmap` is on the slot
index (`idx <= FIX_HOLE` or `idx >= __end_of_fixed_addresses`); for a valid
index and a non-zero protection it stores the new page entry into the slot of
`bm_pte` whatever the slot held, and with a zero protection it clears the
entry and flushes the page. -/
theorem set_fixmap_spec (cfg : Config) (s : State) (idx phys flags : Nat) :
    (idx ≤ FIX_HOLE ∨ cfg.end_of_fixed_addresses ≤ idx →
      __set_fixmap cfg s idx phys flags = Res.bug) ∧
    (FIX_HOLE < idx → idx < cfg.end_of_fixed_addresses → flags ≠ 0 →
      __set_fixmap cfg s idx phys flags =
        Res.ok (set_pte s (fixmap_pte cfg (__fix_to_virt cfg idx))
          (pfn_pte (phys >>> PAGE_SHIFT) flags))) ∧
    (FIX_HOLE < idx → idx < cfg.end_of_fixed_addresses → flags = 0 →
      __set_fixmap cfg s idx phys flags =
        Res.ok (flush_tlb_kernel_range (pte_clear s (fixmap_pte cfg (__fix_to_virt cfg idx)))
          (__fix_to_virt cfg idx) ((__fix_to_virt cfg idx + PAGE_SIZE) % U64))) := by
  refine ⟨?_, ?_, ?_⟩
  · intro h
    unfold __set_fixmap
    have : idx ≤ FIX_HOLE ∨ idx ≥ cfg.end_of_fixed_addresses := h
    simp only [this, if_true]
  · intro h1 h2 h3
    unfold __set_fixmap
    have : ¬ (idx ≤ FIX_HOLE ∨ idx ≥ cfg.end_of_fixed_addresses) := by omega
    simp [this, h3]
  · intro h1 h2 h3
    unfold __set_fixmap
    have : ¬ (idx ≤ FIX_HOLE ∨ idx ≥ cfg.end_of_fixed_addresses) := by omega
    simp [this, h3]

/-- C20: `split_pmd` writes `PTRS_PER_PTE` page entries and nothing else; the
entry with index `k` is `pfn_pte(pmd_pfn + k, PAGE_KERNEL_EXEC)`, a valid page
descriptor whose attribute bits are those of `PAGE_KERNEL_EXEC`. The block
entry enters only through its frame number: two block entries with the same
frame number and any protection bits are split into the same page entries. -/
theorem split_pmd_exec (s : State) (pmd pte : Nat) :
    (∀ k, k < PTRS_PER_PTE →
      (split_pmd s pmd pte).mem (pte + k * 8)
        = pfn_pte (pmd_pfn (s.mem pmd) + k) PAGE_KERNEL_EXEC ∧
      (split_pmd s pmd pte).mem (pte + k * 8) &&& 3 = 3 ∧
      entry_prot ((split_pmd s pmd pte).mem (pte + k * 8)) = entry_prot PAGE_KERNEL_EXEC) ∧
    (∀ q, (∀ k, k < PTRS_PER_PTE → q ≠ pte + k * 8) →
      (split_pmd s pmd pte).mem q = s.mem q) ∧
    (∀ s1 : State, pmd_pfn (s1.mem pmd) = pmd_pfn (s.mem pmd) →
      ∀ k, k < PTRS_PER_PTE →
        (split_pmd s1 pmd pte).mem (pte + k * 8) = (split_pmd s pmd pte).mem (pte + k * 8)) := by
  have hn : PTRS_PER_PTE = 512 := by decide
  rw [hn]
  obtain ⟨h1, h2, _, _⟩ := split_pmd_spec s pmd pte
  refine ⟨?_, h2, ?_⟩
  · intro k hk
    have hx : pmd_pfn (s.mem pmd) + k < 68719476736 := by rw [pmd_pfn_eq]; omega
    rw [h1 k hk]
    exact ⟨rfl, split_pmd_entry_type _ hx, split_pmd_entry_prot _ hx⟩
  · intro s1 he k hk
    rw [h1 k hk, (split_pmd_spec s1 pmd pte).1 k hk, he]

/-- The trace of the tail of a block branch: after the store of the block
entry over a non-empty entry `flush_tlb_all` follows. -/
theorem release_old_trace (cfg : Config) (s : State) (p v old : Nat) (h : old ≠ 0) :
    ∃ evs, (release_old cfg (set_entry s p v) old).trace
        = evs ++ Event.flush_tlb_all :: Event.write p v :: s.trace ∧
      ∀ e ∈ evs, ∃ f, e = Event.free f ∨ e = Event.warn := by
  have hn : pmd_none old = false := by unfold pmd_none; simpa using h
  unfold release_old
  simp only [hn, Bool.not_false, if_true]
  cases pmd_table old <;> cases cfg.slab_available
  · exact ⟨[], rfl, fun _ h => by cases h⟩
  · exact ⟨[], rfl, fun _ h => by cases h⟩
  · refine ⟨[Event.free (pmd_page_paddr old)], rfl, fun e he => ?_⟩
    rw [List.mem_singleton] at he
    exact ⟨_, Or.inl he⟩
  · refine ⟨[Event.warn], rfl, fun e he => ?_⟩
    rw [List.mem_singleton] at he
    exact ⟨0, Or.inr he⟩

/-- C16: over the trace of one call of `init_pgd`, taken with the stores and
invalidations of the fixmap slots through which the tables are reached, every
table write is followed by a TLB invalidation before the call returns. A call
that passes the alignment check and returns ends with `pud_clear_fixmap()`,
the last statement of `alloc_init_pud`: its last two events are the store of 0
into the `FIX_PUD` slot and `flush_tlb_kernel_range` of the page of the slot,
so no write of the run, structural or not, is the last event of the run. A
call that fails the alignment check writes nothing. In addition
`flush_tlb_all` directly follows the store that links a new page table or a
new pmd table (also after a split), and the store of a block entry over a
non-empty entry. -/
theorem init_pgd_ends_invalidated (cfg : Config) (F : Nat) (s s1 : State)
    (pgd phys virt size prot : Nat) (al : Option PgAlloc)
    (h : init_pgd_fixmap cfg F s pgd phys virt size prot al = Res.ok s1) :
    (∃ evs, s1.trace = evs ++ s.trace ∧
      (∀ l1 p v l2, evs = l1 ++ Event.write p v :: l2 →
        ∃ ev ∈ l1, is_invalidation ev = true) ∧
      unflushed_writes evs = 0 ∧
      ((phys ^^^ virt) &&& not64 PAGE_MASK = 0 →
        ∃ rest, evs = Event.flush_tlb_kernel_range (__fix_to_virt cfg (FIX_PUD cfg))
            ((__fix_to_virt cfg (FIX_PUD cfg) + PAGE_SIZE) % U64)
          :: Event.write (fixmap_slot cfg (FIX_PUD cfg)) 0 :: rest) ∧
      ((phys ^^^ virt) &&& not64 PAGE_MASK ≠ 0 → evs = [Event.warn])) ∧
    (∀ t t1 p a, alloc_init_pte_prepare_fixmap cfg t p (some a) = Res.ok t1 →
      (pmd_none (t.mem p) || pmd_sect (t.mem p)) = true →
      ∃ v r, t1.trace = Event.flush_tlb_kernel_range (__fix_to_virt cfg cfg.FIX_PTE)
          ((__fix_to_virt cfg cfg.FIX_PTE + PAGE_SIZE) % U64)
        :: Event.write (fixmap_slot cfg cfg.FIX_PTE) 0 :: Event.flush_tlb_all
        :: Event.write p v :: r) ∧
    (∀ t t1 p a, alloc_init_pmd_prepare_fixmap cfg t p (some a) = Res.ok t1 →
      (pud_none (t.mem p) || pud_sect (t.mem p)) = true →
      ∃ v r, t1.trace = Event.flush_tlb_kernel_range (__fix_to_virt cfg (FIX_PMD cfg))
          ((__fix_to_virt cfg (FIX_PMD cfg) + PAGE_SIZE) % U64)
        :: Event.write (fixmap_slot cfg (FIX_PMD cfg)) 0 :: Event.flush_tlb_all
        :: Event.write p v :: r) ∧
    (∀ t p v old, old ≠ 0 →
      ∃ evs, (release_old cfg (set_entry t p v) old).trace
          = evs ++ Event.flush_tlb_all :: Event.write p v :: t.trace ∧
        ∀ e ∈ evs, ∃ f, e = Event.free f ∨ e = Event.warn) := by
  refine ⟨?_, fun t t1 p a h1 h2 => (alloc_init_pte_prepare_fixmap_trace cfg t t1 p _ h1).2 h2,
    fun t t1 p a h1 h2 => (alloc_init_pmd_prepare_fixmap_trace cfg t t1 p _ h1).2 h2,
    fun t p v old ho => release_old_trace cfg t p v old ho⟩
  unfold init_pgd_fixmap at h
  split at h
  · rename_i hc
    simp only [Res.ok.injEq] at h
    subst h
    have hne : (phys ^^^ virt) &&& not64 PAGE_MASK ≠ 0 := by simpa using hc
    refine ⟨[Event.warn], rfl, ?_, rfl, fun h0 => absurd h0 hne, fun _ => rfl⟩
    intro l1 p v l2 he
    cases l1 with
    | nil => simp at he
    | cons x xs =>
      simp only [List.cons_append, List.cons.injEq] at he
      have := he.2
      cases xs <;> simp at this
  · rename_i hc
    have heq : (phys ^^^ virt) &&& not64 PAGE_MASK = 0 := by simpa using hc
    obtain ⟨t, ⟨evs, e1, _⟩, e2⟩ := init_pgd_loop_fixmap_trace cfg F prot _ al F s s1 pgd _ _ h
    refine ⟨_ :: _ :: evs, by rw [e2, e1]; rfl, write_then_invalidation _ _ _, rfl,
      fun _ => ⟨evs, rfl⟩, fun h0 => absurd heq h0⟩

set_option maxRecDepth 100000 in
/-- The first step of the scenario on the sample machine returns: its trace
of 21 events begins with the allocation of the pud table and ends with the
clearing of the `FIX_PUD` slot and the invalidation of its page. -/
theorem init_pgd_ends_invalidated_witness :
    (init_pgd_fixmap cfg0 512 s0 (pgd_offset_raw cfg0.init_mm_pgd 0xffff000040000000) 0x40000000
        0xffff000040000000 0x200000 PAGE_KERNEL (some PgAlloc.early_pgtable_alloc)
      = Res.ok (scenario_map_fixmap.val s0) ∧
      (scenario_map_fixmap.val s0).trace.length = 21 ∧
      (scenario_map_fixmap.val s0).trace.take 5 =
        [Event.flush_tlb_kernel_range 0xffff7dfffe4fa000 0xffff7dfffe4fb000,
          Event.write 0x415007d0 0,
          Event.flush_tlb_kernel_range 0xffff7dfffe4fb000 0xffff7dfffe4fc000,
          Event.write 0x415007d8 0,
          Event.write 0x100003000 (0x40000000 ||| PMD_TYPE_SECT ||| mk_sect_prot PAGE_KERNEL)]) ∧
    ∃ evs, (scenario_map_fixmap.val s0).trace = evs ++ s0.trace ∧
      (∀ l1 p v l2, evs = l1 ++ Event.write p v :: l2 →
        ∃ ev ∈ l1, is_invalidation ev = true) ∧
      unflushed_writes evs = 0 :=
  have h : init_pgd_fixmap cfg0 512 s0 (pgd_offset_raw cfg0.init_mm_pgd 0xffff000040000000)
      0x40000000 0xffff000040000000 0x200000 PAGE_KERNEL (some PgAlloc.early_pgtable_alloc)
      = Res.ok (scenario_map_fixmap.val s0) := Res.ok_val scenario_map_fixmap s0 (by decide)
  have c := (init_pgd_ends_invalidated cfg0 512 s0 (scenario_map_fixmap.val s0)
    (pgd_offset_raw cfg0.init_mm_pgd 0xffff000040000000) 0x40000000 0xffff000040000000
    0x200000 PAGE_KERNEL (some PgAlloc.early_pgtable_alloc) h).1
  ⟨⟨h, by decide, by decide⟩,
    c.elim fun evs he => ⟨evs, he.1, he.2.1, he.2.2.1⟩⟩

/-- C18: `early_pgtable_alloc` (with its use of the `FIX_PTE` slot explicit)
halts fatally if and only if `memblock_alloc` returns 0. Otherwise, for the
page-aligned frame below `2^48` that `memblock_alloc` returns, it returns that
frame with all of its `PAGE_SIZE` bytes zero and with the entry of the
`FIX_PTE` slot cleared; memory outside the frame and the slot is untouched,
and the frame, the memory outside the slot (all memory, when the slot was free
before the call) and the counters are those of the pointer-free
`early_pgtable_alloc` that the descent uses. `late_pgtable_alloc` halts
fatally if and only if `__get_free_page` returns `NULL`. The fixmap is taken
to be page aligned with `FIX_PTE` a valid slot. -/
theorem pgtable_alloc_fatal_or_zero (cfg : Config) (s : State)
    (hfix1 : FIX_HOLE < cfg.FIX_PTE) (hfix2 : cfg.FIX_PTE < cfg.end_of_fixed_addresses)
    (htop : cfg.FIXADDR_TOP % 4096 = 0) :
    (early_pgtable_alloc_fixmap cfg s = Res.bug ↔
      cfg.frames PgAlloc.early_pgtable_alloc (s.count PgAlloc.early_pgtable_alloc) = 0) ∧
    (cfg.frames PgAlloc.early_pgtable_alloc (s.count PgAlloc.early_pgtable_alloc) ≠ 0 →
      cfg.frames PgAlloc.early_pgtable_alloc (s.count PgAlloc.early_pgtable_alloc) % 4096 = 0 →
      cfg.frames PgAlloc.early_pgtable_alloc (s.count PgAlloc.early_pgtable_alloc)
        < 281474976710656 →
      ∃ s1, early_pgtable_alloc_fixmap cfg s = Res.ok
          (cfg.frames PgAlloc.early_pgtable_alloc (s.count PgAlloc.early_pgtable_alloc), s1) ∧
        (∀ q, cfg.frames PgAlloc.early_pgtable_alloc (s.count PgAlloc.early_pgtable_alloc) ≤ q →
          q < cfg.frames PgAlloc.early_pgtable_alloc (s.count PgAlloc.early_pgtable_alloc)
            + PAGE_SIZE → s1.mem q = 0) ∧
        s1.mem (fixmap_pte cfg (__fix_to_virt cfg cfg.FIX_PTE)) = 0 ∧
        (∀ q, q ≠ fixmap_pte cfg (__fix_to_virt cfg cfg.FIX_PTE) →
          ¬ (cfg.frames PgAlloc.early_pgtable_alloc (s.count PgAlloc.early_pgtable_alloc) ≤ q ∧
            q < cfg.frames PgAlloc.early_pgtable_alloc (s.count PgAlloc.early_pgtable_alloc)
              + PAGE_SIZE) → s1.mem q = s.mem q) ∧
        ∃ s2, early_pgtable_alloc cfg s = Res.ok
            (cfg.frames PgAlloc.early_pgtable_alloc (s.count PgAlloc.early_pgtable_alloc), s2) ∧
          (∀ q, q ≠ fixmap_pte cfg (__fix_to_virt cfg cfg.FIX_PTE) → s2.mem q = s1.mem q) ∧
          (s.mem (fixmap_pte cfg (__fix_to_virt cfg cfg.FIX_PTE)) = 0 →
            ∀ q, s2.mem q = s1.mem q) ∧
          s2.count = s1.count) ∧
    (late_pgtable_alloc cfg s = Res.bug ↔
      cfg.frames PgAlloc.late_pgtable_alloc (s.count PgAlloc.late_pgtable_alloc) = 0) := by
  have hps : PAGE_SIZE = 4096 := by decide
  refine ⟨?_, ?_, ?_⟩
  · by_cases h : cfg.frames PgAlloc.early_pgtable_alloc (s.count PgAlloc.early_pgtable_alloc) = 0
    · unfold early_pgtable_alloc_fixmap
      simp [take_frame, h]
    · have hne : (cfg.frames PgAlloc.early_pgtable_alloc (s.count PgAlloc.early_pgtable_alloc)
          == 0) = false := by simpa using h
      unfold early_pgtable_alloc_fixmap pte_set_fixmap pte_clear_fixmap
      simp only [take_frame, hne, Bool.false_eq_true, if_false,
        set_fixmap_valid cfg _ cfg.FIX_PTE _ _ hfix1 hfix2, Res.bind, h]
      simp
  · intro hf0 hf1 hf2
    obtain ⟨s1, e1, m1, c1⟩ := early_pgtable_alloc_fixmap_ok cfg s hfix1 hfix2 htop hf0 hf1 hf2
    obtain ⟨s2, e2, m2, c2⟩ := call_alloc_zero cfg PgAlloc.early_pgtable_alloc s hf0
      (by intro h; cases h)
    rw [hps]
    refine ⟨s1, e1, ?_, ?_, ?_, s2, e2, ?_, ?_, ?_⟩
    · intro q h1 h2
      rw [m1 q]
      split
      · rfl
      · rw [if_pos ⟨h1, h2⟩]
    · rw [m1 _, if_pos rfl]
    · intro q h1 h2
      rw [m1 q, if_neg h1, if_neg h2]
    · intro q h1
      rw [m1 q, m2 q, if_neg h1]
    · intro h0 q
      rw [m1 q, m2 q]
      by_cases h1 : q = fixmap_pte cfg (__fix_to_virt cfg cfg.FIX_PTE)
      · rw [if_pos h1]
        split
        · rfl
        · rw [h1, h0]
      · rw [if_neg h1]
    · rw [c1, c2]
  · unfold late_pgtable_alloc
    by_cases h : cfg.frames PgAlloc.late_pgtable_alloc (s.count PgAlloc.late_pgtable_alloc) = 0
    · simp [take_frame, h]
    · simp [take_frame, h]

/-- The sample machine at its start: the slot index is valid, the fixmap is
aligned, and the first frame of the early allocator is `0x100000000`. -/
theorem pgtable_alloc_fatal_or_zero_witness :
    (FIX_HOLE < cfg0.FIX_PTE ∧ cfg0.FIX_PTE < cfg0.end_of_fixed_addresses ∧
      cfg0.FIXADDR_TOP % 4096 = 0) ∧
    ((early_pgtable_alloc_fixmap cfg0 s0 = Res.bug ↔
      cfg0.frames PgAlloc.early_pgtable_alloc (s0.count PgAlloc.early_pgtable_alloc) = 0) ∧
    (cfg0.frames PgAlloc.early_pgtable_alloc (s0.count PgAlloc.early_pgtable_alloc) ≠ 0 →
      cfg0.frames PgAlloc.early_pgtable_alloc (s0.count PgAlloc.early_pgtable_alloc) % 4096 = 0 →
      cfg0.frames PgAlloc.early_pgtable_alloc (s0.count PgAlloc.early_pgtable_alloc)
        < 281474976710656 →
      ∃ s1, early_pgtable_alloc_fixmap cfg0 s0 = Res.ok
          (cfg0.frames PgAlloc.early_pgtable_alloc (s0.count PgAlloc.early_pgtable_alloc), s1) ∧
        (∀ q, cfg0.frames PgAlloc.early_pgtable_alloc (s0.count PgAlloc.early_pgtable_alloc) ≤ q →
          q < cfg0.frames PgAlloc.early_pgtable_alloc (s0.count PgAlloc.early_pgtable_alloc)
            + PAGE_SIZE → s1.mem q = 0) ∧
        s1.mem (fixmap_pte cfg0 (__fix_to_virt cfg0 cfg0.FIX_PTE)) = 0 ∧
        (∀ q, q ≠ fixmap_pte cfg0 (__fix_to_virt cfg0 cfg0.FIX_PTE) →
          ¬ (cfg0.frames PgAlloc.early_pgtable_alloc (s0.count PgAlloc.early_pgtable_alloc) ≤ q ∧
            q < cfg0.frames PgAlloc.early_pgtable_alloc (s0.count PgAlloc.early_pgtable_alloc)
              + PAGE_SIZE) → s1.mem q = s0.mem q) ∧
        ∃ s2, early_pgtable_alloc cfg0 s0 = Res.ok
            (cfg0.frames PgAlloc.early_pgtable_alloc (s0.count PgAlloc.early_pgtable_alloc), s2) ∧
          (∀ q, q ≠ fixmap_pte cfg0 (__fix_to_virt cfg0 cfg0.FIX_PTE) → s2.mem q = s1.mem q) ∧
          (s0.mem (fixmap_pte cfg0 (__fix_to_virt cfg0 cfg0.FIX_PTE)) = 0 →
            ∀ q, s2.mem q = s1.mem q) ∧
          s2.count = s1.count) ∧
    (late_pgtable_alloc cfg0 s0 = Res.bug ↔
      cfg0.frames PgAlloc.late_pgtable_alloc (s0.count PgAlloc.late_pgtable_alloc) = 0)) :=
  ⟨by decide, pgtable_alloc_fatal_or_zero cfg0 s0 (by decide) (by decide) (by decide)⟩

/-- The tables of `fdt_state` form a well-formed directory. -/
theorem WF_own_fdt (header : Nat) : WF (fdt_state header).mem own_fdt := by
  intro T L b hT
  unfold own_fdt at hT
  by_cases h0 : T = cfg0.init_mm_pgd
  · simp only [h0, if_true, Option.some.injEq, Prod.mk.injEq] at hT
    obtain ⟨rfl, rfl⟩ := hT
    subst h0
    refine ⟨by omega, by decide, by decide, by decide, fun _ j hj => ?_⟩
    by_cases hj0 : j = pgd_index cfg0.dt_virt_base
    · subst hj0
      right; right
      have he : (fdt_state header).mem (cfg0.init_mm_pgd + pgd_index cfg0.dt_virt_base * 8)
          = 0x80001000 ||| 3 := by
        unfold fdt_state
        simp only [if_true]
      rw [he]
      exact ⟨by decide, by decide⟩
    · left
      have hp : pgd_index cfg0.dt_virt_base = 251 := by decide
      have hb : cfg0.init_mm_pgd = 2147483648 := rfl
      have hu : pud_index cfg0.dt_virt_base = 511 := by decide
      rw [hp] at hj0
      show (if cfg0.init_mm_pgd + j * 8 = cfg0.init_mm_pgd + pgd_index cfg0.dt_virt_base * 8
        then _ else if cfg0.init_mm_pgd + j * 8 = 0x80001000 + pud_index cfg0.dt_virt_base * 8
        then _ else if cfg0.init_mm_pgd + j * 8 = 0x48000008 then header else 0) = 0
      rw [hp, hu, hb, if_neg (by omega), if_neg (by omega), if_neg (by omega)]
  · simp only [h0, if_false] at hT
    by_cases h1 : T = 0x80001000
    · simp only [h1, if_true, Option.some.injEq, Prod.mk.injEq] at hT
      obtain ⟨rfl, rfl⟩ := hT
      subst h1
      refine ⟨by omega, by decide, by decide, by decide, fun _ j hj => ?_⟩
      by_cases hj0 : j = pud_index cfg0.dt_virt_base
      · subst hj0
        right; right
        have he : (fdt_state header).mem (0x80001000 + pud_index cfg0.dt_virt_base * 8)
            = 0x80002000 ||| 3 := by
          unfold fdt_state
          have hne : ¬ (0x80001000 + pud_index cfg0.dt_virt_base * 8
              = cfg0.init_mm_pgd + pgd_index cfg0.dt_virt_base * 8) := by decide
          simp only [hne, if_false, if_true]
        rw [he]
        exact ⟨by decide, by decide⟩
      · left
        have hp : pgd_index cfg0.dt_virt_base = 251 := by decide
        have hb : cfg0.init_mm_pgd = 2147483648 := rfl
        have hu : pud_index cfg0.dt_virt_base = 511 := by decide
        rw [hu] at hj0
        show (if 0x80001000 + j * 8 = cfg0.init_mm_pgd + pgd_index cfg0.dt_virt_base * 8
          then _ else if 0x80001000 + j * 8 = 0x80001000 + pud_index cfg0.dt_virt_base * 8
          then _ else if 0x80001000 + j * 8 = 0x48000008 then header else 0) = 0
        rw [hp, hu, hb, if_neg (by omega), if_neg (by omega), if_neg (by omega)]
    · simp only [h1, if_false] at hT
      by_cases h2 : T = 0x80002000
      · simp only [h2, if_true, Option.some.injEq, Prod.mk.injEq] at hT
        obtain ⟨rfl, rfl⟩ := hT
        subst h2
        refine ⟨by omega, by decide, by decide, by decide, fun _ j hj => ?_⟩
        left
        have hp : pgd_index cfg0.dt_virt_base = 251 := by decide
        have hb : cfg0.init_mm_pgd = 2147483648 := rfl
        have hu : pud_index cfg0.dt_virt_base = 511 := by decide
        show (if 0x80002000 + j * 8 = cfg0.init_mm_pgd + pgd_index cfg0.dt_virt_base * 8
          then _ else if 0x80002000 + j * 8 = 0x80001000 + pud_index cfg0.dt_virt_base * 8
          then _ else if 0x80002000 + j * 8 = 0x48000008 then header else 0) = 0
        rw [hp, hu, hb, if_neg (by omega), if_neg (by omega), if_neg (by omega)]
      · simp only [h2, if_false] at hT
        cases hT

/-- C19: with no allocator the three levels halt with a fatal assertion where
a table would have to be created: `alloc_init_pud` on an empty pgd entry,
`alloc_init_pmd` on an empty or block pud entry, `alloc_init_pte` on an empty
or section pmd entry. For a request inside the window of a well-formed
directory, every run of `init_pgd` without an allocator, and so every run of
`create_mapping_noalloc`, that returns has called no frame source; the tables
of the directory are the tables it had before; and every store of the trace,
which is taken with the fixmap slots, went either into one of the three slots
of `bm_pte` through which the tables are reached, or into an entry of a table
that the directory had before: a block entry into a pud or pmd table, a page
entry of the requested protection into a page table. -/
theorem noalloc_creates_no_table (cfg : Config) (own : Own) (F : Nat) (s : State)
    (WB phys virt size prot : Nat) (hsize : 0 < size)
    (hwb1 : WB % 281474976710656 = 0) (hwb2 : WB + 281474976710656 ≤ 18446744073709551616)
    (hwb3 : WB ≤ virt) (hwb4 : virt + size ≤ WB + 281474976710656)
    (hw : WF s.mem own) (hs : SlotsOk cfg own) :
    (∀ t p addr e, pgd_none (t.mem p) = true →
      alloc_init_pud_fixmap cfg F t p addr e phys prot none = Res.bug) ∧
    (∀ t p addr e, (pud_none (t.mem p) || pud_sect (t.mem p)) = true →
      alloc_init_pmd_fixmap cfg F t p addr e phys prot none = Res.bug) ∧
    (∀ t p addr e, (pmd_none (t.mem p) || pmd_sect (t.mem p)) = true →
      alloc_init_pte_fixmap cfg F t p addr e (phys_to_pfn phys) prot none = Res.bug) ∧
    (∀ pgdir s1, own pgdir = some (0, WB) →
      init_pgd_fixmap cfg F s (pgd_offset_raw pgdir virt) phys virt size prot none
        = Res.ok s1 →
      s1.count = s.count ∧ WF s1.mem own ∧
      ∃ evs, s1.trace = evs ++ s.trace ∧ ∀ ev ∈ evs, noalloc_event cfg own prot ev) ∧
    (∀ s1, own cfg.init_mm_pgd = some (0, WB) →
      create_mapping_noalloc_fixmap cfg F s phys virt size prot = Res.ok s1 →
      s1.count = s.count ∧ WF s1.mem own ∧
      ∃ evs, s1.trace = evs ++ s.trace ∧ ∀ ev ∈ evs, noalloc_event cfg own prot ev) := by
  refine ⟨?_, ?_, ?_, ?_, ?_⟩
  · intro t p addr e h
    unfold alloc_init_pud_fixmap alloc_init_pud_prepare_fixmap
    simp only [h, if_true]
    rfl
  · intro t p addr e h
    unfold alloc_init_pmd_fixmap alloc_init_pmd_prepare_fixmap
    simp only [h, if_true]
    rfl
  · intro t p addr e h
    unfold alloc_init_pte_fixmap alloc_init_pte_prepare_fixmap
    simp only [h, if_true]
    rfl
  · intro pgdir s1 hroot h
    exact init_pgd_fixmap_notable cfg own F s s1 WB pgdir phys virt size prot hsize hwb1 hwb2
      hwb3 hwb4 hw hs hroot h
  · intro s1 hroot h
    unfold create_mapping_noalloc_fixmap at h
    split at h
    · simp only [Res.ok.injEq] at h
      subst h
      exact ⟨rfl, hw, Ext.one Event.warn rfl trivial⟩
    · exact init_pgd_fixmap_notable cfg own F s s1 WB cfg.init_mm_pgd phys virt size prot hsize
        hwb1 hwb2 hwb3 hwb4 hw hs hroot h

set_option maxRecDepth 100000 in
/-- The sample machine with the pud and pmd tables of the device-tree region:
`create_mapping_noalloc` for the 2 MiB at `dt_virt_base` returns after seven
events, the store of one section entry into the pmd table between the stores
and invalidations of the `FIX_PUD` and `FIX_PMD` slots. On the empty directory
the same call halts. -/
theorem noalloc_creates_no_table_witness :
    (WF (fdt_state 0).mem own_fdt ∧ SlotsOk cfg0 own_fdt ∧
      own_fdt cfg0.init_mm_pgd = some (0, 0xffff000000000000) ∧
      own_fdt 0x80002000 = some (2, cfg0.dt_virt_base / 1073741824 * 1073741824) ∧
      create_mapping_noalloc_fixmap cfg0 512 (fdt_state 0) 0x48000000 cfg0.dt_virt_base 0x200000
        PAGE_KERNEL_RO
        = Res.ok ((create_mapping_noalloc_fixmap cfg0 512 (fdt_state 0) 0x48000000
            cfg0.dt_virt_base 0x200000 PAGE_KERNEL_RO).val s0) ∧
      ((create_mapping_noalloc_fixmap cfg0 512 (fdt_state 0) 0x48000000
          cfg0.dt_virt_base 0x200000 PAGE_KERNEL_RO).val s0).trace
        = [Event.flush_tlb_kernel_range 0xffff7dfffe4fa000 0xffff7dfffe4fb000,
            Event.write 0x415007d0 0,
            Event.flush_tlb_kernel_range 0xffff7dfffe4fb000 0xffff7dfffe4fc000,
            Event.write 0x415007d8 0,
            Event.write (0x80002000 + pmd_index cfg0.dt_virt_base * 8)
              (0x48000000 ||| PMD_TYPE_SECT ||| mk_sect_prot PAGE_KERNEL_RO),
            Event.write 0x415007d8 (pfn_pte 0x80002 FIXMAP_PAGE_NORMAL),
            Event.write 0x415007d0 (pfn_pte 0x80001 FIXMAP_PAGE_NORMAL)] ∧
      (create_mapping_noalloc_fixmap cfg0 512 s0 0x48000000 cfg0.dt_virt_base 0x200000
        PAGE_KERNEL_RO).isBug = true) ∧
    (((create_mapping_noalloc_fixmap cfg0 512 (fdt_state 0) 0x48000000
          cfg0.dt_virt_base 0x200000 PAGE_KERNEL_RO).val s0).count = (fdt_state 0).count ∧
      WF ((create_mapping_noalloc_fixmap cfg0 512 (fdt_state 0) 0x48000000
          cfg0.dt_virt_base 0x200000 PAGE_KERNEL_RO).val s0).mem own_fdt ∧
      ∃ evs, ((create_mapping_noalloc_fixmap cfg0 512 (fdt_state 0) 0x48000000
          cfg0.dt_virt_base 0x200000 PAGE_KERNEL_RO).val s0).trace = evs ++ (fdt_state 0).trace ∧
        ∀ ev ∈ evs, noalloc_event cfg0 own_fdt PAGE_KERNEL_RO ev) :=
  have hw := WF_own_fdt 0
  have hs : SlotsOk cfg0 own_fdt := ⟨by decide, Or.inl (by decide)⟩
  have hr : own_fdt cfg0.init_mm_pgd = some (0, 0xffff000000000000) := by decide
  have h := Res.ok_val (create_mapping_noalloc_fixmap cfg0 512 (fdt_state 0) 0x48000000
    cfg0.dt_virt_base 0x200000 PAGE_KERNEL_RO) s0 (by decide)
  ⟨⟨hw, hs, hr, by decide, h, by decide, by decide⟩,
    (noalloc_creates_no_table cfg0 own_fdt 512 (fdt_state 0) 0xffff000000000000 0x48000000
      cfg0.dt_virt_base 0x200000 PAGE_KERNEL_RO (by decide) (by decide) (by decide) (by decide)
      (by decide) hw hs).2.2.2.2 _ hr h⟩

/-- C14: on a well-formed kernel directory, with the image laid out as
`RodataLayout` says (kernel image addresses at or above `VMALLOC_START`) and
`__get_free_page` supplying fresh frames, `mark_rodata_ro` returns, and then
every address of the pages of `[_stext, _etext)` resolves to its physical
address with the attributes of `PAGE_KERNEL_ROX` and every address of the
pages of `[__start_rodata, __init_begin)` with those of `PAGE_KERNEL_RO`.
Both attribute sets have `PTE_RDONLY` set and `PTE_WRITE` clear, so none of
these pages is writable, and none is writable and executable. -/
theorem mark_rodata_ro_protects (cfg : Config) (lim : PgAlloc → Nat) (s : State) (own : Own)
    (WB F : Nat) (L : RodataLayout cfg WB) (hF : 512 ≤ F)
    (hw : WF s.mem own) (hroot : own cfg.init_mm_pgd = some (0, WB))
    (hfr : Fresh cfg lim s own) (hbud : ∀ a, s.count a + 268960768 ≤ lim a) :
    ∃ s2, mark_rodata_ro cfg F s = Res.ok s2 ∧
      (∀ va, cfg.stext / 4096 * 4096 ≤ va → va < cfg.etext →
        resolve s2.mem cfg.init_mm_pgd va
          = some (va - cfg.kimage_voffset, entry_prot PAGE_KERNEL_ROX)) ∧
      (∀ va, cfg.start_rodata / 4096 * 4096 ≤ va → va < (cfg.init_begin + 4095) / 4096 * 4096 →
        resolve s2.mem cfg.init_mm_pgd va
          = some (va - cfg.kimage_voffset, entry_prot PAGE_KERNEL_RO)) ∧
      entry_prot PAGE_KERNEL_ROX &&& PTE_WRITE = 0 ∧
      entry_prot PAGE_KERNEL_ROX &&& PTE_RDONLY = PTE_RDONLY ∧
      entry_prot PAGE_KERNEL_RO &&& PTE_WRITE = 0 ∧
      entry_prot PAGE_KERNEL_RO &&& PTE_RDONLY = PTE_RDONLY := by
  have := L.wb_al; have := L.wb_top; have := L.wb_le; have := L.text; have := L.gap
  have := L.rodata; have := L.top; have := L.etext_al; have := L.voff_al; have := L.voff_le
  have := L.pa_top
  obtain ⟨s1, s2, own1, own2, e1, e2, _, _, m1, m2⟩ := mark_rodata_ro_spec L F hF hw hroot hfr hbud
  refine ⟨s2, ?_, ?_, ?_, by decide, by decide, by decide, by decide⟩
  · rw [mark_rodata_ro_eq L, e1]
    exact e2
  · intro va h1 h2
    rw [resolve_of_mapped cfg WB cfg.init_mm_pgd _ _ _ _ _ s2.mem (by omega) (text_req_valid L)
      m1 va h1 (by omega)]
    have e : cfg.stext - cfg.kimage_voffset + va - cfg.stext = va - cfg.kimage_voffset := by
      omega
    rw [e]
  · intro va h1 h2
    rw [resolve_of_mapped cfg WB cfg.init_mm_pgd _ _ _ _ _ s2.mem (by omega)
      (rodata_req_valid L) m2 va h1 (by omega)]
    have e : cfg.start_rodata - cfg.kimage_voffset + va - cfg.start_rodata
        = va - cfg.kimage_voffset := by omega
    rw [e]

/-- The sample machine before any mapping: its image layout, empty directory
and frame pool meet the hypotheses. -/
theorem mark_rodata_ro_protects_witness :
    RodataLayout cfg0 0xffff000000000000 ∧
    WF s0.mem (own0 cfg0.init_mm_pgd 0xffff000000000000) ∧
    Fresh cfg0 lim1 s0 (own0 cfg0.init_mm_pgd 0xffff000000000000) ∧
    ∃ s2, mark_rodata_ro cfg0 512 s0 = Res.ok s2 ∧
      (∀ va, cfg0.stext / 4096 * 4096 ≤ va → va < cfg0.etext →
        resolve s2.mem cfg0.init_mm_pgd va
          = some (va - cfg0.kimage_voffset, entry_prot PAGE_KERNEL_ROX)) ∧
      (∀ va, cfg0.start_rodata / 4096 * 4096 ≤ va → va < (cfg0.init_begin + 4095) / 4096 * 4096 →
        resolve s2.mem cfg0.init_mm_pgd va
          = some (va - cfg0.kimage_voffset, entry_prot PAGE_KERNEL_RO)) ∧
      entry_prot PAGE_KERNEL_ROX &&& PTE_WRITE = 0 ∧
      entry_prot PAGE_KERNEL_ROX &&& PTE_RDONLY = PTE_RDONLY ∧
      entry_prot PAGE_KERNEL_RO &&& PTE_WRITE = 0 ∧
      entry_prot PAGE_KERNEL_RO &&& PTE_RDONLY = PTE_RDONLY
 :=
  have hw : WF s0.mem (own0 cfg0.init_mm_pgd 0xffff000000000000) :=
    WF_own0 _ _ _ (by decide) (by decide) (by decide) (fun _ _ => rfl)
  have hf : Fresh cfg0 lim1 s0 (own0 cfg0.init_mm_pgd 0xffff000000000000) :=
    Fresh_cfg0_lim1 _ _ (fun T hT => by
      unfold own0
      have : T ≠ cfg0.init_mm_pgd := by
        have : cfg0.init_mm_pgd = 2147483648 := rfl
        omega
      simp [this]) (fun _ _ => rfl)
  ⟨RodataLayout_cfg0, hw, hf,
    mark_rodata_ro_protects cfg0 lim1 s0 (own0 cfg0.init_mm_pgd 0xffff000000000000)
      0xffff000000000000 512 RodataLayout_cfg0 (by omega) hw (by simp [own0]) hf
      (fun a => by show 0 + 268960768 ≤ 1075843072; omega)⟩

/-- C8: on a well-formed kernel directory, with the image laid out as
`RodataLayout` says and `__get_free_page` supplying fresh frames,
`mark_rodata_ro` returns, and running it once more from the state it left
returns too, with every word of memory, so every table entry at every level,
equal to what the first run left and with no further call of a frame
source. -/
theorem mark_rodata_ro_idempotent (cfg : Config) (lim : PgAlloc → Nat) (s : State) (own : Own)
    (WB F : Nat) (L : RodataLayout cfg WB) (hF : 512 ≤ F)
    (hw : WF s.mem own) (hroot : own cfg.init_mm_pgd = some (0, WB))
    (hfr : Fresh cfg lim s own) (hbud : ∀ a, s.count a + 268960768 ≤ lim a) :
    ∃ s1 s2, mark_rodata_ro cfg F s = Res.ok s1 ∧ mark_rodata_ro cfg F s1 = Res.ok s2 ∧
      s2.mem = s1.mem ∧ s2.count = s1.count := by
  have := L.wb_al; have := L.wb_top; have := L.wb_le; have := L.text; have := L.gap
  have := L.rodata; have := L.top; have := L.etext_al; have := L.voff_al; have := L.voff_le
  have := L.pa_top
  obtain ⟨s0, s1, own0, own1, e0, e1, _, _, m1, m2⟩ :=
    mark_rodata_ro_spec L F hF hw hroot hfr hbud
  obtain ⟨s2, e2, k2, c2⟩ := init_pgd_idem cfg WB cfg.init_mm_pgd
    (cfg.stext - cfg.kimage_voffset) cfg.stext (cfg.etext - cfg.stext) PAGE_KERNEL_ROX
    (some PgAlloc.late_pgtable_alloc) F s1 (by omega) (text_req_valid L) hF m1
  obtain ⟨s3, e3, k3, c3⟩ := init_pgd_idem cfg WB cfg.init_mm_pgd
    (cfg.start_rodata - cfg.kimage_voffset) cfg.start_rodata
    (cfg.init_begin - cfg.start_rodata) PAGE_KERNEL_RO
    (some PgAlloc.late_pgtable_alloc) F s2 (by omega) (rodata_req_valid L) hF
    (by rw [k2]; exact m2)
  refine ⟨s1, s3, ?_, ?_, k3.trans k2, c3.trans c2⟩
  · rw [mark_rodata_ro_eq L, e0]
    exact e1
  · rw [mark_rodata_ro_eq L, e2]
    exact e3

/-- The sample machine before any mapping meets the hypotheses. -/
theorem mark_rodata_ro_idempotent_witness :
    RodataLayout cfg0 0xffff000000000000 ∧
    WF s0.mem (own0 cfg0.init_mm_pgd 0xffff000000000000) ∧
    Fresh cfg0 lim1 s0 (own0 cfg0.init_mm_pgd 0xffff000000000000) ∧
    ∃ s1 s2, mark_rodata_ro cfg0 512 s0 = Res.ok s1 ∧ mark_rodata_ro cfg0 512 s1 = Res.ok s2 ∧
      s2.mem = s1.mem ∧ s2.count = s1.count :=
  have hw : WF s0.mem (own0 cfg0.init_mm_pgd 0xffff000000000000) :=
    WF_own0 _ _ _ (by decide) (by decide) (by decide) (fun _ _ => rfl)
  have hf : Fresh cfg0 lim1 s0 (own0 cfg0.init_mm_pgd 0xffff000000000000) :=
    Fresh_cfg0_lim1 _ _ (fun T hT => by
      unfold own0
      have : T ≠ cfg0.init_mm_pgd := by
        have : cfg0.init_mm_pgd = 2147483648 := rfl
        omega
      simp [this]) (fun _ _ => rfl)
  ⟨RodataLayout_cfg0, hw, hf,
    mark_rodata_ro_idempotent cfg0 lim1 s0 (own0 cfg0.init_mm_pgd 0xffff000000000000)
      0xffff000000000000 512 RodataLayout_cfg0 (by omega) hw (by simp [own0]) hf
      (fun a => by show 0 + 268960768 ≤ 1075843072; omega)⟩

/-- C12: for a bank `[start, e)` laid out as `LinearLayout` says, on a
well-formed directory with `early_pgtable_alloc` supplying fresh frames:
`__map_memblock` is the list of calls `map_memblock_requests` of
`__create_pgd_mapping`; every call of the list maps a linear alias with
`PAGE_KERNEL` or `PAGE_KERNEL_RO`, and a call with the writable
`PAGE_KERNEL` covers physical pages disjoint from
`[__pa_symbol(_stext), __pa_symbol(__init_begin))`; `__map_memblock` returns,
and in the state it returns every physical address of the pages of every call
resolves, at its linear alias, to itself with the protection of that call;
and when the bank overlaps the kernel range, every address of that range
resolves at its linear alias with the attributes of `PAGE_KERNEL_RO`, which
have `PTE_WRITE` clear. -/
theorem map_memblock_no_writable_alias (cfg : Config) (lim : PgAlloc → Nat) (s : State)
    (own : Own) (pgd start e F : Nat) (L : LinearLayout cfg start e) (hF : 512 ≤ F)
    (hw : WF s.mem own) (hroot : own pgd = some (0, 18446462598732840960))
    (hfr : Fresh cfg lim s own) (hbud : ∀ a, s.count a + 403441152 ≤ lim a) :
    __map_memblock cfg F s pgd start e
      = run_requests cfg F pgd (map_memblock_requests cfg start e) s ∧
    (∀ r ∈ map_memblock_requests cfg start e,
      r.virt = __phys_to_virt cfg r.phys ∧
      (r.prot = PAGE_KERNEL ∨ r.prot = PAGE_KERNEL_RO) ∧
      (r.prot = PAGE_KERNEL →
        r.pend ≤ __pa_symbol cfg cfg.stext ∨ __pa_symbol cfg cfg.init_begin ≤ r.pstart)) ∧
    ∃ s1, __map_memblock cfg F s pgd start e = Res.ok s1 ∧
      (∀ r ∈ map_memblock_requests cfg start e, ∀ pa, r.pstart ≤ pa → pa < r.pend →
        resolve s1.mem pgd (__phys_to_virt cfg pa) = some (pa, entry_prot r.prot)) ∧
      (¬ (e < __pa_symbol cfg cfg.stext ∨ start ≥ __pa_symbol cfg cfg.init_begin) →
        ∀ pa, __pa_symbol cfg cfg.stext ≤ pa → pa < __pa_symbol cfg cfg.init_begin →
          resolve s1.mem pgd (__phys_to_virt cfg pa) = some (pa, entry_prot PAGE_KERNEL_RO)) ∧
      entry_prot PAGE_KERNEL_RO &&& PTE_WRITE = 0 := by
  have good := map_memblock_requests_good cfg start e L
  have hlen : (map_memblock_requests cfg start e).length ≤ 3 := by
    unfold map_memblock_requests
    split
    · simp
    · split <;> split <;> simp
  obtain ⟨s1, own1, e1, _, _, _, _, _, m1⟩ :=
    @run_requests_spec cfg lim 18446462598732840960 pgd F (by norm_num)
      (by norm_num) hF (map_memblock_requests cfg start e) s own
      (fun r hr => (good r hr).2.2.2.1) hw hroot hfr
      (by intro a; have := hbud a; omega)
  have hres : ∀ r ∈ map_memblock_requests cfg start e, ∀ pa, r.pstart ≤ pa → pa < r.pend →
      resolve s1.mem pgd (__phys_to_virt cfg pa) = some (pa, entry_prot r.prot) := by
    intro r hr pa h1 h2
    obtain ⟨_, a2, a3, g, _, _, _⟩ := good r hr
    obtain ⟨c1, c2, c3, c4⟩ := linear_req_range cfg r L.ms_al a2 a3
    obtain ⟨l1, l2, hsplit⟩ := List.append_of_mem hr
    have hpw := map_memblock_requests_pairwise cfg start e L
    rw [hsplit] at hpw
    have hdis : ∀ r1 ∈ l2, r.disjoint r1 :=
      (List.pairwise_cons.mp (List.pairwise_append.mp hpw).2.1).1
    have hm := m1 l1 l2 r hsplit hdis
    have hpe : r.pend ≤ 281474976710656 ∧ r.pend ≤ cfg.memstart_addr + 140737488355328 := by
      have hE : r.req.E = r.virt / 4096 * 4096 + (r.size + r.virt % 4096 + 4095) / 4096 * 4096 :=
        rfl
      have hv := g.valid (by norm_num) (by norm_num)
      have b1 := hv.e_le
      have b2 := hv.p_le
      have hA : r.req.A0 = r.virt / 4096 * 4096 := rfl
      have hP : r.req.P0 = r.phys / 4096 * 4096 := rfl
      rw [hE, hA, hP] at b2
      rw [c2] at b1
      unfold MapReq.pend
      constructor
      · omega
      · unfold MapReq.pend at b1; omega
    have hA : r.req.A0 = r.virt / 4096 * 4096 := rfl
    have hE : r.req.E = r.virt / 4096 * 4096 + (r.size + r.virt % 4096 + 4095) / 4096 * 4096 :=
      rfl
    rw [hA] at c1
    rw [hE] at c2
    have hptv := phys_to_virt_eq cfg pa (by omega) (by omega)
    have hms := L.ms_al
    rw [resolve_of_mapped cfg 18446462598732840960 pgd r.phys r.virt r.size r.prot
      (some PgAlloc.early_pgtable_alloc) s1.mem g.offs (g.valid (by norm_num) (by norm_num)) hm
      (__phys_to_virt cfg pa) (by rw [hptv, c1]; omega) (by rw [hptv, c2]; omega)]
    have hps : r.pstart = r.phys / 4096 * 4096 := rfl
    have e : r.phys + __phys_to_virt cfg pa - r.virt = pa := by
      rw [hptv, a2]; omega
    rw [e]
  refine ⟨map_memblock_eq cfg F s pgd start e, fun r hr => ?_, s1, ?_, hres, ?_, by decide⟩
  · obtain ⟨a1, _, _, _, a5, a6, _⟩ := good r hr
    exact ⟨a1, a5, a6⟩
  · rw [map_memblock_eq]
    exact e1
  · intro hov pa h1 h2
    have hmem : (⟨__pa_symbol cfg cfg.stext, __phys_to_virt cfg (__pa_symbol cfg cfg.stext),
        (__pa_symbol cfg cfg.init_begin + U64 - __pa_symbol cfg cfg.stext) % U64,
        PAGE_KERNEL_RO⟩ : MapReq) ∈ map_memblock_requests cfg start e := by
      unfold map_memblock_requests
      rw [if_neg hov]
      simp
    obtain ⟨_, _, _, _, _, _, a7⟩ := good _ hmem
    obtain ⟨p1, p2⟩ := a7 rfl
    exact hres _ hmem pa (by rw [p1]; exact h1) (by rw [p2]; exact h2)

/-- The sample machine before any mapping, with the bank
`[0x40000000, 0x80000000)` that holds the kernel image: the hypotheses hold
there. -/
theorem map_memblock_no_writable_alias_witness :
    LinearLayout cfg0 1073741824 2147483648 ∧
    WF s0.mem (own0 cfg0.init_mm_pgd 0xffff000000000000) ∧
    Fresh cfg0 lim1 s0 (own0 cfg0.init_mm_pgd 0xffff000000000000) ∧
    (__map_memblock cfg0 512 s0 cfg0.init_mm_pgd 1073741824 2147483648
      = run_requests cfg0 512 cfg0.init_mm_pgd (map_memblock_requests cfg0 1073741824 2147483648)
        s0 ∧
    (∀ r ∈ map_memblock_requests cfg0 1073741824 2147483648,
      r.virt = __phys_to_virt cfg0 r.phys ∧
      (r.prot = PAGE_KERNEL ∨ r.prot = PAGE_KERNEL_RO) ∧
      (r.prot = PAGE_KERNEL →
        r.pend ≤ __pa_symbol cfg0 cfg0.stext ∨ __pa_symbol cfg0 cfg0.init_begin ≤ r.pstart)) ∧
    ∃ s1, __map_memblock cfg0 512 s0 cfg0.init_mm_pgd 1073741824 2147483648 = Res.ok s1 ∧
      (∀ r ∈ map_memblock_requests cfg0 1073741824 2147483648, ∀ pa, r.pstart ≤ pa → pa < r.pend →
        resolve s1.mem cfg0.init_mm_pgd (__phys_to_virt cfg0 pa) = some (pa, entry_prot r.prot)) ∧
      (¬ (2147483648 < __pa_symbol cfg0 cfg0.stext ∨ 1073741824 ≥ __pa_symbol cfg0 cfg0.init_begin) →
        ∀ pa, __pa_symbol cfg0 cfg0.stext ≤ pa → pa < __pa_symbol cfg0 cfg0.init_begin →
          resolve s1.mem cfg0.init_mm_pgd (__phys_to_virt cfg0 pa) = some (pa, entry_prot PAGE_KERNEL_RO)) ∧
      entry_prot PAGE_KERNEL_RO &&& PTE_WRITE = 0
)
 :=
  have hl : LinearLayout cfg0 1073741824 2147483648 :=
    ⟨by decide, by decide, by decide, by decide, by decide, by decide, by decide, by decide,
      by decide, by decide, by decide⟩
  have hw : WF s0.mem (own0 cfg0.init_mm_pgd 0xffff000000000000) :=
    WF_own0 _ _ _ (by decide) (by decide) (by decide) (fun _ _ => rfl)
  have hf : Fresh cfg0 lim1 s0 (own0 cfg0.init_mm_pgd 0xffff000000000000) :=
    Fresh_cfg0_lim1 _ _ (fun T hT => by
      unfold own0
      have : T ≠ cfg0.init_mm_pgd := by
        have : cfg0.init_mm_pgd = 2147483648 := rfl
        omega
      simp [this]) (fun _ _ => rfl)
  ⟨hl, hw, hf,
    map_memblock_no_writable_alias cfg0 lim1 s0 (own0 cfg0.init_mm_pgd 0xffff000000000000)
      cfg0.init_mm_pgd 1073741824 2147483648 512 hl (by omega) hw (by simp [own0]) hf
      (fun a => by show 0 + 403441152 ≤ 1075843072; omega)⟩

/-- C13 fails on the sample machine: after `map_kernel` the text and the init
region resolve with the same attributes, those of `PAGE_KERNEL_EXEC`, and the
rodata and the data region with the same attributes, those of `PAGE_KERNEL`;
both sets have `PTE_WRITE` set and `PTE_RDONLY` clear, so the text is not
execute-only and the rodata is not read-only, and there are two protections,
not four. -/
theorem map_kernel_two_protections :
    ∃ s1, map_kernel cfg0 512 s0 cfg0.init_mm_pgd = Res.ok s1 ∧
      resolve s1.mem cfg0.init_mm_pgd cfg0.stext
        = some (0x40101000, entry_prot PAGE_KERNEL_EXEC) ∧
      resolve s1.mem cfg0.init_mm_pgd cfg0.init_begin
        = some (0x40e80000, entry_prot PAGE_KERNEL_EXEC) ∧
      resolve s1.mem cfg0.init_mm_pgd cfg0.start_rodata
        = some (0x40a80000, entry_prot PAGE_KERNEL) ∧
      resolve s1.mem cfg0.init_mm_pgd cfg0.data
        = some (0x41080000, entry_prot PAGE_KERNEL) ∧
      entry_prot PAGE_KERNEL_EXEC &&& PTE_WRITE = PTE_WRITE ∧
      entry_prot PAGE_KERNEL_EXEC &&& PTE_RDONLY = 0 ∧
      entry_prot PAGE_KERNEL &&& PTE_WRITE = PTE_WRITE ∧
      entry_prot PAGE_KERNEL &&& PTE_RDONLY = 0 := by
  have hw : WF s0.mem (own0 cfg0.init_mm_pgd 0xffff000000000000) :=
    WF_own0 _ _ _ (by decide) (by decide) (by decide) (fun _ _ => rfl)
  have hf : Fresh cfg0 lim1 s0 (own0 cfg0.init_mm_pgd 0xffff000000000000) :=
    Fresh_cfg0_lim1 _ _ (fun T hT => by
      unfold own0
      have : T ≠ cfg0.init_mm_pgd := by
        have : cfg0.init_mm_pgd = 2147483648 := rfl
        omega
      simp [this]) (fun _ _ => rfl)
  obtain ⟨s1, e1, m1, m2, m3, m4, _⟩ := @map_kernel_resolves cfg0 lim1 s0
    (own0 cfg0.init_mm_pgd 0xffff000000000000) 0xffff000000000000 cfg0.init_mm_pgd 512
    KernelLayout_cfg0 (by omega) hw (by simp [own0]) hf
    (fun a => by show 0 + 537921536 ≤ 1075843072; omega) rfl
  refine ⟨s1, e1, ?_, ?_, ?_, ?_, by decide, by decide, by decide, by decide⟩
  · have e : cfg0.stext - cfg0.kimage_voffset = 0x40101000 := by decide
    rw [m1 cfg0.stext (by decide) (by decide), e]
  · have e : cfg0.init_begin - cfg0.kimage_voffset = 0x40e80000 := by decide
    rw [m3 cfg0.init_begin (by decide) (by decide), e]
  · have e : cfg0.start_rodata - cfg0.kimage_voffset = 0x40a80000 := by decide
    rw [m2 cfg0.start_rodata (by decide) (by decide), e]
  · have e : cfg0.data - cfg0.kimage_voffset = 0x41080000 := by decide
    rw [m4 cfg0.data (by decide) (by decide), e]

/-- C13, amended: with the image laid out as `KernelLayout` says, on a
well-formed directory whose fixmap entry is empty and with fresh frames,
`map_kernel` returns; every address of the four regions text, rodata, init
and data resolves to its physical address, text and init with the attributes
of `PAGE_KERNEL_EXEC` and rodata and data with those of `PAGE_KERNEL` (two
protections, both writable, which differ in the execute-never bit); and
exactly four areas are registered, one per region, with `addr` the region
start, `phys_addr` its physical start, `size` the region length and `flags`
`VM_MAP`, except that with the trust extension active the text area is
widened down to a section boundary. -/
theorem map_kernel_regions (cfg : Config) (lim : PgAlloc → Nat) (s : State) (own : Own)
    (WB pgd F : Nat) (L : KernelLayout cfg WB) (hF : 512 ≤ F)
    (hw : WF s.mem own) (hroot : own pgd = some (0, WB)) (hfr : Fresh cfg lim s own)
    (hbud : ∀ a, s.count a + 537921536 ≤ lim a)
    (hfix : s.mem (pgd_offset_raw pgd cfg.FIXADDR_START) = 0) :
    (∃ s1, map_kernel cfg F s pgd = Res.ok s1 ∧
      (∀ va, text_start cfg ≤ va → va < cfg.etext →
        resolve s1.mem pgd va = some (va - cfg.kimage_voffset, entry_prot PAGE_KERNEL_EXEC)) ∧
      (∀ va, cfg.start_rodata ≤ va → va < cfg.init_begin →
        resolve s1.mem pgd va = some (va - cfg.kimage_voffset, entry_prot PAGE_KERNEL)) ∧
      (∀ va, cfg.init_begin ≤ va → va < cfg.init_end →
        resolve s1.mem pgd va = some (va - cfg.kimage_voffset, entry_prot PAGE_KERNEL_EXEC)) ∧
      (∀ va, cfg.data ≤ va → va < cfg.kernel_end →
        resolve s1.mem pgd va = some (va - cfg.kimage_voffset, entry_prot PAGE_KERNEL)) ∧
      vm_areas s1.trace
        = (cfg.data, cfg.data - cfg.kimage_voffset, cfg.kernel_end - cfg.data, VM_MAP) ::
          (cfg.init_begin, cfg.init_begin - cfg.kimage_voffset,
            cfg.init_end - cfg.init_begin, VM_MAP) ::
          (cfg.start_rodata, cfg.start_rodata - cfg.kimage_voffset,
            cfg.init_begin - cfg.start_rodata, VM_MAP) ::
          text_area cfg :: vm_areas s.trace) ∧
    (rkp_do cfg = false → text_start cfg = cfg.stext ∧
      text_area cfg = (cfg.stext, cfg.stext - cfg.kimage_voffset, cfg.etext - cfg.stext,
        VM_MAP)) ∧
    (rkp_do cfg = true → text_start cfg = cfg.text ∧
      text_area cfg = (cfg.text / 2097152 * 2097152,
        (cfg.text - cfg.kimage_voffset) / 2097152 * 2097152,
        cfg.etext - cfg.text / 2097152 * 2097152, VM_MAP)) ∧
    entry_prot PAGE_KERNEL_EXEC ≠ entry_prot PAGE_KERNEL ∧
    entry_prot PAGE_KERNEL_EXEC ^^^ entry_prot PAGE_KERNEL = PTE_PXN := by
  have l2 := L.wb_top; have l3 := L.wb_le; have l4 := L.text
  have l5 := L.gap1; have l6 := L.rodata; have l7 := L.init; have l8 := L.gap2
  have l9 := L.data; have l10 := L.top; have l11 := L.fix_top
  have l20 := L.voff_le
  have hfixle : cfg.FIXADDR_START / 549755813888 * 549755813888 ≤ cfg.FIXADDR_START :=
    Nat.div_mul_le_self _ _
  have pa : ∀ x, cfg.kimage_voffset ≤ x → x < 18446744073709551616 →
      __pa_symbol cfg x = x - cfg.kimage_voffset := by
    intro x h1 h2
    unfold __pa_symbol
    rw [U64_eq]
    omega
  have sz : ∀ x y, x ≤ y → y < 18446744073709551616 → (y + U64 - x) % U64 = y - x := by
    intro x y h1 h2
    rw [U64_eq]
    omega
  obtain ⟨s1, e1, m1, m2, m3, m4, a1⟩ := map_kernel_resolves WB pgd F L hF hw hroot hfr hbud hfix
  refine ⟨⟨s1, e1, m1, m2, m3, m4, ?_⟩, ?_, ?_, by decide, by decide⟩
  · rw [a1, pa cfg.data (by omega) (by omega), pa cfg.init_begin (by omega) (by omega),
      pa cfg.start_rodata (by omega) (by omega), sz cfg.data cfg.kernel_end (by omega) (by omega),
      sz cfg.init_begin cfg.init_end (by omega) (by omega),
      sz cfg.start_rodata cfg.init_begin (by omega) (by omega)]
  · intro hr
    have e : text_start cfg = cfg.stext := by unfold text_start; simp [hr]
    rw [e] at l3 l4 l20
    refine ⟨e, ?_⟩
    unfold text_area
    simp only [hr, Bool.false_eq_true, if_false]
    rw [pa cfg.stext (by omega) (by omega), sz cfg.stext cfg.etext (by omega) (by omega)]
  · intro hr
    have e : text_start cfg = cfg.text := by unfold text_start; simp [hr]
    rw [e] at l3 l4 l20
    refine ⟨e, ?_⟩
    unfold text_area
    simp only [hr, if_true]
    rw [pa cfg.text (by omega) (by omega), sz cfg.text cfg.etext (by omega) (by omega),
      and_PMD_MASK, and_PMD_MASK, U64_eq]
    have h1 : cfg.text / 2097152 % 8796093022208 = cfg.text / 2097152 := by omega
    have h2 : (cfg.text - cfg.kimage_voffset) / 2097152 % 8796093022208
        = (cfg.text - cfg.kimage_voffset) / 2097152 := by omega
    rw [h1, h2]
    have h3 : (cfg.etext - cfg.text + cfg.text + 18446744073709551616
        - cfg.text / 2097152 * 2097152) % 18446744073709551616
        = cfg.etext - cfg.text / 2097152 * 2097152 := by omega
    rw [h3]

/-- The sample machine before any mapping meets the hypotheses. -/
theorem map_kernel_regions_witness :
    KernelLayout cfg0 0xffff000000000000 ∧
    WF s0.mem (own0 cfg0.init_mm_pgd 0xffff000000000000) ∧
    Fresh cfg0 lim1 s0 (own0 cfg0.init_mm_pgd 0xffff000000000000) ∧
    s0.mem (pgd_offset_raw cfg0.init_mm_pgd cfg0.FIXADDR_START) = 0 ∧
    (
    (∃ s1, map_kernel cfg0 512 s0 cfg0.init_mm_pgd = Res.ok s1 ∧
      (∀ va, text_start cfg0 ≤ va → va < cfg0.etext →
        resolve s1.mem cfg0.init_mm_pgd va = some (va - cfg0.kimage_voffset, entry_prot PAGE_KERNEL_EXEC)) ∧
      (∀ va, cfg0.start_rodata ≤ va → va < cfg0.init_begin →
        resolve s1.mem cfg0.init_mm_pgd va = some (va - cfg0.kimage_voffset, entry_prot PAGE_KERNEL)) ∧
      (∀ va, cfg0.init_begin ≤ va → va < cfg0.init_end →
        resolve s1.mem cfg0.init_mm_pgd va = some (va - cfg0.kimage_voffset, entry_prot PAGE_KERNEL_EXEC)) ∧
      (∀ va, cfg0.data ≤ va → va < cfg0.kernel_end →
        resolve s1.mem cfg0.init_mm_pgd va = some (va - cfg0.kimage_voffset, entry_prot PAGE_KERNEL)) ∧
      vm_areas s1.trace
        = (cfg0.data, cfg0.data - cfg0.kimage_voffset, cfg0.kernel_end - cfg0.data, VM_MAP) ::
          (cfg0.init_begin, cfg0.init_begin - cfg0.kimage_voffset,
            cfg0.init_end - cfg0.init_begin, VM_MAP) ::
          (cfg0.start_rodata, cfg0.start_rodata - cfg0.kimage_voffset,
            cfg0.init_begin - cfg0.start_rodata, VM_MAP) ::
          text_area cfg0 :: vm_areas s0.trace) ∧
    (rkp_do cfg0 = false → text_start cfg0 = cfg0.stext ∧
      text_area cfg0 = (cfg0.stext, cfg0.stext - cfg0.kimage_voffset, cfg0.etext - cfg0.stext,
        VM_MAP)) ∧
    (rkp_do cfg0 = true → text_start cfg0 = cfg0.text ∧
      text_area cfg0 = (cfg0.text / 2097152 * 2097152,
        (cfg0.text - cfg0.kimage_voffset) / 2097152 * 2097152,
        cfg0.etext - cfg0.text / 2097152 * 2097152, VM_MAP)) ∧
    entry_prot PAGE_KERNEL_EXEC ≠ entry_prot PAGE_KERNEL ∧
    entry_prot PAGE_KERNEL_EXEC ^^^ entry_prot PAGE_KERNEL = PTE_PXN
)
 :=
  have hw : WF s0.mem (own0 cfg0.init_mm_pgd 0xffff000000000000) :=
    WF_own0 _ _ _ (by decide) (by decide) (by decide) (fun _ _ => rfl)
  have hf : Fresh cfg0 lim1 s0 (own0 cfg0.init_mm_pgd 0xffff000000000000) :=
    Fresh_cfg0_lim1 _ _ (fun T hT => by
      unfold own0
      have : T ≠ cfg0.init_mm_pgd := by
        have : cfg0.init_mm_pgd = 2147483648 := rfl
        omega
      simp [this]) (fun _ _ => rfl)
  ⟨KernelLayout_cfg0, hw, hf, rfl,
    map_kernel_regions cfg0 lim1 s0 (own0 cfg0.init_mm_pgd 0xffff000000000000)
      0xffff000000000000 cfg0.init_mm_pgd 512 KernelLayout_cfg0 (by omega) hw (by simp [own0]) hf
      (fun a => by show 0 + 537921536 ≤ 1075843072; omega) rfl⟩

/-- C22: the function `map_mem` maps the banks of `memblock.memory` that are
not marked nomap, through `__map_memblock`, and no bank that is. For banks
that are non-empty ranges of whole pages inside the linear map, no two of which
meet, and a kernel text and rodata that lie in no bank marked nomap, on a
well-formed directory with fresh frames:

* `map_mem` makes the calls of `__map_memblock` for the banks not marked nomap,
  in order, and no other call;
* it returns, and every physical address of a bank not marked nomap resolves
  at its linear alias to itself (writable, or read-only inside the kernel text
  and rodata);
* the linear alias of an address of a bank marked nomap resolves as before
  the call: not at all if it did not resolve. -/
theorem map_mem_maps_banks (cfg : Config) (lim : PgAlloc → Nat) (s : State) (own : Own)
    (pgd F : Nat) (regs : List memblock_region) (B : BankLayout cfg regs)
    (hk : ∀ reg ∈ regs, reg.nomap = true →
      __pa_symbol cfg cfg.init_begin ≤ reg.base
        ∨ reg.base + reg.size ≤ __pa_symbol cfg cfg.stext)
    (hF : 512 ≤ F)
    (hw : WF s.mem own) (hroot : own pgd = some (0, 18446462598732840960))
    (hfr : Fresh cfg lim s own)
    (hbud : ∀ a, s.count a + 134480384 * (map_mem_requests cfg regs).length ≤ lim a)
    (hblk : Blocks1 s.mem own) :
    map_mem cfg F pgd regs s
      = run_requests cfg F pgd
          ((regs.filter (fun reg => !memblock_is_nomap reg)).map
            (fun reg => map_memblock_requests cfg reg.base ((reg.base + reg.size) % U64))).flatten
          s ∧
    (∀ (reg : memblock_region) (t : State),
      __map_memblock cfg F t pgd reg.base ((reg.base + reg.size) % U64)
        = run_requests cfg F pgd
            (map_memblock_requests cfg reg.base ((reg.base + reg.size) % U64)) t) ∧
    ∃ s1, map_mem cfg F pgd regs s = Res.ok s1 ∧
      (∀ reg ∈ regs, memblock_is_nomap reg = false →
        ∀ pa, reg.base ≤ pa → pa < reg.base + reg.size →
          resolve s1.mem pgd (__phys_to_virt cfg pa) = some (pa, entry_prot PAGE_KERNEL) ∨
          resolve s1.mem pgd (__phys_to_virt cfg pa) = some (pa, entry_prot PAGE_KERNEL_RO)) ∧
      (∀ reg ∈ regs, memblock_is_nomap reg = true →
        ∀ pa, reg.base ≤ pa → pa < reg.base + reg.size →
          (resolve s1.mem pgd (__phys_to_virt cfg pa)).map Prod.fst
            = (resolve s.mem pgd (__phys_to_virt cfg pa)).map Prod.fst) := by
  have hne : ∀ reg ∈ regs, reg.base < (reg.base + reg.size) % U64 := by
    intro reg h
    rw [B.end_eq reg h]
    exact (B.each reg h).bank
  obtain ⟨s1, e1, m1⟩ := @map_mem_spec cfg lim s own pgd F regs B hF hw hroot hfr hbud
  obtain ⟨s2, e2, m2⟩ := @map_mem_nomap cfg lim s own pgd F regs B hF hw hroot hfr hbud hblk
  have e12 : s2 = s1 := by
    rw [e1] at e2
    cases e2
    rfl
  rw [e12] at m2
  refine ⟨?_, fun reg t => map_memblock_eq cfg F t pgd _ _, s1, e1, ?_, ?_⟩
  · rw [map_mem_eq, map_mem_requests_filter cfg regs hne]
    rfl
  · intro reg hreg hn
    exact m1 reg hreg hn
  · intro reg hreg hn
    exact m2 reg hreg hn (hk reg hreg hn)

/-- The sample machine: one bank of RAM that holds the kernel image and one
bank marked nomap, on the empty directory. -/
theorem map_mem_maps_banks_witness :
    (BankLayout cfg0 regs0 ∧
      WF s0.mem (own0 cfg0.init_mm_pgd 0xffff000000000000) ∧
      Fresh cfg0 lim1 s0 (own0 cfg0.init_mm_pgd 0xffff000000000000) ∧
      Blocks1 s0.mem (own0 cfg0.init_mm_pgd 0xffff000000000000)) ∧
    (map_mem cfg0 512 cfg0.init_mm_pgd regs0 s0
        = run_requests cfg0 512 cfg0.init_mm_pgd
            ((regs0.filter (fun reg => !memblock_is_nomap reg)).map
              (fun reg => map_memblock_requests cfg0 reg.base ((reg.base + reg.size) % U64))).flatten
            s0 ∧
      (∀ (reg : memblock_region) (t : State),
        __map_memblock cfg0 512 t cfg0.init_mm_pgd reg.base ((reg.base + reg.size) % U64)
          = run_requests cfg0 512 cfg0.init_mm_pgd
              (map_memblock_requests cfg0 reg.base ((reg.base + reg.size) % U64)) t) ∧
      ∃ s1, map_mem cfg0 512 cfg0.init_mm_pgd regs0 s0 = Res.ok s1 ∧
        (∀ reg ∈ regs0, memblock_is_nomap reg = false →
          ∀ pa, reg.base ≤ pa → pa < reg.base + reg.size →
            resolve s1.mem cfg0.init_mm_pgd (__phys_to_virt cfg0 pa) = some (pa, entry_prot PAGE_KERNEL) ∨
            resolve s1.mem cfg0.init_mm_pgd (__phys_to_virt cfg0 pa) = some (pa, entry_prot PAGE_KERNEL_RO)) ∧
        (∀ reg ∈ regs0, memblock_is_nomap reg = true →
          ∀ pa, reg.base ≤ pa → pa < reg.base + reg.size →
            (resolve s1.mem cfg0.init_mm_pgd (__phys_to_virt cfg0 pa)).map Prod.fst
              = (resolve s0.mem cfg0.init_mm_pgd (__phys_to_virt cfg0 pa)).map Prod.fst)) :=
  have hw : WF s0.mem (own0 cfg0.init_mm_pgd 0xffff000000000000) :=
    WF_own0 _ _ _ (by decide) (by decide) (by decide) (fun _ _ => rfl)
  have hf : Fresh cfg0 lim1 s0 (own0 cfg0.init_mm_pgd 0xffff000000000000) :=
    Fresh_cfg0_lim1 _ _ (fun T hT => by
      unfold own0
      have : T ≠ cfg0.init_mm_pgd := by
        have : cfg0.init_mm_pgd = 2147483648 := rfl
        omega
      simp [this]) (fun _ _ => rfl)
  have hb : Blocks1 s0.mem (own0 cfg0.init_mm_pgd 0xffff000000000000) := by
    intro T b j hT
    unfold own0 at hT
    split at hT <;> cases hT
  have hlen : (map_mem_requests cfg0 regs0).length = 3 := by decide
  ⟨⟨BankLayout_regs0, hw, hf, hb⟩,
    map_mem_maps_banks cfg0 lim1 s0 (own0 cfg0.init_mm_pgd 0xffff000000000000)
      cfg0.init_mm_pgd 512 regs0 BankLayout_regs0
      (fun reg h hn => by
        simp only [regs0, List.mem_cons, List.mem_singleton, List.not_mem_nil, or_false] at h
        rcases h with rfl | rfl
        · cases hn
        · left; decide)
      (by omega) hw (by simp [own0]) hf
      (fun a => by rw [hlen]; show 0 + 134480384 * 3 ≤ 1075843072; omega) hb⟩

theorem bits32_int32 (n : Nat) : bits32 (int32 (Int.ofNat n)) = n % 4294967296 := by
  unfold bits32 int32
  have h : Int.ofNat n = (n : Int) := rfl
  rw [h]
  omega

theorem bits32_of_nat (n : Nat) (h : n < 4294967296) : bits32 (n : Int) = n := by
  unfold bits32
  omega

theorem int_shl_bits (a : Nat) (k : Nat) :
    bits32 (int_shl (a : Int) k) = a * 2 ^ k % 4294967296 := by
  unfold int_shl
  have h : (a : Int) * 2 ^ k = Int.ofNat (a * 2 ^ k) := by
    simp
  rw [h, bits32_int32]

/-- The 32 bits of `MIDR_CPU_PART(imp, partnum)`. -/
theorem cpu_part_bits (imp partnum : Nat) (h1 : imp < 2 ^ 8) (h2 : partnum < 2 ^ 12) :
    bits32 (MIDR_CPU_PART imp partnum) = 16777216 * imp + (983040 + 16 * partnum) := by
  unfold MIDR_CPU_PART int_or
  rw [bits32_int32, bits32_int32, int_shl_bits, int_shl_bits]
  have h15 : bits32 (int_shl 0xf MIDR_ARCHITECTURE_SHIFT) = 983040 := by decide
  rw [h15]
  have s1 : MIDR_IMPLEMENTOR_SHIFT = 24 := rfl
  have s2 : MIDR_PARTNUM_SHIFT = 4 := rfl
  rw [s1, s2]
  have e1 : imp * 2 ^ 24 % 4294967296 = 2 ^ 24 * imp := by omega
  have e3 : partnum * 2 ^ 4 % 4294967296 = 16 * partnum := by omega
  have e2 : (983040 : Nat) = 2 ^ 16 * 15 := by norm_num
  have h3 : 16 * partnum < 2 ^ 16 := by omega
  have h4 : 2 ^ 16 * 15 + 16 * partnum < 2 ^ 24 := by omega
  have h5 : (2 ^ 24 * imp ||| 2 ^ 16 * 15) % 4294967296 = 2 ^ 24 * imp ||| 2 ^ 16 * 15 := by
    rw [← Nat.mul_add_lt_is_or (by norm_num) imp]
    omega
  rw [e1, e3, e2, h5, Nat.or_assoc, ← Nat.mul_add_lt_is_or h3, ← Nat.mul_add_lt_is_or h4]
  omega

/-- A field of an `int`: the value of `(x & (m << k)) >> k` for a field that
does not reach the sign bit. -/
theorem int_field_low (x : Int) (w k : Nat) (hk : w + k < 32) :
    int_shr (int_and x (int_shl ((2 ^ w - 1 : Nat) : Int) k)) k
      = ((bits32 x / 2 ^ k % 2 ^ w : Nat) : Int) := by
  unfold int_shr int_and
  rw [int_shl_bits]
  have hw : 2 ^ w * 2 ^ k < 4294967296 := by
    rw [← pow_add]
    calc 2 ^ (w + k) < 2 ^ 32 := Nat.pow_lt_pow_right (by norm_num) hk
      _ = 4294967296 := by norm_num
  have hpos : 0 < 2 ^ w := by positivity
  have hposk : 0 < 2 ^ k := by positivity
  have hm : (2 ^ w - 1) * 2 ^ k % 4294967296 = (2 ^ w - 1) <<< k := by
    rw [Nat.shiftLeft_eq, Nat.mod_eq_of_lt]
    calc (2 ^ w - 1) * 2 ^ k ≤ 2 ^ w * 2 ^ k := Nat.mul_le_mul_right _ (Nat.sub_le _ _)
      _ < 4294967296 := hw
  rw [hm, and_field_mask, Int.shiftRight_eq_div_pow]
  have hlt : bits32 x / 2 ^ k % 2 ^ w * 2 ^ k < 2147483648 := by
    have h1 : bits32 x / 2 ^ k % 2 ^ w < 2 ^ w := Nat.mod_lt _ hpos
    have h2 : bits32 x / 2 ^ k % 2 ^ w * 2 ^ k < 2 ^ w * 2 ^ k :=
      Nat.mul_lt_mul_of_pos_right h1 hposk
    have h3 : 2 ^ w * 2 ^ k ≤ 2147483648 := by
      rw [← pow_add]
      calc 2 ^ (w + k) ≤ 2 ^ 31 := Nat.pow_le_pow_right (by norm_num) (by omega)
        _ = 2147483648 := by norm_num
    omega
  have hi : int32 (Int.ofNat (bits32 x / 2 ^ k % 2 ^ w * 2 ^ k))
      = ((bits32 x / 2 ^ k % 2 ^ w * 2 ^ k : Nat) : Int) := by
    unfold int32
    have h : Int.ofNat (bits32 x / 2 ^ k % 2 ^ w * 2 ^ k)
        = ((bits32 x / 2 ^ k % 2 ^ w * 2 ^ k : Nat) : Int) := rfl
    rw [h]
    omega
  rw [hi]
  push_cast
  rw [Int.mul_ediv_cancel]
  positivity

theorem int32_idem (x : Int) : int32 (int32 x) = int32 x := by
  unfold int32
  omega

theorem neg_of_bits (y : Int) (y1 : -2147483648 ≤ y) (y2 : y < 2147483648)
    (y3 : 2147483648 ≤ bits32 y) : y < 0 := by
  unfold bits32 at y3
  omega

theorem int32_range (x : Int) : -2147483648 ≤ int32 x ∧ int32 x < 2147483648 := by
  unfold int32
  omega

/-- The implementor field of an `int`, which reaches the sign bit: the value of
`(x & (0xff << 24)) >> 24` is the field when that is below `0x80`, and the
field less 256 otherwise. -/
theorem int_field_top (x : Int) :
    MIDR_IMPLEMENTOR x
      = if bits32 x / 2 ^ 24 < 128 then ((bits32 x / 2 ^ 24 : Nat) : Int)
        else ((bits32 x / 2 ^ 24 : Nat) : Int) - 256 := by
  unfold MIDR_IMPLEMENTOR int_shr int_and
  have hm : bits32 MIDR_IMPLEMENTOR_MASK = (2 ^ 8 - 1) <<< 24 := by decide
  have hs : MIDR_IMPLEMENTOR_SHIFT = 24 := rfl
  rw [hm, hs, and_field_mask, Int.shiftRight_eq_div_pow]
  have hb : bits32 x < 4294967296 := by unfold bits32; omega
  generalize bits32 x = b at hb ⊢
  have e : b / 2 ^ 24 % 2 ^ 8 = b / 2 ^ 24 := by omega
  rw [e]
  have h : Int.ofNat (b / 2 ^ 24 * 2 ^ 24) = ((b / 2 ^ 24 * 2 ^ 24 : Nat) : Int) := rfl
  unfold int32
  rw [h]
  push_cast
  split <;> omega

/-- C26: the MIDR field macros on `int` operands. The five masks are pairwise
disjoint and together cover the 32 bits. For `partnum < 2^12` and
`imp < 2^7` the value `MIDR_CPU_PART(imp, partnum)` has implementor `imp`,
part number `partnum`, architecture `0xf`, variant 0 and revision 0, and
`MIDR_CORTEX_A55` is `0x410FD050`. For `2^7 ≤ imp < 2^8` the left shift of
`imp` by 24 reaches the sign bit of the `int`, the value is negative and
`MIDR_IMPLEMENTOR` of it is `imp - 256`, not `imp`: 0x80 gives -128. The other
four fields are as for the smaller `imp`. -/
theorem midr_implementor_sign :
    int_and MIDR_REVISION_MASK MIDR_PARTNUM_MASK = 0 ∧
    int_and MIDR_REVISION_MASK MIDR_ARCHITECTURE_MASK = 0 ∧
    int_and MIDR_REVISION_MASK MIDR_VARIANT_MASK = 0 ∧
    int_and MIDR_REVISION_MASK MIDR_IMPLEMENTOR_MASK = 0 ∧
    int_and MIDR_PARTNUM_MASK MIDR_ARCHITECTURE_MASK = 0 ∧
    int_and MIDR_PARTNUM_MASK MIDR_VARIANT_MASK = 0 ∧
    int_and MIDR_PARTNUM_MASK MIDR_IMPLEMENTOR_MASK = 0 ∧
    int_and MIDR_ARCHITECTURE_MASK MIDR_VARIANT_MASK = 0 ∧
    int_and MIDR_ARCHITECTURE_MASK MIDR_IMPLEMENTOR_MASK = 0 ∧
    int_and MIDR_VARIANT_MASK MIDR_IMPLEMENTOR_MASK = 0 ∧
    bits32 (int_or (int_or (int_or (int_or MIDR_REVISION_MASK MIDR_PARTNUM_MASK)
      MIDR_ARCHITECTURE_MASK) MIDR_VARIANT_MASK) MIDR_IMPLEMENTOR_MASK) = 2 ^ 32 - 1 ∧
    MIDR_IMPLEMENTOR_MASK = -16777216 ∧
    (∀ imp partnum : Nat, imp < 2 ^ 8 → partnum < 2 ^ 12 →
      bits32 (MIDR_CPU_PART imp partnum) = 16777216 * imp + (983040 + 16 * partnum) ∧
      MIDR_PARTNUM (MIDR_CPU_PART imp partnum) = partnum ∧
      MIDR_ARCHITECTURE (MIDR_CPU_PART imp partnum) = 0xf ∧
      MIDR_VARIANT (MIDR_CPU_PART imp partnum) = 0 ∧
      MIDR_REVISION (MIDR_CPU_PART imp partnum) = 0) ∧
    (∀ imp partnum : Nat, imp < 2 ^ 7 → partnum < 2 ^ 12 →
      MIDR_IMPLEMENTOR (MIDR_CPU_PART imp partnum) = imp) ∧
    (∀ imp partnum : Nat, 2 ^ 7 ≤ imp → imp < 2 ^ 8 → partnum < 2 ^ 12 →
      MIDR_CPU_PART imp partnum < 0 ∧
      MIDR_IMPLEMENTOR (MIDR_CPU_PART imp partnum) = (imp : Int) - 256 ∧
      MIDR_IMPLEMENTOR (MIDR_CPU_PART imp partnum) ≠ imp) ∧
    MIDR_IMPLEMENTOR (MIDR_CPU_PART 0x80 0) = -128 ∧
    MIDR_CORTEX_A55 = 0x410FD050 := by
  have m1 : MIDR_REVISION_MASK = int_shl ((2 ^ 4 - 1 : Nat) : Int) 0 := by decide
  have m2 : MIDR_PARTNUM_MASK = int_shl ((2 ^ 12 - 1 : Nat) : Int) 4 := by decide
  have m3 : MIDR_ARCHITECTURE_MASK = int_shl ((2 ^ 4 - 1 : Nat) : Int) 16 := by decide
  have m4 : MIDR_VARIANT_MASK = int_shl ((2 ^ 4 - 1 : Nat) : Int) 20 := by decide
  have top : ∀ imp partnum : Nat, imp < 2 ^ 8 → partnum < 2 ^ 12 →
      bits32 (MIDR_CPU_PART imp partnum) / 2 ^ 24 = imp := by
    intro imp partnum h1 h2
    rw [cpu_part_bits imp partnum h1 h2]
    omega
  refine ⟨by decide, by decide, by decide, by decide, by decide, by decide, by decide,
    by decide, by decide, by decide, by decide, by decide, ?_, ?_, ?_, by decide, by decide⟩
  · intro imp partnum h1 h2
    have hb := cpu_part_bits imp partnum h1 h2
    refine ⟨hb, ?_, ?_, ?_, ?_⟩
    · unfold MIDR_PARTNUM
      rw [m2]
      have := int_field_low (MIDR_CPU_PART imp partnum) 12 4 (by norm_num)
      have s : MIDR_PARTNUM_SHIFT = 4 := rfl
      rw [s, this, hb]
      have e : (16777216 * imp + (983040 + 16 * partnum)) / 2 ^ 4 % 2 ^ 12 = partnum := by omega
      rw [e]
    · unfold MIDR_ARCHITECTURE
      rw [m3]
      have := int_field_low (MIDR_CPU_PART imp partnum) 4 16 (by norm_num)
      have s : MIDR_ARCHITECTURE_SHIFT = 16 := rfl
      rw [s, this, hb]
      have e : (16777216 * imp + (983040 + 16 * partnum)) / 2 ^ 16 % 2 ^ 4 = 15 := by omega
      rw [e]
      rfl
    · unfold MIDR_VARIANT
      rw [m4]
      have := int_field_low (MIDR_CPU_PART imp partnum) 4 20 (by norm_num)
      have s : MIDR_VARIANT_SHIFT = 20 := rfl
      rw [s, this, hb]
      have e : (16777216 * imp + (983040 + 16 * partnum)) / 2 ^ 20 % 2 ^ 4 = 0 := by omega
      rw [e]
      rfl
    · have h0 := int_field_low (MIDR_CPU_PART imp partnum) 4 0 (by norm_num)
      rw [← m1] at h0
      have e0 : ∀ y : Int, int_shr y 0 = y := fun y => by
        unfold int_shr
        rw [Int.shiftRight_eq_div_pow]
        simp
      rw [e0] at h0
      unfold MIDR_REVISION
      rw [h0, hb]
      have e : (16777216 * imp + (983040 + 16 * partnum)) / 2 ^ 0 % 2 ^ 4 = 0 := by omega
      rw [e]
      rfl
  · intro imp partnum h1 h2
    rw [int_field_top, top imp partnum (by omega) h2]
    have : imp < 128 := h1
    simp [this]
  · intro imp partnum h0 h1 h2
    have hlo : 128 ≤ imp := h0
    have h3 : 2147483648 ≤ 16777216 * imp + (983040 + 16 * partnum) := by omega
    have hne : (imp : Int) - 256 ≠ imp := by omega
    have hn : ¬ imp < 128 := by omega
    clear h0 hlo
    rw [← cpu_part_bits imp partnum h1 h2] at h3
    have hi : MIDR_IMPLEMENTOR (MIDR_CPU_PART imp partnum) = (imp : Int) - 256 := by
      rw [int_field_top, top imp partnum h1 h2]
      simp [hn]
    refine ⟨?_, hi, ?_⟩
    · have hr := int32_range (MIDR_CPU_PART imp partnum)
      have hid : int32 (MIDR_CPU_PART imp partnum) = MIDR_CPU_PART imp partnum := int32_idem _
      rw [hid] at hr
      exact neg_of_bits _ hr.1 hr.2 h3
    · rw [hi]
      exact hne

/-- The first half of `alloc_init_pmd` links the frame that `alloc_pmd_frame`
hands back into the pud entry. -/
theorem prepare_links_frame (cfg : Config) (s : State) (pud : Nat) (a : PgAlloc)
    (h : (pud_none (s.mem pud) || pud_sect (s.mem pud)) = true) :
    (∀ p s2, alloc_pmd_frame cfg a s = Res.ok (p, s2) →
      ∃ s1, alloc_init_pmd_prepare cfg s pud (some a) = Res.ok s1 ∧
        s1.mem pud = p ||| PUD_TYPE_TABLE ∧ s1.count = s2.count) ∧
    (alloc_pmd_frame cfg a s = Res.bug → alloc_init_pmd_prepare cfg s pud (some a) = Res.bug) := by
  constructor
  · intro p s2 he
    unfold alloc_init_pmd_prepare
    simp only [h, if_true, he]
    refine ⟨_, rfl, ?_, ?_⟩
    · show (set_entry _ pud (p ||| PUD_TYPE_TABLE)).mem pud = _
      rw [set_entry_mem, if_pos rfl]
    · have e : ∀ x : State,
          (flush_tlb_all (set_pud x pud (p ||| PUD_TYPE_TABLE))).count = x.count := fun _ => rfl
      rw [e]
      by_cases hs : pud_sect (s2.mem pud) = true
      · rw [if_pos hs]
        exact (split_pud_spec s2 pud p).2.2.2
      · rw [if_neg hs]
  · intro he
    unfold alloc_init_pmd_prepare
    simp only [h, if_true, he]

/-- C23: when `*pud` is empty or a block, `alloc_init_pmd` gets the frame of
the new pmd table as follows. With the trust extension active (`rkp_do`) the
secure allocator is called first; if its frame is non-zero that frame is
linked into the pud entry and `pgtable_alloc` is not called; if it is zero,
`pgtable_alloc` is called next and the frame it returns is linked. With the
extension inactive `pgtable_alloc` alone is called and its frame is linked. A
fatal assertion in `pgtable_alloc` ends the function. The rest of
`alloc_init_pmd` runs on the state so prepared. -/
theorem pmd_frame_precedence (cfg : Config) (s : State) (pud : Nat) (a : PgAlloc)
    (h : (pud_none (s.mem pud) || pud_sect (s.mem pud)) = true) :
    (rkp_do cfg = true →
      cfg.frames PgAlloc.rkp_ro_alloc_phys (s.count PgAlloc.rkp_ro_alloc_phys) ≠ 0 →
      ∃ s1, alloc_init_pmd_prepare cfg s pud (some a) = Res.ok s1 ∧
        s1.mem pud = cfg.frames PgAlloc.rkp_ro_alloc_phys (s.count PgAlloc.rkp_ro_alloc_phys)
          ||| PUD_TYPE_TABLE ∧
        s1.count PgAlloc.rkp_ro_alloc_phys = s.count PgAlloc.rkp_ro_alloc_phys + 1 ∧
        ∀ b, b ≠ PgAlloc.rkp_ro_alloc_phys → s1.count b = s.count b) ∧
    (rkp_do cfg = true →
      cfg.frames PgAlloc.rkp_ro_alloc_phys (s.count PgAlloc.rkp_ro_alloc_phys) = 0 →
      (∀ p s2, call_alloc cfg a (take_frame cfg PgAlloc.rkp_ro_alloc_phys s).2 = Res.ok (p, s2) →
        ∃ s1, alloc_init_pmd_prepare cfg s pud (some a) = Res.ok s1 ∧
          s1.mem pud = p ||| PUD_TYPE_TABLE ∧ s1.count = s2.count) ∧
      (call_alloc cfg a (take_frame cfg PgAlloc.rkp_ro_alloc_phys s).2 = Res.bug →
        alloc_init_pmd_prepare cfg s pud (some a) = Res.bug)) ∧
    (rkp_do cfg = false →
      (∀ p s2, call_alloc cfg a s = Res.ok (p, s2) →
        ∃ s1, alloc_init_pmd_prepare cfg s pud (some a) = Res.ok s1 ∧
          s1.mem pud = p ||| PUD_TYPE_TABLE ∧ s1.count = s2.count) ∧
      (call_alloc cfg a s = Res.bug →
        alloc_init_pmd_prepare cfg s pud (some a) = Res.bug)) ∧
    (∀ F addr e phys prot, alloc_init_pmd cfg F s pud addr e phys prot (some a)
      = (alloc_init_pmd_prepare cfg s pud (some a)).bind fun s1 =>
          if pud_bad (s1.mem pud) then Res.bug
          else alloc_init_pmd_loop cfg F prot e (some a) F s1
            (pud_page_paddr (s1.mem pud) + pmd_index addr * 8) addr phys) := by
  obtain ⟨hok, hbug⟩ := prepare_links_frame cfg s pud a h
  refine ⟨?_, ?_, ?_, ?_⟩
  · intro hr hf
    have hne : (cfg.frames PgAlloc.rkp_ro_alloc_phys (s.count PgAlloc.rkp_ro_alloc_phys) == 0)
        = false := by simpa using hf
    have he : alloc_pmd_frame cfg a s
        = Res.ok (take_frame cfg PgAlloc.rkp_ro_alloc_phys s) := by
      unfold alloc_pmd_frame rkp_ro_alloc_phys
      simp only [hr, if_true]
      have : (take_frame cfg PgAlloc.rkp_ro_alloc_phys s).1
          = cfg.frames PgAlloc.rkp_ro_alloc_phys (s.count PgAlloc.rkp_ro_alloc_phys) := rfl
      simp only [this, hne, Bool.false_eq_true, if_false]
      rfl
    obtain ⟨s1, e1, e2, e3⟩ := hok _ _ he
    refine ⟨s1, e1, e2, ?_, ?_⟩
    · rw [e3]; simp [take_frame]
    · intro b hb; rw [e3]; simp [take_frame, hb]
  · intro hr hf
    have hz : (cfg.frames PgAlloc.rkp_ro_alloc_phys (s.count PgAlloc.rkp_ro_alloc_phys) == 0)
        = true := by simp [hf]
    have he : alloc_pmd_frame cfg a s
        = call_alloc cfg a (take_frame cfg PgAlloc.rkp_ro_alloc_phys s).2 := by
      unfold alloc_pmd_frame rkp_ro_alloc_phys
      simp only [hr, if_true]
      have : (take_frame cfg PgAlloc.rkp_ro_alloc_phys s).1
          = cfg.frames PgAlloc.rkp_ro_alloc_phys (s.count PgAlloc.rkp_ro_alloc_phys) := rfl
      simp only [this, hz, if_true]
    rw [← he]
    exact ⟨hok, hbug⟩
  · intro hr
    have he : alloc_pmd_frame cfg a s = call_alloc cfg a s := by
      unfold alloc_pmd_frame
      simp only [hr, Bool.false_eq_true, if_false]
    rw [← he]
    exact ⟨hok, hbug⟩
  · intro F addr e phys prot
    unfold alloc_init_pmd Res.bind
    cases alloc_init_pmd_prepare cfg s pud (some a) <;> rfl

/-- The sample machine with the trust extension active, at an empty pud
entry. With a secure allocator that has frames, its frame `0x100002000` is the
one linked and `early_pgtable_alloc` is not called; with a secure allocator
that returns 0, `early_pgtable_alloc` is called after it and its frame
`0x100000000` is the one linked. -/
theorem pmd_frame_precedence_witness :
    ((pud_none (s0.mem 2147487744) || pud_sect (s0.mem 2147487744)) = true ∧
      rkp_do cfg_rkp = true ∧ rkp_do cfg_rkp_empty = true ∧
      cfg_rkp.frames PgAlloc.rkp_ro_alloc_phys (s0.count PgAlloc.rkp_ro_alloc_phys)
        = 0x100002000 ∧
      cfg_rkp_empty.frames PgAlloc.rkp_ro_alloc_phys (s0.count PgAlloc.rkp_ro_alloc_phys) = 0 ∧
      cfg_rkp_empty.frames PgAlloc.early_pgtable_alloc (s0.count PgAlloc.early_pgtable_alloc)
        = 0x100000000) ∧
    (∃ s1, alloc_init_pmd_prepare cfg_rkp s0 2147487744 (some PgAlloc.early_pgtable_alloc)
        = Res.ok s1 ∧
      s1.mem 2147487744
        = cfg_rkp.frames PgAlloc.rkp_ro_alloc_phys (s0.count PgAlloc.rkp_ro_alloc_phys)
          ||| PUD_TYPE_TABLE ∧
      s1.count PgAlloc.rkp_ro_alloc_phys = s0.count PgAlloc.rkp_ro_alloc_phys + 1 ∧
      ∀ b, b ≠ PgAlloc.rkp_ro_alloc_phys → s1.count b = s0.count b) ∧
    (∃ s1, alloc_init_pmd_prepare cfg_rkp_empty s0 2147487744
        (some PgAlloc.early_pgtable_alloc) = Res.ok s1 ∧
      s1.mem 2147487744 = 0x100000000 ||| PUD_TYPE_TABLE ∧
      s1.count PgAlloc.rkp_ro_alloc_phys = 1 ∧ s1.count PgAlloc.early_pgtable_alloc = 1) :=
  by
  have h1 := pmd_frame_precedence cfg_rkp s0 2147487744 PgAlloc.early_pgtable_alloc (by decide)
  have h2 := pmd_frame_precedence cfg_rkp_empty s0 2147487744 PgAlloc.early_pgtable_alloc
    (by decide)
  obtain ⟨s1, e1, e2, e3⟩ := (h2.2.1 (by decide) (by decide)).1 0x100000000
    { (take_frame cfg_rkp_empty PgAlloc.early_pgtable_alloc
        (take_frame cfg_rkp_empty PgAlloc.rkp_ro_alloc_phys s0).2).2 with
      mem := zero_page (take_frame cfg_rkp_empty PgAlloc.early_pgtable_alloc
        (take_frame cfg_rkp_empty PgAlloc.rkp_ro_alloc_phys s0).2).2.mem 0x100000000 }
    rfl
  refine ⟨⟨by decide, by decide, by decide, by decide, by decide, by decide⟩,
    h1.1 (by decide) (by decide), s1, e1, e2, ?_, ?_⟩
  · rw [e3]; rfl
  · rw [e3]; rfl

set_option maxRecDepth 100000 in
theorem zero_size_check_true : zero_size_check zero_size_run = true := by
  decide

/-- C21 fails on the sample machine: the request of size 0 for physical
`0x40000000` at `0xffff000040000000` (both page aligned) returns after
allocating a frame and storing into the directory, and the whole GiB above
`virt`, unmapped before, is mapped afterwards. -/
theorem zero_size_maps_block :
    ∃ s1, init_pgd cfg0 512 s0 (pgd_offset_raw cfg0.init_mm_pgd 0xffff000040000000) 0x40000000
        0xffff000040000000 0 PAGE_KERNEL (some PgAlloc.early_pgtable_alloc) = Res.ok s1 ∧
      s0.count PgAlloc.early_pgtable_alloc = 0 ∧
      s1.count PgAlloc.early_pgtable_alloc = 1 ∧
      s0.mem (pgd_offset_raw cfg0.init_mm_pgd 0xffff000040000000) = 0 ∧
      s1.mem (pgd_offset_raw cfg0.init_mm_pgd 0xffff000040000000) ≠ 0 ∧
      resolve s0.mem cfg0.init_mm_pgd 0xffff000040001000 = none ∧
      resolve s1.mem cfg0.init_mm_pgd 0xffff000040001000
        = some (0x40001000, entry_prot PAGE_KERNEL) ∧
      resolve s1.mem cfg0.init_mm_pgd 0xffff00007ffff000
        = some (0x7ffff000, entry_prot PAGE_KERNEL) := by
  have h := zero_size_check_true
  unfold zero_size_run at h
  revert h
  generalize init_pgd cfg0 512 s0 (pgd_offset_raw cfg0.init_mm_pgd 0xffff000040000000)
    0x40000000 0xffff000040000000 0 PAGE_KERNEL (some PgAlloc.early_pgtable_alloc) = r
  intro h
  cases r with
  | ok s1 =>
    simp only [zero_size_check, Bool.and_eq_true, beq_iff_eq, bne_iff_ne] at h
    obtain ⟨⟨⟨⟨⟨h1, h2⟩, h3⟩, h4⟩, h5⟩, h6⟩ := h
    exact ⟨s1, rfl, rfl, h1, h2, h3, h4, h5, h6⟩
  | bug => simp [zero_size_check] at h
  | timeout => simp [zero_size_check] at h

/-- C21, amended: the loops of `init_pgd` and of the levels below run their
body before they test for the end, so a request of size 0 with page-aligned
`virt` and `phys` is not a no-operation: whenever the call returns, it has
stored at least one table entry. -/
theorem zero_size_stores (cfg : Config) (F : Nat) (s s1 : State) (pgd phys virt prot : Nat)
    (al : Option PgAlloc) (hp : phys % 4096 = 0) (hv : virt % 4096 = 0)
    (h : init_pgd cfg F s pgd phys virt 0 prot al = Res.ok s1) :
    ∃ evs p v, s1.trace = evs ++ s.trace ∧ Event.write p v ∈ evs := by
  have hx : (phys ^^^ virt) &&& not64 PAGE_MASK = 0 :=
    (page_offset_eq phys virt).mpr (by omega)
  obtain ⟨evs, t, _, e, he, hw⟩ := (init_pgd_grow cfg F s s1 pgd phys virt 0 prot al h).2 hx
  cases e with
  | write p v => exact ⟨evs, p, v, t, he⟩
  | flush_tlb_all => cases hw
  | alloc a f => cases hw
  | free f => cases hw
  | warn => cases hw
  | flush_tlb_kernel_range a b => cases hw
  | vm_area_add_early a b c d => cases hw

set_option maxRecDepth 100000 in
/-- The zero-size request of the sample machine returns, so the hypotheses
hold there. -/
theorem zero_size_stores_witness :
    (0x40000000 % 4096 = 0 ∧ 0xffff000040000000 % 4096 = 0 ∧
      init_pgd cfg0 512 s0 (pgd_offset_raw cfg0.init_mm_pgd 0xffff000040000000) 0x40000000
        0xffff000040000000 0 PAGE_KERNEL (some PgAlloc.early_pgtable_alloc)
        = Res.ok (zero_size_run.val s0)) ∧
    ∃ evs p v, (zero_size_run.val s0).trace = evs ++ s0.trace ∧ Event.write p v ∈ evs :=
  have h : init_pgd cfg0 512 s0 (pgd_offset_raw cfg0.init_mm_pgd 0xffff000040000000) 0x40000000
        0xffff000040000000 0 PAGE_KERNEL (some PgAlloc.early_pgtable_alloc)
        = Res.ok (zero_size_run.val s0) := Res.ok_val zero_size_run s0 (by decide)
  ⟨⟨by decide, by decide, h⟩,
    zero_size_stores cfg0 512 s0 (zero_size_run.val s0)
      (pgd_offset_raw cfg0.init_mm_pgd 0xffff000040000000) 0x40000000 0xffff000040000000
      PAGE_KERNEL (some PgAlloc.early_pgtable_alloc) (by decide) (by decide) h⟩

/-- C25: on a well-formed directory (whose 1 GiB block entries are
well-formed descriptors) and with fresh frames, a call of `init_pgd` for a
request with matching page offsets returns, and for every address `va` of the
window outside the page-rounded range of the request: if `va` resolved to a
physical address before the call it resolves to the same physical address
after it, also when a block that holds it was split, and if it did not
resolve before it does not resolve after. -/
theorem init_pgd_outside (cfg : Config) (lim : PgAlloc → Nat) (s : State) (own : Own)
    (WB pgdir phys virt size prot : Nat) (al : PgAlloc) (F : Nat)
    (hx : phys % 4096 = virt % 4096) (hsize : 0 < size)
    (hwb1 : WB % 281474976710656 = 0) (hwb2 : WB + 281474976710656 ≤ 18446744073709551616)
    (hwb3 : WB ≤ virt) (hwb4 : virt + size ≤ WB + 281474976710656)
    (hphys : phys + size ≤ 281474976710656)
    (hp1 : prot &&& PTE_ADDR_MASK = 0) (hp2 : prot &&& 3 = 3)
    (hw : WF s.mem own) (hroot : own pgdir = some (0, WB)) (hfr : Fresh cfg lim s own)
    (hbud : ∀ a, s.count a + 134480384 ≤ lim a) (hF : 512 ≤ F)
    (hblk : Blocks1 s.mem own) :
    ∃ s1, init_pgd cfg F s (pgd_offset_raw pgdir virt) phys virt size prot (some al)
        = Res.ok s1 ∧
      ∀ va, WB ≤ va → va < WB + 281474976710656 →
        (va < virt / 4096 * 4096 ∨
          virt / 4096 * 4096 + (size + virt % 4096 + 4095) / 4096 * 4096 ≤ va) →
        (∀ pa attrs, resolve s.mem pgdir va = some (pa, attrs) →
          ∃ attrs1, resolve s1.mem pgdir va = some (pa, attrs1)) ∧
        (resolve s.mem pgdir va = none → resolve s1.mem pgdir va = none) := by
  obtain ⟨s1, own1, e1, r1, _⟩ := @init_pgd_spec cfg lim s own WB pgdir phys virt size prot al F
    ((page_offset_eq phys virt).mpr hx) hsize hwb1 hwb2 hwb3 hwb4 hphys hp1 hp2 hw hroot hfr
    hbud hF
  obtain ⟨_, o1⟩ := r1.out hblk
  refine ⟨s1, e1, ?_⟩
  intro va v1 v2 v3
  have hA : (mkReq phys virt size prot (some al)).A0 = virt / 4096 * 4096 := rfl
  have hE : (mkReq phys virt size prot (some al)).E
      = virt / 4096 * 4096 + (size + virt % 4096 + 4095) / 4096 * 4096 := rfl
  have h := o1 pgdir 0 WB va hroot v1 v2 (by rw [hA, hE]; exact v3)
  have h2 : (resolve s1.mem pgdir va).map Prod.fst = (resolve s.mem pgdir va).map Prod.fst := h
  constructor
  · intro pa attrs hr
    rw [hr] at h2
    cases hr1 : resolve s1.mem pgdir va with
    | none => rw [hr1] at h2; cases h2
    | some x =>
      rw [hr1] at h2
      simp only [Option.map_some', Option.some.injEq] at h2
      exact ⟨x.2, by rw [← h2]⟩
  · intro hr
    rw [hr] at h2
    cases hr1 : resolve s1.mem pgdir va with
    | none => rfl
    | some x => rw [hr1] at h2; cases h2

set_option maxRecDepth 100000 in
/-- The sample machine after the first step of the scenario, where the 2 MiB
range is mapped by one section entry, with the request of the second step,
which maps the first page of that section again and so has the section split:
the second page of the section, outside the request, resolved to `0x40001000`
before the call and resolves to `0x40001000` after it. -/
theorem init_pgd_outside_witness :
    (0x40000000 % 4096 = 0xffff000040000000 % 4096 ∧
      (scenario_map.val s0).mem (pmd_slot (scenario_map.val s0).mem cfg0.init_mm_pgd
        0xffff000040000000) = (0x40000000 ||| PMD_TYPE_SECT ||| mk_sect_prot PAGE_KERNEL) ∧
      resolve (scenario_map.val s0).mem cfg0.init_mm_pgd 0xffff000040001000
        = some (0x40001000, entry_prot PAGE_KERNEL) ∧
      ∃ own, WF (scenario_map.val s0).mem own ∧
        own cfg0.init_mm_pgd = some (0, 0xffff000000000000) ∧
        Fresh cfg0 lim1 (scenario_map.val s0) own ∧
        (∀ a, (scenario_map.val s0).count a + 134480384 ≤ lim1 a) ∧
        Blocks1 (scenario_map.val s0).mem own) ∧
    ∃ s1, init_pgd cfg0 512 (scenario_map.val s0)
        (pgd_offset_raw cfg0.init_mm_pgd 0xffff000040000000) 0x40000000
        0xffff000040000000 0x1000 PAGE_KERNEL_RO (some PgAlloc.early_pgtable_alloc)
        = Res.ok s1 ∧
      (∃ attrs1, resolve s1.mem cfg0.init_mm_pgd 0xffff000040001000
        = some (0x40001000, attrs1)) ∧
      ∀ va, 0xffff000000000000 ≤ va → va < 0xffff000000000000 + 281474976710656 →
        (va < 0xffff000040000000 / 4096 * 4096 ∨
          0xffff000040000000 / 4096 * 4096
            + (0x1000 + 0xffff000040000000 % 4096 + 4095) / 4096 * 4096 ≤ va) →
        (∀ pa attrs, resolve (scenario_map.val s0).mem cfg0.init_mm_pgd va = some (pa, attrs) →
          ∃ attrs1, resolve s1.mem cfg0.init_mm_pgd va = some (pa, attrs1)) ∧
        (resolve (scenario_map.val s0).mem cfg0.init_mm_pgd va = none →
          resolve s1.mem cfg0.init_mm_pgd va = none) := by
  have hw : WF s0.mem (own0 cfg0.init_mm_pgd 0xffff000000000000) :=
    WF_own0 _ _ _ (by decide) (by decide) (by decide) (fun _ _ => rfl)
  have hown : ∀ T, 4294967296 ≤ T → own0 cfg0.init_mm_pgd 0xffff000000000000 T = none := by
    intro T hT
    unfold own0
    have : T ≠ cfg0.init_mm_pgd := by
      have : cfg0.init_mm_pgd = 2147483648 := rfl
      omega
    simp [this]
  have hf : Fresh cfg0 lim1 s0 (own0 cfg0.init_mm_pgd 0xffff000000000000) :=
    Fresh_cfg0_lim1 _ _ hown (fun _ _ => rfl)
  have hb : Blocks1 s0.mem (own0 cfg0.init_mm_pgd 0xffff000000000000) := by
    intro T b j hT
    unfold own0 at hT
    split at hT <;> cases hT
  obtain ⟨sA, ownA, eA, rA, _⟩ := @init_pgd_spec cfg0 lim1 s0
    (own0 cfg0.init_mm_pgd 0xffff000000000000) 0xffff000000000000 cfg0.init_mm_pgd 0x40000000
    0xffff000040000000 0x200000 PAGE_KERNEL PgAlloc.early_pgtable_alloc 512
    (by decide) (by decide) (by decide) (by decide) (by decide) (by decide) (by decide)
    (by decide) (by decide) hw (by simp [own0]) hf
    (fun a => by show 0 + 134480384 ≤ 1075843072; omega) (by omega)
  have hs : scenario_map.val s0 = sA := by
    unfold scenario_map
    rw [eA]
    rfl
  have hchk := scenario_remap_check_true
  rw [hs] at hchk ⊢
  have hroot : ownA cfg0.init_mm_pgd = some (0, 0xffff000000000000) :=
    rA.le _ _ (by simp [own0])
  have hbud : ∀ a, sA.count a + 134480384 ≤ lim1 a := by
    intro a
    have h1 := rA.used a
    have h2 : s0.count a = 0 := rfl
    have h3 : lim1 a = 1075843072 := rfl
    omega
  have hbA := (rA.out hb).1
  have hbefore : sA.mem (pmd_slot sA.mem cfg0.init_mm_pgd 0xffff000040000000)
        = (0x40000000 ||| PMD_TYPE_SECT ||| mk_sect_prot PAGE_KERNEL) ∧
      resolve sA.mem cfg0.init_mm_pgd 0xffff000040001000
        = some (0x40001000, entry_prot PAGE_KERNEL) := by
    revert hchk
    generalize scenario_remap = r
    intro hchk
    cases r with
    | ok s2 =>
      simp only [scenario_remap_check, Bool.and_eq_true, beq_iff_eq] at hchk
      exact ⟨hchk.1.1.1.1.1, hchk.1.1.1.1.2⟩
    | bug => simp [scenario_remap_check] at hchk
    | timeout => simp [scenario_remap_check] at hchk
  obtain ⟨s1, e1, o1⟩ := init_pgd_outside cfg0 lim1 sA ownA 0xffff000000000000
    cfg0.init_mm_pgd 0x40000000 0xffff000040000000 0x1000 PAGE_KERNEL_RO
    PgAlloc.early_pgtable_alloc 512 (by decide) (by decide) (by decide) (by decide)
    (by decide) (by decide) (by decide) (by decide) (by decide) rA.wf hroot rA.fresh
    hbud (by omega) hbA
  refine ⟨⟨by decide, hbefore.1, hbefore.2, ownA, rA.wf, hroot, rA.fresh, hbud, hbA⟩,
    s1, e1, ?_, o1⟩
  exact (o1 0xffff000040001000 (by decide) (by decide) (Or.inr (by decide))).1 _ _ hbefore.2

/-- C24: the nested loops of `init_pgd`, `alloc_init_pud`, `alloc_init_pmd`
and `alloc_init_pte` terminate. For a request whose page-rounded length is not
zero and whose end `(virt & PAGE_MASK) + length` is at most `2 ^ 64` (the code
holds the end modulo `2 ^ 64`, so it may be 0):

* with fuel of at least `2 ^ 25` passes per loop `init_pgd` never runs out of
  fuel, whatever the tables hold and whichever allocator is passed: it returns
  or stops in a `BUG`;
* at each of the three upper levels the step from `addr` below the end `E`
  goes to `min (next boundary) E`, which lies strictly above `addr`;
* the loop of `alloc_init_pte` from `addr` to `E` returns after exactly
  `(E - addr) / 4096` passes, each of which stores one entry and advances by one
  page;
* on a well-formed directory with fresh frames the call returns, each of the
  `length / PAGE_SIZE` pages from `virt & PAGE_MASK` on resolves to its page of
  the physical range with the requested attributes, and every address of the
  window outside these pages resolves to the same physical address as
  before. -/
theorem init_pgd_loops_terminate (cfg : Config) (F : Nat) (s : State)
    (pgd phys virt size prot : Nat) (al : Option PgAlloc)
    (hF : 33554432 ≤ F)
    (hlen : 0 < PAGE_ALIGN ((size + (virt &&& not64 PAGE_MASK)) % U64))
    (hend : (virt &&& PAGE_MASK) + PAGE_ALIGN ((size + (virt &&& not64 PAGE_MASK)) % U64)
      ≤ 18446744073709551616) :
    init_pgd cfg F s pgd phys virt size prot al ≠ Res.timeout ∧
    (∀ addr E, addr < E → E ≤ 18446744073709551616 →
      pgd_addr_end addr (E % U64) = min ((addr / PGDIR_SIZE + 1) * PGDIR_SIZE) E % U64 ∧
      pud_addr_end addr (E % U64) = min ((addr / PUD_SIZE + 1) * PUD_SIZE) E % U64 ∧
      pmd_addr_end addr (E % U64) = min ((addr / PMD_SIZE + 1) * PMD_SIZE) E % U64 ∧
      addr < min ((addr / PGDIR_SIZE + 1) * PGDIR_SIZE) E ∧
      addr < min ((addr / PUD_SIZE + 1) * PUD_SIZE) E ∧
      addr < min ((addr / PMD_SIZE + 1) * PMD_SIZE) E) ∧
    (∀ E fuel t pte addr pfn, E ≤ 18446744073709551616 → E % PAGE_SIZE = 0 →
      addr % PAGE_SIZE = 0 → addr < E → (E - addr) / PAGE_SIZE ≤ fuel →
      ∃ s1, alloc_init_pte_loop cfg prot (E % U64) fuel t pte addr pfn = Res.ok s1 ∧
        s1.trace.length = t.trace.length + (E - addr) / PAGE_SIZE) ∧
    (∀ (lim : PgAlloc → Nat) (own : Own) (WB pgdir : Nat) (a : PgAlloc),
      phys % 4096 = virt % 4096 → 0 < size →
      WB % 281474976710656 = 0 → WB + 281474976710656 ≤ 18446744073709551616 →
      WB ≤ virt → virt + size ≤ WB + 281474976710656 →
      phys + size ≤ 281474976710656 →
      prot &&& PTE_ADDR_MASK = 0 → prot &&& 3 = 3 →
      WF s.mem own → own pgdir = some (0, WB) → Fresh cfg lim s own →
      (∀ b, s.count b + 134480384 ≤ lim b) → Blocks1 s.mem own →
      ∃ s1, init_pgd cfg F s (pgd_offset_raw pgdir virt) phys virt size prot (some a)
          = Res.ok s1 ∧
        (∀ i, i < PAGE_ALIGN ((size + (virt &&& not64 PAGE_MASK)) % U64) / PAGE_SIZE →
          resolve s1.mem pgdir ((virt &&& PAGE_MASK) + i * PAGE_SIZE)
            = some ((phys &&& PAGE_MASK) + i * PAGE_SIZE, entry_prot prot)) ∧
        (∀ va, WB ≤ va → va < WB + 281474976710656 →
          (va < (virt &&& PAGE_MASK) ∨
            (virt &&& PAGE_MASK) + PAGE_ALIGN ((size + (virt &&& not64 PAGE_MASK)) % U64)
              ≤ va) →
          (resolve s1.mem pgdir va).map Prod.fst = (resolve s.mem pgdir va).map Prod.fst)) := by
  have hps : PAGE_SIZE = 4096 := by decide
  have hs1 : PMD_SIZE = 2097152 := by decide
  have hs2 : PUD_SIZE = 1073741824 := by decide
  have hs3 : PGDIR_SIZE = 549755813888 := by decide
  refine ⟨init_pgd_ne_timeout cfg F hF s pgd phys virt size prot al hlen hend, ?_, ?_, ?_⟩
  · intro addr E h1 h2
    rw [hs1, hs2, hs3]
    refine ⟨pgd_addr_end_eq addr E h1 h2, pud_addr_end_eq addr E h1 h2,
      pmd_addr_end_eq addr E h1 h2, ?_, ?_, ?_⟩ <;> omega
  · intro E fuel t pte addr pfn h1 h2 h3 h4 h5
    rw [hps] at h2 h3 h5 ⊢
    exact alloc_init_pte_loop_total cfg prot E h1 h2 fuel t pte addr pfn h3 h4 h5
  · intro lim own WB pgdir a hx hsize hwb1 hwb2 hwb3 hwb4 hphys hp1 hp2 hw hroot hfr hbud hblk
    obtain ⟨s1, own1, e1, r1, m1⟩ := @init_pgd_spec cfg lim s own WB pgdir phys virt size prot a F
      ((page_offset_eq phys virt).mpr hx) hsize hwb1 hwb2 hwb3 hwb4 hphys hp1 hp2 hw hroot hfr
      hbud (by omega)
    have hv := mkReq_valid WB phys virt size prot (some a) hx hsize hwb1 hwb2 hwb3 hwb4 hphys
      hp1 hp2
    have e2 : virt &&& PAGE_MASK = virt / 4096 * 4096 := by rw [and_PAGE_MASK]; omega
    have e3 : phys &&& PAGE_MASK = phys / 4096 * 4096 := by rw [and_PAGE_MASK]; omega
    have e4 : PAGE_ALIGN ((size + (virt &&& not64 PAGE_MASK)) % U64)
        = (size + virt % 4096 + 4095) / 4096 * 4096 := by
      unfold PAGE_ALIGN
      rw [and_not_PAGE_MASK, and_PAGE_MASK, hps, U64_eq]
      omega
    rw [e2, e3, e4, hps]
    refine ⟨s1, e1, ?_, ?_⟩
    · intro i hi
      have h := resolve_of_mapped cfg WB pgdir phys virt size prot (some a) s1.mem hx hv m1
        (virt / 4096 * 4096 + i * 4096) (by omega) (by omega)
      rw [h]
      congr 2
      omega
    · intro va v1 v2 v3
      obtain ⟨_, o1⟩ := r1.out hblk
      exact o1 pgdir 0 WB va hroot v1 v2 v3

/-- The last page of the address space on the sample machine: the end of the
request is `2 ^ 64`, held as 0 by the code. -/
theorem init_pgd_loops_terminate_witness :
    (0 < PAGE_ALIGN ((0x1000 + (0xfffffffffffff000 &&& not64 PAGE_MASK)) % U64) ∧
      (0xfffffffffffff000 &&& PAGE_MASK)
          + PAGE_ALIGN ((0x1000 + (0xfffffffffffff000 &&& not64 PAGE_MASK)) % U64)
        = 18446744073709551616) ∧
    (init_pgd cfg0 33554432 s0 (pgd_offset_raw cfg0.init_mm_pgd 0xfffffffffffff000) 0x40000000
        0xfffffffffffff000 0x1000 PAGE_KERNEL (some PgAlloc.early_pgtable_alloc) ≠ Res.timeout ∧
      (∀ addr E, addr < E → E ≤ 18446744073709551616 →
        pgd_addr_end addr (E % U64) = min ((addr / PGDIR_SIZE + 1) * PGDIR_SIZE) E % U64 ∧
        pud_addr_end addr (E % U64) = min ((addr / PUD_SIZE + 1) * PUD_SIZE) E % U64 ∧
        pmd_addr_end addr (E % U64) = min ((addr / PMD_SIZE + 1) * PMD_SIZE) E % U64 ∧
        addr < min ((addr / PGDIR_SIZE + 1) * PGDIR_SIZE) E ∧
        addr < min ((addr / PUD_SIZE + 1) * PUD_SIZE) E ∧
        addr < min ((addr / PMD_SIZE + 1) * PMD_SIZE) E) ∧
      (∀ E fuel t pte addr pfn, E ≤ 18446744073709551616 → E % PAGE_SIZE = 0 →
        addr % PAGE_SIZE = 0 → addr < E → (E - addr) / PAGE_SIZE ≤ fuel →
        ∃ s1, alloc_init_pte_loop cfg0 PAGE_KERNEL (E % U64) fuel t pte addr pfn = Res.ok s1 ∧
          s1.trace.length = t.trace.length + (E - addr) / PAGE_SIZE) ∧
      (∀ (lim : PgAlloc → Nat) (own : Own) (WB pgdir : Nat) (a : PgAlloc),
        0x40000000 % 4096 = 0xfffffffffffff000 % 4096 → 0 < 0x1000 →
        WB % 281474976710656 = 0 → WB + 281474976710656 ≤ 18446744073709551616 →
        WB ≤ 0xfffffffffffff000 → 0xfffffffffffff000 + 0x1000 ≤ WB + 281474976710656 →
        0x40000000 + 0x1000 ≤ 281474976710656 →
        PAGE_KERNEL &&& PTE_ADDR_MASK = 0 → PAGE_KERNEL &&& 3 = 3 →
        WF s0.mem own → own pgdir = some (0, WB) → Fresh cfg0 lim s0 own →
        (∀ b, s0.count b + 134480384 ≤ lim b) → Blocks1 s0.mem own →
        ∃ s1, init_pgd cfg0 33554432 s0 (pgd_offset_raw pgdir 0xfffffffffffff000) 0x40000000
            0xfffffffffffff000 0x1000 PAGE_KERNEL (some a)
            = Res.ok s1 ∧
          (∀ i, i < PAGE_ALIGN ((0x1000 + (0xfffffffffffff000 &&& not64 PAGE_MASK)) % U64)
              / PAGE_SIZE →
            resolve s1.mem pgdir ((0xfffffffffffff000 &&& PAGE_MASK) + i * PAGE_SIZE)
              = some ((0x40000000 &&& PAGE_MASK) + i * PAGE_SIZE, entry_prot PAGE_KERNEL)) ∧
          (∀ va, WB ≤ va → va < WB + 281474976710656 →
            (va < (0xfffffffffffff000 &&& PAGE_MASK) ∨
              (0xfffffffffffff000 &&& PAGE_MASK) + PAGE_ALIGN ((0x1000 + (0xfffffffffffff000 &&& not64 PAGE_MASK)) % U64)
                ≤ va) →
            (resolve s1.mem pgdir va).map Prod.fst = (resolve s0.mem pgdir va).map Prod.fst))) :=
  ⟨⟨by decide, by decide⟩,
    init_pgd_loops_terminate cfg0 33554432 s0 (pgd_offset_raw cfg0.init_mm_pgd 0xfffffffffffff000)
      0x40000000 0xfffffffffffff000 0x1000 PAGE_KERNEL (some PgAlloc.early_pgtable_alloc)
      (by decide) (by decide) (by decide)⟩

end Arm64Mmu
